import Mathlib

/-!
# Dayton Dynamic BASIC: a shallow embedding of the parser, printer, store and executor

Conventions of the embedding.

* A C `double` is a rational number (`ℚ`): no rounding, no infinities, no NaN. The
  embedding computes what the C code computes where C's arithmetic is exact, as it is on
  the integers of magnitude up to 2^53 (`exact_int`) with their sums and differences in
  that range; statements about numbers that the interpreter computes by addition are
  made for such values.
* A C string (`char *` into the input line) is a `List Char` without NUL; reading the
  terminating NUL is reading the head of the empty list.
* `lego` is the type of `lego *`: the constructor `NULL` is the null pointer, `node` a
  pointer to an allocated lego with its payload, its four `a[]` children and its `next`.
* A pointer into the stored program is a key: the number of the stored line (`link`,
  `x_con.line`) plus, for statements, the path of field selections from that line
  (`Ptr`).  The tree of the immediate command is the root `none`.
* `warning`, `ctrl_c`, `dirty`, `program`, `prog_con`, `start_at`, the variable lists and
  standard output are fields of one explicit `State`.
-/

namespace DDB

/-! ## all.h -/

/-- The `w` enumeration of all.h, in declaration order (the constructor index is the C
value). -/
inductive What
  | wZERO_IS_UNUSED | wNEGATE | wNOT | END_UNARY_GUYS
  | wCAT | wPOWER | wMUL | wDIV | wADD | wSUB | wIDIV | wMOD
  | wGT | wGE | wLT | wLE | wEQ | wNE
  | wAND | wOR | wXOR | wEQV | wIMP | wNAND | wNOR | END_BINARY_GUYS
  | wABS | wASC | wATAN | wCHR | wCOS | wEXP | wFIX | wINSTR | wINT
  | wLEFT | wLEN | wLOG | wMID | wRIGHT | wRND | wSGN | wSIN | wSPACE
  | wSQRT | wSTR | wSTRING | wTAN | wVAL | END_FUNCTION_GUYS
  | wNEW | wEND | wSTOP | wCONT | wRETURN | wCLS | wLIST | wDEL | wGOSUB | wGOTO
  | wRUN | wRESTORE | wONGOTO | wONGOSUB | wREM | wFOR | wNEXT | wREAD | wDATA
  | wPRINT | wINPUT | wIF | wLET | wLINEINPUT | wALTER | wONALTER | END_STATEMENT_GUYS
  | wKLUDGE | wSTRLIT | wSTRVAR | wNUMLIT | wNUMVAR | wLINENUM
  | wNUMBEREDLINE | wERROR
  deriving DecidableEq, Repr

open What

/-- The integer value of an enumerator. -/
def What.ord (w : What) : Nat := w.toCtorIdx

/-- The scalar fields of `struct lego`. `link` is the key of the numbered line pointed
to. `abbr` is the field `abbrev`. -/
structure Fields where
  what : What
  n : ℚ
  s : Option (List Char)
  link : Option ℚ
  force_parens : Bool
  lit_delim : Char
  list_delim : Nat
  abbr : Bool
  deriving DecidableEq, Repr

/-- The type of `lego *`. -/
inductive lego
  | NULL : lego
  | node (f : Fields) (a0 a1 a2 a3 : lego) (next : lego) : lego
  deriving DecidableEq, Repr

open lego

/-- The zeroed payload `newLego` leaves behind, with `what` set. -/
def Fields.zero (w : What) : Fields :=
  { what := w, n := 0, s := none, link := none, force_parens := false,
    lit_delim := Char.ofNat 0, list_delim := 0, abbr := false }

/-- `newLego(what)` of util.c. -/
def newLego (w : What) : lego := node (Fields.zero w) NULL NULL NULL NULL NULL

/-- Is the pointer null? -/
def lego.isNull : lego → Bool
  | NULL => true
  | node _ _ _ _ _ _ => false

/-- The payload of a lego (the zero payload stands for reading through a null pointer,
which the C code never does on purpose). -/
def lego.f : lego → Fields
  | NULL => Fields.zero wZERO_IS_UNUSED
  | node f _ _ _ _ _ => f

def lego.what (l : lego) : What := l.f.what
def lego.n (l : lego) : ℚ := l.f.n
def lego.s (l : lego) : Option (List Char) := l.f.s
def lego.str (l : lego) : List Char := l.f.s.getD []
def lego.link (l : lego) : Option ℚ := l.f.link

def lego.a0 : lego → lego
  | NULL => NULL
  | node _ a _ _ _ _ => a

def lego.a1 : lego → lego
  | NULL => NULL
  | node _ _ a _ _ _ => a

def lego.a2 : lego → lego
  | NULL => NULL
  | node _ _ _ a _ _ => a

def lego.a3 : lego → lego
  | NULL => NULL
  | node _ _ _ _ a _ => a

def lego.next : lego → lego
  | NULL => NULL
  | node _ _ _ _ _ nx => nx

/-- Assignment `l -> next = nx`. -/
def lego.setNext : lego → lego → lego
  | NULL, _ => NULL
  | node f a0 a1 a2 a3 _, nx => node f a0 a1 a2 a3 nx

/-- Assignment to the scalar payload. -/
def lego.setF : lego → Fields → lego
  | NULL, _ => NULL
  | node _ a0 a1 a2 a3 nx, f => node f a0 a1 a2 a3 nx

def lego.setA0 : lego → lego → lego
  | NULL, _ => NULL
  | node f _ a1 a2 a3 nx, a => node f a a1 a2 a3 nx

def lego.setA1 : lego → lego → lego
  | NULL, _ => NULL
  | node f a0 _ a2 a3 nx, a => node f a0 a a2 a3 nx

def lego.setA2 : lego → lego → lego
  | NULL, _ => NULL
  | node f a0 a1 _ a3 nx, a => node f a0 a1 a a3 nx

def lego.setA3 : lego → lego → lego
  | NULL, _ => NULL
  | node f a0 a1 a2 _ nx, a => node f a0 a1 a2 a nx

/-- The legos of a `next` chain, in order, each still carrying its own tail. -/
def lego.chain : lego → List lego
  | NULL => []
  | node f a0 a1 a2 a3 nx => node f a0 a1 a2 a3 nx :: nx.chain

/-- A field selection from a lego. -/
inductive Sel
  | a0 | a1 | a2 | a3 | next
  deriving DecidableEq, Repr

def lego.sel (l : lego) : Sel → lego
  | Sel.a0 => l.a0
  | Sel.a1 => l.a1
  | Sel.a2 => l.a2
  | Sel.a3 => l.a3
  | Sel.next => l.next

/-- Follow a path of field selections. -/
def lego.follow : lego → List Sel → lego
  | l, [] => l
  | l, x :: xs => (l.sel x).follow xs

/-- A pointer to a lego inside the stored program (`root = some k`: reached from the
stored line numbered `k`) or inside the immediate command (`root = none`). -/
structure Ptr where
  root : Option ℚ
  path : List Sel
  deriving DecidableEq, Repr

/-! ## run.c: stacks, contexts and the interpreter state -/

/-- A frame of `struct next_stack`. -/
structure next_stack where
  nVar : List Char
  vi : ℚ
  de : ℚ
  step : ℚ
  line : Option ℚ
  stmt : Option Ptr
  deriving DecidableEq, Repr

/-- A frame of `struct ret_stack`. -/
structure ret_stack where
  line : Option ℚ
  stmt : Option Ptr
  running : Bool
  deriving DecidableEq, Repr

/-- The execution context `struct x_con`; the two stacks are lists, top first. -/
structure x_con where
  line : Option ℚ
  stmt : Option Ptr
  data_line : Option ℚ
  data_stmt : Option Ptr
  data_datum : Option Ptr
  ret_to : List ret_stack
  next_to : List next_stack
  lNum : ℚ
  deriving DecidableEq, Repr

/-- An entry of `struct varDB`. -/
structure varDB where
  name : List Char
  s : Option (List Char)
  n : ℚ
  deriving DecidableEq, Repr

/-- The globals of the interpreter together with its input and output streams.
`stdin` holds the lines still to be read, `urandom` the words the entropy source will
deliver (`none` when `fopen` failed). `halt` records that the process is gone: `exit(1)`
after "bad hack", or a fault the C code runs into (integer division by zero, reading
through a null pointer or past the end of a string); from then on the other fields
describe nothing that can be observed. -/
structure State where
  program : lego
  prog_con : x_con
  start_at : Option ℚ
  dirty : Bool
  warning : Option String
  ctrl_c : Int
  strDB : List varDB
  numDB : List varDB
  last_rand : ℚ
  noANSI : Bool
  forceParens : Bool
  halt : Option String
  out : List Char
  stdin : List (List Char)
  urandom : Option (List Nat)
  deriving DecidableEq, Repr

/-- The context after `memset(&prog_con, 0, sizeof(prog_con))`. -/
def x_con.zero : x_con :=
  { line := none, stmt := none, data_line := none, data_stmt := none, data_datum := none,
    ret_to := [], next_to := [], lNum := 0 }

/-- The state at program start: nothing stored, nothing printed. -/
def State.init : State :=
  { program := NULL, prog_con := x_con.zero, start_at := none, dirty := false,
    warning := none, ctrl_c := 0, strDB := [], numDB := [], last_rand := 0,
    noANSI := true, forceParens := false, halt := none, out := [], stdin := [],
    urandom := none }

/-- The one-message latch `warn` of util.c, on the `warning` cell. -/
def warn (w : Option String) (why : String) : Option String :=
  match w with
  | none => some why
  | some m => some m

/-- The pointer to a numbered line, as a key (`none` for the null pointer). -/
def line_ptr : lego → Option ℚ
  | NULL => none
  | node f _ _ _ _ _ => some f.n

/-- `reset_program` of run.c. -/
def reset_program (st : State) : State :=
  { st with prog_con := { x_con.zero with data_line := line_ptr st.program } }

/-- `find_line` of run.c: the stored line with that number, or `NULL`. -/
def find_line : lego → ℚ → lego
  | NULL, _ => NULL
  | node f a0 a1 a2 a3 nx, lNum =>
    if f.n = lNum then node f a0 a1 a2 a3 nx else find_line nx lNum

/-- The splice of `save_line` on the chain that starts at `*find`: the walk of the `for`
loop, then the removal of an equal line, then the insertion of `l` when it has code.
The boolean tells whether "no such line to delete" was warned. -/
def save_chain (l : lego) : lego → lego × Bool
  | NULL =>
    if l.a0.isNull then (NULL, true) else (l.setNext NULL, false)
  | node f a0 a1 a2 a3 nx =>
    if f.n ≥ l.n then
      if f.n = l.n then
        if l.a0.isNull then (nx, false) else (l.setNext nx, false)
      else if l.a0.isNull then (node f a0 a1 a2 a3 nx, true)
      else (l.setNext (node f a0 a1 a2 a3 nx), false)
    else
      ((node f a0 a1 a2 a3 (save_chain l nx).1), (save_chain l nx).2)

/-- `save_line` of run.c. -/
def save_line (st : State) (l : lego) : State :=
  let st1 := reset_program st
  let r := save_chain l st1.program
  { st1 with program := r.1,
             warning := if r.2 then warn st1.warning "no such line to delete"
                        else st1.warning }

/-- The line numbers of the stored program, in store order. -/
def line_numbers (p : lego) : List ℚ := p.chain.map lego.n

/-- A stored line without its `next` pointer: number, text and code. -/
def lego.alone (l : lego) : lego := l.setNext NULL

/-- The stored lines, in store order, each cut off from its successors. -/
def stored_lines (p : lego) : List lego := p.chain.map lego.alone


/-! ## parser.c: lexer section

Every routine takes the cursor `*ss` as a list of characters and the `warning` cell, and
returns the new cursor (when it returns true) and the `warning` cell. -/

/-- `isspace` in the C locale. -/
def isspace (c : Char) : Bool :=
  c = ' ' || c = '\t' || c = '\n' || c = Char.ofNat 11 || c = Char.ofNat 12 || c = '\r'

/-- `isdigit`. -/
def isdigit (c : Char) : Bool := decide ('0' ≤ c) && decide (c ≤ '9')

/-- `isalpha` in the C locale. -/
def isalpha (c : Char) : Bool :=
  (decide ('a' ≤ c) && decide (c ≤ 'z')) || (decide ('A' ≤ c) && decide (c ≤ 'Z'))

/-- `isalnum`. -/
def isalnum (c : Char) : Bool := isalpha c || isdigit c

/-- `isgraph` in the C locale: the printing characters other than the space. -/
def isgraph (c : Char) : Bool := decide (33 ≤ c.toNat) && decide (c.toNat ≤ 126)

/-- `toupper` in the C locale. -/
def toupper (c : Char) : Char :=
  if decide ('a' ≤ c) && decide (c ≤ 'z') then Char.ofNat (c.toNat - 32) else c

/-- `trunc` of math.h. -/
def trunc (q : ℚ) : ℚ := ((Int.tdiv q.num (q.den : Int) : Int) : ℚ)

/-- `eatBlanks`. -/
def eatBlanks : List Char → List Char
  | [] => []
  | c :: s => if isspace c then eatBlanks s else c :: s

/-- `nothingMore`: the advanced cursor when only blanks are left. -/
def nothingMore (ss : List Char) : Option (List Char) :=
  match eatBlanks ss with
  | [] => some []
  | _ :: _ => none

/-- `strchr(s, c)` for a non-NUL `c`: the text before the first `c` and the text from it
on. -/
def strchr (c : Char) : List Char → Option (List Char × List Char)
  | [] => none
  | x :: s =>
    if x = c then some ([], x :: s)
    else match strchr c s with
      | none => none
      | some (before, found) => some (x :: before, found)

/-- The node `str_lit` builds. -/
def mkStrLit (body : List Char) (ender : Char) : lego :=
  node { Fields.zero wSTRLIT with
           s := some body, lit_delim := if ender ≠ ']' then ender else Char.ofNat 0 }
    NULL NULL NULL NULL NULL

/-- `str_lit`. -/
def str_lit (ss : List Char) : Option (lego × List Char) :=
  match eatBlanks ss with
  | [] => none
  | c :: s =>
    if c = ']' then
      match s with
      | [] => none
      | ender :: s1 =>
        if !isgraph ender then none
        else match strchr ender s1 with
          | none => none
          | some (body, found) => some (mkStrLit body ender, found.tail)
    else if c ≠ '[' then none
    else match strchr ']' s with
      | none => none
      | some (body, found) => some (mkStrLit body ']', found.tail)

/-- `unquoted_str_lit`. -/
def unquoted_str_lit (ss : List Char) : lego × List Char :=
  let s := eatBlanks ss
  match strchr ',' s with
  | none => (mkStrLit s ']', [])
  | some (body, found) => (mkStrLit body ']', found)

/-- The scanning loop of `num_lit`, on the accumulators `r`, `scale`, `dot`, `any`. -/
def num_lit_loop : List Char → ℚ → ℚ → Nat → Bool → (ℚ × ℚ × Nat × Bool) × List Char
  | [], r, scale, dot, any => ((r, scale, dot, any), [])
  | c :: s, r, scale, dot, any =>
    if c = '.' then num_lit_loop s r scale (dot + 1) any
    else if c = '_' then num_lit_loop s r scale dot any
    else if !isdigit c then ((r, scale, dot, any), c :: s)
    else num_lit_loop s (10 * r + ((c.toNat : ℚ) - 48))
           (if dot ≠ 0 then scale * 10 else scale) dot true

/-- `num_lit`. -/
def num_lit (ss : List Char) : Option (lego × List Char) :=
  let s := eatBlanks ss
  let sign : ℚ := if s.head? = some '-' then -1 else 1
  let s1 := if s.head? = some '-' then s.tail else s
  match num_lit_loop s1 0 1 0 false with
  | ((r, scale, dot, any), rest) =>
    if !any || decide (dot > 1) then none
    else some (node { Fields.zero wNUMLIT with n := sign * r / scale }
                 NULL NULL NULL NULL NULL, rest)

/-- `line_num`. -/
def line_num (ss : List Char) (w : Option String) :
    Option (lego × List Char) × Option String :=
  match num_lit ss with
  | none => (none, w)
  | some (res, s) =>
    if res.n ≠ trunc res.n then
      (none, warn w "fractional line numbers are not supported")
    else (some (res.setF { res.f with what := wLINENUM }, s), w)

/-- The characters after the first one that a name may hold. -/
def isNameChar (c : Char) : Bool := isalnum c || c = '"' || c = '.' || c = '\''

/-- The scan to the end of a name in `varName`. -/
def nameSpan : List Char → List Char × List Char
  | [] => ([], [])
  | c :: s => if isNameChar c then ((c :: (nameSpan s).1), (nameSpan s).2) else ([], c :: s)

/-- `varName`. -/
def varName (ss : List Char) (dollarFlag : Bool) : Option (lego × List Char) :=
  match eatBlanks ss with
  | [] => none
  | c :: s =>
    if !isalpha c then none
    else
      let sp := nameSpan (c :: s)
      if decide (sp.2.head? = some '$') != dollarFlag then none
      else some (node { Fields.zero (if dollarFlag then wSTRVAR else wNUMVAR) with
                          s := some (sp.1.map toupper) } NULL NULL NULL NULL NULL,
                 if dollarFlag then sp.2.tail else sp.2)

/-- `num_var`. -/
def num_var (ss : List Char) : Option (lego × List Char) := varName ss false

/-- `str_var`. -/
def str_var (ss : List Char) : Option (lego × List Char) := varName ss true

/-- The matching loop of `keyword`: what is left of the input and of the keyword. -/
def keyword_loop : List Char → List Char → List Char × List Char
  | c :: s, k :: kw =>
    if toupper c = toupper k then keyword_loop s kw else (c :: s, k :: kw)
  | s, kw => (s, kw)

/-- `keyword`. -/
def keyword (ss kw : List Char) : Option (List Char) :=
  match keyword_loop (eatBlanks ss) kw with
  | (s, kw1) =>
    if !kw1.isEmpty then none
    else match s with
      | [] => some []
      | c :: s1 => if isalnum c || c = '"' || c = '.' || c = '\'' || c = '$' then none
                   else some (c :: s1)

/-- The matching loop of `symbol`. -/
def symbol_loop : List Char → List Char → List Char × List Char
  | c :: s, k :: sym => if c = k then symbol_loop s sym else (c :: s, k :: sym)
  | s, sym => (s, sym)

/-- `symbol`. -/
def symbol (ss sym : List Char) : Option (List Char) :=
  match symbol_loop (eatBlanks ss) sym with
  | (s, sym1) => if !sym1.isEmpty then none else some s

/-- `general_symbol_factory`: the index of the first symbol found, counted from `w`. -/
def general_symbol_factory (ss : List Char) : List (List Char) → Nat → Option (Nat × List Char)
  | [], _ => none
  | sym :: symbols, w =>
    match symbol ss sym with
    | some s => some (w, s)
    | none => general_symbol_factory ss symbols (w + 1)

/-- The result of a parsing routine: the lego and the new cursor when it returns true,
and the `warning` cell. -/
abbrev PResult := Option (lego × List Char) × Option String

/-- A parsing routine `int f(char **ss, lego **result)`. -/
abbrev Parser := List Char → Option String → PResult

/-- A routine that never warns, as a `Parser`. -/
def quiet (p : List Char → Option (lego × List Char)) : Parser := fun s w => (p s, w)

/-- The `for` loop of `general_left_binary` over the symbols: the enumerator of the first
operator found at the cursor, and the cursor behind it. -/
def find_op : List (List Char) → List What → List Char → Option (What × List Char)
  | sym :: syms, e :: enums, s =>
    match (if (sym.head?.map isalpha).getD false then keyword s sym else symbol s sym) with
    | some s1 => some (e, s1)
    | none => find_op syms enums s
  | _, _, _ => none

/-- The node `general_left_binary` builds for one operator. -/
def mkBinary (what : What) (left right : lego) : lego :=
  node (Fields.zero what) left right NULL NULL NULL

/-- The `while (1)` loop of `general_left_binary`; one unit of fuel per round. -/
def general_left_binary_loop (syms : List (List Char)) (enums : List What)
    (subFn : Parser) (errMsg : String) : Nat → lego → Parser
  | 0, _, _, w => (none, w)
  | fuel + 1, left, s, w =>
    match find_op syms enums s with
    | none => (some (left, s), w)
    | some (what, s1) =>
      if what = wKLUDGE then (some (left, s), w)
      else match subFn s1 w with
        | (none, w1) => (none, warn w1 errMsg)
        | (some (right, s2), w1) =>
          general_left_binary_loop syms enums subFn errMsg fuel (mkBinary what left right) s2 w1

/-- `general_left_binary`. -/
def general_left_binary (fuel : Nat) (syms : List (List Char)) (enums : List What)
    (subFn : Parser) (errMsg : String) : Parser := fun ss w =>
  match subFn ss w with
  | (none, w1) => (none, w1)
  | (some (left, s), w1) => general_left_binary_loop syms enums subFn errMsg fuel left s w1


/-- The table `guys` of print.c (the macro `GUYS` of all.h). -/
def guysTable : List String :=
  ["o.unused", "-", "NOT ", "e.un",
   "+", "^", "*", "/", "+", "-",
   "\\", "MOD", ">", ">=", "<", "<=", "=", "<>",
   "AND", "OR", "XOR", "EQV", "IMP", "NAND", "NOR", "e.bin",
   "ABS", "ASC", "ATAN", "CHR$", "COS", "EXP", "FIX", "INSTR", "INT",
   "LEFT$", "LEN", "LOG", "MID$", "RIGHT$", "RND", "SGN", "SIN", "SPACE$",
   "SQRT", "STR$", "STRING$", "TAN", "VAL", "e.fun",
   "NEW", "END", "STOP", "CONT", "RETURN", "CLS", "LIST", "DEL", "GOSUB",
   "GOTO", "RUN", "RESTORE", "ONGOTO", "ONGOSUB", "REM", "FOR", "NEXT",
   "READ", "DATA", "PRINT", "INPUT", "IF", "LET", "LINEINPUT", "ALTER",
   "ONALTER", "e.st", "o.kludge", "o.strlit", "o.strvar", "o.numlit",
   "o.numvar", "o.linenum", "o.numberedline", "o.error"]

/-- The entry `guys[what]`. -/
def guys (w : What) : List Char := (guysTable.getD w.ord "").data

/-- Assignment `l -> a[i] = sub`. -/
def lego.setA (l : lego) (i : Nat) (sub : lego) : lego :=
  match i with
  | 0 => l.setA0 sub
  | 1 => l.setA1 sub
  | 2 => l.setA2 sub
  | 3 => l.setA3 sub
  | _ => l

/-- The search of `general_function_factory` for the function name: its index and the
cursor behind the name. -/
def find_name (s : List Char) : List (List Char) → Nat → Option (Nat × List Char)
  | [], _ => none
  | name :: names, i =>
    match keyword s name with
    | some s1 => some (i, s1)
    | none => find_name s names (i + 1)

/-- The loop of `general_function_factory` over the argument types. -/
def function_args (num_exp str_exp : Parser) :
    List Char → Nat → lego → List Char → Option String → PResult
  | [], _, l, s, w => (some (l, s), w)
  | t :: arg, i, l, s, w =>
    match (if t = 'n' then num_exp s w else str_exp s w) with
    | (none, w1) =>
      (none, warn w1 (if t = 'n' then "need numeric expression in function call"
                      else "need string expression in function call"))
    | (some (sub, s1), w1) =>
      if !arg.isEmpty then
        match symbol s1 [','] with
        | none => (none, warn w1 "need , between function call arguments")
        | some s2 => function_args num_exp str_exp arg (i + 1) (l.setA i sub) s2 w1
      else function_args num_exp str_exp arg (i + 1) (l.setA i sub) s1 w1

/-- `general_function_factory`; the boolean is `*error`. -/
def general_function_factory (num_exp str_exp : Parser) (names args : List (List Char))
    (enums : List What) (ss : List Char) (w : Option String) : PResult × Bool :=
  match find_name ss names 0 with
  | none => ((none, w), false)
  | some (i, s) =>
    match symbol s ['('] with
    | none => ((none, warn w "need ( after function name"), true)
    | some s1 =>
      match function_args num_exp str_exp (args.getD i []) 0
              (newLego (enums.getD i wZERO_IS_UNUSED)) s1 w with
      | (none, w1) => ((none, w1), true)
      | (some (l, s2), w1) =>
        match symbol s2 [')'] with
        | none => ((none, warn w1 "need ) at end of function call"), true)
        | some s3 => ((some (l, s3), w1), false)

/-- `general_keyword_factory`. -/
def general_keyword_factory (ss : List Char) : List What → Option (lego × List Char)
  | [] => none
  | e :: enums =>
    match keyword ss (guys e) with
    | some s => some (newLego e, s)
    | none => general_keyword_factory ss enums

/-- Assignment `tail -> list_delim = which`. -/
def lego.setListDelim (l : lego) (which : Nat) : lego :=
  l.setF { l.f with list_delim := which }

/-- The `while` loop of `general_list_factory`, from the item `tail` on: the chain that
starts at `tail`, and the cursor. One unit of fuel per separator. -/
def general_list_loop (seps : List (List Char)) (subFn : Parser) (errMsg : Option String) :
    Nat → lego → Parser
  | 0, _, _, w => (none, w)
  | fuel + 1, tail, s, w =>
    match general_symbol_factory s seps 0 with
    | none => (some (tail, s), w)
    | some (which, s1) =>
      match subFn s1 w with
      | (some (item, s2), w1) =>
        match general_list_loop seps subFn errMsg fuel item s2 w1 with
        | (none, w2) => (none, w2)
        | (some (rest, s3), w2) => (some ((tail.setListDelim which).setNext rest, s3), w2)
      | (none, w1) =>
        match errMsg with
        | some m => (none, warn w1 m)
        | none => (some (tail.setListDelim which, s1), w1)

/-- `general_list_factory`. -/
def general_list_factory (fuel : Nat) (seps : List (List Char)) (subFn : Parser)
    (errMsg : Option String) : Parser := fun ss w =>
  match subFn ss w with
  | (none, w1) => (none, w1)
  | (some (head, s), w1) => general_list_loop seps subFn errMsg fuel head s w1

/-! ## parser.c: expressions

`num_term` and `str_term` call `num_exp` and `str_exp` again for a parenthesised
expression and for function arguments; these two are parameters here and the knot is
tied by `num_exp` and `str_exp` below, on the fuel. -/

/-- Assignment `sub -> force_parens = 1`. -/
def lego.setForceParens (l : lego) : lego := l.setF { l.f with force_parens := true }

/-- `str_term`. -/
def str_term (num_exp str_exp : Parser) : Parser := fun ss w =>
  match general_function_factory num_exp str_exp
      [['c','h','r','$'], ['l','e','f','t','$'], ['m','i','d','$'], ['r','i','g','h','t','$'],
       ['s','p','a','c','e','$'], ['s','t','r','$'], ['s','t','r','i','n','g','$']]
      [['n'], ['s','n'], ['s','n','n'], ['s','n'], ['n'], ['n'], ['n','s']]
      [wCHR, wLEFT, wMID, wRIGHT, wSPACE, wSTR, wSTRING] ss w with
  | ((some r, w1), _) => (some r, w1)
  | ((none, w1), true) => (none, w1)
  | ((none, w1), false) =>
    match str_lit ss with
    | some r => (some r, w1)
    | none =>
      match str_var ss with
      | some r => (some r, w1)
      | none =>
        match symbol ss ['('] with
        | none => (none, w1)
        | some s1 =>
          match str_exp s1 w1 with
          | (none, w2) => (none, w2)
          | (some (sub, s2), w2) =>
            match symbol s2 [')'] with
            | none => (none, warn w2 "right paren needed after string expression")
            | some s3 => (some (sub.setForceParens, s3), w2)

/-- `num_term`. -/
def num_term (num_exp str_exp : Parser) : Parser := fun ss w =>
  match general_function_factory num_exp str_exp
      [['a','b','s'], ['a','s','c'], ['a','t','a','n'], ['c','o','s'], ['e','x','p'],
       ['f','i','x'], ['i','n','s','t','r'], ['i','n','t'], ['l','e','n'], ['l','o','g'],
       ['r','n','d'], ['s','g','n'], ['s','i','n'], ['s','q','r','t'], ['t','a','n'],
       ['v','a','l']]
      [['n'], ['s'], ['n'], ['n'], ['n'], ['n'], ['n','s','s'], ['n'],
       ['s'], ['n'], ['n'], ['n'], ['n'], ['n'], ['n'], ['s']]
      [wABS, wASC, wATAN, wCOS, wEXP, wFIX, wINSTR,
       wINT, wLEN, wLOG, wRND, wSGN, wSIN, wSQRT, wTAN, wVAL] ss w with
  | ((some r, w1), _) => (some r, w1)
  | ((none, w1), true) => (none, w1)
  | ((none, w1), false) =>
    match num_lit ss with
    | some r => (some r, w1)
    | none =>
      match num_var ss with
      | some r => (some r, w1)
      | none =>
        match symbol ss ['('] with
        | none => (none, w1)
        | some s1 =>
          match num_exp s1 w1 with
          | (none, w2) => (none, w2)
          | (some (sub, s2), w2) =>
            match symbol s2 [')'] with
            | none => (none, warn w2 "right paren needed after numeric expression")
            | some s3 => (some (sub.setForceParens, s3), w2)

/-- The sign loop of `unary`: the cursor behind the signs, `neg` and `must`. -/
def unary_signs : List Char → Bool → Bool → List Char × Bool × Bool
  | [], neg, must => ([], neg, must)
  | c :: s, neg, must =>
    if isspace c then unary_signs s neg must
    else if c = '-' then unary_signs s (!neg) true
    else if c = '+' then unary_signs s neg true
    else (c :: s, neg, must)

/-- The node for a prefix operator. -/
def mkUnary (what : What) (operand : lego) : lego :=
  node (Fields.zero what) operand NULL NULL NULL NULL

/-- `unary`. -/
def unary (num_exp str_exp : Parser) : Parser := fun ss w =>
  match unary_signs ss false false with
  | (s, neg, must) =>
    match num_term num_exp str_exp s w with
    | (none, w1) => (none, if must then warn w1 "need something after unary + or -" else w1)
    | (some (r, s1), w1) => (some (if neg then mkUnary wNEGATE r else r, s1), w1)

/-- `power`. -/
def power (fuel : Nat) (num_exp str_exp : Parser) : Parser :=
  general_left_binary fuel [['^']] [wPOWER] (unary num_exp str_exp) "need number after ^"

/-- `prod`. -/
def prod (fuel : Nat) (num_exp str_exp : Parser) : Parser :=
  general_left_binary fuel [['*'], ['/'], ['m','o','d'], ['\\']] [wMUL, wDIV, wMOD, wIDIV]
    (power fuel num_exp str_exp) "need number after *, /, MOD, or \\"

/-- `sum`. -/
def sum (fuel : Nat) (num_exp str_exp : Parser) : Parser :=
  general_left_binary fuel [['+'], ['-']] [wADD, wSUB]
    (prod fuel num_exp str_exp) "need number after + or -"

/-- `inequality`. -/
def inequality (fuel : Nat) (num_exp str_exp : Parser) : Parser :=
  general_left_binary fuel [['>','='], ['>'], ['<','>'], ['<','='], ['<']]
    [wGE, wGT, wKLUDGE, wLE, wLT]
    (sum fuel num_exp str_exp) "need number after <, >, <=, or >="

/-- `equality`. -/
def equality (fuel : Nat) (num_exp str_exp : Parser) : Parser :=
  general_left_binary fuel [['='], ['<','>']] [wEQ, wNE]
    (inequality fuel num_exp str_exp) "need number after = or <>"

/-- The `while (keyword(&s, "not"))` loop of `logic_not`; one unit of fuel per `NOT`,
`none` when the fuel runs out. -/
def logic_not_loop : Nat → List Char → Bool → Bool → Option (List Char × Bool × Bool)
  | 0, _, _, _ => none
  | fuel + 1, s, neg, must =>
    match keyword s ['n','o','t'] with
    | some s1 => logic_not_loop fuel s1 (!neg) true
    | none => some (s, neg, must)

/-- `logic_not`. -/
def logic_not (fuel : Nat) (num_exp str_exp : Parser) : Parser := fun ss w =>
  match logic_not_loop fuel ss false false with
  | none => (none, w)
  | some (s, neg, must) =>
    match equality fuel num_exp str_exp s w with
    | (none, w1) => (none, if must then warn w1 "need something after NOT" else w1)
    | (some (r, s1), w1) => (some (if neg then mkUnary wNOT r else r, s1), w1)

/-- `logic_and`. -/
def logic_and (fuel : Nat) (num_exp str_exp : Parser) : Parser :=
  general_left_binary fuel [['a','n','d'], ['n','a','n','d']] [wAND, wNAND]
    (logic_not fuel num_exp str_exp) "need something after AND or NAND"

/-- `logic_xor`. -/
def logic_xor (fuel : Nat) (num_exp str_exp : Parser) : Parser :=
  general_left_binary fuel [['x','o','r']] [wXOR]
    (logic_and fuel num_exp str_exp) "need something after XOR"

/-- `logic_or`. -/
def logic_or (fuel : Nat) (num_exp str_exp : Parser) : Parser :=
  general_left_binary fuel [['o','r'], ['n','o','r']] [wOR, wNOR]
    (logic_xor fuel num_exp str_exp) "need something after OR or NOR"

/-- `logic_eqv`. -/
def logic_eqv (fuel : Nat) (num_exp str_exp : Parser) : Parser :=
  general_left_binary fuel [['e','q','v']] [wEQV]
    (logic_or fuel num_exp str_exp) "need something after EQV"

/-- `logic_imp`. -/
def logic_imp (fuel : Nat) (num_exp str_exp : Parser) : Parser :=
  general_left_binary fuel [['i','m','p']] [wIMP]
    (logic_eqv fuel num_exp str_exp) "need something after IMP"

/-- The body of `str_exp`. -/
def str_cat (fuel : Nat) (num_exp str_exp : Parser) : Parser :=
  general_left_binary fuel [['+']] [wCAT]
    (str_term num_exp str_exp) "string needed after catenation operator +"


/-! ## parser.c: program structure -/

/-- `mixed_exp`, on the two expression parsers. -/
def mixed_exp (num_exp str_exp : Parser) : Parser := fun ss w =>
  match num_exp ss w with
  | (some r, w1) => (some r, w1)
  | (none, w1) => str_exp ss w1

/-- `mixed_var`. -/
def mixed_var : Parser := fun ss w =>
  match num_var ss with
  | some r => (some r, w)
  | none => (str_var ss, w)

/-- `line_list`. -/
def line_list (fuel : Nat) : Parser :=
  general_list_factory fuel [[',']] line_num (some "need line number after ,")

/-- A fresh line reference holding `n`. -/
def mkLineNum (n : ℚ) : lego :=
  node { Fields.zero wLINENUM with n := n } NULL NULL NULL NULL NULL

/-- `line_range`. -/
def line_range : Parser := fun ss w =>
  match line_num ss w with
  | (head, w1) =>
    let s := match head with
      | some (_, s) => s
      | none => ss
    match symbol s ['-'] with
    | some s1 =>
      match line_num s1 w1 with
      | (tail, w2) =>
        let s2 := match tail with
          | some (_, s) => s
          | none => s1
        let hd := match head with
          | some (h, _) => h
          | none => mkLineNum (-1)
        let tl := match tail with
          | some (t, _) => t
          | none => mkLineNum (-1)
        (some (hd.setNext tl, s2), w2)
    | none =>
      match head with
      | none => (none, w1)
      | some (h, _) => (some (h.setNext (mkLineNum h.n), s), w1)

/-- `var_list`. -/
def var_list (fuel : Nat) : Parser :=
  general_list_factory fuel [[',']] mixed_var (some "need variable after ,")

/-- `exp_list`. -/
def exp_list (fuel : Nat) (num_exp str_exp : Parser) : Parser :=
  general_list_factory fuel [[',']] (mixed_exp num_exp str_exp)
    (some "need expression after ,")

/-- `print_list`. -/
def print_list (fuel : Nat) (num_exp str_exp : Parser) : Parser :=
  general_list_factory fuel [[','], [';']] (mixed_exp num_exp str_exp) none

/-- `trivial_st`. -/
def trivial_st : Parser := fun ss w =>
  (general_keyword_factory ss [wNEW, wEND, wSTOP, wCONT, wRETURN, wCLS], w)

/-- `line_range_st`. -/
def line_range_st : Parser := fun ss w =>
  match general_keyword_factory ss [wLIST, wDEL] with
  | none => (none, w)
  | some (res, s) =>
    match line_range s w with
    | (some (range, s1), w1) => (some (res.setA0 range, s1), w1)
    | (none, w1) => (some (res.setA0 ((mkLineNum (-1)).setNext (mkLineNum (-1))), s), w1)

/-- `line_num_st`. -/
def line_num_st : Parser := fun ss w =>
  match general_keyword_factory ss [wGOSUB, wGOTO, wRUN, wRESTORE] with
  | none => (none, w)
  | some (l, s) =>
    match line_num s w with
    | (some (ln, s1), w1) => (some (l.setA0 ln, s1), w1)
    | (none, w1) =>
      if l.what = wGOTO ∨ l.what = wGOSUB then
        (none, warn w1 "need line number after GOTO or GOSUB")
      else (some (l.setA0 NULL, s), w1)

/-- `line_list_st`. -/
def line_list_st (fuel : Nat) (num_exp : Parser) : Parser := fun ss w =>
  match keyword ss ['o','n'] with
  | none => (none, w)
  | some s =>
    match num_exp s w with
    | (none, w1) => (none, warn w1 "need numeric expression after ON")
    | (some (expr, s1), w1) =>
      match (match keyword s1 ['g','o','t','o'] with
             | some s2 => some (wONGOTO, s2)
             | none => match keyword s1 ['g','o','s','u','b'] with
               | some s2 => some (wONGOSUB, s2)
               | none => none) with
      | none => (none, w1)
      | some (what, s2) =>
        match line_list fuel s2 w1 with
        | (none, w2) =>
          (none, warn w2 "need list of lines after ON ... GOTO or ON ... GOSUB")
        | (some (lines, s3), w2) =>
          (some (((newLego what).setA0 expr).setA1 lines, s3), w2)

/-- The end of the text without its trailing blanks: the loop on `end` in `rem_st`. -/
def trimRight (s : List Char) : List Char :=
  (s.reverse.dropWhile isspace).reverse

/-- `rem_st`. -/
def rem_st : Parser := fun ss w =>
  match (match symbol ss ['\''] with
         | some s => some (true, s)
         | none => match keyword ss ['r','e','m'] with
           | some s => some (false, s)
           | none => none) with
  | none => (none, w)
  | some (abbr, s) =>
    (some (node { Fields.zero wREM with abbr := abbr, s := some (trimRight (eatBlanks s)) }
             NULL NULL NULL NULL NULL, []), w)

/-- `for_st`. -/
def for_st (num_exp : Parser) : Parser := fun ss w =>
  match keyword ss ['f','o','r'] with
  | none => (none, w)
  | some s =>
    match num_var s with
    | none => (none, warn w "need numeric variable after FOR")
    | some (a0, s1) =>
      match symbol s1 ['='] with
      | none => (none, warn w "need = after FOR ...")
      | some s2 =>
        match num_exp s2 w with
        | (none, w1) => (none, warn w1 "need number after =")
        | (some (a1, s3), w1) =>
          match keyword s3 ['t','o'] with
          | none => (none, warn w1 "need TO after first number")
          | some s4 =>
            match num_exp s4 w1 with
            | (none, w2) => (none, warn w2 "need number after TO")
            | (some (a2, s5), w2) =>
              match keyword s5 ['s','t','e','p'] with
              | none => (some (node (Fields.zero wFOR) a0 a1 a2 NULL NULL, s5), w2)
              | some s6 =>
                match num_exp s6 w2 with
                | (none, w3) => (none, warn w3 "need number after STEP")
                | (some (a3, s7), w3) =>
                  (some (node (Fields.zero wFOR) a0 a1 a2 a3 NULL, s7), w3)

/-- `next_st`. -/
def next_st : Parser := fun ss w =>
  match keyword ss ['n','e','x','t'] with
  | none => (none, w)
  | some s =>
    match num_var s with
    | some (var, s1) => (some ((newLego wNEXT).setA0 var, s1), w)
    | none => (some (newLego wNEXT, s), w)

/-- `if_st`, on the parser `statements`. -/
def if_st (num_exp statements : Parser) : Parser := fun ss w =>
  match keyword ss ['i','f'] with
  | none => (none, w)
  | some s =>
    match num_exp s w with
    | (none, w1) => (none, warn w1 "need numeric expression after IF")
    | (some (a0, s1), w1) =>
      match keyword s1 ['t','h','e','n'] with
      | none => (none, warn w1 "need THEN after IF ...")
      | some s2 =>
        match statements s2 w1 with
        | (none, w2) => (none, warn w2 "need statement after THEN")
        | (some (a1, s3), w2) =>
          match keyword s3 ['e','l','s','e'] with
          | none => (some (node (Fields.zero wIF) a0 a1 NULL NULL NULL, s3), w2)
          | some s4 =>
            match statements s4 w2 with
            | (none, w3) => (none, warn w3 "need statements after ELSE")
            | (some (a2, s5), w3) =>
              (some (node (Fields.zero wIF) a0 a1 a2 NULL NULL, s5), w3)

/-- `read_data_st`. -/
def read_data_st (fuel : Nat) (num_exp str_exp : Parser) : Parser := fun ss w =>
  match general_keyword_factory ss [wREAD, wDATA] with
  | none => (none, w)
  | some (res, s) =>
    if res.what = wREAD then
      match var_list fuel s w with
      | (none, w1) => (none, warn w1 "need list of variables to READ")
      | (some (list, s1), w1) => (some (res.setA0 list, s1), w1)
    else
      match exp_list fuel num_exp str_exp s w with
      | (none, w1) => (none, warn w1 "need list of expressions for DATA")
      | (some (list, s1), w1) => (some (res.setA0 list, s1), w1)

/-- `let_st`. -/
def let_st (num_exp str_exp : Parser) : Parser := fun ss w =>
  let abbr := (keyword ss ['l','e','t']).isNone
  let s := (keyword ss ['l','e','t']).getD ss
  match (match num_var s with
         | some r => some r
         | none => str_var s) with
  | none => (none, if !abbr then warn w "need variable after LET" else w)
  | some (var, s1) =>
    match symbol s1 ['='] with
    | none => (none, warn w "need = after LET variable")
    | some s2 =>
      match (if var.what = wNUMVAR then num_exp s2 w else str_exp s2 w) with
      | (none, w1) => (none, warn w1 "need same-type expression after LET ... =")
      | (some (exp, s3), w1) =>
        (some (node { Fields.zero wLET with abbr := abbr } var exp NULL NULL NULL, s3), w1)

/-- `print_st`. -/
def print_st (fuel : Nat) (num_exp str_exp : Parser) : Parser := fun ss w =>
  match (match symbol ss ['?'] with
         | some s => some (true, s)
         | none => match keyword ss ['p','r','i','n','t'] with
           | some s => some (false, s)
           | none => none) with
  | none => (none, w)
  | some (abbr, s) =>
    match print_list fuel num_exp str_exp s w with
    | (some (list, s1), w1) =>
      (some (node { Fields.zero wPRINT with abbr := abbr } list NULL NULL NULL NULL, s1), w1)
    | (none, w1) =>
      (some (node { Fields.zero wPRINT with abbr := abbr } NULL NULL NULL NULL NULL, s), w1)

/-- `input_st`. -/
def input_st (fuel : Nat) (str_exp : Parser) : Parser := fun ss w =>
  match keyword ss ['i','n','p','u','t'] with
  | none => (none, w)
  | some undo =>
    match str_exp undo w with
    | (r, w1) =>
      let ps : lego × List Char := match r with
        | none => (NULL, undo)
        | some (prompt, s) =>
          match symbol s [';'] with
          | some s1 => (prompt, s1)
          | none => (NULL, undo)
      match var_list fuel ps.2 w1 with
      | (none, w2) => (none, warn w2 "need INPUT variables")
      | (some (list, s2), w2) =>
        (some (node (Fields.zero wINPUT) ps.1 list NULL NULL NULL, s2), w2)

/-- `line_in_st`. -/
def line_in_st : Parser := fun ss w =>
  match keyword ss ['l','i','n','e'] with
  | none => (none, w)
  | some s =>
    match keyword s ['i','n','p','u','t'] with
    | none => (none, w)
    | some s1 =>
      match str_var s1 with
      | none => (none, w)
      | some (var, s2) => (some ((newLego wLINEINPUT).setA0 var, s2), w)

/-- The test `!keyword(&s, "to") || keyword(&s, "proceed") && abbrev-- && !keyword(&s, "to")`
of `alter_st` and `on_alter_st`: `none` when it is true (the error), else the cursor and
`abbrev`. -/
def to_proceed_to (s : List Char) : Option (List Char × Bool) :=
  match keyword s ['t','o'] with
  | none => none
  | some s1 =>
    match keyword s1 ['p','r','o','c','e','e','d'] with
    | none => some (s1, true)
    | some s2 =>
      match keyword s2 ['t','o'] with
      | none => none
      | some s3 => some (s3, false)

/-- `alter_st`. -/
def alter_st : Parser := fun ss w =>
  match keyword ss ['a','l','t','e','r'] with
  | none => (none, w)
  | some s =>
    match line_num s w with
    | (none, w1) => (none, warn w1 "need line number after ALTER")
    | (some (vi, s1), w1) =>
      match to_proceed_to s1 with
      | none => (none, warn w1 "need TO [PROCEED TO] after line number")
      | some (s2, abbr) =>
        match line_num s2 w1 with
        | (none, w2) => (none, warn w2 "need line number after TO [PROCEED TO]")
        | (some (de, s3), w2) =>
          (some (node { Fields.zero wALTER with abbr := abbr } vi de NULL NULL NULL, s3), w2)

/-- `on_alter_st`. -/
def on_alter_st (fuel : Nat) (num_exp : Parser) : Parser := fun ss w =>
  match keyword ss ['o','n'] with
  | none => (none, w)
  | some s =>
    match num_exp s w with
    | (none, w1) => (none, warn w1 "need numeric expression after ON")
    | (some (expr, s1), w1) =>
      match keyword s1 ['a','l','t','e','r'] with
      | none => (none, warn w1 "need ALTER, GOSUB, or GOTO after ON ...")
      | some s2 =>
        match line_num s2 w1 with
        | (none, w2) => (none, warn w2 "need line number after ALTER")
        | (some (vi, s3), w2) =>
          match to_proceed_to s3 with
          | none => (none, warn w2 "need TO [PROCEED TO] after line number")
          | some (s4, abbr) =>
            match line_list fuel s4 w2 with
            | (none, w3) => (none, warn w3 "need list of lines after TO [PROCEED TO]")
            | (some (lines, s5), w3) =>
              (some (node { Fields.zero wONALTER with abbr := abbr } expr vi lines NULL NULL,
                     s5), w3)

/-- The loop of `statement` over the table of statement parsers. -/
def first_of : List Parser → Parser
  | [], _, w => (none, w)
  | f :: fn, ss, w =>
    match f ss w with
    | (some r, w1) => (some r, w1)
    | (none, w1) => first_of fn ss w1

/-- `statement`, on the parsers it re-enters. -/
def statement (fuel : Nat) (num_exp str_exp statements : Parser) : Parser :=
  first_of
    [trivial_st, line_range_st, line_num_st, line_list_st fuel num_exp,
     rem_st, for_st num_exp, next_st, if_st num_exp statements,
     read_data_st fuel num_exp str_exp, print_st fuel num_exp str_exp,
     input_st fuel str_exp, line_in_st,
     alter_st, on_alter_st fuel num_exp, let_st num_exp str_exp]

mutual
/-- `num_exp`: fails for want of fuel at 0. -/
def num_exp : Nat → Parser
  | 0 => fun _ w => (none, w)
  | fuel + 1 => logic_imp fuel (num_exp fuel) (str_exp fuel)
/-- `str_exp`: fails for want of fuel at 0. -/
def str_exp : Nat → Parser
  | 0 => fun _ w => (none, w)
  | fuel + 1 => str_cat fuel (num_exp fuel) (str_exp fuel)
end

/-- `statements`: fails for want of fuel at 0. -/
def statements : Nat → Parser
  | 0 => fun _ w => (none, w)
  | fuel + 1 =>
    general_list_factory fuel [[':']]
      (statement fuel (num_exp fuel) (str_exp fuel) (statements fuel))
      (some "need statement after :")

/-- `command`. -/
def command (fuel : Nat) : Parser := fun ss w =>
  match line_num ss w with
  | (ln, w1) =>
    let s := match ln with
      | some (_, s) => s
      | none => ss
    match statements fuel s w1 with
    | (sts, w2) =>
      match ln with
      | some (l, _) =>
        let code := match sts with
          | some (c, _) => c
          | none => NULL
        let s1 := match sts with
          | some (_, s1) => s1
          | none => s
        (some ((l.setF { l.f with what := wNUMBEREDLINE }).setA0 code, s1), w2)
      | none => (sts, w2)

/-- `command_line`. -/
def command_line (fuel : Nat) : Parser := fun ss w =>
  match command fuel ss w with
  | (res, w1) =>
    let s := match res with
      | some (_, s) => s
      | none => ss
    match nothingMore s with
    | none =>
      (none, warn w1 (if res.isSome then "ignoring command line with extra input at end"
                      else "unknown command"))
    | some s1 =>
      match res with
      | none => (none, w1)
      | some (r, _) => (some (r, s1), w1)

/-- The fuel that `parse` gives a line: more than it has characters. -/
def parse_fuel (ss : List Char) : Nat := ss.length + 2

/-- One line through `command_line`, with the fuel of `parse_fuel` and `warning` clear. -/
def parse (ss : List Char) : PResult := command_line (parse_fuel ss) ss none


/-! ## print.c -/

/-- Round to the nearest integer, halves to the even one: the rounding of `printf`. -/
def roundHalfEven (q : ℚ) : Int :=
  let f := Rat.floor q
  let d := q - (f : ℚ)
  if d < 1 / 2 then f
  else if 1 / 2 < d then f + 1
  else if f % 2 = 0 then f else f + 1

/-- The text of `printf("%.0f", q)`. -/
def fmt_0f (q : ℚ) : List Char :=
  (if q < 0 then ['-'] else []) ++ Nat.toDigits 10 (roundHalfEven q).natAbs

/-- Six decimal digits, zero padded. -/
def pad6 (n : Nat) : List Char :=
  let d := Nat.toDigits 10 n
  List.replicate (6 - d.length) '0' ++ d

/-- The text of `printf("%f", q)`. -/
def fmt_f (q : ℚ) : List Char :=
  let m := (roundHalfEven (q * 1000000)).natAbs
  (if q < 0 then ['-'] else []) ++ Nat.toDigits 10 (m / 1000000) ++ ['.'] ++ pad6 (m % 1000000)

/-- The text of `printf(trunc(q) == q ? "%.0f" : "%f", q)`. -/
def fmt_num (q : ℚ) : List Char := if trunc q = q then fmt_0f q else fmt_f q

/-- The text of the function arguments in `printLego`: the leading non-null `a[i]`,
separated by commas; `p0 .. p3` are the printed arguments. -/
def printArgs (a0 a1 a2 a3 : lego) (p0 p1 p2 p3 : List Char) : List Char :=
  if a0.isNull then []
  else p0 ++
    (if a1.isNull then []
     else [',', ' '] ++ p1 ++
       (if a2.isNull then []
        else [',', ' '] ++ p2 ++ (if a3.isNull then [] else [',', ' '] ++ p3)))

/-- The text of the range of `LIST` and `DEL`. -/
def printRange (a b : ℚ) : List Char :=
  if a < 0 ∧ b < 0 then []
  else if a = b then [' '] ++ fmt_0f a
  else if a < 0 then [' ', '-'] ++ fmt_0f b
  else if b < 0 then [' '] ++ fmt_0f a ++ ['-']
  else [' '] ++ fmt_0f a ++ ['-'] ++ fmt_0f b

/-- What `printLego` prints for one lego before it turns to `next`: `p0 .. p3` are the
texts `printLego` prints for `a[0] .. a[3]`, `l0 .. l2` the texts of the comma-separated
loops over the chains at `a[0] .. a[2]`, and `i0` the text of the `PRINT` loop over the
chain at `a[0]`. -/
def printBody (forceParens : Bool) (f : Fields) (a0 a1 a2 a3 : lego)
    (p0 p1 p2 p3 l0 l1 l2 i0 : List Char) : List Char :=
  let parens := decide (f.what.ord < END_BINARY_GUYS.ord) && (f.force_parens || forceParens)
  (if parens then ['('] else []) ++
  (if f.what.ord < END_UNARY_GUYS.ord then guys f.what ++ p0
   else if f.what.ord < END_BINARY_GUYS.ord then p0 ++ [' '] ++ guys f.what ++ [' '] ++ p1
   else if f.what.ord < END_FUNCTION_GUYS.ord then
     guys f.what ++ ['('] ++ printArgs a0 a1 a2 a3 p0 p1 p2 p3 ++ [')']
   else match f.what with
     | wSTRVAR => f.s.getD [] ++ ['$']
     | wSTRLIT =>
       if f.lit_delim ≠ Char.ofNat 0 then
         [']', f.lit_delim] ++ f.s.getD [] ++ [f.lit_delim]
       else ['['] ++ f.s.getD [] ++ [']']
     | wNUMVAR => f.s.getD []
     | wNUMLIT => fmt_num f.n
     | wLINENUM => fmt_num f.n
     | wNUMBEREDLINE => fmt_num f.n ++ (if a0.isNull then [] else [' '] ++ p0)
     | wREM => (if f.abbr then ['\''] else ['R','E','M']) ++ [' '] ++ f.s.getD []
     | wNEW => guys f.what
     | wEND => guys f.what
     | wSTOP => guys f.what
     | wCONT => guys f.what
     | wRETURN => guys f.what
     | wCLS => guys f.what
     | wLIST => guys f.what ++ printRange a0.n a0.next.n
     | wDEL => guys f.what ++ printRange a0.n a0.next.n
     | wGOSUB => guys f.what ++ (if a0.isNull then [] else [' '] ++ fmt_0f a0.n)
     | wGOTO => guys f.what ++ (if a0.isNull then [] else [' '] ++ fmt_0f a0.n)
     | wRUN => guys f.what ++ (if a0.isNull then [] else [' '] ++ fmt_0f a0.n)
     | wRESTORE => guys f.what ++ (if a0.isNull then [] else [' '] ++ fmt_0f a0.n)
     | wONGOTO => ['O','N',' '] ++ p0 ++ [' ','G','O','T','O',' '] ++ l1
     | wONGOSUB => ['O','N',' '] ++ p0 ++ [' ','G','O','S','U','B',' '] ++ l1
     | wFOR =>
       ['F','O','R',' '] ++ p0 ++ [' ','=',' '] ++ p1 ++ [' ','T','O',' '] ++ p2 ++
         (if a3.isNull then [] else [' ','S','T','E','P',' '] ++ p3)
     | wNEXT => ['N','E','X','T'] ++ (if a0.isNull then [] else [' '] ++ p0)
     | wIF =>
       ['I','F',' '] ++ p0 ++ [' ','T','H','E','N',' '] ++ p1 ++
         (if a2.isNull then [] else [' ','E','L','S','E',' '] ++ p2)
     | wREAD => guys f.what ++ [' '] ++ l0
     | wDATA => guys f.what ++ [' '] ++ l0
     | wLET => (if !f.abbr then ['L','E','T',' '] else []) ++ p0 ++ [' ','=',' '] ++ p1
     | wLINEINPUT => ['L','I','N','E',' ','I','N','P','U','T',' '] ++ p0
     | wPRINT => (if f.abbr then ['?'] else ['P','R','I','N','T']) ++ i0
     | wINPUT =>
       ['I','N','P','U','T',' '] ++ (if a0.isNull then [] else p0 ++ [';',' ']) ++ l1
     | wALTER =>
       ['A','L','T','E','R',' '] ++ p0 ++ [' ','T','O',' '] ++
         (if !f.abbr then ['P','R','O','C','E','E','D',' ','T','O',' '] else []) ++ p1
     | wONALTER =>
       ['O','N',' '] ++ p0 ++ [' ','A','L','T','E','R',' '] ++ p1 ++ [' ','T','O',' '] ++
         (if !f.abbr then ['P','R','O','C','E','E','D',' ','T','O',' '] else []) ++ l2
     | _ => ['*','U','N','I','M','P','L','E','M','E','N','T','E','D','*']) ++
  (if parens then [')'] else [])

/-- Does `printLego` go on to `l -> next` (when it is not null)? -/
def printsNext (f : Fields) : Bool :=
  decide (END_FUNCTION_GUYS.ord < f.what.ord) && decide (f.what.ord < END_STATEMENT_GUYS.ord)

mutual
/-- `printLego` of print.c: the text it writes to standard output. -/
def printLego (forceParens : Bool) : lego → List Char
  | NULL => ['N','U','L','L','!']
  | node f a0 a1 a2 a3 nx =>
    printBody forceParens f a0 a1 a2 a3
      (printLego forceParens a0) (printLego forceParens a1)
      (printLego forceParens a2) (printLego forceParens a3)
      (printCommaLoop forceParens a0) (printCommaLoop forceParens a1)
      (printCommaLoop forceParens a2) (printItemLoop forceParens a0) ++
    (if printsNext f && !nx.isNull then [':', ' '] ++ printLego forceParens nx else [])
/-- The loop `for (loop = ...; loop; loop = loop -> next)` of `printLego` that prints the
legos of a chain separated by ", ". -/
def printCommaLoop (forceParens : Bool) : lego → List Char
  | NULL => []
  | node f a0 a1 a2 a3 nx =>
    (printBody forceParens f a0 a1 a2 a3
      (printLego forceParens a0) (printLego forceParens a1)
      (printLego forceParens a2) (printLego forceParens a3)
      (printCommaLoop forceParens a0) (printCommaLoop forceParens a1)
      (printCommaLoop forceParens a2) (printItemLoop forceParens a0) ++
    (if printsNext f && !nx.isNull then [':', ' '] ++ printLego forceParens nx else [])) ++
    (if !nx.isNull then [',', ' '] else []) ++ printCommaLoop forceParens nx
/-- The loop of `printLego` over the items of a `PRINT` statement. -/
def printItemLoop (forceParens : Bool) : lego → List Char
  | NULL => []
  | node f a0 a1 a2 a3 nx =>
    [' '] ++
    (printBody forceParens f a0 a1 a2 a3
      (printLego forceParens a0) (printLego forceParens a1)
      (printLego forceParens a2) (printLego forceParens a3)
      (printCommaLoop forceParens a0) (printCommaLoop forceParens a1)
      (printCommaLoop forceParens a2) (printItemLoop forceParens a0) ++
    (if printsNext f && !nx.isNull then [':', ' '] ++ printLego forceParens nx else [])) ++
    (if f.list_delim ≠ 0 then [';'] else if !nx.isNull then [','] else []) ++
    printItemLoop forceParens nx
end

/-- Equality of two trees in every field except `force_parens`: the tree with the hint
cleared everywhere. -/
def lego.dropParens : lego → lego
  | NULL => NULL
  | node f a0 a1 a2 a3 nx =>
    node { f with force_parens := false } a0.dropParens a1.dropParens a2.dropParens
      a3.dropParens nx.dropParens


/-! ## eval.c -/

/-- The functions of math.h the evaluator calls; they have no exact rational value and
stay a parameter. -/
structure Libm where
  pow : ℚ → ℚ → ℚ
  atan : ℚ → ℚ
  cos : ℚ → ℚ
  exp : ℚ → ℚ
  log : ℚ → ℚ
  sin : ℚ → ℚ
  sqrt : ℚ → ℚ
  tan : ℚ → ℚ

/-- The tag of a `computed`. -/
inductive rKind
  | rNum | rExcept | rString
  deriving DecidableEq, Repr

open rKind

/-- The struct `computed` of all.h. -/
structure computed where
  what : rKind
  n : ℚ
  s : Option (List Char)
  deriving DecidableEq, Repr

/-- The value `{ 0 }` with the tag set. -/
def computed.zero (k : rKind) : computed := { what := k, n := 0, s := none }

/-- The process stops: the first reason is kept. -/
def State.crash (st : State) (why : String) : State :=
  match st.halt with
  | none => { st with halt := some why }
  | some _ => st

/-- `warn(why)` on the state. -/
def State.warn (st : State) (why : String) : State :=
  { st with warning := DDB.warn st.warning why }

/-- Text goes to standard output. -/
def State.print (st : State) (text : List Char) : State :=
  { st with out := st.out ++ text }

/-- The string a `char *` of a `computed` points to; reading through the null pointer
stops the process. -/
def computed.deref (c : computed) (st : State) : List Char × State :=
  match c.s with
  | some s => (s, st)
  | none => ([], st.crash "null pointer")

/-- `csprng`. -/
def csprng (st : State) (x : ℚ) : ℚ × State :=
  if x = 0 then (st.last_rand, st)
  else match st.urandom with
    | none => (st.last_rand, st)
    | some [] => (st.last_rand, st)
    | some (u :: rest) =>
      (((u % 4294967296 : Nat) : ℚ) / 4294967295,
       { st with last_rand := ((u % 4294967296 : Nat) : ℚ) / 4294967295,
                 urandom := some rest })

/-- The update of `set_var` on one list: the named entry, or a new one at the end. -/
def set_in (name : List Char) (s : Option (List Char)) (n : ℚ) : List varDB → List varDB
  | [] =>
    match s with
    | some t => [{ name := name, s := some t, n := 0 }]
    | none => [{ name := name, s := none, n := n }]
  | v :: vs =>
    if v.name = name then
      match s with
      | some t => { v with s := some t } :: vs
      | none => { v with n := n } :: vs
    else v :: set_in name s n vs

/-- `set_var`: a non-null `s` selects the string variables. -/
def set_var (st : State) (name : List Char) (s : Option (List Char)) (n : ℚ) : State :=
  match s with
  | some t => { st with strDB := set_in name (some t) n st.strDB }
  | none => { st with numDB := set_in name none n st.numDB }

/-- `erase_run_vars`. -/
def erase_run_vars (st : State) : State := { st with strDB := [], numDB := [] }

/-- `find_var`. -/
def find_var : List varDB → List Char → Option varDB
  | [], _ => none
  | v :: vs, name => if name = v.name then some v else find_var vs name

/-- `num_from_name_hack`: for a missing name it prints "bad hack" and exits. -/
def num_from_name_hack (st : State) (name : List Char) : ℚ × State :=
  match find_var st.numDB name with
  | some v => (v.n, st)
  | none => (0, (st.print ['b','a','d',' ','h','a','c','k','\n']).crash "exit(1)")

/-- The conversion `(int) x` of a double: the truncation when it fits; outside the range
of `int` the C result is undefined and the x86 result, `INT_MIN`, is taken. -/
def to_int (x : ℚ) : Int :=
  if -2147483648 ≤ Int.tdiv x.num (x.den : Int) ∧ Int.tdiv x.num (x.den : Int) ≤ 2147483647
  then Int.tdiv x.num (x.den : Int) else -2147483648

/-- The 32 bits of an `int`, as a natural number. -/
def u32 (x : Int) : Nat := (x % 4294967296).toNat

/-- The `int` with these 32 bits (two's complement). -/
def s32 (n : Nat) : Int :=
  if n % 4294967296 < 2147483648 then ((n % 4294967296 : Nat) : Int)
  else ((n % 4294967296 : Nat) : Int) - 4294967296

/-- `x & y` on `int`. -/
def and32 (x y : Int) : Int := s32 (Nat.land (u32 x) (u32 y))

/-- `x | y` on `int`. -/
def or32 (x y : Int) : Int := s32 (Nat.lor (u32 x) (u32 y))

/-- `x ^ y` on `int`. -/
def xor32 (x y : Int) : Int := s32 (Nat.xor (u32 x) (u32 y))

/-- `~x` on `int`. -/
def not32 (x : Int) : Int := s32 (4294967295 - u32 x)

/-- `boolean_logic`; `NAND` falls through into `NOR` as in the source. -/
def boolean_logic (st : State) (x y : ℚ) (what : What) : computed × State :=
  if ((to_int x : Int) : ℚ) ≠ x ∨ ((to_int y : Int) : ℚ) ≠ y then
    (computed.zero rExcept, st.warn "need integer")
  else
    let xi := to_int x
    let yi := to_int y
    let r : Int := match what with
      | wAND => and32 xi yi
      | wOR => or32 xi yi
      | wXOR => xor32 xi yi
      | wEQV => not32 (xor32 xi yi)
      | wIMP => or32 (not32 xi) yi
      | wNAND => not32 (or32 (not32 (and32 xi yi)) yi)
      | wNOR => not32 (or32 xi yi)
      | _ => xi
    ({ what := rNum, n := (r : ℚ), s := none }, st)

/-- `divmod`; a zero divisor, and `INT_MIN` by -1, stop the process. -/
def divmod (st : State) (x y : ℚ) (what : What) : computed × State :=
  if ((to_int x : Int) : ℚ) ≠ x ∨ ((to_int y : Int) : ℚ) ≠ y then
    (computed.zero rExcept, st.warn "need integer")
  else
    let xi := to_int x
    let yi := to_int y
    match what with
    | wIDIV =>
      if yi = 0 ∨ (xi = -2147483648 ∧ yi = -1) then
        (computed.zero rNum, st.crash "integer division fault")
      else ({ what := rNum, n := ((Int.tdiv xi yi : Int) : ℚ), s := none }, st)
    | wMOD =>
      if yi = 0 ∨ (xi = -2147483648 ∧ yi = -1) then
        (computed.zero rNum, st.crash "integer division fault")
      else ({ what := rNum, n := ((Int.tmod xi yi : Int) : ℚ), s := none }, st)
    | _ => ({ what := rNum, n := (xi : ℚ), s := none }, st)

/-- Is `needle` at the start of `hay`? -/
def startsWith : List Char → List Char → Bool
  | _, [] => true
  | [], _ :: _ => false
  | h :: hay, c :: needle => h = c && startsWith hay needle

/-- `strstr(hay, needle)`: the offset of the first occurrence. -/
def strstr : List Char → List Char → Option Nat
  | [], needle => if needle.isEmpty then some 0 else none
  | h :: hay, needle =>
    if startsWith (h :: hay) needle then some 0
    else (strstr hay needle).map (· + 1)

/-- Is `x` outside "integer within `lo` to 2147483646"? The test
`x != trunc(x) || x < lo || x > 2147483646.` of `evalloc`. -/
def bad_int (x lo : ℚ) : Bool :=
  decide (x ≠ trunc x) || decide (x < lo) || decide (x > 2147483646)

/-- An exception of `evalloc` with its message. -/
def except_with (st : State) (why : String) : computed × State :=
  (computed.zero rExcept, st.warn why)

/-- A string result of `evalloc`. -/
def str_result (s : List Char) : computed := { what := rString, n := 0, s := some s }

/-- A number result of `evalloc`. -/
def num_result (n : ℚ) : computed := { what := rNum, n := n, s := none }

/-- The second `switch (l -> what)` of `evalloc`, "do what we have to do", for every
operator but `wNEGATE`, on the evaluated arguments `x`, `y`, `z`. -/
def apply_op (m : Libm) (st : State) (what : What) (x y z : computed) : computed × State :=
  match what with
  | wNOT => (num_result (if x.n = 0 then 1 else 0), st)
  | wPOWER => (num_result (m.pow x.n y.n), st)
  | wMUL => (num_result (x.n * y.n), st)
  | wDIV => (num_result (x.n / y.n), st)
  | wADD => (num_result (x.n + y.n), st)
  | wSUB => (num_result (x.n - y.n), st)
  | wGT => (num_result (if x.n > y.n then -1 else 0), st)
  | wGE => (num_result (if x.n ≥ y.n then -1 else 0), st)
  | wLT => (num_result (if x.n < y.n then -1 else 0), st)
  | wLE => (num_result (if x.n ≤ y.n then -1 else 0), st)
  | wEQ => (num_result (if x.n = y.n then -1 else 0), st)
  | wNE => (num_result (if x.n ≠ y.n then -1 else 0), st)
  | wAND => boolean_logic st x.n y.n what
  | wOR => boolean_logic st x.n y.n what
  | wXOR => boolean_logic st x.n y.n what
  | wEQV => boolean_logic st x.n y.n what
  | wIMP => boolean_logic st x.n y.n what
  | wNAND => boolean_logic st x.n y.n what
  | wNOR => boolean_logic st x.n y.n what
  | wIDIV => divmod st x.n y.n what
  | wMOD => divmod st x.n y.n what
  | wABS => (num_result |x.n|, st)
  | wASC =>
    match x.deref st with
    | ([], st1) => except_with st1 "need non-empty string"
    | (c :: _, st1) => (num_result (c.toNat : ℚ), st1)
  | wATAN => (num_result (m.atan x.n), st)
  | wCOS => (num_result (m.cos x.n), st)
  | wEXP => (num_result (m.exp x.n), st)
  | wFIX => (num_result (trunc x.n), st)
  | wINT => (num_result ((Rat.floor x.n : Int) : ℚ), st)
  | wLEN => (num_result (((x.deref st).1.length : Nat) : ℚ), (x.deref st).2)
  | wLOG => (num_result (m.log x.n), st)
  | wRND => (num_result (csprng st x.n).1, (csprng st x.n).2)
  | wSGN => (num_result ((if x.n > 0 then 1 else 0) - (if x.n < 0 then 1 else 0)), st)
  | wSIN => (num_result (m.sin x.n), st)
  | wSQRT => (num_result (m.sqrt x.n), st)
  | wTAN => (num_result (m.tan x.n), st)
  | wINSTR =>
    if bad_int x.n 1 then except_with st "need positive integer"
    else
      match y.deref st with
      | (hay, st1) =>
        if x.n > (hay.length : ℚ) then (num_result 0, st1)
        else
          match z.deref st1 with
          | (needle, st2) =>
            match strstr (hay.drop ((to_int x.n).toNat - 1)) needle with
            | some k => (num_result ((((to_int x.n).toNat - 1 + k + 1 : Nat)) : ℚ), st2)
            | none => (num_result 0, st2)
  | wCHR =>
    if decide (x.n ≠ trunc x.n) || decide (x.n < 1) || decide (x.n > 255) then
      except_with st "need integer within 1 to 255"
    else (str_result [Char.ofNat (to_int x.n).toNat], st)
  | wSTR => (str_result ((fmt_num x.n).take 31), st)
  | wCAT =>
    match x.deref st with
    | (xs, st1) =>
      match y.deref st1 with
      | (ys, st2) => (str_result (xs ++ ys), st2)
  | wSTRING =>
    if bad_int x.n 0 then except_with st "need non-negative integer"
    else
      match y.deref st with
      | ([], st1) => except_with st1 "need non-empty string"
      | (c :: _, st1) => (str_result (List.replicate (to_int x.n).toNat c), st1)
  | wSPACE =>
    if bad_int x.n 0 then except_with st "need non-negative integer"
    else (str_result (List.replicate (to_int x.n).toNat ' '), st)
  | wLEFT =>
    if bad_int y.n 0 then except_with st "need non-negative integer"
    else
      match x.deref st with
      | (xs, st1) =>
        (str_result (xs.take (if (xs.length : ℚ) > y.n then (to_int y.n).toNat
                              else xs.length)), st1)
  | wRIGHT =>
    if bad_int y.n 0 then except_with st "need non-negative integer for RIGHT$"
    else
      match x.deref st with
      | (xs, st1) =>
        (str_result (xs.drop (if (xs.length : ℚ) > y.n then xs.length - (to_int y.n).toNat
                              else 0)), st1)
  | wMID =>
    if bad_int y.n 1 then except_with st "need positive integer"
    else if bad_int z.n 0 then except_with st "need non-negative integer"
    else
      match x.deref st with
      | (xs, st1) =>
        let len : Int := xs.length
        let i0 : Int := to_int (y.n - 1)
        let j0 : Int := to_int z.n
        let i : Int := if i0 > len then len else i0
        let j : Int := if s32 (u32 (i + j0)) > len then len - i else j0
        (str_result ((xs.drop i.toNat).take j.toNat),
         if i + j > len then st1.crash "read past the end of a string" else st1)
  | _ => except_with st "unimplemented in evalloc"

/-- The number of arguments `evalloc` counts for a lego. -/
def count_args (f : Fields) (a0 a1 a2 a3 : lego) : Nat :=
  if f.what.ord < END_UNARY_GUYS.ord then 1
  else if f.what.ord < END_BINARY_GUYS.ord then 2
  else (if a0.isNull then 0 else 1) + (if a1.isNull then 0 else 1) +
       (if a2.isNull then 0 else 1) + (if a3.isNull then 0 else 1)

/-- `evalloc`: the value and the state behind it (warning, random source). The
arguments are evaluated last to first; `wNEGATE` evaluates its operand a second time, as
the source does. Evaluating the null pointer stops the process. -/
def evalloc (m : Libm) : State → lego → computed × State
  | st, NULL => (computed.zero rExcept, st.crash "null pointer")
  | st, node f a0 a1 a2 a3 _ =>
    match f.what with
    | wSTRLIT => (str_result (f.s.getD []), st)
    | wNUMLIT => (num_result f.n, st)
    | wSTRVAR =>
      match find_var st.strDB (f.s.getD []) with
      | none => except_with st "no such variable"
      | some v => (str_result (v.s.getD []), st)
    | wNUMVAR =>
      match find_var st.numDB (f.s.getD []) with
      | none => except_with st "no such variable"
      | some v => (num_result v.n, st)
    | _ =>
      if f.what.ord ≥ END_FUNCTION_GUYS.ord then except_with st "unimplemented evalloc"
      else
        let nargs := count_args f a0 a1 a2 a3
        let rz := if nargs = 3 then evalloc m st a2 else (computed.zero rExcept, st)
        let ry := if nargs = 3 ∨ nargs = 2 then evalloc m rz.2 a1
                  else (computed.zero rExcept, rz.2)
        let rx := if nargs = 3 ∨ nargs = 2 ∨ nargs = 1 then evalloc m ry.2 a0
                  else (computed.zero rExcept, ry.2)
        if (nargs = 3 ∧ rz.1.what = rExcept) ∨ ((nargs = 3 ∨ nargs = 2) ∧ ry.1.what = rExcept)
            ∨ ((nargs = 3 ∨ nargs = 2 ∨ nargs = 1) ∧ rx.1.what = rExcept) then
          (computed.zero rExcept, rx.2)
        else if f.what = wNEGATE then
          ({ (evalloc m rx.2 a0).1 with n := -(evalloc m rx.2 a0).1.n }, (evalloc m rx.2 a0).2)
        else apply_op m rx.2 f.what rx.1 ry.1 rz.1


/-! ## run.c -/

/-- The lego a pointer points to; `imm` is the tree of the immediate command. A pointer
to a line that is no longer stored yields `NULL`. -/
def deref (program imm : lego) (p : Ptr) : lego :=
  match p.root with
  | some k => (find_line program k).follow p.path
  | none => imm.follow p.path

/-- The pointer `p -> x` for a field `x` (`none` when that field is null). -/
def ptr_sel (program imm : lego) (p : Ptr) (x : Sel) : Option Ptr :=
  if ((deref program imm p).sel x).isNull then none
  else some { root := p.root, path := p.path ++ [x] }

/-- A pointer to a numbered line, used as a statement pointer. -/
def stmt_of_line (k : Option ℚ) : Option Ptr := k.map (fun n => { root := some n, path := [] })

/-- `flash` of util.c. -/
def flash (st : State) (style : Char) : State :=
  if st.noANSI then st
  else st.print
    (if style = 'c' then
       [Char.ofNat 27, '[', 'H', Char.ofNat 27, '[', '2', 'J', Char.ofNat 27, '[', '3', 'J']
     else if style = 'h' then [Char.ofNat 27, '[', '1', ';', '3', '2', 'm']
     else if style = 'e' then [Char.ofNat 27, '[', '1', ';', '3', '1', 'm']
     else [Char.ofNat 27, '[', 'm'])

/-- What `link` returns and leaves behind: the tree with its links set, the count of
missing lines, and the state (output, warning). -/
structure Linked where
  tree : lego
  bad : Nat
  st : State

/-- `link` of run.c, on the siblings from `l` on; `program` is the store searched by
`find_line`. -/
def link (program : lego) : State → lego → ℚ → Linked
  | st, NULL, _ => { tree := NULL, bad := 0, st := st }
  | st, node f a0 a1 a2 a3 nx, where_ =>
    let wh := if f.what = wNUMBEREDLINE then f.n else where_
    let r0 := link program st a0 wh
    let r1 := link program r0.st a1 wh
    let r2 := link program r1.st a2 wh
    let r3 := link program r2.st a3 wh
    let self : Fields × Nat × State :=
      if f.what ≠ wLINENUM then (f, 0, r3.st)
      else if f.n < 0 then ({ f with link := none }, 0, r3.st)
      else if !(find_line program f.n).isNull then ({ f with link := some f.n }, 0, r3.st)
      else (f, 1,
        (flash (((flash r3.st 'e').print
            (['c','a','n','\'','t',' ','f','i','n','d',' ','l','i','n','e',' '] ++ fmt_0f f.n ++
             (if wh ≥ 0 then [' ','i','n',' '] ++ fmt_0f wh else []) ++ ['\n']))) 'n').warn "~")
    let rn := link program self.2.2 nx wh
    { tree := node self.1 r0.tree r1.tree r2.tree r3.tree rn.tree,
      bad := r0.bad + r1.bad + r2.bad + r3.bad + self.2.1 + rn.bad,
      st := rn.st }

/-- The loop of `do_alter` over the statements of a line: the chain with the links
rewritten to `de_link`, and `yes`. -/
def alter_chain (de_link : Option ℚ) : lego → lego × Bool
  | NULL => (NULL, false)
  | node f a0 a1 a2 a3 nx =>
    if (f.what = wGOTO ∨ f.what = wGOSUB ∨ f.what = wRESTORE ∨ f.what = wALTER)
        ∧ a0.isNull = false then
      (node f (a0.setF { a0.f with link := de_link }) a1 a2 a3 (alter_chain de_link nx).1, true)
    else (node f a0 a1 a2 a3 (alter_chain de_link nx).1, (alter_chain de_link nx).2)

/-- The stored program with the statements of the line numbered `k` replaced. -/
def set_code (k : ℚ) (code : lego) : lego → lego
  | NULL => NULL
  | node f a0 a1 a2 a3 nx =>
    if f.n = k then node f code a1 a2 a3 nx else node f a0 a1 a2 a3 (set_code k code nx)

/-- `do_alter` of run.c. Following a null or dangling `vi -> link` stops the process. -/
def do_alter (st : State) (vi de : lego) : State :=
  match vi.link with
  | none => st.crash "null pointer"
  | some k =>
    if (find_line st.program k).isNull then st.crash "dangling pointer"
    else
      let r := alter_chain de.link (find_line st.program k).a0
      let st1 := { st with program := set_code k r.1 st.program }
      if r.2 then st1 else st1.warn "no alterations"

/-- The selection test of `list` and `del`. -/
def in_range (vi de n : ℚ) : Bool :=
  (decide (vi < 0) || decide (n ≥ vi)) && (decide (de < 0) || decide (n ≤ de))

/-- The text `list` prints, and `any`. -/
def list_chain (forceParens : Bool) (vi de : ℚ) : lego → List Char × Bool
  | NULL => ([], false)
  | node f a0 a1 a2 a3 nx =>
    if in_range vi de f.n then
      (printLego forceParens (node f a0 a1 a2 a3 nx) ++ ['\n'] ++
        (list_chain forceParens vi de nx).1, true)
    else list_chain forceParens vi de nx

/-- `list` of run.c. -/
def list (st : State) (vi de : ℚ) : State :=
  let r := list_chain st.forceParens vi de st.program
  let st1 := st.print r.1
  if !r.2 ∧ vi = de ∧ vi ≥ 0 then st1.warn "no such line to list" else st1

/-- The chain `del` leaves, and `any`. -/
def del_chain (vi de : ℚ) : lego → lego × Bool
  | NULL => (NULL, false)
  | node f a0 a1 a2 a3 nx =>
    if in_range vi de f.n then ((del_chain vi de nx).1, true)
    else (node f a0 a1 a2 a3 (del_chain vi de nx).1, (del_chain vi de nx).2)

/-- `del` of run.c. -/
def del (st : State) (vi de : ℚ) : State :=
  let r := del_chain vi de st.program
  let st1 := { st with program := r.1 }
  if !r.2 ∧ vi = de ∧ vi ≥ 0 then st1.warn "no such line" else reset_program st1

/-- `dirty` after a string was printed: whether its last character is not a newline. -/
def dirty_after (dirty : Bool) (s : List Char) : Bool :=
  match s.getLast? with
  | none => dirty
  | some c => c ≠ '\n'

/-- The loop of `runPrint` over the items; true iff an item raised an exception. -/
def runPrint_loop (m : Libm) : State → lego → Bool × State
  | st, NULL => (false, st)
  | st, node f a0 a1 a2 a3 nx =>
    match evalloc m st (node f a0 a1 a2 a3 nx) with
    | (q, st1) =>
      match q.what with
      | rExcept => (true, st1)
      | k =>
        let st2 : State :=
          if k = rString then
            { st1.print (q.s.getD []) with dirty := dirty_after st1.dirty (q.s.getD []) }
          else { st1.print (fmt_num q.n) with dirty := true }
        let st3 : State :=
          if f.list_delim = 0 then
            { st2.print (if nx.isNull then ['\n'] else [' ']) with dirty := !nx.isNull }
          else st2
        runPrint_loop m st3 nx

/-- `runPrint` of run.c. -/
def runPrint (m : Libm) (st : State) (l : lego) : Bool × State :=
  runPrint_loop m (if l.a0.isNull then st.print ['\n'] else st) l.a0

/-- `byItself` of run.c. -/
def byItself (st : State) : State :=
  if st.dirty then { st.print ['\n'] with dirty := false } else st

/-- `advise` of run.c. -/
def advise (st : State) (msg : List Char) (ran : Bool) (lNum : ℚ) : State :=
  if msg.head? = some '~' then st
  else
    flash ((flash (byItself st) 'e').print
      (msg ++ (if ran ∧ lNum ≥ 0 then [' ','i','n',' '] ++ fmt_0f lNum else []) ++ ['\n'])) 'n'

/-- `get_next_data` of run.c: a pointer to the next datum. Each `goto requeue` takes one
unit of fuel; `none` as first component means the fuel ran out. -/
def get_next_data : Nat → State → Option (Option Ptr × State)
  | 0, _ => none
  | fuel + 1, st =>
    match st.prog_con.data_datum with
    | some l =>
      some (some l, { st with prog_con :=
        { st.prog_con with data_datum := ptr_sel st.program NULL l Sel.next } })
    | none =>
      match st.prog_con.data_stmt with
      | some p =>
        if (deref st.program NULL p).what = wDATA then
          get_next_data fuel { st with prog_con :=
            { st.prog_con with data_datum := ptr_sel st.program NULL p Sel.a0,
                               data_stmt := ptr_sel st.program NULL p Sel.next } }
        else
          get_next_data fuel { st with prog_con :=
            { st.prog_con with data_stmt := ptr_sel st.program NULL p Sel.next } }
      | none =>
        match st.prog_con.data_line with
        | some k =>
          get_next_data fuel { st with prog_con :=
            { st.prog_con with
                data_stmt := ptr_sel st.program NULL { root := some k, path := [] } Sel.a0,
                data_line := line_ptr (find_line st.program k).next } }
        | none => some (none, st)

/-- The number of legos of a tree. -/
def lego.size : lego → Nat
  | NULL => 0
  | node _ a0 a1 a2 a3 nx => 1 + a0.size + a1.size + a2.size + a3.size + nx.size

/-- `read_line` of util.c: the next line of standard input, `none` at its end. -/
def read_line (st : State) : Option (List Char) × State :=
  match st.stdin with
  | [] => (none, st)
  | s :: rest => (some s, { st with stdin := rest })

/-- `get_inputs` of run.c from the variable `l` on, with the rest `s` of the input line;
`redo_from` is the whole variable list. One unit of fuel per round of the `while` and per
"redo from start"; `none` means the fuel ran out. -/
def get_inputs_loop (prompt : List Char) (redo_from : lego) :
    Nat → State → lego → Option (List Char) → Option State
  | 0, _, _, _ => none
  | fuel + 1, st, l, s =>
    let oops : State → Option State := fun st0 =>
      match read_line ((flash ((flash st0 'e').print
              ['r','e','d','o',' ','f','r','o','m',' ','s','t','a','r','t','\n']) 'n').print
              prompt) with
      | (s1, st1) => get_inputs_loop prompt redo_from fuel st1 redo_from s1
    if l.isNull then
      match s with
      | none => some st
      | some t => if (nothingMore t).isSome then some st else oops st
    else
      match s with
      | none => some { st with ctrl_c := 1 }
      | some t =>
        let after : State → List Char → Option State := fun st0 t1 =>
          if l.next.isNull then
            if (nothingMore t1).isSome then some st0 else oops st0
          else if (nothingMore t1).isSome then
            match read_line (st0.print ['?', ' ']) with
            | (s1, st1) => get_inputs_loop prompt redo_from fuel st1 l.next s1
          else match symbol t1 [','] with
            | some t2 => get_inputs_loop prompt redo_from fuel st0 l.next (some t2)
            | none => oops st0
        if l.what = wSTRVAR then
          match str_lit t with
          | some (var, t1) => after (set_var st l.str (some var.str) 0) t1
          | none =>
            after (set_var st l.str (some (unquoted_str_lit t).1.str) 0) (unquoted_str_lit t).2
        else if (nothingMore t).isSome then
          match read_line (st.print ['?', ' ']) with
          | (s1, st1) => get_inputs_loop prompt redo_from fuel st1 l s1
        else
          match num_lit t with
          | none => oops st
          | some (var, t1) => after (set_var st l.str none var.n) t1

/-- `get_inputs` of run.c. -/
def get_inputs (fuel : Nat) (st : State) (l : lego) (prompt : List Char) : Option State :=
  match read_line (st.print prompt) with
  | (s, st1) => get_inputs_loop prompt l fuel st1 l s

/-- The index of the first frame `expire_next_stack` stops at. -/
def find_frame (nVar : Option (List Char)) : List next_stack → Option Nat
  | [] => none
  | ns :: rest =>
    if nVar.isNone ∨ nVar = some ns.nVar then some 0
    else (find_frame nVar rest).map (· + 1)

/-- `expire_next_stack` of run.c, on the stack. -/
def expire_next_stack (stack : List next_stack) (nVar : Option (List Char))
    (inclusive : Bool) : List next_stack :=
  match find_frame nVar stack with
  | none => stack
  | some i => stack.drop (i + (if inclusive then 1 else 0))


/-- The context `single_step` works on: `prog_con` when `c == &prog_con`, else the
immediate context `ic`. -/
def getc (prog : Bool) (st : State) (ic : x_con) : x_con := if prog then st.prog_con else ic

/-- An assignment through `c`. -/
def updc (prog : Bool) (st : State) (ic : x_con) (f : x_con → x_con) : State × x_con :=
  if prog then ({ st with prog_con := f st.prog_con }, ic) else (st, f ic)

/-- The loop `while (!c -> stmt)` at the head of `single_step`; when it leaves
`stmt` null, `single_step` returns `wEND`. -/
def seek_stmt (program : lego) (c : x_con) : x_con :=
  match c.stmt with
  | some _ => c
  | none =>
    match c.line with
    | none => c
    | some k =>
      { c with line := line_ptr (find_line program k).next,
               stmt := stmt_of_line (line_ptr (find_line program k).next) }

/-- The lego `dest` with `i == q.n` in the loops of `ON ... GOTO`, `ON ... GOSUB` and
`ON ... ALTER`, counting from `i`. -/
def nth_dest (n : ℚ) : lego → Nat → lego
  | NULL, _ => NULL
  | node f a0 a1 a2 a3 nx, i =>
    if (i : ℚ) = n then node f a0 a1 a2 a3 nx else nth_dest n nx (i + 1)

/-- The fuel `single_step` gives `get_next_data`: more than twice the legos of the
program. -/
def data_fuel (st : State) : Nat := 2 * st.program.size + 2

/-- The loop of `READ` over its variables; true iff a datum raised an exception. Running
out of the fuel of `data_fuel` stops the process. -/
def read_loop (m : Libm) : State → lego → Bool × State
  | st, NULL => (false, st)
  | st, node f _ _ _ _ nx =>
    match get_next_data (data_fuel st) st with
    | none => (false, st.crash "out of fuel")
    | some (none, st1) => (false, st1.warn "out of data")
    | some (some datum, st1) =>
      match evalloc m st1 (deref st1.program NULL datum) with
      | (q, st2) =>
        if q.what = rExcept then (true, st2)
        else if f.what = wSTRVAR then
          if q.what ≠ rString then read_loop m (st2.warn "type mismatch") nx
          else read_loop m (set_var st2 (f.s.getD []) (some (q.s.getD [])) 0) nx
        else if q.what ≠ rNum then (false, st2.warn "type mismatch")
        else read_loop m (set_var st2 (f.s.getD []) none q.n) nx

/-- The value `xyz[i]` of `FOR`: 1 for a missing expression; `none` when the value is
not a number. -/
def for_param (m : Libm) (st : State) (a : lego) : Option ℚ × State :=
  if a.isNull then (some 1, st)
  else match evalloc m st a with
    | (q, st1) => if q.what ≠ rNum then (none, st1) else (some q.n, st1)

/-- The fuel `single_step` gives `get_inputs`. -/
def input_fuel (st : State) (l : lego) : Nat := (st.stdin.length + 2) * (l.size + 2)

/-- `single_step` of run.c on the context `c` (`prog` tells `c == &prog_con`, `ic` is
the immediate context, `imm` the immediate command). Returns the "honey do"
(`wZERO_IS_UNUSED` is 0), the state and the immediate context. -/
def single_step (m : Libm) (imm : lego) (prog : Bool) (st0 : State) (ic0 : x_con) :
    What × State × x_con :=
  let c0 := seek_stmt st0.program (getc prog st0 ic0)
  match c0.stmt with
  | none => (wEND, (updc prog st0 ic0 (fun _ => c0)).1, (updc prog st0 ic0 (fun _ => c0)).2)
  | some p =>
    let l := deref st0.program imm p
    let s1 := updc prog st0 ic0
      (fun _ => { c0 with stmt := ptr_sel st0.program imm p Sel.next })
    let st := s1.1
    let ic := s1.2
    if l.isNull then (wZERO_IS_UNUSED, st.crash "dangling pointer", ic)
    else
    match l.what with
    | wRUN => (wRUN, { st with start_at := if l.a0.isNull then none else l.a0.link }, ic)
    | wNEW => (wNEW, st, ic)
    | wEND => (wEND, st, ic)
    | wSTOP => (wSTOP, st, ic)
    | wCONT => (wCONT, st, ic)
    | wNUMBEREDLINE =>
      (wZERO_IS_UNUSED,
       (updc prog st ic (fun c => { c with lNum := l.n, stmt := ptr_sel st.program imm p Sel.a0 })).1,
       (updc prog st ic (fun c => { c with lNum := l.n, stmt := ptr_sel st.program imm p Sel.a0 })).2)
    | wLIST => (wZERO_IS_UNUSED, list st l.a0.n l.a0.next.n, ic)
    | wDEL =>
      if prog then (wERROR, st.warn "attempt to modify running program", ic)
      else (wZERO_IS_UNUSED, del st l.a0.n l.a0.next.n, ic)
    | wCLS => (wZERO_IS_UNUSED, flash st 'c', ic)
    | wPRINT =>
      match runPrint m st l with
      | (true, st1) => (wERROR, st1, ic)
      | (false, st1) => (wZERO_IS_UNUSED, st1, ic)
    | wIF =>
      match evalloc m st l.a0 with
      | (q, st1) =>
        if q.what = rExcept then (wERROR, st1, ic)
        else if q.n ≠ 0 then
          if l.a1.isNull then (wZERO_IS_UNUSED, st1, ic)
          else (wZERO_IS_UNUSED,
                (updc prog st1 ic (fun c => { c with stmt := ptr_sel st.program imm p Sel.a1 })).1,
                (updc prog st1 ic (fun c => { c with stmt := ptr_sel st.program imm p Sel.a1 })).2)
        else if l.a2.isNull then (wZERO_IS_UNUSED, st1, ic)
        else (wZERO_IS_UNUSED,
              (updc prog st1 ic (fun c => { c with stmt := ptr_sel st.program imm p Sel.a2 })).1,
              (updc prog st1 ic (fun c => { c with stmt := ptr_sel st.program imm p Sel.a2 })).2)
    | wLET =>
      match evalloc m st l.a1 with
      | (q, st1) =>
        if q.what = rExcept then (wERROR, st1, ic)
        else if l.a0.what = wSTRVAR then
          (wZERO_IS_UNUSED, set_var st1 l.a0.str q.s 0, ic)
        else if l.a0.what = wNUMVAR then
          (wZERO_IS_UNUSED, set_var st1 l.a0.str none q.n, ic)
        else (wERROR, st1.warn "assertion failed (check parser)", ic)
    | wONGOTO =>
      match evalloc m st l.a0 with
      | (q, st1) =>
        if q.what = rExcept then (wERROR, st1, ic)
        else if (nth_dest q.n l.a1 1).isNull then (wZERO_IS_UNUSED, st1, ic)
        else if !prog then
          (wONGOTO, { st1 with start_at := (nth_dest q.n l.a1 1).link }, ic)
        else
          (wZERO_IS_UNUSED,
           { st1 with prog_con := { st1.prog_con with
               line := (nth_dest q.n l.a1 1).link,
               stmt := stmt_of_line (nth_dest q.n l.a1 1).link } }, ic)
    | wGOTO =>
      if !prog then (wGOTO, { st with start_at := l.a0.link }, ic)
      else
        (wZERO_IS_UNUSED,
         { st with prog_con := { st.prog_con with
             line := l.a0.link, stmt := stmt_of_line l.a0.link } }, ic)
    | wREM => (wZERO_IS_UNUSED, st, ic)
    | wGOSUB =>
      if !prog then (wZERO_IS_UNUSED, st.warn "immediate GOSUB not supported", ic)
      else
        (wZERO_IS_UNUSED,
         { st with prog_con := { st.prog_con with
             ret_to := { line := st.prog_con.line, stmt := st.prog_con.stmt, running := true }
                       :: st.prog_con.ret_to,
             line := l.a0.link, stmt := stmt_of_line l.a0.link } }, ic)
    | wONGOSUB =>
      if !prog then (wZERO_IS_UNUSED, st.warn "immediate ON .. GOSUB not supported", ic)
      else
        match evalloc m st l.a0 with
        | (q, st1) =>
          if q.what = rExcept then (wERROR, st1, ic)
          else if (nth_dest q.n l.a1 1).isNull then (wZERO_IS_UNUSED, st1, ic)
          else
            (wZERO_IS_UNUSED,
             { st1 with prog_con := { st1.prog_con with
                 ret_to := { line := st1.prog_con.line, stmt := st1.prog_con.stmt,
                             running := true } :: st1.prog_con.ret_to,
                 line := (nth_dest q.n l.a1 1).link,
                 stmt := stmt_of_line (nth_dest q.n l.a1 1).link } }, ic)
    | wRETURN =>
      match st.prog_con.ret_to with
      | [] => (wZERO_IS_UNUSED, st.warn "RETURN without GOSUB", ic)
      | ret_to :: rest =>
        (wRETURN,
         { st with prog_con := { st.prog_con with
             line := ret_to.line, stmt := ret_to.stmt, ret_to := rest } }, ic)
    | wRESTORE =>
      (wZERO_IS_UNUSED,
       { st with prog_con := { st.prog_con with
           data_line := if l.a0.isNull then line_ptr st.program else l.a0.link,
           data_stmt := none, data_datum := none } }, ic)
    | wDATA => (wZERO_IS_UNUSED, st, ic)
    | wREAD =>
      match read_loop m st l.a0 with
      | (true, st1) => (wERROR, st1, ic)
      | (false, st1) => (wZERO_IS_UNUSED, st1, ic)
    | wINPUT =>
      match (if l.a0.isNull then some ['?', ' '] else l.a0.s) with
      | none => (wZERO_IS_UNUSED, st.crash "null pointer", ic)
      | some prompt =>
        match get_inputs (input_fuel st l.a1) st l.a1 prompt with
        | none => (wZERO_IS_UNUSED, st.crash "out of fuel", ic)
        | some st1 => (wZERO_IS_UNUSED, st1, ic)
    | wLINEINPUT =>
      match read_line st with
      | (some s, st1) => (wZERO_IS_UNUSED, set_var st1 l.a0.str (some s) 0, ic)
      | (none, st1) => (wZERO_IS_UNUSED, { st1 with ctrl_c := 1 }, ic)
    | wFOR =>
      match for_param m st l.a1 with
      | (none, st1) => (wERROR, st1, ic)
      | (some x1, st1) =>
        match for_param m st1 l.a2 with
        | (none, st2) => (wERROR, st2, ic)
        | (some x2, st2) =>
          match for_param m st2 l.a3 with
          | (none, st3) => (wERROR, st3, ic)
          | (some x3, st3) =>
            let push : x_con → x_con := fun c =>
              { c with next_to :=
                  ({ nVar := l.a0.str, vi := x1, de := x2, step := x3,
                     line := c.line, stmt := c.stmt } : next_stack)
                  :: expire_next_stack c.next_to (some l.a0.str) true }
            (wZERO_IS_UNUSED,
             set_var (updc prog st3 ic push).1 l.a0.str none x1,
             (updc prog st3 ic push).2)
    | wNEXT =>
      let s : Option (List Char) := if l.a0.isNull then none else some l.a0.str
      let s2 := updc prog st ic (fun c => { c with next_to := expire_next_stack c.next_to s false })
      match (getc prog s2.1 s2.2).next_to with
      | [] => (wZERO_IS_UNUSED, s2.1.warn "NEXT without FOR", s2.2)
      | next_to :: rest =>
        if s.isSome ∧ s ≠ some next_to.nVar then
          (wZERO_IS_UNUSED, s2.1.warn "NEXT without FOR", s2.2)
        else
          match num_from_name_hack s2.1 next_to.nVar with
          | (v, st1) =>
            if (next_to.step > 0 ∧ v + next_to.step > next_to.de)
                ∨ (next_to.step < 0 ∧ v + next_to.step < next_to.de) then
              (wZERO_IS_UNUSED,
               (updc prog st1 s2.2 (fun c => { c with next_to := rest })).1,
               (updc prog st1 s2.2 (fun c => { c with next_to := rest })).2)
            else
              (wZERO_IS_UNUSED,
               (updc prog (set_var st1 next_to.nVar none (v + next_to.step)) s2.2
                  (fun c => { c with line := next_to.line, stmt := next_to.stmt })).1,
               (updc prog (set_var st1 next_to.nVar none (v + next_to.step)) s2.2
                  (fun c => { c with line := next_to.line, stmt := next_to.stmt })).2)
    | wALTER => (wZERO_IS_UNUSED, do_alter st l.a0 l.a1, ic)
    | wONALTER =>
      match evalloc m st l.a0 with
      | (q, st1) =>
        if q.what = rExcept then (wERROR, st1, ic)
        else if (nth_dest q.n l.a2 1).isNull then (wZERO_IS_UNUSED, st1, ic)
        else (wZERO_IS_UNUSED, do_alter st1 l.a1 (nth_dest q.n l.a2 1), ic)
    | _ =>
      (wZERO_IS_UNUSED,
       flash ((flash st 'e').print
         (['u','n','i','m','p','l','e','m','e','n','t','e','d',':',' '] ++ guys l.what ++ ['\n']))
         'n', ic)

/-- `erase_program` of run.c. -/
def erase_program (st : State) : State :=
  erase_run_vars { reset_program st with program := NULL }

/-- The locals of `immediate` between two steps. -/
structure Frame where
  st : State
  imm : lego
  imm_con : x_con
  running : Bool

/-- One round of the loop of `immediate`, from `next_one` to `goto next_one`: `Sum.inl`
the value returned, `Sum.inr` the locals for the next round. -/
def immediate_round (m : Libm) (fr : Frame) : (Int × State) ⊕ Frame :=
  let ran := fr.running
  match single_step m fr.imm fr.running fr.st fr.imm_con with
  | (what, st0, ic0) =>
    let r : Option (State × Bool) :=
      match what with
      | wRUN | wGOTO | wONGOTO =>
        let lk := link st0.program st0 st0.program (-1)
        let st1 := { lk.st with program := lk.tree }
        if lk.bad ≠ 0 then some (st1, fr.running)
        else
          let st2 := if what = wRUN then reset_program (erase_run_vars st1) else st1
          let start := if st2.start_at.isSome then st2.start_at else line_ptr st2.program
          some ({ st2 with prog_con := { st2.prog_con with
                    line := start, stmt := stmt_of_line start } }, true)
      | wNEW => some (erase_program st0, false)
      | wEND => if !fr.running then none else some (reset_program st0, false)
      | wSTOP => some ({ st0 with ctrl_c := -1 }, fr.running)
      | wCONT =>
        if st0.prog_con.line.isNone then some (st0.warn "can't continue", fr.running)
        else some (st0, true)
      | wRETURN => some (st0, true)
      | _ => some (st0, fr.running)
    match r with
    | none => Sum.inl (1, byItself st0)
    | some (st1, running1) =>
      let w : State × x_con :=
        match st1.warning with
        | none => (st1, ic0)
        | some msg =>
          let st2 := { advise st1 msg.data ran st1.prog_con.lNum with warning := none }
          if ran then (reset_program st2, ic0)
          else (st2, { ic0 with line := none, stmt := none, ret_to := [], next_to := [] })
      let b : State × Bool :=
        if w.1.ctrl_c ≠ 0 then
          ({ advise (if w.1.ctrl_c > 0 then w.1.print ['\n'] else w.1)
               ['b','r','e','a','k'] ran w.1.prog_con.lNum with ctrl_c := 0 }, false)
        else (w.1, running1)
      Sum.inr { st := b.1, imm := fr.imm, imm_con := w.2, running := b.2 }

/-- The loop of `immediate`; `none` when the fuel runs out before it returns, and the
loop ends when the process is gone. -/
def immediate_loop (m : Libm) : Nat → Frame → Option (Int × State)
  | 0, _ => none
  | fuel + 1, fr =>
    if fr.st.halt.isSome then some (1, fr.st)
    else match immediate_round m fr with
      | Sum.inl r => some r
      | Sum.inr fr1 => immediate_loop m fuel fr1

/-- `immediate` of run.c: the value returned and the state. -/
def immediate (m : Libm) (fuel : Nat) (st : State) (l : lego) : Option (Int × State) :=
  if l.what = wNUMBEREDLINE then some (0, save_line st l)
  else
    let lk := link st.program st l (-1)
    if lk.bad ≠ 0 then some (1, lk.st)
    else
      immediate_loop m fuel
        { st := lk.st, imm := lk.tree,
          imm_con := { x_con.zero with stmt := some { root := none, path := [] }, lNum := -1 },
          running := false }

/-- The loop of `main` of util.c over the lines typed: each is parsed, its warning
printed, and handed to `immediate`; "Ok" is printed when that returns true. `none` when
the fuel runs out in a command. -/
def main_loop (m : Libm) (fuel : Nat) : Nat → State → Option State
  | 0, st => some st
  | k + 1, st =>
    match read_line { st with warning := none } with
    | (none, st1) => some st1
    | (some s, st1) =>
      match command_line (parse_fuel s) s none with
      | (res, w) =>
        let st2 : State :=
          match w with
          | none => st1
          | some msg => flash ((flash st1 'e').print (msg.data ++ ['\n'])) 'n'
        match res with
        | none => main_loop m fuel k st2
        | some (l, _) =>
          match immediate m fuel st2 l with
          | none => none
          | some (r, st3) =>
            if st3.halt.isSome then some st3
            else if r ≠ 0 then
              main_loop m fuel k (flash ((flash st3 'h').print ['O','k','\n']) 'n')
            else main_loop m fuel k st3

/-- `main` of util.c on the lines of `input`, up to the end of input (without the final
clean-up, which prints nothing unless memory leaked): the text written to standard
output. -/
def main (m : Libm) (fuel : Nat) (input : List (List Char)) : Option (List Char) :=
  let st0 := { State.init with stdin := input }
  (main_loop m fuel (input.length + 1)
    (flash ((flash st0 'h').print ['O','k','\n']) 'n')).map (fun st => st.out)

/-- An instance of the math.h functions for running programs that call none of them. -/
def Libm.none : Libm :=
  { pow := fun _ _ => 0, atan := fun _ => 0, cos := fun _ => 0, exp := fun _ => 0,
    log := fun _ => 0, sin := fun _ => 0, sqrt := fun _ => 0, tan := fun _ => 0 }


/-! ## Concrete trees and programs the theorems speak about -/

/-- The line `10 <code>` as `command` builds it. -/
def line10 (code : lego) : lego :=
  node { Fields.zero wNUMBEREDLINE with n := 10 } code NULL NULL NULL NULL

/-- The tree of `LIST` with the range `(a, b)` as `line_range_st` builds it. -/
def listRange (a b : ℚ) : lego :=
  (newLego wLIST).setA0 ((mkLineNum a).setNext (mkLineNum b))

/-- The store after the lines of `text` were typed in, one after the other: each is
parsed by `parse` and handed to `save_line`; a line that does not parse is dropped. -/
def typed_in (text : List String) : State :=
  text.foldl (fun st s =>
    match parse s.data with
    | (some (l, _), _) => save_line st l
    | (none, _) => st) State.init

/-- The text standard output holds after the immediate command `cmd` on the state `st`;
`none` when the command does not parse or the fuel runs out. -/
def output_of (m : Libm) (fuel : Nat) (st : State) (cmd : String) : Option (List Char) :=
  match parse cmd.data with
  | (some (l, _), _) => (immediate m fuel st l).map (fun r => r.2.out)
  | (none, _) => none


/-- The program of the `GOSUB` scenario. -/
def gosub_program : List String :=
  ["10 GOSUB 100", "20 PRINT [done]", "30 END", "100 PRINT [sub]", "110 RETURN"]

/-- The state `st` with its program linked and the program context at the first
statement of the stored line `k`. -/
def at_line (st : State) (k : ℚ) : State :=
  { st with program := (link st.program st st.program (-1)).tree,
            prog_con := { st.prog_con with
                            line := some k,
                            stmt := some { root := some k, path := [Sel.a0] },
                            lNum := k } }


/-- Does `do_alter` rewrite the line reference of this statement: one of `GOTO`, `GOSUB`,
`RESTORE`, `ALTER` with a line reference in `args[0]`? -/
def alterable (l : lego) : Bool :=
  (decide (l.what = wGOTO) || decide (l.what = wGOSUB) || decide (l.what = wRESTORE)
    || decide (l.what = wALTER)) && !l.a0.isNull

/-- Does the path `r`, from the first statement `c` of a line, lead along the statement
chain to `args[0]` of a statement that `do_alter` rewrites? -/
def is_ref : lego → List Sel → Bool
  | c, [Sel.a0] => alterable c
  | c, Sel.next :: r => is_ref c.next r
  | _, _ => false

/-- Does the path, from a stored line, lead to a line reference that `ALTER` of that
line rewrites? -/
def targets (line : lego) (path : List Sel) : Bool :=
  match path with
  | Sel.a0 :: r => is_ref line.a0 r
  | _ => false


/-- The program of the `ALTER` example: line 10 holds a `GOTO`, an `ON ... GOTO` and a
`GOTO` inside an `IF`. -/
def alter_program : List String :=
  ["10 GOTO 30 : ON X GOTO 30, 30 : IF X THEN GOTO 30", "20 PRINT [b]", "30 ALTER 10 TO 20"]

/-- The state in which that program is about to execute its `ALTER`. -/
def alter_state : State := at_line (typed_in alter_program) 30

/-- The program of the `READ` scenario. -/
def read_program : List String := ["10 DATA 1+1, [hi]", "20 READ A, B$", "30 PRINT A, B$"]

/-- The pointers to the items of a list, in list order; `p` points to the first item,
the lego `l`. -/
def item_ptrs (p : Ptr) : lego → List Ptr
  | NULL => []
  | node _ _ _ _ _ nx => p :: item_ptrs { root := p.root, path := p.path ++ [Sel.next] } nx

/-- The pointers to the data of a statement chain, in program order: for each `DATA`
statement, in statement order, its items in item order; other statements hold none.
`p` points to the first statement, the lego `l`. -/
def stmt_data (p : Ptr) : lego → List Ptr
  | NULL => []
  | node f a0 _ _ _ nx =>
    (if f.what = wDATA then item_ptrs { root := p.root, path := p.path ++ [Sel.a0] } a0 else [])
      ++ stmt_data { root := p.root, path := p.path ++ [Sel.next] } nx

/-- The pointers to the data of the stored lines from `l` on, in program order: line by
line in store order, within a line by `stmt_data`. -/
def program_data : lego → List Ptr
  | NULL => []
  | node f a0 _ _ _ nx =>
    stmt_data { root := some f.n, path := [Sel.a0] } a0 ++ program_data nx

/-- The results of `n` calls of `get_next_data` in a row, each with the fuel
`single_step` gives it, and the state behind them. -/
def next_data_n : Nat → State → List (Option Ptr) × State
  | 0, st => ([], st)
  | n + 1, st =>
    match get_next_data (data_fuel st) st with
    | none => ([], st)
    | some (d, st1) => (d :: (next_data_n n st1).1, (next_data_n n st1).2)


/-- The data still ahead of the data cursor of the program context, in the order
`get_next_data` delivers them: the rest of the current item list, then the data of the
rest of the current statement chain, then the data of the lines from `data_line` on. -/
def cursor_data (st : State) : List Ptr :=
  (match st.prog_con.data_datum with
    | some p => item_ptrs p (deref st.program NULL p)
    | none => []) ++
  (match st.prog_con.data_stmt with
    | some q => stmt_data q (deref st.program NULL q)
    | none => []) ++
  (match st.prog_con.data_line with
    | some k => program_data (find_line st.program k)
    | none => [])

/-- The data cursor points at legos of the stored program. -/
def CursorOK (st : State) : Prop :=
  (∀ p, st.prog_con.data_datum = some p → (deref st.program NULL p).isNull = false) ∧
  (∀ q, st.prog_con.data_stmt = some q → (deref st.program NULL q).isNull = false) ∧
  (∀ k, st.prog_con.data_line = some k → find_line st.program k ∈ st.program.chain)

/-- The rounds `get_next_data` needs to pass the lines from `l` on. -/
def lines_work : lego → Nat
  | NULL => 0
  | node _ a0 _ _ _ nx => 1 + a0.chain.length + lines_work nx

/-- The rounds `get_next_data` needs until it returns. -/
def cursor_work (st : State) : Nat :=
  match st.prog_con.data_datum with
  | some _ => 0
  | none =>
    (match st.prog_con.data_stmt with
      | some q => (deref st.program NULL q).chain.length
      | none => 0) +
    (match st.prog_con.data_line with
      | some k => lines_work (find_line st.program k)
      | none => 0)


/-- The state with the data cursor of the program context set. -/
def set_cursor (st : State) (dl : Option ℚ) (ds dd : Option Ptr) : State :=
  { st with prog_con := { st.prog_con with data_line := dl, data_stmt := ds, data_datum := dd } }


/-- The state after the immediate command `cmd` on the state `st`; `none` when the
command does not parse or the fuel runs out. -/
def run_state (m : Libm) (fuel : Nat) (st : State) (cmd : String) : Option State :=
  match parse cmd.data with
  | (some (l, _), _) => (immediate m fuel st l).map (fun r => r.2)
  | (none, _) => none

/-- The value of the numeric variable `name`, when it exists. -/
def num_value (st : State) (name : String) : Option ℚ :=
  (find_var st.numDB name.data).map (fun v => v.n)

/-- A numeric literal holding `q`. -/
def numLit (q : ℚ) : lego := node { Fields.zero wNUMLIT with n := q } NULL NULL NULL NULL NULL

/-- The numeric variable `name`, with the `next` sibling `nx`. -/
def numVar (name : String) (nx : lego) : lego :=
  node { Fields.zero wNUMVAR with s := some name.data } NULL NULL NULL NULL nx

/-- The statement `FOR name = a TO b STEP s`, followed by the statements `nx`. -/
def forStmt (name : String) (a b s : ℚ) (nx : lego) : lego :=
  node (Fields.zero wFOR) (numVar name NULL) (numLit a) (numLit b) (numLit s) nx

/-- The statement `NEXT name`, followed by the statements `nx`. -/
def nextStmt (name : String) (nx : lego) : lego :=
  node (Fields.zero wNEXT) (numVar name NULL) NULL NULL NULL nx

/-- The stored program `10 FOR I = a TO b STEP s : NEXT I`. -/
def for_program (a b s : ℚ) : lego :=
  line10 (forStmt "I" a b s (nextStmt "I" NULL))

/-- The integers of magnitude up to 2^53: a `double` holds each of them exactly, and the
sum of two of them, computed in `double`, is the exact sum when that is again one of
them. -/
def exact_int (z : ℤ) : Prop := -9007199254740992 ≤ z ∧ z ≤ 9007199254740992

instance (z : ℤ) : Decidable (exact_int z) := by unfold exact_int; infer_instance

/-- The test of `NEXT`: has the value `v` run past the end `b` in the direction of the
step `s`? -/
def beyond (b s v : ℚ) : Prop := (s > 0 ∧ v > b) ∨ (s < 0 ∧ v < b)


instance (b s v : ℚ) : Decidable (beyond b s v) := by unfold beyond; infer_instance

/-- The frame `FOR I = a TO b STEP s` of `for_program` pushes. -/
def for_frame (a b s : ℚ) : next_stack :=
  { nVar := "I".data, vi := a, de := b, step := s, line := some 10,
    stmt := some { root := some 10, path := [Sel.a0, Sel.next] } }

/-- The state in which `for_program` is stored and nothing else has happened. -/
def for_init (a b s : ℚ) : State := { State.init with program := for_program a b s }

/-- The state of the run of `for_program` in which `I` holds `v` and the program context
stands before `stmt`, with the `FOR` stack `stack`. -/
def for_state (a b s v : ℚ) (stmt : Option Ptr) (stack : List next_stack) : State :=
  { for_init a b s with
      prog_con := { line := some 10, stmt := stmt, data_line := some 10, data_stmt := none,
                    data_datum := none, ret_to := [], next_to := stack, lNum := 10 },
      numDB := [{ name := "I".data, s := none, n := v }] }

/-- The locals of `immediate` while the program started by `RUN` runs in the state `st`. -/
def running_frame (st : State) : Frame :=
  { st := st, imm := newLego wRUN,
    imm_con := { x_con.zero with lNum := -1 }, running := true }

/-- The statement `FOR name = a TO b` without `STEP`, followed by the statements `nx`. -/
def forTo (name : String) (a b : ℚ) (nx : lego) : lego :=
  node (Fields.zero wFOR) (numVar name NULL) (numLit a) (numLit b) NULL nx

/-- The statement `PRINT I, J`, followed by the statements `nx`. -/
def printIJ (nx : lego) : lego :=
  node (Fields.zero wPRINT) (numVar "I" (numVar "J" NULL)) NULL NULL NULL nx

/-- The stored program `10 FOR I = a TO b : FOR J = c TO d : PRINT I, J : NEXT J : NEXT I`. -/
def nest_program (a b c d : ℚ) : lego :=
  line10 (forTo "I" a b (forTo "J" c d (printIJ (nextStmt "J" (nextStmt "I" NULL)))))

/-- The statements of `nest_program`, as pointers: `FOR J`, `PRINT`, `NEXT J`, `NEXT I`. -/
def at_forJ : Ptr := { root := some 10, path := [Sel.a0, Sel.next] }

/-- The pointer to `PRINT I, J` in `nest_program`. -/
def at_print : Ptr := { root := some 10, path := [Sel.a0, Sel.next, Sel.next] }

/-- The pointer to `NEXT J` in `nest_program`. -/
def at_nextJ : Ptr := { root := some 10, path := [Sel.a0, Sel.next, Sel.next, Sel.next] }

/-- The pointer to `NEXT I` in `nest_program`. -/
def at_nextI : Ptr :=
  { root := some 10, path := [Sel.a0, Sel.next, Sel.next, Sel.next, Sel.next] }

/-- The frame `FOR I = a TO b` of `nest_program` pushes. -/
def frame_I (a b : ℚ) : next_stack :=
  { nVar := "I".data, vi := a, de := b, step := 1, line := some 10, stmt := some at_forJ }

/-- The frame `FOR J = c TO d` of `nest_program` pushes. -/
def frame_J (c d : ℚ) : next_stack :=
  { nVar := "J".data, vi := c, de := d, step := 1, line := some 10, stmt := some at_print }

/-- The state in which `nest_program` is stored and nothing else has happened. -/
def nest_init (a b c d : ℚ) : State := { State.init with program := nest_program a b c d }

/-- The state of the run of `nest_program` in which `I` holds `i` and `J` holds `j`, the
program context stands before `stmt` with the `FOR` stack `stack`, and `out` has been
written. -/
def nest_state (a b c d i j : ℚ) (stmt : Option Ptr) (stack : List next_stack)
    (out : List Char) : State :=
  { nest_init a b c d with
      prog_con := { line := some 10, stmt := stmt, data_line := some 10, data_stmt := none,
                    data_datum := none, ret_to := [], next_to := stack, lNum := 10 },
      numDB := [{ name := "I".data, s := none, n := i }, { name := "J".data, s := none, n := j }],
      out := out }

/-- What `PRINT I, J` writes when `I` holds `i` and `J` holds `j`. -/
def pair_line (i j : ℚ) : List Char := fmt_num i ++ [' '] ++ fmt_num j ++ ['\n']

/-- The pairs `(i, j)`, `(i, j + 1)`, ... : `k` of them. -/
def pairs_row (i j : ℚ) : Nat → List (ℚ × ℚ)
  | 0 => []
  | k + 1 => (i, j) :: pairs_row i (j + 1) k

/-- The rows of `cols` pairs each that start at `(i, c)`, `(i + 1, c)`, ... : `k` rows. -/
def pairs_grid (i c : ℚ) (cols : Nat) : Nat → List (ℚ × ℚ)
  | 0 => []
  | k + 1 => pairs_row i c cols ++ pairs_grid (i + 1) c cols k

/-- The lines `PRINT I, J` writes for the pairs of a list, in its order. -/
def pair_lines : List (ℚ × ℚ) → List Char
  | [] => []
  | p :: ps => pair_line p.1 p.2 ++ pair_lines ps

/-- The lexicographic order on pairs. -/
def lex_lt (p q : ℚ × ℚ) : Prop := p.1 < q.1 ∨ (p.1 = q.1 ∧ p.2 < q.2)

/-! ## The operator cascade of parser.c, as a table -/

/-- The binary operators of the numeric expression grammar. -/
def binops : List What :=
  [wPOWER, wMUL, wDIV, wMOD, wIDIV, wADD, wSUB, wGE, wGT, wLE, wLT, wEQ, wNE,
   wAND, wNAND, wXOR, wOR, wNOR, wEQV, wIMP]

/-- The text of a binary operator, as its parsing routine looks for it. -/
def op_text : What → List Char
  | wPOWER => ['^']
  | wMUL => ['*']
  | wDIV => ['/']
  | wMOD => ['m','o','d']
  | wIDIV => ['\\']
  | wADD => ['+']
  | wSUB => ['-']
  | wGE => ['>','=']
  | wGT => ['>']
  | wLE => ['<','=']
  | wLT => ['<']
  | wEQ => ['=']
  | wNE => ['<','>']
  | wAND => ['a','n','d']
  | wNAND => ['n','a','n','d']
  | wXOR => ['x','o','r']
  | wOR => ['o','r']
  | wNOR => ['n','o','r']
  | wEQV => ['e','q','v']
  | wIMP => ['i','m','p']
  | _ => []

/-- The precedence levels in the stated order, the tightest first: `^` is 1; `*`, `/`,
`MOD`, `\` are 2; `+`, `-` are 3; `>=`, `>`, `<=`, `<` are 4; `=`, `<>` are 5; `NOT` is 6;
`AND`, `NAND` are 7; `XOR` is 8; `OR`, `NOR` are 9; `EQV` is 10; `IMP` is 11. -/
def spec_level : What → Nat
  | wPOWER => 1
  | wMUL | wDIV | wMOD | wIDIV => 2
  | wADD | wSUB => 3
  | wGE | wGT | wLE | wLT => 4
  | wEQ | wNE => 5
  | wNOT => 6
  | wAND | wNAND => 7
  | wXOR => 8
  | wOR | wNOR => 9
  | wEQV => 10
  | wIMP => 11
  | _ => 0

/-- The parsing routine of a level: `unary` is 0, `power` 1, `prod` 2, `sum` 3,
`inequality` 4, `equality` 5, `logic_not` 6, `logic_and` 7, `logic_xor` 8, `logic_or` 9,
`logic_eqv` 10 and `logic_imp` 11 (and beyond). -/
def level_routine (fuel : Nat) (num_exp str_exp : Parser) : Nat → Parser
  | 0 => unary num_exp str_exp
  | 1 => power fuel num_exp str_exp
  | 2 => prod fuel num_exp str_exp
  | 3 => sum fuel num_exp str_exp
  | 4 => inequality fuel num_exp str_exp
  | 5 => equality fuel num_exp str_exp
  | 6 => logic_not fuel num_exp str_exp
  | 7 => logic_and fuel num_exp str_exp
  | 8 => logic_xor fuel num_exp str_exp
  | 9 => logic_or fuel num_exp str_exp
  | 10 => logic_eqv fuel num_exp str_exp
  | _ => logic_imp fuel num_exp str_exp

/-- The symbols the routine of a binary level hands to `general_left_binary`. -/
def level_syms : Nat → List (List Char)
  | 1 => [['^']]
  | 2 => [['*'], ['/'], ['m','o','d'], ['\\']]
  | 3 => [['+'], ['-']]
  | 4 => [['>','='], ['>'], ['<','>'], ['<','='], ['<']]
  | 5 => [['='], ['<','>']]
  | 7 => [['a','n','d'], ['n','a','n','d']]
  | 8 => [['x','o','r']]
  | 9 => [['o','r'], ['n','o','r']]
  | 10 => [['e','q','v']]
  | 11 => [['i','m','p']]
  | _ => []

/-- The enumerators the routine of a binary level hands to `general_left_binary`. -/
def level_enums : Nat → List What
  | 1 => [wPOWER]
  | 2 => [wMUL, wDIV, wMOD, wIDIV]
  | 3 => [wADD, wSUB]
  | 4 => [wGE, wGT, wKLUDGE, wLE, wLT]
  | 5 => [wEQ, wNE]
  | 7 => [wAND, wNAND]
  | 8 => [wXOR]
  | 9 => [wOR, wNOR]
  | 10 => [wEQV]
  | 11 => [wIMP]
  | _ => []

/-- The operator the loop of `general_left_binary` goes on with at the cursor `s`, on
the level `k`: none when no symbol of the level is there, or the one found is the
`wKLUDGE` that makes `inequality` leave `<>` to `equality`. -/
def step_at (k : Nat) (s : List Char) : Option (What × List Char) :=
  match find_op (level_syms k) (level_enums k) s with
  | none => none
  | some (what, s1) => if what = wKLUDGE then none else some (what, s1)

/-- The text ` op rest`: a blank, the operator, a blank, and what follows. -/
def tok (op : What) (rest : List Char) : List Char := ' ' :: (op_text op ++ ' ' :: rest)

/-- What may follow an operand: the end of the text or a blank. -/
def ends_token (rest : List Char) : Prop := rest = [] ∨ ∃ r, rest = ' ' :: r

/-- The text `t` is an atom that stands for the tree `a`: it starts with neither a blank
nor a sign, and wherever it is followed by the end of the text or by a blank `num_term`
reads exactly `t` as `a`, leaving the rest and the warning alone, while `NOT` is not
found at its start. -/
def IsAtom (num_exp str_exp : Parser) (t : List Char) (a : lego) : Prop :=
  (∃ c cs, t = c :: cs ∧ isspace c = false ∧ c ≠ '-' ∧ c ≠ '+') ∧
  ∀ (rest : List Char) (w : Option String), ends_token rest →
    num_term num_exp str_exp (t ++ rest) w = (some (a, rest), w) ∧
    keyword (t ++ rest) ['n','o','t'] = none

/-- The text `t`, after at most one blank, is an operand of `unary` that stands for the
tree `a`, whatever token end follows it. -/
def IsOperand (num_exp str_exp : Parser) (t : List Char) (a : lego) : Prop :=
  ∀ (lead : Bool) (rest : List Char) (w : Option String), ends_token rest →
    unary num_exp str_exp ((if lead then [' '] else []) ++ (t ++ rest)) w = (some (a, rest), w) ∧
    keyword ((if lead then [' '] else []) ++ (t ++ rest)) ['n','o','t'] = none

/-- What may follow an operand read on the level `k`: the end of the text, or a binary
operator of a looser level. -/
def after (k : Nat) (rest : List Char) : Prop :=
  rest = [] ∨ ∃ op r, op ∈ binops ∧ k < spec_level op ∧ rest = tok op r

/-! ## Support for the statements on eval.c -/

/-- Is `x` an `int`? -/
def in_int32 (x : Int) : Prop := -2147483648 ≤ x ∧ x ≤ 2147483647

instance (x : Int) : Decidable (in_int32 x) := by unfold in_int32; infer_instance

/-- The `int` the `switch` of `boolean_logic` leaves in `xi` for the operands `x`, `y`. -/
def logic_value (op : What) (x y : Int) : Int :=
  match op with
  | wAND => and32 x y
  | wOR => or32 x y
  | wXOR => xor32 x y
  | wEQV => not32 (xor32 x y)
  | wIMP => or32 (not32 x) y
  | wNAND => not32 (or32 (not32 (and32 x y)) y)
  | wNOR => not32 (or32 x y)
  | _ => x

/-- The number `r` is an `int` whose 32 bits are `f` of the bits of `x` and `y`, place by
place. -/
def bitwise32 (f : Bool → Bool → Bool) (x y r : Int) : Prop :=
  in_int32 r ∧ ∀ i, i < 32 → (u32 r).testBit i = f ((u32 x).testBit i) ((u32 y).testBit i)

/-! ## Support for the statements on `immediate` -/

/-- The frame `immediate` starts the command `l` in. -/
def first_frame (st : State) (l : lego) : Frame :=
  { st := (link st.program st l (-1)).st, imm := (link st.program st l (-1)).tree,
    imm_con := { x_con.zero with stmt := some { root := none, path := [] }, lNum := -1 },
    running := false }

/-- The locals of `immediate` after `n` rounds, when it has not returned before. -/
def rounds (m : Libm) : Nat → Frame → Option Frame
  | 0, fr => some fr
  | n + 1, fr =>
    match immediate_round m fr with
    | Sum.inl _ => none
    | Sum.inr fr1 => rounds m n fr1

/-- The program of the scenario of errors: a subroutine with a `FOR` loop that prints a
variable that does not exist. -/
def error_program : List String := ["10 A=5 : GOSUB 20", "20 FOR I=1 TO 2 : PRINT X"]

/-- The stored program and the break flag of a state. -/
def State.fixed (st : State) : lego × Int := (st.program, st.ctrl_c)

/-- The first `j` rounds of the loop of `READ`, when each of them finds a datum whose
value is of the kind of its variable, and assigns it: the state after these `j`
assignments and the variables that are still to be read. `none` when one of these rounds
does anything else (no datum, an exception, a type mismatch, no variable left). -/
def read_some (m : Libm) : Nat → State → lego → Option (State × lego)
  | 0, st, l => some (st, l)
  | _ + 1, _, NULL => none
  | j + 1, st, node f _ _ _ _ nx =>
    match get_next_data (data_fuel st) st with
    | some (some datum, st1) =>
      if f.what = wSTRVAR then
        if (evalloc m st1 (deref st1.program NULL datum)).1.what = rKind.rString then
          read_some m j
            (set_var (evalloc m st1 (deref st1.program NULL datum)).2 (f.s.getD [])
              (some ((evalloc m st1 (deref st1.program NULL datum)).1.s.getD [])) 0) nx
        else none
      else if (evalloc m st1 (deref st1.program NULL datum)).1.what = rKind.rNum then
        read_some m j
          (set_var (evalloc m st1 (deref st1.program NULL datum)).2 (f.s.getD []) none
            (evalloc m st1 (deref st1.program NULL datum)).1.n) nx
      else none
    | _ => none

/-- The state of the scenario of a `READ` that runs out of data at its second variable:
`10 DATA 7 : READ A, B : PRINT [after]` and `20 PRINT [more]` stored, standing before the
`READ`. -/
def one_datum_state : State :=
  { at_line (typed_in ["10 DATA 7 : READ A, B : PRINT [after]", "20 PRINT [more]"]) 10 with
    prog_con :=
      { (at_line (typed_in ["10 DATA 7 : READ A, B : PRINT [after]", "20 PRINT [more]"])
          10).prog_con with
        stmt := some { root := some 10, path := [Sel.a0, Sel.next] } } }

/-- The state of the scenario after its `READ A, B` has assigned the one datum to `A`:
the statement pointer is behind the `READ`, the data pointers behind the `DATA`. -/
def one_datum_read : State :=
  set_var
    { one_datum_state with
      prog_con := { one_datum_state.prog_con with
        stmt := some { root := some 10, path := [Sel.a0, Sel.next, Sel.next] },
        data_line := some 20,
        data_stmt := some { root := some 10, path := [Sel.a0, Sel.next] },
        data_datum := none } }
    ['A'] none 7

/-- The fields of a lego as `link` leaves them when no line is missing: a line reference
points to the line of its number, or nowhere when the number is negative. -/
def resolved (f : Fields) : Fields :=
  if f.what = wLINENUM then { f with link := if f.n < 0 then none else some f.n } else f

/-- The program of the scenario of `ALTER` and `RUN`. -/
def rerun_program : List String :=
  ["10 GOTO 30", "20 PRINT [skipped]", "30 ALTER 10 TO 20", "40 PRINT [done]"]

/-- The statement `PRINT I;`, followed by the statements `nx`. -/
def printSemi (nx : lego) : lego :=
  node (Fields.zero wPRINT)
    (node { Fields.zero wNUMVAR with s := some "I".data, list_delim := 1 }
      NULL NULL NULL NULL NULL)
    NULL NULL NULL nx

/-- The stored program `10 FOR I = 1 TO b : PRINT I; : NEXT I`. -/
def count_program (b : ℚ) : lego :=
  line10 (forTo "I" 1 b (printSemi (nextStmt "I" NULL)))

/-- The frame `FOR I = 1 TO b` of `count_program` pushes. -/
def count_frame (b : ℚ) : next_stack :=
  { nVar := "I".data, vi := 1, de := b, step := 1, line := some 10, stmt := some at_forJ }

/-- The state in which `count_program` is stored and nothing else has happened. -/
def count_init (b : ℚ) : State := { State.init with program := count_program b }

/-- The state of the run of `count_program` in which `I` holds `i`, the program context
stands before `stmt` with the `FOR` stack `stack`, and `out` has been written, the last
of it not a newline when `dirty`. -/
def count_state (b i : ℚ) (stmt : Option Ptr) (stack : List next_stack)
    (out : List Char) (dirty : Bool) : State :=
  { count_init b with
      prog_con := { line := some 10, stmt := stmt, data_line := some 10, data_stmt := none,
                    data_datum := none, ret_to := [], next_to := stack, lNum := 10 },
      numDB := [{ name := "I".data, s := none, n := i }],
      out := out, dirty := dirty }

/-- The numbers `i`, `i + 1`, ..., `k` of them, as `PRINT` writes them, with nothing
between them. -/
def count_text (i : ℚ) : Nat → List Char
  | 0 => []
  | k + 1 => fmt_num i ++ count_text (i + 1) k

/-! ## Support for the statements on strings -/

/-- The node `general_function_factory` builds for a call with up to three arguments. -/
def call (what : What) (a b c : lego) : lego := node (Fields.zero what) a b c NULL NULL

/-- A string literal in square brackets. -/
def strLit (s : List Char) : lego := mkStrLit s ']'

/-- The lego of `LEFT$(S, K) + RIGHT$(S, LEN(S) - K)`. -/
def left_right (S K : lego) : lego :=
  mkBinary wCAT (call wLEFT S K NULL)
    (call wRIGHT S (mkBinary wSUB (call wLEN S NULL NULL) K) NULL)

/-- The lego of `LEFT$(S, LEN(S) + K)`. -/
def left_over (S K : lego) : lego :=
  call wLEFT S (mkBinary wADD (call wLEN S NULL NULL) K) NULL

/-- The lego of `MID$(S, I, J)`. -/
def mid (S I J : lego) : lego := call wMID S I J

/-! ## Support for the statement on RND -/

/-- The state at program start with the entropy source open and about to deliver the
words `us`. -/
def with_entropy (us : List Nat) : State := { State.init with urandom := some us }

/-! ## Support for the statement on DEL -/

/-- Is the line numbered `n` selected by the range (`vi`, `de`), in which a negative
bound means that the bound is not given? -/
def selected (vi de n : ℚ) : Prop := (vi < 0 ∨ n ≥ vi) ∧ (de < 0 ∨ n ≤ de)

instance (vi de n : ℚ) : Decidable (selected vi de n) := by unfold selected; infer_instance

/-- The program of the `DEL` scenario. -/
def del_program : List String := ["10 REM a", "20 REM b", "30 REM c"]

/-! ## Support for the statements on line numbers -/

/-- The two-lego list `line_range` returns for the range from `a` to `b`. -/
def range_of (a b : ℚ) : lego := (mkLineNum a).setNext (mkLineNum b)

/-- A text at which the scan of `num_lit` stops at once. -/
def stops (rest : List Char) : Prop :=
  ∀ r : ℚ, num_lit_loop rest r 1 0 true = ((r, 1, 0, true), rest)

/-! ## Support for the statement on variables -/

/-- The variables of a state: both namespaces. -/
def State.vars (st : State) : List varDB × List varDB := (st.numDB, st.strDB)

/-- The state in which `single_step` carries out the statement at `p`: the context it
works on (the program context when `prog`, else the immediate one) has moved on to the
statement behind it. -/
def stepped (prog : Bool) (st : State) (ic : x_con) (imm : lego) (p : Ptr) : State :=
  (updc prog st ic
    (fun _ => { getc prog st ic with stmt := ptr_sel st.program imm p Sel.next })).1

/-- The value of the string variable `name`, when it exists. -/
def str_value (st : State) (name : String) : Option (Option (List Char)) :=
  (find_var st.strDB name.data).map (fun v => v.s)

/-! ## Support for the statement on link -/

/-- The line references (`wLINENUM` legos) that can be reached from `l` through the
arguments and `next`, in the order in which `link` comes to them. -/
def refs : lego → List Fields
  | NULL => []
  | node f a0 a1 a2 a3 nx =>
    refs a0 ++ refs a1 ++ refs a2 ++ refs a3 ++ (if f.what = wLINENUM then [f] else []) ++
      refs nx

/-- Is the line reference one to a line the store does not hold (its number is not
negative and no stored line has it)? -/
def missing (program : lego) (f : Fields) : Bool :=
  decide (0 ≤ f.n) && (find_line program f.n).isNull

/-- What `link` makes of a line reference: a negative number gets the null link, the
number of a stored line the link to it, and any other is left as it is. -/
def linked (program : lego) (f : Fields) : Fields :=
  if f.n < 0 then { f with link := none }
  else if (find_line program f.n).isNull then f
  else { f with link := some f.n }

/-- The immediate command `ON X GOTO 10, 25, 30, 40`. -/
def on_goto : lego := ((parse "ON X GOTO 10, 25, 30, 40".data).1.map (fun r => r.1)).getD NULL

/-! ## Support for the statement on NOT -/

/-- The text `NOT NOT ... NOT r` with `k` times `NOT`, each followed by one blank. -/
def nots : Nat → List Char → List Char
  | 0, r => r
  | k + 1, r => 'N' :: 'O' :: 'T' :: ' ' :: nots k r

/-! ## Support for the statement on INSTR -/

/-- Does `needle` occur in `hay` at the 1-based position `p`? -/
def occurs_at (hay needle : List Char) (p : Nat) : Prop :=
  1 ≤ p ∧ needle <+: hay.drop (p - 1)

/-! ## Support for the statements on the program context -/

/-- The program context holds nothing to go on with: both stacks are empty and the line
and statement cursors are null. -/
def context_cleared (st : State) : Prop :=
  st.prog_con.ret_to = [] ∧ st.prog_con.next_to = [] ∧ st.prog_con.line = none ∧
  st.prog_con.stmt = none

instance (st : State) : Decidable (context_cleared st) := by
  unfold context_cleared; infer_instance

/-- The state after the lines of `input` were typed in at the prompt, one after the other
(the loop of `main`); `none` when the fuel runs out in a command. -/
def session (input : List String) : Option State :=
  main_loop Libm.none 100 (input.length + 1)
    { State.init with stdin := input.map (fun s => s.data) }

/-- The immediate command the text `s` parses to (`NULL` when it does not parse). -/
def command_of (s : String) : lego := ((parse s.data).1.map (fun r => r.1)).getD NULL

/-- The program of the scenario: it stops in a subroutine called from a `FOR` loop. -/
def stop_program : List String := ["10 FOR I=1 TO 3 : GOSUB 20 : NEXT", "20 STOP : RETURN"]

/-! ## Support for the statement on the `FOR` stack -/

/-- The `FOR` stack of the program context. -/
def State.fors (st : State) : List next_stack := st.prog_con.next_to

/-- One step on a `FOR` stack: frames are popped, or frames are popped down to and with
the frame of a variable and a new frame for that variable is pushed. -/
def stack_step (old new : List next_stack) : Prop :=
  new <:+ old ∨ ∃ f : next_stack, new = f :: expire_next_stack old (some f.nVar) true

/-- No two frames of a `FOR` stack have the same loop variable. -/
def distinct_loops (s : List next_stack) : Prop := (s.map (fun f => f.nVar)).Nodup

instance (s : List next_stack) : Decidable (distinct_loops s) := by
  unfold distinct_loops; infer_instance

/-- Both `FOR` stacks of the locals of `immediate` have distinct loop variables. -/
def Frame.distinct (fr : Frame) : Prop :=
  distinct_loops fr.st.prog_con.next_to ∧ distinct_loops fr.imm_con.next_to

/-- The loop variables of the frames of the `FOR` stack of the program, top first. -/
def loop_names (st : State) : List String :=
  st.prog_con.next_to.map (fun f => String.mk f.nVar)

/-- A frame of a loop on `v` from 1 to 2, entered at the prompt. -/
def loop_frame (v : List Char) : next_stack :=
  { nVar := v, vi := 1, de := 2, step := 1, line := none, stmt := none }

/-- A program with loops on `I`, `J`, `K` and then `v` that stops inside them all. -/
def nested_loops (v : String) : List String :=
  ["10 FOR I=1 TO 2", "20 FOR J=1 TO 2", "30 FOR K=1 TO 2", "40 FOR " ++ v ++ "=5 TO 6",
   "50 STOP", "RUN"]

/-! ## Support for the statement on the kinds of expressions -/

/-- The kinds of the arguments and of the result of the operators and built-in functions
the expression parsers build: the numeric operators of `unary` to `logic_imp`, the
catenation of `str_exp`, and the functions of `num_term` and `str_term` with the argument
letters given there. -/
def signature : What → Option (List rKind × rKind)
  | wNEGATE | wNOT => some ([rKind.rNum], rKind.rNum)
  | wCAT => some ([rKind.rString, rKind.rString], rKind.rString)
  | wPOWER | wMUL | wDIV | wADD | wSUB | wIDIV | wMOD
  | wGT | wGE | wLT | wLE | wEQ | wNE
  | wAND | wOR | wXOR | wEQV | wIMP | wNAND | wNOR =>
    some ([rKind.rNum, rKind.rNum], rKind.rNum)
  | wABS | wATAN | wCOS | wEXP | wFIX | wINT | wLOG | wRND | wSGN | wSIN | wSQRT | wTAN =>
    some ([rKind.rNum], rKind.rNum)
  | wASC | wLEN | wVAL => some ([rKind.rString], rKind.rNum)
  | wINSTR => some ([rKind.rNum, rKind.rString, rKind.rString], rKind.rNum)
  | wCHR | wSPACE | wSTR => some ([rKind.rNum], rKind.rString)
  | wLEFT | wRIGHT => some ([rKind.rString, rKind.rNum], rKind.rString)
  | wMID => some ([rKind.rString, rKind.rNum, rKind.rNum], rKind.rString)
  | wSTRING => some ([rKind.rNum, rKind.rString], rKind.rString)
  | _ => none

/-- The tree `l` is an expression of kind `k` in which every operator and built-in has
exactly the arguments of its signature, each an expression of the kind asked there. -/
def well_kinded : rKind → lego → Bool
  | _, NULL => false
  | k, node f a0 a1 a2 a3 _ =>
    if f.what = wSTRLIT ∨ f.what = wSTRVAR then k = rKind.rString
    else if f.what = wNUMLIT ∨ f.what = wNUMVAR then k = rKind.rNum
    else
      match signature f.what with
      | some ([x], r) =>
        decide (r = k) && well_kinded x a0 && a1.isNull && a2.isNull && a3.isNull
      | some ([x, y], r) =>
        decide (r = k) && well_kinded x a0 && well_kinded y a1 && a2.isNull && a3.isNull
      | some ([x, y, z], r) =>
        decide (r = k) && well_kinded x a0 && well_kinded y a1 && well_kinded z a2
          && a3.isNull
      | _ => false

/-- The value `c` is of kind `k`, with its string in place when it is a string, or is an
exception. -/
def kind_ok (k : rKind) (c : computed) : Prop :=
  c.what = rKind.rExcept ∨ (c.what = k ∧ (k = rKind.rString → c.s.isSome))

/-- The process has not stopped on a null pointer. -/
def no_null (st : State) : Prop := st.halt ≠ some "null pointer"

/-- Every tree the parsing routine `p` accepts is an expression of kind `k`. -/
def sound (k : rKind) (p : Parser) : Prop :=
  ∀ (s : List Char) (w : Option String) (l : lego) (rest : List Char) (w1 : Option String),
    p s w = (some (l, rest), w1) → well_kinded k l = true


/-! # Theorems -/

/-! ## The program store (run.c, `save_line`) -/

theorem line_numbers_node (f : Fields) (a0 a1 a2 a3 nx : lego) :
    line_numbers (node f a0 a1 a2 a3 nx) = f.n :: line_numbers nx := by
  simp [line_numbers, lego.chain, lego.n, lego.f]

theorem line_numbers_NULL : line_numbers NULL = [] := rfl

theorem stored_lines_node (f : Fields) (a0 a1 a2 a3 nx : lego) :
    stored_lines (node f a0 a1 a2 a3 nx) = node f a0 a1 a2 a3 NULL :: stored_lines nx := by
  simp [stored_lines, lego.chain, lego.alone, lego.setNext]

theorem stored_lines_NULL : stored_lines NULL = [] := rfl

theorem line_numbers_setNext (l nx : lego) (hl : l.isNull = false) :
    line_numbers (l.setNext nx) = l.n :: line_numbers nx := by
  cases l with
  | NULL => simp [lego.isNull] at hl
  | node f a0 a1 a2 a3 n0 => simp [lego.setNext, line_numbers_node, lego.n, lego.f]

theorem stored_lines_setNext (l nx : lego) (hl : l.isNull = false) :
    stored_lines (l.setNext nx) = l.alone :: stored_lines nx := by
  cases l with
  | NULL => simp [lego.isNull] at hl
  | node f a0 a1 a2 a3 n0 => simp [lego.setNext, stored_lines_node, lego.alone]

theorem stored_lines_n (p : lego) : (stored_lines p).map lego.n = line_numbers p := by
  induction p with
  | NULL => rfl
  | node f a0 a1 a2 a3 nx _ _ _ _ ih =>
    simp [stored_lines_node, line_numbers_node, ih, lego.n, lego.f]

/-- Every number in the store after the splice was there before or is the new one. -/
theorem save_chain_mem (l p : lego) (x : ℚ)
    (hx : x ∈ line_numbers (save_chain l p).1) : x ∈ line_numbers p ∨ x = l.n := by
  induction p with
  | NULL =>
    unfold save_chain at hx
    split at hx
    · simp [line_numbers_NULL] at hx
    · rename_i h
      cases l with
      | NULL => simp [lego.setNext, line_numbers_NULL] at hx
      | node f a0 a1 a2 a3 n0 =>
        simp [lego.setNext, line_numbers_node, line_numbers_NULL] at hx
        right; simpa [lego.n, lego.f] using hx
  | node f a0 a1 a2 a3 nx _ _ _ _ ih =>
    unfold save_chain at hx
    split at hx
    · split at hx
      · split at hx
        · left; simp [line_numbers_node]; right; exact hx
        · cases l with
          | NULL => simp [lego.setNext, line_numbers_NULL] at hx
          | node g b0 b1 b2 b3 n0 =>
            simp [lego.setNext, line_numbers_node] at hx
            rcases hx with hx | hx
            · right; simpa [lego.n, lego.f] using hx
            · left; simp [line_numbers_node]; right; exact hx
      · split at hx
        · left; exact hx
        · cases l with
          | NULL => simp [lego.setNext, line_numbers_NULL] at hx
          | node g b0 b1 b2 b3 n0 =>
            simp [lego.setNext, line_numbers_node] at hx
            rcases hx with hx | hx | hx
            · right; simpa [lego.n, lego.f] using hx
            · left; simp [line_numbers_node]; left; exact hx
            · left; simp [line_numbers_node]; right; exact hx
    · simp [line_numbers_node] at hx
      rcases hx with hx | hx
      · left; simp [line_numbers_node]; left; exact hx
      · rcases ih hx with h | h
        · left; simp [line_numbers_node]; right; exact h
        · right; exact h

/-- The splice keeps a strictly increasing chain strictly increasing. -/
theorem save_chain_sorted (l p : lego)
    (hs : (line_numbers p).Pairwise (· < ·)) :
    (line_numbers (save_chain l p).1).Pairwise (· < ·) := by
  induction p with
  | NULL =>
    unfold save_chain
    split
    · simp [line_numbers_NULL]
    · cases l with
      | NULL => simp [lego.setNext, line_numbers_NULL]
      | node f a0 a1 a2 a3 n0 => simp [lego.setNext, line_numbers_node, line_numbers_NULL]
  | node f a0 a1 a2 a3 nx _ _ _ _ ih =>
    rw [line_numbers_node, List.pairwise_cons] at hs
    unfold save_chain
    split
    · rename_i hge
      split
      · rename_i heq
        split
        · exact hs.2
        · cases l with
          | NULL => simp [lego.setNext, line_numbers_NULL]
          | node g b0 b1 b2 b3 n0 =>
            simp only [lego.setNext, line_numbers_node, List.pairwise_cons]
            refine ⟨fun x hx => ?_, hs.2⟩
            have := hs.1 x hx
            simp [lego.n, lego.f] at heq
            rw [← heq]; exact this
      · rename_i hne
        split
        · rw [line_numbers_node, List.pairwise_cons]; exact hs
        · cases l with
          | NULL => simp [lego.setNext, line_numbers_NULL]
          | node g b0 b1 b2 b3 n0 =>
            simp only [lego.setNext, line_numbers_node, List.pairwise_cons]
            simp [lego.n, lego.f] at hge hne
            have hlt : g.n < f.n := lt_of_le_of_ne hge (Ne.symm hne)
            refine ⟨fun x hx => ?_, hs⟩
            simp at hx
            rcases hx with hx | hx
            · rw [hx]; exact hlt
            · exact lt_trans hlt (hs.1 x hx)
    · rename_i hge
      simp only [line_numbers_node, List.pairwise_cons]
      refine ⟨fun x hx => ?_, ih hs.2⟩
      rcases save_chain_mem l nx x hx with h | h
      · exact hs.1 x h
      · rw [h]; exact lt_of_not_ge hge

theorem save_line_program (st : State) (l : lego) :
    (save_line st l).program = (save_chain l st.program).1 := rfl

/-- C1: whatever numbered lines are submitted to `save_line`, one after the other, starting
from the empty store, the line numbers of the resulting store are strictly increasing
(sorted, no duplicates). -/
theorem C1_store_strictly_increasing (ls : List lego) :
    (line_numbers (ls.foldl save_line State.init).program).Pairwise (· < ·) := by
  suffices h : ∀ (st : State), (line_numbers st.program).Pairwise (· < ·) →
      (line_numbers (ls.foldl save_line st).program).Pairwise (· < ·) by
    exact h State.init (by simp [State.init, line_numbers_NULL])
  induction ls with
  | nil => intro st hs; simpa using hs
  | cons l ls ih =>
    intro st hs
    simp only [List.foldl_cons]
    apply ih
    rw [save_line_program]
    exact save_chain_sorted l st.program hs

theorem alone_n (l : lego) : l.alone.n = l.n := by
  cases l <;> rfl

theorem mem_stored_lines_n (p x : lego) (hx : x ∈ stored_lines p) : x.n ∈ line_numbers p := by
  induction p with
  | NULL => simp [stored_lines_NULL] at hx
  | node f a0 a1 a2 a3 nx _ _ _ _ ih =>
    rw [stored_lines_node] at hx
    rw [line_numbers_node]
    rcases List.mem_cons.1 hx with h | h
    · subst h; simp [lego.n, lego.f]
    · exact List.mem_cons_of_mem _ (ih h)

/-- In a chain whose numbers all exceed `N`, no stored line is numbered `N`. -/
theorem filter_eq_nil_of_lt (p : lego) (N : ℚ) (h : ∀ x ∈ line_numbers p, N < x) :
    (stored_lines p).filter (fun x => decide (x.n = N)) = [] := by
  rw [List.filter_eq_nil_iff]
  intro x hx
  have := h _ (mem_stored_lines_n p x hx)
  simp; exact ne_of_gt this

theorem filter_ne_of_lt (p : lego) (N : ℚ) (h : ∀ x ∈ line_numbers p, N < x) :
    (stored_lines p).filter (fun x => decide (x.n ≠ N)) = stored_lines p := by
  rw [List.filter_eq_self]
  intro x hx
  have := h _ (mem_stored_lines_n p x hx)
  simp; exact ne_of_gt this

/-- What the splice of `save_line` does to a strictly increasing chain. -/
theorem save_chain_spec (l p : lego) (hl : l.isNull = false)
    (hs : (line_numbers p).Pairwise (· < ·)) :
    (l.a0.isNull = false →
        (stored_lines (save_chain l p).1).filter (fun x => decide (x.n = l.n)) = [l.alone]) ∧
    (l.a0.isNull = true →
        (stored_lines (save_chain l p).1).filter (fun x => decide (x.n = l.n)) = []) ∧
    ((save_chain l p).2 = true ↔ (l.a0.isNull = true ∧ l.n ∉ line_numbers p)) ∧
    (stored_lines (save_chain l p).1).filter (fun x => decide (x.n ≠ l.n))
      = (stored_lines p).filter (fun x => decide (x.n ≠ l.n)) := by
  induction p with
  | NULL =>
    unfold save_chain
    cases h0 : l.a0.isNull
    · simp [stored_lines_setNext, hl, stored_lines_NULL, alone_n, line_numbers_NULL]
    · simp [stored_lines_NULL, line_numbers_NULL]
  | node f a0 a1 a2 a3 nx _ _ _ _ ih =>
    rw [line_numbers_node, List.pairwise_cons] at hs
    unfold save_chain
    by_cases hge : f.n ≥ l.n
    · by_cases heq : f.n = l.n
      · have hlt : ∀ x ∈ line_numbers nx, l.n < x := fun x hx => heq ▸ hs.1 x hx
        have hfn : (node f a0 a1 a2 a3 NULL).n = f.n := rfl
        cases h0 : l.a0.isNull
        · simp [hge, heq, stored_lines_setNext, hl, alone_n, stored_lines_node,
            filter_eq_nil_of_lt nx l.n hlt, hfn]
        · simp [hge, heq, stored_lines_node, filter_eq_nil_of_lt nx l.n hlt,
            line_numbers_node, hfn]
      · have hlt0 : l.n < f.n := lt_of_le_of_ne hge (Ne.symm heq)
        have hlt : ∀ x ∈ line_numbers nx, l.n < x := fun x hx => lt_trans hlt0 (hs.1 x hx)
        have hnm : l.n ∉ line_numbers nx := fun hm => lt_irrefl _ (hlt _ hm)
        have hfn : (node f a0 a1 a2 a3 NULL).n = f.n := rfl
        cases h0 : l.a0.isNull
        · simp [hge, heq, stored_lines_setNext, hl, alone_n, stored_lines_node,
            filter_eq_nil_of_lt nx l.n hlt, hfn]
        · simp [hge, heq, stored_lines_node, filter_eq_nil_of_lt nx l.n hlt,
            line_numbers_node, hfn, hnm, Ne.symm heq]
    · have hlt0 : f.n < l.n := lt_of_not_ge hge
      have hne : f.n ≠ l.n := ne_of_lt hlt0
      have hfn : (node f a0 a1 a2 a3 NULL).n = f.n := rfl
      obtain ⟨i1, i2, i3, i4⟩ := ih hs.2
      simp only [hge, if_false, stored_lines_node, line_numbers_node]
      refine ⟨?_, ?_, ?_, ?_⟩
      · intro h0
        simp [List.filter_cons, hfn, hne, i1 h0]
      · intro h0
        simp [List.filter_cons, hfn, hne, i2 h0]
      · rw [i3]; simp [Ne.symm hne]
      · simpa [List.filter_cons, hfn, hne] using i4

/-- C2: `save_line` on a store with strictly increasing numbers and a submitted line `l`
numbered `N`. If `l` carries statements, the store afterwards holds exactly one line
numbered `N` and it is `l`; if `l` carries none, the store afterwards holds no line
numbered `N`, and when none existed the message "no such line to delete" goes to the
`warning` latch. In both cases the lines with another number are kept, unchanged and in
the same order. -/
theorem C2_save_line_effect (st : State) (l : lego) (hl : l.isNull = false)
    (hs : (line_numbers st.program).Pairwise (· < ·)) :
    (l.a0.isNull = false →
        (stored_lines (save_line st l).program).filter (fun x => decide (x.n = l.n))
          = [l.alone]) ∧
    (l.a0.isNull = true →
        l.n ∉ line_numbers (save_line st l).program ∧
        (l.n ∉ line_numbers st.program →
          (save_line st l).warning = warn st.warning "no such line to delete")) ∧
    (stored_lines (save_line st l).program).filter (fun x => decide (x.n ≠ l.n))
      = (stored_lines st.program).filter (fun x => decide (x.n ≠ l.n)) := by
  obtain ⟨h1, h2, h3, h4⟩ := save_chain_spec l st.program hl hs
  refine ⟨h1, ?_, h4⟩
  intro h0
  refine ⟨?_, ?_⟩
  · intro hm
    have hnil := h2 h0
    rw [List.filter_eq_nil_iff] at hnil
    rw [← stored_lines_n, List.mem_map] at hm
    obtain ⟨y, hy, hyn⟩ := hm
    exact hnil y hy (by simpa using hyn)
  · intro hn
    have : (save_chain l st.program).2 = true := h3.2 ⟨h0, hn⟩
    simp [save_line, reset_program, this]

/-- C2 at a concrete store: the lines 10 and 20, and a new text for line 10. -/
theorem C2_save_line_effect_witness :
    (line10 (newLego wEND)).isNull = false ∧
    (line_numbers (save_line (save_line State.init (line10 (newLego wSTOP)))
        (mkLineNum 20 |>.setA0 (newLego wCLS))).program).Pairwise (· < ·) ∧
    (stored_lines (save_line (save_line (save_line State.init (line10 (newLego wSTOP)))
        (mkLineNum 20 |>.setA0 (newLego wCLS))) (line10 (newLego wEND))).program).filter
        (fun x => decide (x.n = (line10 (newLego wEND)).n)) = [(line10 (newLego wEND)).alone] :=
  ⟨by decide, by decide!,
   (C2_save_line_effect (save_line (save_line State.init (line10 (newLego wSTOP)))
        (mkLineNum 20 |>.setA0 (newLego wCLS))) (line10 (newLego wEND)) (by decide)
        (by decide!)).1 (by decide)⟩

/-! ## The round trip through the printer (print.c, parser.c) -/

/-- C5 (the code breaks the round trip): `LIST - 5` parses to the range (-1, 5), which
`printLego` prints as `LIST -5`; that text parses again, but to the range (-5, -5),
because `line_num` accepts the minus sign through `num_lit`. The two trees differ in
their `n` fields, not only in `force_parens`. -/
theorem C5_roundtrip_breaks_on_LIST_range :
    parse "LIST - 5".data = (some (listRange (-1) 5, []), none) ∧
    printLego false (listRange (-1) 5) = "LIST -5".data ∧
    parse (printLego false (listRange (-1) 5)) = (some (listRange (-5) (-5), []), none) ∧
    (listRange (-1) 5).dropParens ≠ (listRange (-5) (-5)).dropParens := by
  decide!

/-! ## GOSUB and RETURN (run.c, `single_step`) -/

theorem single_step_gosub (m : Libm) (imm : lego) (st : State) (ic : x_con) (p : Ptr)
    (hp : st.prog_con.stmt = some p)
    (hw : (deref st.program imm p).what = wGOSUB) :
    single_step m imm true st ic =
      (wZERO_IS_UNUSED,
       { st with prog_con := { st.prog_con with
           ret_to := { line := st.prog_con.line, stmt := ptr_sel st.program imm p Sel.next,
                       running := true } :: st.prog_con.ret_to,
           line := (deref st.program imm p).a0.link,
           stmt := stmt_of_line (deref st.program imm p).a0.link } }, ic) := by
  have hnn : (deref st.program imm p).isNull = false := by
    cases h : deref st.program imm p with
    | NULL => rw [h] at hw; simp [lego.what, lego.f, Fields.zero] at hw
    | node => rfl
  simp [single_step, seek_stmt, getc, updc, hp, hw, hnn]

theorem single_step_return (m : Libm) (imm : lego) (st : State) (ic : x_con) (p : Ptr)
    (fr : ret_stack) (rest : List ret_stack)
    (hp : st.prog_con.stmt = some p)
    (hw : (deref st.program imm p).what = wRETURN)
    (hr : st.prog_con.ret_to = fr :: rest) :
    single_step m imm true st ic =
      (wRETURN,
       { st with prog_con := { st.prog_con with
           line := fr.line, stmt := fr.stmt, ret_to := rest } }, ic) := by
  have hnn : (deref st.program imm p).isNull = false := by
    cases h : deref st.program imm p with
    | NULL => rw [h] at hw; simp [lego.what, lego.f, Fields.zero] at hw
    | node => rfl
  simp [single_step, seek_stmt, getc, updc, hp, hw, hnn, hr]

/-- C6: in program context, a step on a `GOSUB` statement pushes exactly one frame, which
holds the current line and the statement following the `GOSUB`, and jumps to the target
line; a later step on a `RETURN`, taken with that return stack, answers `wRETURN`, pops
exactly that frame and leaves the program context at the statement following the `GOSUB`
with the return stack as it was before the `GOSUB`. The program
`10 GOSUB 100 / 20 PRINT [done] / 30 END / 100 PRINT [sub] / 110 RETURN` prints
`sub`, newline, `done`, newline. -/
theorem C6_gosub_return (m : Libm) (imm : lego) (st st' : State) (ic ic' : x_con)
    (p p' : Ptr)
    (hp : st.prog_con.stmt = some p)
    (hw : (deref st.program imm p).what = wGOSUB)
    (hp' : st'.prog_con.stmt = some p')
    (hw' : (deref st'.program imm p').what = wRETURN)
    (hstack : st'.prog_con.ret_to = (single_step m imm true st ic).2.1.prog_con.ret_to) :
    ((single_step m imm true st ic).1 = wZERO_IS_UNUSED ∧
     (single_step m imm true st ic).2.1.prog_con.ret_to =
       { line := st.prog_con.line, stmt := ptr_sel st.program imm p Sel.next,
         running := true } :: st.prog_con.ret_to ∧
     (single_step m imm true st ic).2.1.prog_con.line = (deref st.program imm p).a0.link ∧
     (single_step m imm true st ic).2.1.prog_con.stmt =
       stmt_of_line (deref st.program imm p).a0.link) ∧
    ((single_step m imm true st' ic').1 = wRETURN ∧
     (single_step m imm true st' ic').2.1.prog_con.line = st.prog_con.line ∧
     (single_step m imm true st' ic').2.1.prog_con.stmt = ptr_sel st.program imm p Sel.next ∧
     (single_step m imm true st' ic').2.1.prog_con.ret_to = st.prog_con.ret_to) ∧
    output_of m 100 (typed_in gosub_program) "RUN" = some "sub\ndone\n".data := by
  have hg := single_step_gosub m imm st ic p hp hw
  rw [hg] at hstack
  have hr := single_step_return m imm st' ic' p' _ _ hp' hw' hstack
  refine ⟨?_, ?_, ?_⟩
  · rw [hg]; exact ⟨rfl, rfl, rfl, rfl⟩
  · rw [hr]; exact ⟨rfl, rfl, rfl, rfl⟩
  · with_unfolding_all rfl

/-- C6 at the scenario program: the `GOSUB` of line 10 and the `RETURN` of line 110. -/
theorem C6_gosub_return_witness :
    (single_step Libm.none NULL true (at_line (typed_in gosub_program) 10) x_con.zero).2.1.prog_con.ret_to
      = [{ line := some 10, stmt := none, running := true }] ∧
    (single_step Libm.none NULL true
        { at_line (typed_in gosub_program) 110 with prog_con :=
            { (at_line (typed_in gosub_program) 110).prog_con with ret_to :=
                [{ line := some 10, stmt := none, running := true }] } } x_con.zero).2.1.prog_con.line
      = some 10 :=
  ⟨by decide!,
   (C6_gosub_return Libm.none NULL (at_line (typed_in gosub_program) 10)
      { at_line (typed_in gosub_program) 110 with prog_con :=
          { (at_line (typed_in gosub_program) 110).prog_con with ret_to :=
              [{ line := some 10, stmt := none, running := true }] } }
      x_con.zero x_con.zero { root := some 10, path := [Sel.a0] }
      { root := some 110, path := [Sel.a0] }
      (by decide!) (by decide!) (by decide!) (by decide!) (by decide!)).2.1.2.1⟩

/-! ## Reading fields of a lego -/

@[simp] theorem isNull_NULL : lego.isNull NULL = true := rfl
@[simp] theorem isNull_node (f : Fields) (a0 a1 a2 a3 nx : lego) :
    (node f a0 a1 a2 a3 nx).isNull = false := rfl
@[simp] theorem f_node (f : Fields) (a0 a1 a2 a3 nx : lego) : (node f a0 a1 a2 a3 nx).f = f := rfl
@[simp] theorem what_node (f : Fields) (a0 a1 a2 a3 nx : lego) :
    (node f a0 a1 a2 a3 nx).what = f.what := rfl
@[simp] theorem n_node (f : Fields) (a0 a1 a2 a3 nx : lego) : (node f a0 a1 a2 a3 nx).n = f.n := rfl
@[simp] theorem link_node (f : Fields) (a0 a1 a2 a3 nx : lego) :
    (node f a0 a1 a2 a3 nx).link = f.link := rfl
@[simp] theorem a0_node (f : Fields) (a0 a1 a2 a3 nx : lego) : (node f a0 a1 a2 a3 nx).a0 = a0 := rfl
@[simp] theorem a1_node (f : Fields) (a0 a1 a2 a3 nx : lego) : (node f a0 a1 a2 a3 nx).a1 = a1 := rfl
@[simp] theorem a2_node (f : Fields) (a0 a1 a2 a3 nx : lego) : (node f a0 a1 a2 a3 nx).a2 = a2 := rfl
@[simp] theorem a3_node (f : Fields) (a0 a1 a2 a3 nx : lego) : (node f a0 a1 a2 a3 nx).a3 = a3 := rfl
@[simp] theorem next_node (f : Fields) (a0 a1 a2 a3 nx : lego) :
    (node f a0 a1 a2 a3 nx).next = nx := rfl
@[simp] theorem a0_NULL : lego.a0 NULL = NULL := rfl
@[simp] theorem next_NULL : lego.next NULL = NULL := rfl
@[simp] theorem what_NULL : lego.what NULL = wZERO_IS_UNUSED := rfl
@[simp] theorem follow_nil (l : lego) : l.follow [] = l := rfl
@[simp] theorem follow_cons (l : lego) (x : Sel) (r : List Sel) :
    l.follow (x :: r) = (l.sel x).follow r := rfl
@[simp] theorem sel_a0 (l : lego) : l.sel Sel.a0 = l.a0 := rfl
@[simp] theorem sel_a1 (l : lego) : l.sel Sel.a1 = l.a1 := rfl
@[simp] theorem sel_a2 (l : lego) : l.sel Sel.a2 = l.a2 := rfl
@[simp] theorem sel_a3 (l : lego) : l.sel Sel.a3 = l.a3 := rfl
@[simp] theorem sel_next (l : lego) : l.sel Sel.next = l.next := rfl

@[simp] theorem follow_NULL (r : List Sel) : NULL.follow r = NULL := by
  induction r with
  | nil => rfl
  | cons x r ih => cases x <;> simpa [lego.a1, lego.a2, lego.a3] using ih

theorem isNull_of_what (l : lego) (w : What) (h : l.what = w) (hw : w ≠ wZERO_IS_UNUSED) :
    l.isNull = false := by
  cases l with
  | NULL => exact absurd h.symm hw
  | node => rfl

/-! ## ALTER (run.c, `do_alter`) -/

@[simp] theorem is_ref_NULL (r : List Sel) : is_ref NULL r = false := by
  induction r with
  | nil => rfl
  | cons x r ih =>
    cases x
    · cases r <;> simp [is_ref, alterable]
    · simp [is_ref]
    · simp [is_ref]
    · simp [is_ref]
    · simpa [is_ref] using ih

theorem setF_sel (l : lego) (g : Fields) (x : Sel) : (l.setF g).sel x = l.sel x := by
  cases l <;> cases x <;> rfl

theorem alterable_node (f : Fields) (a0 a1 a2 a3 nx : lego) :
    alterable (node f a0 a1 a2 a3 nx) = true ↔
      ((f.what = wGOTO ∨ f.what = wGOSUB ∨ f.what = wRESTORE ∨ f.what = wALTER)
        ∧ a0.isNull = false) := by
  simp [alterable, or_assoc]

/-- The effect of the loop of `do_alter` on every lego reachable from the chain. -/
theorem alter_chain_follow (dl : Option ℚ) (c : lego) (r : List Sel) :
    (((alter_chain dl c).1.follow r).isNull = (c.follow r).isNull) ∧
    ((alter_chain dl c).1.follow r).f =
      { (c.follow r).f with link := if is_ref c r = true then dl else (c.follow r).f.link } := by
  induction c generalizing r with
  | NULL => simp [alter_chain]
  | node f a0 a1 a2 a3 nx _ _ _ _ ih =>
    by_cases hal : (f.what = wGOTO ∨ f.what = wGOSUB ∨ f.what = wRESTORE ∨ f.what = wALTER)
        ∧ a0.isNull = false
    · have hab : alterable (node f a0 a1 a2 a3 nx) = true := (alterable_node ..).2 hal
      rw [alter_chain, if_pos hal]
      cases r with
      | nil => simp [is_ref]
      | cons x r =>
        cases x with
        | next => simpa [is_ref] using ih r
        | a0 =>
          cases r with
          | nil =>
            cases a0 with
            | NULL => simp at hal
            | node g b0 b1 b2 b3 bn => simp [is_ref, hab, lego.setF]
          | cons y r => simp [is_ref, setF_sel]
        | a1 => simp [is_ref]
        | a2 => simp [is_ref]
        | a3 => simp [is_ref]
    · have hab : alterable (node f a0 a1 a2 a3 nx) = false := by
        rw [← Bool.not_eq_true]; exact fun h => hal ((alterable_node ..).1 h)
      rw [alter_chain, if_neg hal]
      cases r with
      | nil => simp [is_ref]
      | cons x r =>
        cases x with
        | next => simpa [is_ref] using ih r
        | a0 =>
          cases r with
          | nil => simp [is_ref, hab]
          | cons y r => simp [is_ref]
        | a1 => simp [is_ref]
        | a2 => simp [is_ref]
        | a3 => simp [is_ref]

/-- `yes` of `do_alter` is set exactly when the chain holds a reference to rewrite. -/
theorem alter_chain_yes (dl : Option ℚ) (c : lego) :
    (alter_chain dl c).2 = true ↔ ∃ r, is_ref c r = true := by
  induction c with
  | NULL => simp [alter_chain]
  | node f a0 a1 a2 a3 nx _ _ _ _ ih =>
    by_cases hal : (f.what = wGOTO ∨ f.what = wGOSUB ∨ f.what = wRESTORE ∨ f.what = wALTER)
        ∧ a0.isNull = false
    · rw [alter_chain, if_pos hal]
      simp only [true_iff]
      exact ⟨[Sel.a0], by simpa [is_ref] using (alterable_node ..).2 hal⟩
    · have hab : alterable (node f a0 a1 a2 a3 nx) = false := by
        rw [← Bool.not_eq_true]; exact fun h => hal ((alterable_node ..).1 h)
      rw [alter_chain, if_neg hal]
      simp only [ih]
      constructor
      · rintro ⟨r, hr⟩
        exact ⟨Sel.next :: r, by simpa [is_ref] using hr⟩
      · rintro ⟨r, hr⟩
        cases r with
        | nil => simp [is_ref] at hr
        | cons x r =>
          cases x with
          | next => exact ⟨r, by simpa [is_ref] using hr⟩
          | a0 =>
            cases r with
            | nil => simp [is_ref, hab] at hr
            | cons y r => simp [is_ref] at hr
          | a1 => simp [is_ref] at hr
          | a2 => simp [is_ref] at hr
          | a3 => simp [is_ref] at hr

/-- When nothing is rewritten the chain is the same chain. -/
theorem alter_chain_same (dl : Option ℚ) (c : lego) (h : (alter_chain dl c).2 = false) :
    (alter_chain dl c).1 = c := by
  induction c with
  | NULL => rfl
  | node f a0 a1 a2 a3 nx _ _ _ _ ih =>
    by_cases hal : (f.what = wGOTO ∨ f.what = wGOSUB ∨ f.what = wRESTORE ∨ f.what = wALTER)
        ∧ a0.isNull = false
    · rw [alter_chain, if_pos hal] at h; simp at h
    · rw [alter_chain, if_neg hal] at h ⊢
      simp only at h ⊢
      rw [ih h]

/-- `find_line` after `set_code`, for the line whose code was replaced. -/
theorem find_line_set_code_self (A : ℚ) (c p : lego) (h : (find_line p A).isNull = false) :
    find_line (set_code A c p) A = (find_line p A).setA0 c := by
  induction p with
  | NULL => simp [find_line] at h
  | node f a0 a1 a2 a3 nx _ _ _ _ ih =>
    by_cases hf : f.n = A
    · simp [set_code, find_line, hf, lego.setA0]
    · simp only [find_line, hf, if_false] at h
      simp [set_code, find_line, hf, ih h]

/-- `find_line` after `set_code`, for another line: the same line, up to `next`. -/
theorem find_line_set_code_other (A k : ℚ) (c p : lego) (hk : k ≠ A) :
    (find_line (set_code A c p) k).isNull = (find_line p k).isNull ∧
    (find_line (set_code A c p) k).f = (find_line p k).f ∧
    ∀ x, x ≠ Sel.next → (find_line (set_code A c p) k).sel x = (find_line p k).sel x := by
  induction p with
  | NULL => simp [set_code, find_line]
  | node f a0 a1 a2 a3 nx _ _ _ _ ih =>
    by_cases hf : f.n = A
    · have hfk : f.n ≠ k := fun h => hk (h ▸ hf)
      simp [set_code, find_line, hf, hfk, Ne.symm hk]
    · by_cases hfk : f.n = k
      · subst hfk
        simp only [set_code, hf, if_false, find_line, if_true]
        refine ⟨rfl, rfl, ?_⟩
        intro x hx
        cases x <;> simp at hx ⊢
      · simpa [set_code, find_line, hf, hfk] using ih

theorem set_code_same (A : ℚ) (p : lego) : set_code A (find_line p A).a0 p = p := by
  induction p with
  | NULL => rfl
  | node f a0 a1 a2 a3 nx _ _ _ _ ih =>
    by_cases hf : f.n = A
    · simp [set_code, find_line, hf]
    · simp [set_code, find_line, hf, ih]


theorem do_alter_eq (st : State) (vi de : lego) (A : ℚ)
    (hvi : vi.link = some A) (hA : (find_line st.program A).isNull = false) :
    do_alter st vi de =
      if (alter_chain de.link (find_line st.program A).a0).2 = true then
        { st with program :=
            set_code A (alter_chain de.link (find_line st.program A).a0).1 st.program }
      else
        { st with
            program := set_code A (alter_chain de.link (find_line st.program A).a0).1 st.program,
            warning := warn st.warning "no alterations" } := by
  simp only [do_alter, hvi, hA, Bool.false_eq_true, if_false]
  split <;> rfl

/-- C10: `ALTER A TO B` (`do_alter` with `vi -> link` the stored line `A`). Every lego of
the stored program, addressed by a stored line `k` and a path from it that does not
start along `next`, keeps its place and all its fields, `n` included; its `link` becomes
`de -> link` exactly when the lego is `args[0]` of a top-level `GOTO`, `GOSUB`, `RESTORE`
or `ALTER` statement of line `A` (`targets`), and is unchanged everywhere else: in the
lists of `ON ... GOTO/GOSUB`, inside `IF` branches, in other lines. When line `A` holds
no such reference, "no alterations" goes to `warning` and the program is unchanged;
otherwise `warning` is untouched. Nothing but the program and `warning` changes. -/
theorem C10_alter_frame (st : State) (vi de : lego) (A : ℚ)
    (hvi : vi.link = some A) (hA : (find_line st.program A).isNull = false) :
    (∀ (k : ℚ) (path : List Sel), path.head? ≠ some Sel.next →
      ((find_line (do_alter st vi de).program k).follow path).isNull
        = ((find_line st.program k).follow path).isNull ∧
      ((find_line (do_alter st vi de).program k).follow path).f
        = { ((find_line st.program k).follow path).f with
              link := if k = A ∧ targets (find_line st.program A) path = true then de.link
                      else ((find_line st.program k).follow path).f.link }) ∧
    ((∀ path, targets (find_line st.program A) path = false) →
      (do_alter st vi de).warning = warn st.warning "no alterations" ∧
      (do_alter st vi de).program = st.program) ∧
    ((∃ path, targets (find_line st.program A) path = true) →
      (do_alter st vi de).warning = st.warning) ∧
    do_alter st vi de =
      { st with program := (do_alter st vi de).program,
                warning := (do_alter st vi de).warning } := by
  have hyes : (alter_chain de.link (find_line st.program A).a0).2 = true ↔
      ∃ path, targets (find_line st.program A) path = true := by
    rw [alter_chain_yes]
    constructor
    · rintro ⟨r, hr⟩; exact ⟨Sel.a0 :: r, by simpa [targets] using hr⟩
    · rintro ⟨path, hp⟩
      cases path with
      | nil => simp [targets] at hp
      | cons x r => cases x <;> simp [targets] at hp; exact ⟨r, hp⟩
  have hprog : (do_alter st vi de).program
      = set_code A (alter_chain de.link (find_line st.program A).a0).1 st.program := by
    rw [do_alter_eq st vi de A hvi hA]
    split <;> rfl
  refine ⟨?_, ?_, ?_, ?_⟩
  · intro k path hpath
    rw [hprog]
    by_cases hk : k = A
    · subst hk
      rw [find_line_set_code_self _ _ _ hA]
      cases hfl : find_line st.program k with
      | NULL => rw [hfl] at hA; simp at hA
      | node f a0 a1 a2 a3 nx =>
        cases path with
        | nil => simp [lego.setA0, targets]
        | cons x r =>
          cases x with
          | a0 =>
            have := alter_chain_follow de.link a0 r
            simpa [lego.setA0, targets] using this
          | a1 => simp [lego.setA0, targets]
          | a2 => simp [lego.setA0, targets]
          | a3 => simp [lego.setA0, targets]
          | next => simp at hpath
    · obtain ⟨h1, h2, h3⟩ := find_line_set_code_other A k
        (alter_chain de.link (find_line st.program A).a0).1 st.program hk
      cases path with
      | nil => simp [h1, h2, hk]
      | cons x r =>
        have hx : x ≠ Sel.next := by
          intro h; subst h; simp at hpath
        simp only [follow_cons, h3 x hx]
        simp [hk]
  · intro hno
    have hfalse : (alter_chain de.link (find_line st.program A).a0).2 = false := by
      rw [← Bool.not_eq_true, hyes]
      rintro ⟨path, hp⟩
      rw [hno path] at hp
      exact Bool.false_ne_true hp
    refine ⟨?_, ?_⟩
    · rw [do_alter_eq st vi de A hvi hA]; simp [hfalse]
    · rw [hprog, alter_chain_same _ _ hfalse, set_code_same]
  · intro hsome
    have htrue := hyes.2 hsome
    rw [do_alter_eq st vi de A hvi hA]; simp [htrue]
  · rw [do_alter_eq st vi de A hvi hA]
    split <;> rfl

/-- C10 on the example program: `ALTER 10 TO 20` sets the link of the `GOTO` of line 10. -/
theorem C10_alter_frame_witness :
    (find_line alter_state.program 30).a0.a0.link = some 10 ∧
    (find_line alter_state.program 10).isNull = false ∧
    ((find_line (do_alter alter_state (find_line alter_state.program 30).a0.a0
        (find_line alter_state.program 30).a0.a1).program 10).follow [Sel.a0, Sel.a0]).f
      = { ((find_line alter_state.program 10).follow [Sel.a0, Sel.a0]).f with
            link := if (10 : ℚ) = 10 ∧
                        targets (find_line alter_state.program 10) [Sel.a0, Sel.a0] = true
                    then (find_line alter_state.program 30).a0.a1.link
                    else ((find_line alter_state.program 10).follow [Sel.a0, Sel.a0]).f.link } :=
  ⟨by decide!, by decide!,
   ((C10_alter_frame alter_state (find_line alter_state.program 30).a0.a0
      (find_line alter_state.program 30).a0.a1 10 (by decide!) (by decide!)).1 10
      [Sel.a0, Sel.a0] (by decide)).2⟩

/-! ## READ, DATA and RESTORE (run.c, `get_next_data`) -/

theorem follow_append (l : lego) (p q : List Sel) : l.follow (p ++ q) = (l.follow p).follow q := by
  induction p generalizing l with
  | nil => rfl
  | cons x p ih => simp [ih]

theorem deref_snoc (prog imm : lego) (p : Ptr) (x : Sel) :
    deref prog imm { root := p.root, path := p.path ++ [x] } = (deref prog imm p).sel x := by
  cases p with
  | mk root path =>
    cases root <;> simp [deref, follow_append]

theorem ptr_sel_eq (prog imm : lego) (p : Ptr) (x : Sel) :
    ptr_sel prog imm p x =
      if ((deref prog imm p).sel x).isNull then none
      else some { root := p.root, path := p.path ++ [x] } := rfl

theorem chain_length_le_size (l : lego) : l.chain.length ≤ l.size := by
  induction l with
  | NULL => simp [lego.chain, lego.size]
  | node f a0 a1 a2 a3 nx _ _ _ _ ih => simp [lego.chain, lego.size]; omega

theorem lines_work_le_size (l : lego) : lines_work l ≤ l.size := by
  induction l with
  | NULL => simp [lines_work, lego.size]
  | node f a0 a1 a2 a3 nx _ _ _ _ ih =>
    have := chain_length_le_size a0
    simp [lines_work, lego.size]; omega

theorem sel_size_le (l : lego) (x : Sel) : (l.sel x).size ≤ l.size := by
  cases l with
  | NULL => cases x <;> simp [lego.size, lego.a1, lego.a2, lego.a3]
  | node f a0 a1 a2 a3 nx => cases x <;> simp [lego.size] <;> omega

theorem follow_size_le (l : lego) (p : List Sel) : (l.follow p).size ≤ l.size := by
  induction p generalizing l with
  | nil => simp
  | cons x p ih => exact le_trans (by simpa using ih (l.sel x)) (sel_size_le l x)

theorem find_line_size_le (p : lego) (k : ℚ) : (find_line p k).size ≤ p.size := by
  induction p with
  | NULL => simp [find_line, lego.size]
  | node f a0 a1 a2 a3 nx _ _ _ _ ih =>
    by_cases h : f.n = k
    · simp [find_line, h]
    · simp only [find_line, h, if_false]
      exact le_trans ih (by simp [lego.size])

theorem deref_size_le (prog : lego) (p : Ptr) : (deref prog NULL p).size ≤ prog.size := by
  cases p with
  | mk root path =>
    cases root with
    | none => simp [deref, lego.size]
    | some k =>
      exact le_trans (follow_size_le _ _) (find_line_size_le _ _)

theorem cursor_work_lt_fuel (st : State) : cursor_work st < data_fuel st := by
  unfold cursor_work data_fuel
  cases st.prog_con.data_datum with
  | some p => simp
  | none =>
    cases hq : st.prog_con.data_stmt with
    | none =>
      cases hk : st.prog_con.data_line with
      | none => simp
      | some k =>
        have := le_trans (lines_work_le_size (find_line st.program k)) (find_line_size_le _ _)
        simp only; omega
    | some q =>
      have h1 := le_trans (chain_length_le_size (deref st.program NULL q)) (deref_size_le _ _)
      cases hk : st.prog_con.data_line with
      | none => simp only; omega
      | some k =>
        have := le_trans (lines_work_le_size (find_line st.program k)) (find_line_size_le _ _)
        simp only; omega

theorem mem_chain_isNull (p c : lego) (h : c ∈ p.chain) : c.isNull = false := by
  induction p with
  | NULL => simp [lego.chain] at h
  | node f a0 a1 a2 a3 nx _ _ _ _ ih =>
    simp only [lego.chain, List.mem_cons] at h
    rcases h with h | h
    · subst h; rfl
    · exact ih h

theorem mem_chain_n (p c : lego) (h : c ∈ p.chain) : c.n ∈ line_numbers p :=
  List.mem_map_of_mem _ h

theorem next_mem_chain (p c : lego) (h : c ∈ p.chain) (hn : c.next.isNull = false) :
    c.next ∈ p.chain := by
  induction p with
  | NULL => simp [lego.chain] at h
  | node f a0 a1 a2 a3 nx _ _ _ _ ih =>
    simp only [lego.chain, List.mem_cons] at h ⊢
    rcases h with h | h
    · subst h
      right
      simp only [next_node] at hn ⊢
      cases nx with
      | NULL => simp at hn
      | node g b0 b1 b2 b3 bn => simp [lego.chain]
    · right; exact ih h

/-- In a store with strictly increasing numbers, `find_line` finds each stored line by
its number. -/
theorem find_line_of_mem (p c : lego) (hs : (line_numbers p).Pairwise (· < ·))
    (h : c ∈ p.chain) : find_line p c.n = c := by
  induction p with
  | NULL => simp [lego.chain] at h
  | node f a0 a1 a2 a3 nx _ _ _ _ ih =>
    have hs' : (f.n :: line_numbers nx).Pairwise (· < ·) := by
      simpa [line_numbers, lego.chain] using hs
    rw [List.pairwise_cons] at hs'
    simp only [lego.chain, List.mem_cons] at h
    rcases h with h | h
    · subst h; simp [find_line]
    · have hlt := hs'.1 _ (mem_chain_n nx c h)
      simp [find_line, ne_of_lt hlt, ih hs'.2 h]

theorem find_line_n (p : lego) (k : ℚ) (h : (find_line p k).isNull = false) :
    (find_line p k).n = k := by
  induction p with
  | NULL => simp [find_line] at h
  | node f a0 a1 a2 a3 nx _ _ _ _ ih =>
    by_cases hf : f.n = k
    · simp [find_line, hf]
    · simp only [find_line, hf, if_false] at h ⊢
      exact ih h

theorem line_ptr_eq (l : lego) (h : l.isNull = false) : line_ptr l = some l.n := by
  cases l with
  | NULL => simp at h
  | node => rfl

theorem line_ptr_NULL : line_ptr NULL = none := rfl

theorem item_ptrs_node (p : Ptr) (l : lego) (h : l.isNull = false) :
    item_ptrs p l = p :: item_ptrs { root := p.root, path := p.path ++ [Sel.next] } l.next := by
  cases l with
  | NULL => simp at h
  | node => rfl

theorem stmt_data_node (p : Ptr) (l : lego) (h : l.isNull = false) :
    stmt_data p l =
      (if l.what = wDATA then item_ptrs { root := p.root, path := p.path ++ [Sel.a0] } l.a0
       else []) ++ stmt_data { root := p.root, path := p.path ++ [Sel.next] } l.next := by
  cases l with
  | NULL => simp at h
  | node => rfl

theorem program_data_node (l : lego) (h : l.isNull = false) :
    program_data l =
      stmt_data { root := some l.n, path := [Sel.a0] } l.a0 ++ program_data l.next := by
  cases l with
  | NULL => simp at h
  | node => rfl

theorem chain_length_node (l : lego) (h : l.isNull = false) :
    l.chain.length = 1 + l.next.chain.length := by
  cases l with
  | NULL => simp at h
  | node => simp [lego.chain]; omega

theorem lines_work_node (l : lego) (h : l.isNull = false) :
    lines_work l = 1 + l.a0.chain.length + lines_work l.next := by
  cases l with
  | NULL => simp at h
  | node => rfl

theorem item_ptrs_null (p : Ptr) (l : lego) (h : l.isNull = true) : item_ptrs p l = [] := by
  cases l with
  | NULL => rfl
  | node => simp at h

theorem stmt_data_null (p : Ptr) (l : lego) (h : l.isNull = true) : stmt_data p l = [] := by
  cases l with
  | NULL => rfl
  | node => simp at h

theorem program_data_null (l : lego) (h : l.isNull = true) : program_data l = [] := by
  cases l with
  | NULL => rfl
  | node => simp at h

theorem chain_null (l : lego) (h : l.isNull = true) : l.chain = [] := by
  cases l with
  | NULL => rfl
  | node => simp at h

theorem lines_work_null (l : lego) (h : l.isNull = true) : lines_work l = 0 := by
  cases l with
  | NULL => rfl
  | node => simp at h


theorem match_items (prog : lego) (q : Ptr) (x : Sel) :
    (match ptr_sel prog NULL q x with
      | some p => item_ptrs p (deref prog NULL p)
      | none => []) =
    item_ptrs { root := q.root, path := q.path ++ [x] } ((deref prog NULL q).sel x) := by
  rw [ptr_sel_eq]
  by_cases h : ((deref prog NULL q).sel x).isNull = true
  · simp only [h, if_true]; rw [item_ptrs_null _ _ h]
  · simp [h, deref_snoc]

theorem match_stmts (prog : lego) (q : Ptr) (x : Sel) :
    (match ptr_sel prog NULL q x with
      | some p => stmt_data p (deref prog NULL p)
      | none => []) =
    stmt_data { root := q.root, path := q.path ++ [x] } ((deref prog NULL q).sel x) := by
  rw [ptr_sel_eq]
  by_cases h : ((deref prog NULL q).sel x).isNull = true
  · simp only [h, if_true]; rw [stmt_data_null _ _ h]
  · simp [h, deref_snoc]

theorem match_chain (prog : lego) (q : Ptr) (x : Sel) :
    (match ptr_sel prog NULL q x with
      | some p => (deref prog NULL p).chain.length
      | none => 0) = ((deref prog NULL q).sel x).chain.length := by
  rw [ptr_sel_eq]
  by_cases h : ((deref prog NULL q).sel x).isNull = true
  · simp only [h, if_true]; rw [chain_null _ h]; rfl
  · simp [h, deref_snoc]

theorem match_lines (prog l : lego)
    (h : l.isNull = false → find_line prog l.n = l) :
    (match line_ptr l with
      | some k => program_data (find_line prog k)
      | none => []) = program_data l := by
  cases l with
  | NULL => rfl
  | node f a0 a1 a2 a3 nx =>
    have := h rfl
    simp only [line_ptr]
    simp only [n_node] at this
    rw [this]

theorem match_lines_work (prog l : lego)
    (h : l.isNull = false → find_line prog l.n = l) :
    (match line_ptr l with
      | some k => lines_work (find_line prog k)
      | none => 0) = lines_work l := by
  cases l with
  | NULL => rfl
  | node f a0 a1 a2 a3 nx =>
    have := h rfl
    simp only [line_ptr]
    simp only [n_node] at this
    rw [this]

theorem ptr_sel_ok (prog : lego) (q p : Ptr) (x : Sel) (h : ptr_sel prog NULL q x = some p) :
    (deref prog NULL p).isNull = false := by
  rw [ptr_sel_eq] at h
  split at h
  · cases h
  · rename_i hnn
    cases h
    rw [deref_snoc]
    simpa using hnn

theorem cursor_data_set (st : State) (dl : Option ℚ) (ds dd : Option Ptr) :
    cursor_data (set_cursor st dl ds dd) =
      (match dd with
        | some p => item_ptrs p (deref st.program NULL p)
        | none => []) ++
      (match ds with
        | some q => stmt_data q (deref st.program NULL q)
        | none => []) ++
      (match dl with
        | some k => program_data (find_line st.program k)
        | none => []) := rfl

theorem cursor_work_set (st : State) (dl : Option ℚ) (ds dd : Option Ptr) :
    cursor_work (set_cursor st dl ds dd) =
      match dd with
      | some _ => 0
      | none =>
        (match ds with
          | some q => (deref st.program NULL q).chain.length
          | none => 0) +
        (match dl with
          | some k => lines_work (find_line st.program k)
          | none => 0) := rfl

theorem get_next_data_datum (fuel : Nat) (st : State) (p : Ptr)
    (h : st.prog_con.data_datum = some p) :
    get_next_data (fuel + 1) st =
      some (some p, set_cursor st st.prog_con.data_line st.prog_con.data_stmt
        (ptr_sel st.program NULL p Sel.next)) := by
  simp only [get_next_data, h]; rfl

theorem get_next_data_DATA (fuel : Nat) (st : State) (q : Ptr)
    (h : st.prog_con.data_datum = none) (hq : st.prog_con.data_stmt = some q)
    (hd : (deref st.program NULL q).what = wDATA) :
    get_next_data (fuel + 1) st =
      get_next_data fuel (set_cursor st st.prog_con.data_line
        (ptr_sel st.program NULL q Sel.next) (ptr_sel st.program NULL q Sel.a0)) := by
  simp only [get_next_data, h, hq, hd, if_true]; rfl

theorem get_next_data_other (fuel : Nat) (st : State) (q : Ptr)
    (h : st.prog_con.data_datum = none) (hq : st.prog_con.data_stmt = some q)
    (hd : (deref st.program NULL q).what ≠ wDATA) :
    get_next_data (fuel + 1) st =
      get_next_data fuel (set_cursor st st.prog_con.data_line
        (ptr_sel st.program NULL q Sel.next) none) := by
  simp only [get_next_data, h, hq, hd, if_false]
  rfl

theorem get_next_data_line (fuel : Nat) (st : State) (k : ℚ)
    (h : st.prog_con.data_datum = none) (hq : st.prog_con.data_stmt = none)
    (hk : st.prog_con.data_line = some k) :
    get_next_data (fuel + 1) st =
      get_next_data fuel (set_cursor st (line_ptr (find_line st.program k).next)
        (ptr_sel st.program NULL { root := some k, path := [] } Sel.a0) none) := by
  simp only [get_next_data, h, hq, hk]
  rfl

theorem get_next_data_end (fuel : Nat) (st : State)
    (h : st.prog_con.data_datum = none) (hq : st.prog_con.data_stmt = none)
    (hk : st.prog_con.data_line = none) :
    get_next_data (fuel + 1) st = some (none, st) := by
  simp only [get_next_data, h, hq, hk]

/-- One call of `get_next_data`, with enough fuel, on a store with strictly increasing
numbers: it returns the first of the data ahead of the cursor (`none` when there is
none) and leaves the cursor before the rest. -/
theorem get_next_data_spec (fuel : Nat) : ∀ (st : State),
    (line_numbers st.program).Pairwise (· < ·) → CursorOK st → cursor_work st < fuel →
    ∃ st', get_next_data fuel st = some ((cursor_data st).head?, st') ∧
      st'.program = st.program ∧ CursorOK st' ∧ cursor_data st' = (cursor_data st).tail := by
  induction fuel with
  | zero => intro st _ _ h; omega
  | succ fuel ih =>
    intro st hs hok hw
    obtain ⟨hok1, hok2, hok3⟩ := hok
    cases hdd : st.prog_con.data_datum with
    | some p =>
      have hp := hok1 p hdd
      have hcd : cursor_data st = p :: cursor_data (set_cursor st st.prog_con.data_line
          st.prog_con.data_stmt (ptr_sel st.program NULL p Sel.next)) := by
        rw [cursor_data_set, match_items]
        simp only [cursor_data, hdd]
        rw [item_ptrs_node p _ hp]
        simp only [List.cons_append, List.append_assoc]
        rfl
      refine ⟨set_cursor st st.prog_con.data_line st.prog_con.data_stmt
          (ptr_sel st.program NULL p Sel.next), ?_, rfl, ⟨?_, ?_, ?_⟩, ?_⟩
      · rw [get_next_data_datum fuel st p hdd, hcd]; rfl
      · intro p' hp'; exact ptr_sel_ok _ _ _ _ hp'
      · intro q hq; exact hok2 q hq
      · intro k hk; exact hok3 k hk
      · rw [hcd]; rfl
    | none =>
      cases hds : st.prog_con.data_stmt with
      | some q =>
        have hq := hok2 q hds
        have hw' : (deref st.program NULL q).chain.length +
            (match st.prog_con.data_line with
              | some k => lines_work (find_line st.program k)
              | none => 0) < fuel + 1 := by
          simpa only [cursor_work, hdd, hds] using hw
        rw [chain_length_node _ hq] at hw'
        by_cases hdata : (deref st.program NULL q).what = wDATA
        · rw [get_next_data_DATA fuel st q hdd hds hdata]
          have hcd : cursor_data (set_cursor st st.prog_con.data_line
              (ptr_sel st.program NULL q Sel.next) (ptr_sel st.program NULL q Sel.a0))
              = cursor_data st := by
            rw [cursor_data_set, match_items, match_stmts]
            simp only [cursor_data, hdd, hds, List.nil_append]
            rw [stmt_data_node q _ hq, if_pos hdata]
            simp only [List.append_assoc]
            rfl
          rw [← hcd]
          refine (fun ⟨st', h1, h2, h3, h4⟩ => ⟨st', h1, h2, h3, h4⟩)
            (ih (set_cursor st st.prog_con.data_line
              (ptr_sel st.program NULL q Sel.next) (ptr_sel st.program NULL q Sel.a0)) hs ?_ ?_)
          · exact ⟨fun p' hp' => ptr_sel_ok _ _ _ _ hp', fun q' hq' => ptr_sel_ok _ _ _ _ hq',
              fun k hk => hok3 k hk⟩
          · rw [cursor_work_set]
            cases h0 : ptr_sel st.program NULL q Sel.a0 with
            | some p0 => simp only; omega
            | none =>
              simp only [match_chain, sel_next]
              omega
        · rw [get_next_data_other fuel st q hdd hds hdata]
          have hcd : cursor_data (set_cursor st st.prog_con.data_line
              (ptr_sel st.program NULL q Sel.next) none) = cursor_data st := by
            rw [cursor_data_set, match_stmts]
            simp only [cursor_data, hdd, hds, List.nil_append]
            rw [stmt_data_node q _ hq, if_neg hdata]
            simp only [List.nil_append]
            rfl
          rw [← hcd]
          refine (fun ⟨st', h1, h2, h3, h4⟩ => ⟨st', h1, h2, h3, h4⟩)
            (ih (set_cursor st st.prog_con.data_line
              (ptr_sel st.program NULL q Sel.next) none) hs ?_ ?_)
          · exact ⟨fun p' hp' => (nomatch hp'), fun q' hq' => ptr_sel_ok _ _ _ _ hq',
              fun k hk => hok3 k hk⟩
          · rw [cursor_work_set]
            simp only [match_chain, sel_next]
            omega
      | none =>
        cases hdl : st.prog_con.data_line with
        | none =>
          have hcd : cursor_data st = [] := by simp [cursor_data, hdd, hds, hdl]
          refine ⟨st, ?_, rfl, ⟨hok1, hok2, hok3⟩, ?_⟩
          · rw [get_next_data_end fuel st hdd hds hdl, hcd]; rfl
          · rw [hcd]; rfl
        | some k =>
          have hmem := hok3 k hdl
          have hk := mem_chain_isNull _ _ hmem
          have hkn := find_line_n _ _ hk
          have hnext : (find_line st.program k).next.isNull = false →
              find_line st.program (find_line st.program k).next.n
                = (find_line st.program k).next := fun hn =>
            find_line_of_mem _ _ hs (next_mem_chain _ _ hmem hn)
          have hder : deref st.program NULL { root := some k, path := [] }
              = find_line st.program k := rfl
          rw [get_next_data_line fuel st k hdd hds hdl]
          have hcd : cursor_data (set_cursor st (line_ptr (find_line st.program k).next)
              (ptr_sel st.program NULL { root := some k, path := [] } Sel.a0) none)
              = cursor_data st := by
            rw [cursor_data_set, match_stmts, match_lines _ _ hnext, hder]
            simp only [cursor_data, hdd, hds, hdl, List.nil_append]
            rw [program_data_node _ hk, hkn]
            rfl
          have hw' : lines_work (find_line st.program k) < fuel + 1 := by
            simpa only [cursor_work, hdd, hds, hdl, Nat.zero_add] using hw
          rw [lines_work_node _ hk] at hw'
          rw [← hcd]
          refine (fun ⟨st', h1, h2, h3, h4⟩ => ⟨st', h1, h2, h3, h4⟩)
            (ih (set_cursor st (line_ptr (find_line st.program k).next)
              (ptr_sel st.program NULL { root := some k, path := [] } Sel.a0) none) hs ?_ ?_)
          · refine ⟨fun p' hp' => (nomatch hp'), fun q' hq' => ptr_sel_ok _ _ _ _ hq', ?_⟩
            intro k' hk'
            have hk'' : line_ptr (find_line st.program k).next = some k' := hk'
            cases hfl : (find_line st.program k).next with
            | NULL => rw [hfl] at hk''; cases hk''
            | node g b0 b1 b2 b3 bn =>
              have h1' : (find_line st.program k).next.isNull = false := by rw [hfl]; rfl
              rw [line_ptr_eq _ h1'] at hk''
              cases hk''
              show find_line st.program (find_line st.program k).next.n ∈ st.program.chain
              rw [hnext h1']
              exact next_mem_chain _ _ hmem h1'
          · rw [cursor_work_set]
            simp only [match_chain, match_lines_work _ _ hnext, hder, sel_a0]
            omega


/-- Successive calls of `get_next_data` deliver the data ahead of the cursor in order,
and `none` from then on. -/
theorem next_data_n_spec (n : Nat) : ∀ (st : State),
    (line_numbers st.program).Pairwise (· < ·) → CursorOK st →
    (next_data_n n st).1 = (List.range n).map (fun i => (cursor_data st)[i]?) := by
  induction n with
  | zero => intro st _ _; rfl
  | succ n ih =>
    intro st hs hok
    obtain ⟨st', h1, h2, h3, h4⟩ :=
      get_next_data_spec (data_fuel st) st hs hok (cursor_work_lt_fuel st)
    have hs' : (line_numbers st'.program).Pairwise (· < ·) := by rw [h2]; exact hs
    simp only [next_data_n, h1, ih st' hs' h3, h4, List.range_succ_eq_map, List.map_cons,
      List.map_map]
    congr 1
    · cases cursor_data st <;> simp
    · apply List.map_congr_left
      intro i _
      cases cursor_data st <;> simp

theorem cursorOK_head (st : State) :
    CursorOK (set_cursor st (line_ptr st.program) none none) := by
  refine ⟨fun p hp => (nomatch hp), fun q hq => (nomatch hq), ?_⟩
  intro k hk
  have hk' : line_ptr st.program = some k := hk
  show find_line st.program k ∈ st.program.chain
  cases hp : st.program with
  | NULL => rw [hp] at hk'; cases hk'
  | node f a0 a1 a2 a3 nx =>
    rw [hp] at hk'
    cases hk'
    simp [find_line, lego.chain]

theorem cursor_data_head (st : State) :
    cursor_data (set_cursor st (line_ptr st.program) none none) = program_data st.program := by
  rw [cursor_data_set]
  cases hp : st.program with
  | NULL => rfl
  | node f a0 a1 a2 a3 nx => simp [line_ptr, find_line]

/-- C9: `reset_program` (which `RUN` calls) and a step on `RESTORE` without a target put
the data cursor at the head of the program. From there, on a store with strictly
increasing line numbers, `n` successive calls of `get_next_data` deliver the first `n`
data of the program in program order (`program_data`: ascending line order, then
statement order within the line, then item order within the `DATA` statement, other
statements skipped), and `none` once they are used up. `READ` hands each datum to
`evalloc` and assigns the value to its next target; the program
`10 DATA 1+1, [hi] / 20 READ A, B$ / 30 PRINT A, B$` prints `2 hi` and a newline. -/
theorem C9_read_data_order (m : Libm) (st : State)
    (hs : (line_numbers st.program).Pairwise (· < ·)) (n : Nat) :
    reset_program st = set_cursor { st with prog_con := x_con.zero } (line_ptr st.program)
      none none ∧
    (∀ (imm : lego) (prog : Bool) (ic : x_con) (p : Ptr),
      (getc prog st ic).stmt = some p →
      (deref st.program imm p).what = wRESTORE → (deref st.program imm p).a0.isNull = true →
      (single_step m imm prog st ic).2.1.prog_con.data_line = line_ptr st.program ∧
      (single_step m imm prog st ic).2.1.prog_con.data_stmt = none ∧
      (single_step m imm prog st ic).2.1.prog_con.data_datum = none) ∧
    (next_data_n n (set_cursor st (line_ptr st.program) none none)).1
      = (List.range n).map (fun i => (program_data st.program)[i]?) ∧
    (∀ (f : Fields) (a0 a1 a2 a3 nx : lego) (d : Ptr) (st1 st2 : State) (q : computed),
      get_next_data (data_fuel st) st = some (some d, st1) →
      evalloc m st1 (deref st1.program NULL d) = (q, st2) →
      (f.what = wNUMVAR → q.what = rKind.rNum →
        read_loop m st (node f a0 a1 a2 a3 nx)
          = read_loop m (set_var st2 (f.s.getD []) none q.n) nx) ∧
      (f.what = wSTRVAR → q.what = rKind.rString →
        read_loop m st (node f a0 a1 a2 a3 nx)
          = read_loop m (set_var st2 (f.s.getD []) (some (q.s.getD [])) 0) nx)) ∧
    output_of Libm.none 100 (typed_in read_program) "RUN" = some "2 hi\n".data := by
  refine ⟨rfl, ?_, ?_, ?_, ?_⟩
  · intro imm prog ic p hp hw ha
    have hnn : (deref st.program imm p).isNull = false :=
      isNull_of_what _ _ hw (by decide)
    cases prog with
    | true =>
      simp only [getc, if_true] at hp
      simp [single_step, seek_stmt, getc, updc, hp, hw, hnn, ha]
    | false =>
      simp only [getc] at hp
      simp at hp
      simp [single_step, seek_stmt, getc, updc, hp, hw, hnn, ha]
  · rw [next_data_n_spec n (set_cursor st (line_ptr st.program) none none) hs
      (cursorOK_head st), cursor_data_head]
  · intro f a0 a1 a2 a3 nx d st1 st2 q hg he
    refine ⟨?_, ?_⟩
    · intro hf hq
      rw [read_loop]
      simp [hg, he, hq, hf]
    · intro hf hq
      rw [read_loop]
      simp [hg, he, hq, hf]
  · decide!

/-- C9 on the scenario program: the first three calls from the head of the program. -/
theorem C9_read_data_order_witness :
    (line_numbers (typed_in read_program).program).Pairwise (· < ·) ∧
    (next_data_n 3 (set_cursor (typed_in read_program)
        (line_ptr (typed_in read_program).program) none none)).1
      = (List.range 3).map (fun i => (program_data (typed_in read_program).program)[i]?) :=
  ⟨by decide!, (C9_read_data_order Libm.none (typed_in read_program) (by decide!) 3).2.2.1⟩

/-! ## FOR and NEXT (run.c, `single_step`) -/

/-- The step of `single_step` on `NEXT` in program context, when the frame on top of the
`FOR` stack is the one `NEXT` names (or `NEXT` names none) and the loop variable holds
`v`: if `v + step` is beyond the end value the frame is popped, the variable keeps `v`
and control falls through to the statement after `NEXT`; otherwise the variable is set to
`v + step` and control returns to the statement after `FOR`. -/
theorem single_step_next (m : Libm) (imm : lego) (st : State) (ic : x_con) (p : Ptr)
    (fr : next_stack) (rest : List next_stack) (v : varDB)
    (hp : st.prog_con.stmt = some p)
    (hw : (deref st.program imm p).what = wNEXT)
    (hfr : st.prog_con.next_to = fr :: rest)
    (hname : (deref st.program imm p).a0.isNull = true ∨
             (deref st.program imm p).a0.str = fr.nVar)
    (hv : find_var st.numDB fr.nVar = some v) :
    single_step m imm true st ic =
      if beyond fr.de fr.step (v.n + fr.step) then
        (wZERO_IS_UNUSED,
         { st with prog_con := { st.prog_con with
             stmt := ptr_sel st.program imm p Sel.next, next_to := rest } }, ic)
      else
        (wZERO_IS_UNUSED,
         { st with numDB := set_in fr.nVar none (v.n + fr.step) st.numDB,
                   prog_con := { st.prog_con with line := fr.line, stmt := fr.stmt } }, ic) := by
  have hnn : (deref st.program imm p).isNull = false := isNull_of_what _ _ hw (by decide)
  have hexp : expire_next_stack (fr :: rest)
      (if (deref st.program imm p).a0.isNull = true then none
       else some (deref st.program imm p).a0.str) false = fr :: rest := by
    rcases hname with h | h
    · simp [h, expire_next_stack, find_frame]
    · by_cases h0 : (deref st.program imm p).a0.isNull = true
      · simp [h0, expire_next_stack, find_frame]
      · simp [h0, h, expire_next_stack, find_frame]
  have hcond : ¬ ((if (deref st.program imm p).a0.isNull = true then none
       else some (deref st.program imm p).a0.str : Option (List Char)).isSome = true ∧
      (if (deref st.program imm p).a0.isNull = true then none
       else some (deref st.program imm p).a0.str : Option (List Char)) ≠ some fr.nVar) := by
    rcases hname with h | h
    · simp [h]
    · by_cases h0 : (deref st.program imm p).a0.isNull = true
      · simp [h0]
      · simp [h0, h]
  simp only [single_step, seek_stmt, getc, updc, hp, hw, hnn, if_true, hfr, hexp,
    Bool.false_eq_true, if_false, num_from_name_hack, hv, beyond]
  simp only [hcond, if_false]
  split <;> rfl


theorem for_program_find (a b s : ℚ) : find_line (for_program a b s) 10 = for_program a b s := by
  simp [for_program, line10, find_line, Fields.zero]

theorem for_deref_next (a b s : ℚ) (imm : lego) :
    deref (for_program a b s) imm { root := some 10, path := [Sel.a0, Sel.next] }
      = nextStmt "I" NULL := by
  simp [deref, for_program_find]
  simp [for_program, line10, forStmt]

/-- A round of `immediate` on the `NEXT` of `for_program` that loops back. -/
theorem for_round_back (m : Libm) (a b s v : ℚ) (h : ¬ beyond b s (v + s)) :
    immediate_round m (running_frame (for_state a b s v
        (some { root := some 10, path := [Sel.a0, Sel.next] }) [for_frame a b s]))
      = Sum.inr (running_frame (for_state a b s (v + s)
        (some { root := some 10, path := [Sel.a0, Sel.next] }) [for_frame a b s])) := by
  have hstep := single_step_next m (newLego wRUN)
    (for_state a b s v (some { root := some 10, path := [Sel.a0, Sel.next] }) [for_frame a b s])
    { x_con.zero with lNum := -1 } { root := some 10, path := [Sel.a0, Sel.next] }
    (for_frame a b s) [] { name := "I".data, s := none, n := v } rfl
    (by rw [show (for_state a b s v (some { root := some 10, path := [Sel.a0, Sel.next] })
          [for_frame a b s]).program = for_program a b s from rfl, for_deref_next]; rfl)
    rfl
    (Or.inr (by rw [show (for_state a b s v (some { root := some 10, path := [Sel.a0, Sel.next] })
          [for_frame a b s]).program = for_program a b s from rfl, for_deref_next]; rfl))
    (by simp [for_state, find_var, for_frame])
  have h' : ¬ beyond (for_frame a b s).de (for_frame a b s).step (v + (for_frame a b s).step) := h
  simp only [immediate_round, running_frame, hstep, h', if_false]
  simp [for_state, for_init, State.init, set_in, for_frame]


/-- A round of `immediate` on the `NEXT` of `for_program` that falls through. -/
theorem for_round_exit (m : Libm) (a b s v : ℚ) (h : beyond b s (v + s)) :
    immediate_round m (running_frame (for_state a b s v
        (some { root := some 10, path := [Sel.a0, Sel.next] }) [for_frame a b s]))
      = Sum.inr (running_frame (for_state a b s v none [])) := by
  have hstep := single_step_next m (newLego wRUN)
    (for_state a b s v (some { root := some 10, path := [Sel.a0, Sel.next] }) [for_frame a b s])
    { x_con.zero with lNum := -1 } { root := some 10, path := [Sel.a0, Sel.next] }
    (for_frame a b s) [] { name := "I".data, s := none, n := v } rfl
    (by rw [show (for_state a b s v (some { root := some 10, path := [Sel.a0, Sel.next] })
          [for_frame a b s]).program = for_program a b s from rfl, for_deref_next]; rfl)
    rfl
    (Or.inr (by rw [show (for_state a b s v (some { root := some 10, path := [Sel.a0, Sel.next] })
          [for_frame a b s]).program = for_program a b s from rfl, for_deref_next]; rfl))
    (by simp [for_state, find_var, for_frame])
  have h' : beyond (for_frame a b s).de (for_frame a b s).step (v + (for_frame a b s).step) := h
  have hnext : ptr_sel (for_program a b s) (newLego wRUN)
      { root := some 10, path := [Sel.a0, Sel.next] } Sel.next = none := by
    simp [ptr_sel, for_deref_next, nextStmt]
  simp only [immediate_round, running_frame, hstep, h', if_true]
  simp [for_state, for_init, State.init, hnext]

/-- The last two rounds of `immediate` after the loop of `for_program` was left. -/
theorem for_rounds_end (m : Libm) (a b s v : ℚ) (fuel : Nat) :
    immediate_loop m (fuel + 2) (running_frame (for_state a b s v none []))
      = some (1, { for_init a b s with
          prog_con := { x_con.zero with data_line := some 10 },
          numDB := [{ name := "I".data, s := none, n := v }] }) := by
  have hnl : line_ptr (find_line (for_program a b s) 10).next = none := by
    rw [for_program_find]; rfl
  simp [immediate_loop, immediate_round, running_frame, for_state, for_init, State.init,
    single_step, seek_stmt, getc, updc, hnl, stmt_of_line, reset_program, x_con.zero,
    byItself]
  rfl


theorem for_program_link (a b s : ℚ) (st : State) :
    link (for_program a b s) st (for_program a b s) (-1)
      = { tree := for_program a b s, bad := 0, st := st } := by
  simp [for_program, line10, forStmt, nextStmt, numVar, numLit, link, Fields.zero]

/-- The first three rounds of `immediate` on `RUN` with `for_program` stored: `RUN`, the
line header, `FOR`. -/
theorem for_param_numLit (m : Libm) (st : State) (q : ℚ) :
    for_param m st (numLit q) = (some q, st) := by
  simp [for_param, numLit, evalloc, num_result, Fields.zero]

theorem for_rounds_start (m : Libm) (a b s : ℚ) (fuel : Nat) :
    immediate m (fuel + 3) (for_init a b s) (newLego wRUN)
      = immediate_loop m fuel (running_frame (for_state a b s a
          (some { root := some 10, path := [Sel.a0, Sel.next] }) [for_frame a b s])) := by
  have hl : link (for_init a b s).program (for_init a b s) (newLego wRUN) (-1)
      = { tree := newLego wRUN, bad := 0, st := for_init a b s } := by
    simp [newLego, link, Fields.zero]
  have hfl : find_line (for_program a b s) 10 = for_program a b s := for_program_find a b s
  have hp : (for_init a b s).program = for_program a b s := rfl
  have hlp : line_ptr (for_program a b s) = some 10 := rfl
  simp only [immediate, hl]
  simp only [immediate_loop]
  have r1 : immediate_round m
      { st := for_init a b s, imm := newLego wRUN,
        imm_con := { x_con.zero with stmt := some { root := none, path := [] }, lNum := -1 },
        running := false }
      = Sum.inr (running_frame { for_init a b s with
          prog_con := { x_con.zero with line := some 10,
                                        stmt := some { root := some 10, path := [] },
                                        data_line := some 10 } }) := by
    simp [immediate_round, single_step, seek_stmt, getc, updc, newLego, Fields.zero, deref,
      ptr_sel, hp, for_program_link, erase_run_vars, reset_program, hlp, stmt_of_line,
      running_frame]
    simp [for_init, State.init, x_con.zero]
  have r2 : immediate_round m (running_frame { for_init a b s with
          prog_con := { x_con.zero with line := some 10,
                                        stmt := some { root := some 10, path := [] },
                                        data_line := some 10 } })
      = Sum.inr (running_frame { for_init a b s with
          prog_con := { x_con.zero with line := some 10,
                                        stmt := some { root := some 10, path := [Sel.a0] },
                                        data_line := some 10, lNum := 10 } }) := by
    simp [immediate_round, single_step, seek_stmt, getc, updc, newLego, Fields.zero, deref,
      ptr_sel, hp, hfl, running_frame]
    simp [for_program, line10, for_init, State.init, x_con.zero, Fields.zero, forStmt]
  have r3 : immediate_round m (running_frame { for_init a b s with
          prog_con := { x_con.zero with line := some 10,
                                        stmt := some { root := some 10, path := [Sel.a0] },
                                        data_line := some 10, lNum := 10 } })
      = Sum.inr (running_frame (for_state a b s a
          (some { root := some 10, path := [Sel.a0, Sel.next] }) [for_frame a b s])) := by
    simp [immediate_round, single_step, seek_stmt, getc, updc, newLego, Fields.zero, deref,
      ptr_sel, hp, hfl, running_frame]
    simp [for_program, line10, for_init, State.init, x_con.zero, Fields.zero, forStmt,
      for_param_numLit]
    simp [nextStmt, numVar, lego.str, expire_next_stack, find_frame, set_var, set_in, Fields.zero,
      for_state, for_frame, for_init, State.init, for_program, line10, forStmt]
  rw [r1]
  simp only [immediate_loop]
  rw [r2]
  simp only [immediate_loop]
  rw [r3]
  simp [newLego, Fields.zero, running_frame, for_init, State.init]

/-- The loop of `for_program`: when `NEXT` finds `v + s`, ..., `v + k s` within the end
value and `v + (k + 1) s` beyond it, `immediate` returns with `I` holding `v + k s`. -/
theorem for_loop_runs (m : Libm) (a b s : ℚ) (k : Nat) : ∀ (v : ℚ) (fuel : Nat),
    (∀ j : Nat, 1 ≤ j → j ≤ k → ¬ beyond b s (v + j * s)) →
    beyond b s (v + (k + 1 : Nat) * s) →
    immediate_loop m (fuel + k + 3) (running_frame (for_state a b s v
        (some { root := some 10, path := [Sel.a0, Sel.next] }) [for_frame a b s]))
      = some (1, { for_init a b s with
          prog_con := { x_con.zero with data_line := some 10 },
          numDB := [{ name := "I".data, s := none, n := v + k * s }] }) := by
  induction k with
  | zero =>
    intro v fuel _ hex
    have hex' : beyond b s (v + s) := by simpa using hex
    rw [show fuel + 0 + 3 = (fuel + 2) + 1 from rfl, immediate_loop]
    rw [for_round_exit m a b s v hex']
    have hh : (running_frame (for_state a b s v
        (some { root := some 10, path := [Sel.a0, Sel.next] }) [for_frame a b s])).st.halt.isSome
        = false := rfl
    simp only [hh, Bool.false_eq_true, if_false]
    rw [for_rounds_end]
    simp
  | succ k ih =>
    intro v fuel hin hex
    have h1 : ¬ beyond b s (v + s) := by
      have := hin 1 (le_refl 1) (Nat.succ_le_succ (Nat.zero_le k))
      simpa using this
    rw [show fuel + (k + 1) + 3 = (fuel + k + 3) + 1 by omega, immediate_loop]
    have hh : (running_frame (for_state a b s v
        (some { root := some 10, path := [Sel.a0, Sel.next] }) [for_frame a b s])).st.halt.isSome
        = false := rfl
    simp only [hh, Bool.false_eq_true, if_false]
    rw [for_round_back m a b s v h1]
    simp only
    rw [ih (v + s) fuel]
    · congr 3
      push_cast
      ring_nf
    · intro j hj1 hjk
      have := hin (j + 1) (Nat.succ_le_succ (Nat.zero_le j)) (Nat.succ_le_succ hjk)
      have e : v + s + (j : ℚ) * s = v + ((j + 1 : Nat) : ℚ) * s := by push_cast; ring
      rw [e]; exact this
    · have e : v + s + ((k + 1 : Nat) : ℚ) * s = v + ((k + 1 + 1 : Nat) : ℚ) * s := by
        push_cast; ring
      rw [e]; exact hex


/-- One turn of the loop of `immediate`. -/
theorem immediate_loop_step (m : Libm) (fuel : Nat) (fr fr1 : Frame)
    (hh : fr.st.halt = none) (hr : immediate_round m fr = Sum.inr fr1) :
    immediate_loop m (fuel + 1) fr = immediate_loop m fuel fr1 := by
  rw [immediate_loop, hh, hr]
  rfl

theorem for_param_NULL (m : Libm) (st : State) : for_param m st NULL = (some 1, st) := by
  simp [for_param]

theorem nest_find (a b c d : ℚ) :
    find_line (nest_program a b c d) 10 = nest_program a b c d := by
  simp [nest_program, line10, find_line, Fields.zero]

theorem nest_deref_print (a b c d : ℚ) (imm : lego) :
    deref (nest_program a b c d) imm at_print
      = printIJ (nextStmt "J" (nextStmt "I" NULL)) := by
  simp [deref, at_print, nest_find]
  simp [nest_program, line10, forTo]

theorem nest_deref_nextJ (a b c d : ℚ) (imm : lego) :
    deref (nest_program a b c d) imm at_nextJ = nextStmt "J" (nextStmt "I" NULL) := by
  simp [deref, at_nextJ, nest_find]
  simp [nest_program, line10, forTo, printIJ]

theorem nest_deref_nextI (a b c d : ℚ) (imm : lego) :
    deref (nest_program a b c d) imm at_nextI = nextStmt "I" NULL := by
  simp [deref, at_nextI, nest_find]
  simp [nest_program, line10, forTo, printIJ, nextStmt]

theorem nest_deref_forJ (a b c d : ℚ) (imm : lego) :
    deref (nest_program a b c d) imm at_forJ
      = forTo "J" c d (printIJ (nextStmt "J" (nextStmt "I" NULL))) := by
  simp [deref, at_forJ, nest_find]
  simp [nest_program, line10, forTo]

/-- The round of `immediate` on the `PRINT I, J` of `nest_program`. -/
theorem nest_round_print (m : Libm) (a b c d i j : ℚ) (out : List Char) :
    immediate_round m (running_frame (nest_state a b c d i j (some at_print)
        [frame_J c d, frame_I a b] out))
      = Sum.inr (running_frame (nest_state a b c d i j (some at_nextJ)
        [frame_J c d, frame_I a b] (out ++ pair_line i j))) := by
  have hd := nest_deref_print a b c d (newLego wRUN)
  simp [immediate_round, single_step, seek_stmt, getc, updc, running_frame, nest_state,
    nest_init, State.init, hd, ptr_sel]
  simp [printIJ, nextStmt, numVar, Fields.zero, at_print, at_nextJ, runPrint, runPrint_loop,
    evalloc, find_var, num_result, State.print, x_con.zero, pair_line]

/-- The step of `single_step` on the `NEXT J` of `nest_program`. -/
theorem nest_step_nextJ (m : Libm) (a b c d i j : ℚ) (out : List Char) :
    single_step m (newLego wRUN) true
        (nest_state a b c d i j (some at_nextJ) [frame_J c d, frame_I a b] out)
        { x_con.zero with lNum := -1 }
      = if beyond d 1 (j + 1) then
          (wZERO_IS_UNUSED, nest_state a b c d i j (some at_nextI) [frame_I a b] out,
            { x_con.zero with lNum := -1 })
        else
          (wZERO_IS_UNUSED,
            nest_state a b c d i (j + 1) (some at_print) [frame_J c d, frame_I a b] out,
            { x_con.zero with lNum := -1 }) := by
  have hd := nest_deref_nextJ a b c d (newLego wRUN)
  have hstep := single_step_next m (newLego wRUN)
    (nest_state a b c d i j (some at_nextJ) [frame_J c d, frame_I a b] out)
    { x_con.zero with lNum := -1 } at_nextJ (frame_J c d) [frame_I a b]
    { name := "J".data, s := none, n := j } rfl
    (by rw [show (nest_state a b c d i j (some at_nextJ) [frame_J c d, frame_I a b] out).program
          = nest_program a b c d from rfl, hd]; rfl)
    rfl
    (Or.inr (by rw [show (nest_state a b c d i j (some at_nextJ)
          [frame_J c d, frame_I a b] out).program = nest_program a b c d from rfl, hd]; rfl))
    (by simp [nest_state, find_var, frame_J])
  rw [hstep]
  have hnext : ptr_sel (nest_program a b c d) (newLego wRUN) at_nextJ Sel.next
      = some at_nextI := by
    simp only [ptr_sel, hd]
    simp [nextStmt, at_nextJ, at_nextI]
  have hb : beyond (frame_J c d).de (frame_J c d).step (j + (frame_J c d).step)
      ↔ beyond d 1 (j + 1) := Iff.rfl
  by_cases h : beyond d 1 (j + 1)
  · simp only [show beyond (frame_J c d).de (frame_J c d).step
        ((({ name := "J".data, s := none, n := j } : varDB)).n + (frame_J c d).step) from h,
      h, if_true]
    simp [nest_state, nest_init, State.init, hnext]
  · simp only [show ¬ beyond (frame_J c d).de (frame_J c d).step
        ((({ name := "J".data, s := none, n := j } : varDB)).n + (frame_J c d).step) from h,
      h, if_false]
    simp [nest_state, nest_init, State.init, set_in, frame_J]

/-- The round of `immediate` on the `NEXT J` of `nest_program` that loops back. -/
theorem nest_round_nextJ_back (m : Libm) (a b c d i j : ℚ) (out : List Char)
    (h : ¬ beyond d 1 (j + 1)) :
    immediate_round m (running_frame (nest_state a b c d i j (some at_nextJ)
        [frame_J c d, frame_I a b] out))
      = Sum.inr (running_frame (nest_state a b c d i (j + 1) (some at_print)
        [frame_J c d, frame_I a b] out)) := by
  simp only [immediate_round, running_frame, nest_step_nextJ, h, if_false]
  simp [nest_state, nest_init, State.init]

/-- The round of `immediate` on the `NEXT J` of `nest_program` that falls through. -/
theorem nest_round_nextJ_exit (m : Libm) (a b c d i j : ℚ) (out : List Char)
    (h : beyond d 1 (j + 1)) :
    immediate_round m (running_frame (nest_state a b c d i j (some at_nextJ)
        [frame_J c d, frame_I a b] out))
      = Sum.inr (running_frame (nest_state a b c d i j (some at_nextI) [frame_I a b] out)) := by
  simp only [immediate_round, running_frame, nest_step_nextJ, h, if_true]
  simp [nest_state, nest_init, State.init]

/-- The step of `single_step` on the `NEXT I` of `nest_program`. -/
theorem nest_step_nextI (m : Libm) (a b c d i j : ℚ) (out : List Char) :
    single_step m (newLego wRUN) true
        (nest_state a b c d i j (some at_nextI) [frame_I a b] out)
        { x_con.zero with lNum := -1 }
      = if beyond b 1 (i + 1) then
          (wZERO_IS_UNUSED, nest_state a b c d i j none [] out,
            { x_con.zero with lNum := -1 })
        else
          (wZERO_IS_UNUSED,
            nest_state a b c d (i + 1) j (some at_forJ) [frame_I a b] out,
            { x_con.zero with lNum := -1 }) := by
  have hd := nest_deref_nextI a b c d (newLego wRUN)
  have hstep := single_step_next m (newLego wRUN)
    (nest_state a b c d i j (some at_nextI) [frame_I a b] out)
    { x_con.zero with lNum := -1 } at_nextI (frame_I a b) []
    { name := "I".data, s := none, n := i } rfl
    (by rw [show (nest_state a b c d i j (some at_nextI) [frame_I a b] out).program
          = nest_program a b c d from rfl, hd]; rfl)
    rfl
    (Or.inr (by rw [show (nest_state a b c d i j (some at_nextI)
          [frame_I a b] out).program = nest_program a b c d from rfl, hd]; rfl))
    (by simp [nest_state, find_var, frame_I])
  rw [hstep]
  have hnext : ptr_sel (nest_program a b c d) (newLego wRUN) at_nextI Sel.next = none := by
    simp only [ptr_sel, hd]
    simp [nextStmt]
  by_cases h : beyond b 1 (i + 1)
  · simp only [show beyond (frame_I a b).de (frame_I a b).step
        ((({ name := "I".data, s := none, n := i } : varDB)).n + (frame_I a b).step) from h,
      h, if_true]
    simp [nest_state, nest_init, State.init, hnext]
  · simp only [show ¬ beyond (frame_I a b).de (frame_I a b).step
        ((({ name := "I".data, s := none, n := i } : varDB)).n + (frame_I a b).step) from h,
      h, if_false]
    simp [nest_state, nest_init, State.init, set_in, frame_I]

/-- The round of `immediate` on the `NEXT I` of `nest_program` that loops back. -/
theorem nest_round_nextI_back (m : Libm) (a b c d i j : ℚ) (out : List Char)
    (h : ¬ beyond b 1 (i + 1)) :
    immediate_round m (running_frame (nest_state a b c d i j (some at_nextI)
        [frame_I a b] out))
      = Sum.inr (running_frame (nest_state a b c d (i + 1) j (some at_forJ)
        [frame_I a b] out)) := by
  simp only [immediate_round, running_frame, nest_step_nextI, h, if_false]
  simp [nest_state, nest_init, State.init]

/-- The round of `immediate` on the `NEXT I` of `nest_program` that falls through. -/
theorem nest_round_nextI_exit (m : Libm) (a b c d i j : ℚ) (out : List Char)
    (h : beyond b 1 (i + 1)) :
    immediate_round m (running_frame (nest_state a b c d i j (some at_nextI)
        [frame_I a b] out))
      = Sum.inr (running_frame (nest_state a b c d i j none [] out)) := by
  simp only [immediate_round, running_frame, nest_step_nextI, h, if_true]
  simp [nest_state, nest_init, State.init]

/-- The round of `immediate` on the `FOR J` of `nest_program`, entered again from
`NEXT I`: `J` starts anew at `c` and a fresh frame is pushed. -/
theorem nest_round_forJ (m : Libm) (a b c d i j : ℚ) (out : List Char) :
    immediate_round m (running_frame (nest_state a b c d i j (some at_forJ)
        [frame_I a b] out))
      = Sum.inr (running_frame (nest_state a b c d i c (some at_print)
        [frame_J c d, frame_I a b] out)) := by
  have hd := nest_deref_forJ a b c d (newLego wRUN)
  simp [immediate_round, single_step, seek_stmt, getc, updc, running_frame, nest_state,
    nest_init, State.init, hd, ptr_sel]
  simp [forTo, printIJ, numVar, Fields.zero, at_forJ, at_print, for_param_numLit, for_param_NULL,
    lego.str, expire_next_stack, find_frame, set_var, set_in, frame_I, frame_J, x_con.zero]

/-- The last two rounds of `immediate` after the loops of `nest_program` were left. -/
theorem nest_rounds_end (m : Libm) (a b c d i j : ℚ) (out : List Char) (fuel : Nat) :
    immediate_loop m (fuel + 2) (running_frame (nest_state a b c d i j none [] out))
      = some (1, { nest_state a b c d i j none [] out with
          prog_con := { x_con.zero with data_line := some 10 } }) := by
  have hnl : line_ptr (find_line (nest_program a b c d) 10).next = none := by
    rw [nest_find]; rfl
  simp [immediate_loop, immediate_round, running_frame, nest_state, nest_init, State.init,
    single_step, seek_stmt, getc, updc, hnl, stmt_of_line, reset_program, x_con.zero,
    byItself]
  rfl

theorem nest_program_link (a b c d : ℚ) (st : State) :
    link (nest_program a b c d) st (nest_program a b c d) (-1)
      = { tree := nest_program a b c d, bad := 0, st := st } := by
  simp [nest_program, line10, forTo, printIJ, nextStmt, numVar, numLit, link, Fields.zero]

/-- The first four rounds of `immediate` on `RUN` with `nest_program` stored: `RUN`, the
line header, `FOR I`, `FOR J`. -/
theorem nest_rounds_start (m : Libm) (a b c d : ℚ) (fuel : Nat) :
    immediate m (fuel + 4) (nest_init a b c d) (newLego wRUN)
      = immediate_loop m fuel (running_frame (nest_state a b c d a c (some at_print)
          [frame_J c d, frame_I a b] [])) := by
  have hl : link (nest_init a b c d).program (nest_init a b c d) (newLego wRUN) (-1)
      = { tree := newLego wRUN, bad := 0, st := nest_init a b c d } := by
    simp [newLego, link, Fields.zero]
  have hfl : find_line (nest_program a b c d) 10 = nest_program a b c d := nest_find a b c d
  have hp : (nest_init a b c d).program = nest_program a b c d := rfl
  have hlp : line_ptr (nest_program a b c d) = some 10 := rfl
  have r1 : immediate_round m
      { st := nest_init a b c d, imm := newLego wRUN,
        imm_con := { x_con.zero with stmt := some { root := none, path := [] }, lNum := -1 },
        running := false }
      = Sum.inr (running_frame { nest_init a b c d with
          prog_con := { x_con.zero with line := some 10,
                                        stmt := some { root := some 10, path := [] },
                                        data_line := some 10 } }) := by
    simp [immediate_round, single_step, seek_stmt, getc, updc, newLego, Fields.zero, deref,
      ptr_sel, hp, nest_program_link, erase_run_vars, reset_program, hlp, stmt_of_line,
      running_frame]
    simp [nest_init, State.init, x_con.zero]
  have r2 : immediate_round m (running_frame { nest_init a b c d with
          prog_con := { x_con.zero with line := some 10,
                                        stmt := some { root := some 10, path := [] },
                                        data_line := some 10 } })
      = Sum.inr (running_frame { nest_init a b c d with
          prog_con := { x_con.zero with line := some 10,
                                        stmt := some { root := some 10, path := [Sel.a0] },
                                        data_line := some 10, lNum := 10 } }) := by
    simp [immediate_round, single_step, seek_stmt, getc, updc, newLego, Fields.zero, deref,
      ptr_sel, hp, hfl, running_frame]
    simp [nest_program, line10, nest_init, State.init, x_con.zero, Fields.zero, forTo]
  have r3 : immediate_round m (running_frame { nest_init a b c d with
          prog_con := { x_con.zero with line := some 10,
                                        stmt := some { root := some 10, path := [Sel.a0] },
                                        data_line := some 10, lNum := 10 } })
      = Sum.inr (running_frame { nest_init a b c d with
          prog_con := { x_con.zero with line := some 10, stmt := some at_forJ,
                                        data_line := some 10, next_to := [frame_I a b],
                                        lNum := 10 },
          numDB := [{ name := "I".data, s := none, n := a }] }) := by
    simp [immediate_round, single_step, seek_stmt, getc, updc, newLego, Fields.zero, deref,
      ptr_sel, hp, hfl, running_frame]
    simp [nest_program, line10, nest_init, State.init, x_con.zero, Fields.zero, forTo,
      for_param_numLit, for_param_NULL]
    simp [numVar, lego.str, expire_next_stack, find_frame, set_var, set_in, Fields.zero,
      frame_I, at_forJ, nest_program, line10, forTo]
  have r4 : immediate_round m (running_frame { nest_init a b c d with
          prog_con := { x_con.zero with line := some 10, stmt := some at_forJ,
                                        data_line := some 10, next_to := [frame_I a b],
                                        lNum := 10 },
          numDB := [{ name := "I".data, s := none, n := a }] })
      = Sum.inr (running_frame (nest_state a b c d a c (some at_print)
          [frame_J c d, frame_I a b] [])) := by
    have hd := nest_deref_forJ a b c d (newLego wRUN)
    simp [immediate_round, single_step, seek_stmt, getc, updc, running_frame, nest_state,
      nest_init, State.init, hd, ptr_sel]
    simp [forTo, printIJ, numVar, Fields.zero, at_forJ, at_print, for_param_numLit,
      for_param_NULL, lego.str, expire_next_stack, find_frame, set_var, set_in, frame_I,
      frame_J, x_con.zero]
  simp only [immediate, hl]
  simp only [immediate_loop]
  rw [r1]
  simp only [immediate_loop]
  rw [r2]
  simp only [immediate_loop]
  rw [r3]
  simp only [immediate_loop]
  rw [r4]
  simp [newLego, Fields.zero, running_frame, nest_init, State.init]

theorem pair_lines_append (xs ys : List (ℚ × ℚ)) :
    pair_lines (xs ++ ys) = pair_lines xs ++ pair_lines ys := by
  induction xs with
  | nil => rfl
  | cons x xs ih => simp [pair_lines, ih]

theorem nest_halt (a b c d i j : ℚ) (stmt : Option Ptr) (stack : List next_stack)
    (out : List Char) :
    (running_frame (nest_state a b c d i j stmt stack out)).st.halt = none := rfl

/-- The inner loop of `nest_program`: from `PRINT I, J` with `J = j`, when `j + 1`, ...,
`j + r` are within `d` and `j + r + 1` is beyond it, `2 (r + 1)` rounds print the pairs
`(i, j)`, ..., `(i, j + r)` and reach `NEXT I` with only the frame of `I` left. -/
theorem nest_inner (m : Libm) (a b c d i : ℚ) (r : Nat) : ∀ (j : ℚ) (out : List Char)
    (fuel : Nat),
    (∀ t : Nat, 1 ≤ t → t ≤ r → ¬ beyond d 1 (j + t)) →
    beyond d 1 (j + (r + 1 : Nat)) →
    immediate_loop m (fuel + 2 * (r + 1)) (running_frame (nest_state a b c d i j
        (some at_print) [frame_J c d, frame_I a b] out))
      = immediate_loop m fuel (running_frame (nest_state a b c d i (j + r)
        (some at_nextI) [frame_I a b] (out ++ pair_lines (pairs_row i j (r + 1))))) := by
  induction r with
  | zero =>
    intro j out fuel _ hex
    have hex1 : beyond d 1 (j + 1) := by simpa using hex
    rw [show fuel + 2 * (0 + 1) = (fuel + 1) + 1 from rfl,
      immediate_loop_step m _ _ _ (nest_halt ..) (nest_round_print m a b c d i j out),
      immediate_loop_step m _ _ _ (nest_halt ..) (nest_round_nextJ_exit m a b c d i j _ hex1)]
    simp [pairs_row, pair_lines]
  | succ r ih =>
    intro j out fuel hin hex
    have h1 : ¬ beyond d 1 (j + 1) := by
      have := hin 1 (le_refl 1) (Nat.succ_le_succ (Nat.zero_le r))
      simpa using this
    rw [show fuel + 2 * (r + 1 + 1) = (fuel + 2 * (r + 1) + 1) + 1 by ring,
      immediate_loop_step m _ _ _ (nest_halt ..) (nest_round_print m a b c d i j out),
      immediate_loop_step m _ _ _ (nest_halt ..) (nest_round_nextJ_back m a b c d i j _ h1),
      ih (j + 1) _ fuel]
    · have e : j + 1 + (r : ℚ) = j + ((r + 1 : Nat) : ℚ) := by push_cast; ring
      rw [e]
      simp [pairs_row, pair_lines, List.append_assoc]
    · intro t ht1 htr
      have := hin (t + 1) (Nat.succ_le_succ (Nat.zero_le t)) (Nat.succ_le_succ htr)
      have e : j + 1 + (t : ℚ) = j + ((t + 1 : Nat) : ℚ) := by push_cast; ring
      rw [e]; exact this
    · have e : j + 1 + ((r + 1 : Nat) : ℚ) = j + ((r + 1 + 1 : Nat) : ℚ) := by
        push_cast; ring
      rw [e]; exact hex

/-- The outer loop of `nest_program`: from `PRINT I, J` with `I = i` and `J = c`, when the
inner loop takes `p + 1` turns, `i + 1`, ..., `i + r` are within `b` and `i + r + 1` is
beyond it, `immediate` returns after `r + 1` rows of `p + 1` pairs were printed. -/
theorem nest_outer (m : Libm) (a b c d : ℚ) (p : Nat)
    (hjin : ∀ t : Nat, 1 ≤ t → t ≤ p → ¬ beyond d 1 (c + t))
    (hjex : beyond d 1 (c + (p + 1 : Nat))) (r : Nat) : ∀ (i : ℚ) (out : List Char)
    (fuel : Nat),
    (∀ t : Nat, 1 ≤ t → t ≤ r → ¬ beyond b 1 (i + t)) →
    beyond b 1 (i + (r + 1 : Nat)) →
    immediate_loop m (fuel + (r + 1) * (2 * p + 4) + 1) (running_frame (nest_state a b c d
        i c (some at_print) [frame_J c d, frame_I a b] out))
      = some (1, { nest_state a b c d (i + r) (c + p) none []
                     (out ++ pair_lines (pairs_grid i c (p + 1) (r + 1))) with
          prog_con := { x_con.zero with data_line := some 10 } }) := by
  induction r with
  | zero =>
    intro i out fuel _ hex
    have hex1 : beyond b 1 (i + 1) := by simpa using hex
    rw [show fuel + (0 + 1) * (2 * p + 4) + 1 = (fuel + 2 + 1) + 2 * (p + 1) by ring,
      nest_inner m a b c d i p c out _ hjin hjex,
      immediate_loop_step m _ _ _ (nest_halt ..) (nest_round_nextI_exit m a b c d i _ _ hex1),
      nest_rounds_end]
    simp [pairs_grid]
  | succ r ih =>
    intro i out fuel hin hex
    have h1 : ¬ beyond b 1 (i + 1) := by
      have := hin 1 (le_refl 1) (Nat.succ_le_succ (Nat.zero_le r))
      simpa using this
    rw [show fuel + (r + 1 + 1) * (2 * p + 4) + 1
          = (fuel + (r + 1) * (2 * p + 4) + 1 + 1 + 1) + 2 * (p + 1) by ring,
      nest_inner m a b c d i p c out _ hjin hjex,
      immediate_loop_step m _ _ _ (nest_halt ..) (nest_round_nextI_back m a b c d i _ _ h1),
      immediate_loop_step m _ _ _ (nest_halt ..) (nest_round_forJ m a b c d _ _ _),
      ih (i + 1) _ fuel]
    · have e : i + 1 + (r : ℚ) = i + ((r + 1 : Nat) : ℚ) := by push_cast; ring
      rw [e]
      simp [pairs_grid, pair_lines_append, List.append_assoc]
    · intro t ht1 htr
      have := hin (t + 1) (Nat.succ_le_succ (Nat.zero_le t)) (Nat.succ_le_succ htr)
      have e : i + 1 + (t : ℚ) = i + ((t + 1 : Nat) : ℚ) := by push_cast; ring
      rw [e]; exact this
    · have e : i + 1 + ((r + 1 : Nat) : ℚ) = i + ((r + 1 + 1 : Nat) : ℚ) := by
        push_cast; ring
      rw [e]; exact hex

theorem pairs_row_length (i j : ℚ) (k : Nat) : (pairs_row i j k).length = k := by
  induction k generalizing j with
  | zero => rfl
  | succ k ih => simp [pairs_row, ih]

theorem pairs_grid_length (i c : ℚ) (cols k : Nat) :
    (pairs_grid i c cols k).length = k * cols := by
  induction k generalizing i with
  | zero => simp [pairs_grid]
  | succ k ih => simp [pairs_grid, pairs_row_length, ih, Nat.succ_mul, Nat.add_comm]

theorem pairs_row_mem (i j : ℚ) (k : Nat) (q : ℚ × ℚ) (h : q ∈ pairs_row i j k) :
    q.1 = i ∧ j ≤ q.2 := by
  induction k generalizing j with
  | zero => simp [pairs_row] at h
  | succ k ih =>
    simp only [pairs_row, List.mem_cons] at h
    rcases h with h | h
    · subst h; exact ⟨rfl, le_refl _⟩
    · have := ih (j + 1) h
      exact ⟨this.1, by linarith [this.2]⟩

theorem pairs_row_sorted (i j : ℚ) (k : Nat) : List.Pairwise lex_lt (pairs_row i j k) := by
  induction k generalizing j with
  | zero => simp [pairs_row]
  | succ k ih =>
    simp only [pairs_row, List.pairwise_cons]
    refine ⟨?_, ih (j + 1)⟩
    intro q hq
    have := pairs_row_mem i (j + 1) k q hq
    exact Or.inr ⟨this.1.symm, by show j < q.2; linarith [this.2]⟩

theorem pairs_grid_mem (i c : ℚ) (cols k : Nat) (q : ℚ × ℚ)
    (h : q ∈ pairs_grid i c cols k) : i ≤ q.1 := by
  induction k generalizing i with
  | zero => simp [pairs_grid] at h
  | succ k ih =>
    simp only [pairs_grid, List.mem_append] at h
    rcases h with h | h
    · exact le_of_eq (pairs_row_mem i c cols q h).1.symm
    · have := ih (i + 1) h
      linarith

theorem pairs_grid_sorted (i c : ℚ) (cols k : Nat) :
    List.Pairwise lex_lt (pairs_grid i c cols k) := by
  induction k generalizing i with
  | zero => simp [pairs_grid]
  | succ k ih =>
    simp only [pairs_grid, List.pairwise_append]
    refine ⟨pairs_row_sorted i c cols, ih (i + 1), ?_⟩
    intro x hx y hy
    have h1 := (pairs_row_mem i c cols x hx).1
    have h2 := pairs_grid_mem (i + 1) c cols k y hy
    exact Or.inl (by show x.1 < y.1; linarith)

theorem beyond_one (b v : ℚ) : beyond b 1 v ↔ b < v := by
  unfold beyond
  constructor
  · rintro (⟨_, h⟩ | ⟨h, _⟩)
    · exact h
    · norm_num at h
  · intro h
    exact Or.inl ⟨by norm_num, h⟩

theorem glb_loop_stop (syms : List (List Char)) (enums : List What) (subFn : Parser)
    (msg : String) (fuel : Nat) (left : lego) (s : List Char) (w : Option String)
    (h : (match find_op syms enums s with
          | none => none
          | some (what, s1) => if what = wKLUDGE then none else some (what, s1)) = none) :
    general_left_binary_loop syms enums subFn msg (fuel + 1) left s w = (some (left, s), w) := by
  unfold general_left_binary_loop
  cases hf : find_op syms enums s with
  | none => rfl
  | some r =>
    obtain ⟨what, s1⟩ := r
    rw [hf] at h
    by_cases hk : what = wKLUDGE
    · simp [hk]
    · simp [hk] at h

theorem glb_loop_go (syms : List (List Char)) (enums : List What) (subFn : Parser)
    (msg : String) (fuel : Nat) (left right : lego) (s s1 s2 : List Char) (w : Option String)
    (op : What)
    (h : (match find_op syms enums s with
          | none => none
          | some (what, s1) => if what = wKLUDGE then none else some (what, s1))
          = some (op, s1))
    (hr : subFn s1 w = (some (right, s2), w)) :
    general_left_binary_loop syms enums subFn msg (fuel + 1) left s w
      = general_left_binary_loop syms enums subFn msg fuel (mkBinary op left right) s2 w := by
  conv_lhs => unfold general_left_binary_loop
  cases hf : find_op syms enums s with
  | none => rw [hf] at h; simp at h
  | some r =>
    obtain ⟨what, s1'⟩ := r
    rw [hf] at h
    by_cases hk : what = wKLUDGE
    · simp [hk] at h
    · simp [hk] at h
      obtain ⟨rfl, rfl⟩ := h
      simp [hk, hr]

theorem step_at_nil (k : Nat) (hk : k ≤ 11) : step_at k [] = none := by
  interval_cases k <;> rfl

theorem step_at_tok (op : What) (hop : op ∈ binops) (k : Nat) (hk : k ≤ 11)
    (rest : List Char) :
    step_at k (tok op rest) = if spec_level op = k then some (op, ' ' :: rest) else none := by
  simp only [binops, List.mem_cons, List.mem_singleton, List.not_mem_nil, or_false] at hop
  rcases hop with rfl | rfl | rfl | rfl | rfl | rfl | rfl | rfl | rfl | rfl | rfl | rfl | rfl |
    rfl | rfl | rfl | rfl | rfl | rfl | rfl <;> interval_cases k <;> rfl

/-! ### The cascade of levels -/

theorem level_binary (fuel : Nat) (ne se : Parser) (k : Nat) (hk : k ≤ 10) (h6 : k ≠ 5) :
    ∃ msg, level_routine fuel ne se (k + 1)
      = general_left_binary fuel (level_syms (k + 1)) (level_enums (k + 1))
          (level_routine fuel ne se k) msg := by
  interval_cases k <;> first | exact ⟨_, rfl⟩ | exact absurd rfl h6

theorem level_pass (fuel : Nat) (ne se : Parser) (k : Nat) (hk : k ≤ 10) (s s1 : List Char)
    (x : lego) (w : Option String)
    (hx : level_routine (fuel + 1) ne se k s w = (some (x, s1), w))
    (hnot : k = 5 → keyword s ['n','o','t'] = none)
    (hstop : step_at (k + 1) s1 = none) :
    level_routine (fuel + 1) ne se (k + 1) s w = (some (x, s1), w) := by
  by_cases h6 : k = 5
  · subst h6
    show logic_not (fuel + 1) ne se s w = _
    have hx5 : equality (fuel + 1) ne se s w = (some (x, s1), w) := hx
    simp [logic_not, logic_not_loop, hnot rfl, hx5]
  · obtain ⟨msg, hm⟩ := level_binary (fuel + 1) ne se k hk h6
    rw [hm]
    simp only [general_left_binary, hx]
    exact glb_loop_stop _ _ _ _ fuel x s1 w hstop

theorem level_up (fuel : Nat) (ne se : Parser) (k : Nat) (s s1 : List Char)
    (x : lego) (w : Option String)
    (hx : level_routine (fuel + 1) ne se k s w = (some (x, s1), w))
    (hnot : k ≤ 5 → keyword s ['n','o','t'] = none) (n : Nat) :
    k + n ≤ 11 → (∀ j, k < j → j ≤ k + n → step_at j s1 = none) →
    level_routine (fuel + 1) ne se (k + n) s w = (some (x, s1), w) := by
  induction n with
  | zero => intro _ _; exact hx
  | succ n ih =>
    intro hk hstop
    have h1 := ih (by omega) (fun j hj1 hj2 => hstop j hj1 (by omega))
    exact level_pass fuel ne se (k + n) (by omega) s s1 x w h1 (fun h => hnot (by omega))
      (hstop (k + n + 1) (by omega) (le_refl _))

theorem after_stop (k : Nat) (rest : List Char) (h : after k rest) (j : Nat) (hj : j ≤ k)
    (hj11 : j ≤ 11) : step_at j rest = none := by
  rcases h with rfl | ⟨op, r, hop, hlt, rfl⟩
  · exact step_at_nil j hj11
  · rw [step_at_tok op hop j hj11, if_neg (by omega)]

theorem after_ends (k : Nat) (rest : List Char) (h : after k rest) : ends_token rest := by
  rcases h with rfl | ⟨op, r, _, _, rfl⟩
  · exact Or.inl rfl
  · exact Or.inr ⟨_, rfl⟩

theorem after_mono (k j : Nat) (rest : List Char) (h : after k rest) (hj : j ≤ k) :
    after j rest := by
  rcases h with rfl | ⟨op, r, hop, hlt, rfl⟩
  · exact Or.inl rfl
  · exact Or.inr ⟨op, r, hop, by omega, rfl⟩

theorem operand_reads (fuel : Nat) (ne se : Parser) (t : List Char) (a : lego)
    (h : IsOperand ne se t a) (k : Nat) (hk : k ≤ 11) (lead : Bool) (rest : List Char)
    (hr : after k rest) (w : Option String) :
    level_routine (fuel + 1) ne se k ((if lead then [' '] else []) ++ (t ++ rest)) w
      = (some (a, rest), w) := by
  have h0 := h lead rest w (after_ends k rest hr)
  have := level_up fuel ne se 0 _ rest a w h0.1 (fun _ => h0.2) k (by omega)
    (fun j _ hj => after_stop k rest hr j (by omega) (by omega))
  simpa using this

theorem level_bin1 (fuel : Nat) (ne se : Parser) (k : Nat) (hk : k ≤ 10) (h6 : k ≠ 5)
    (s s2 s3 : List Char) (x y : lego) (op : What) (w : Option String)
    (hop : op ∈ binops) (hl : spec_level op = k + 1)
    (hx : level_routine (fuel + 2) ne se k s w = (some (x, tok op s2), w))
    (hy : level_routine (fuel + 2) ne se k (' ' :: s2) w = (some (y, s3), w))
    (hstop : step_at (k + 1) s3 = none) :
    level_routine (fuel + 2) ne se (k + 1) s w = (some (mkBinary op x y, s3), w) := by
  obtain ⟨msg, hm⟩ := level_binary (fuel + 2) ne se k hk h6
  rw [hm]
  simp only [general_left_binary, hx]
  have hf : step_at (k + 1) (tok op s2) = some (op, ' ' :: s2) := by
    rw [step_at_tok op hop (k + 1) (by omega), if_pos hl]
  rw [glb_loop_go _ _ _ _ (fuel + 1) x y (tok op s2) (' ' :: s2) s3 w op hf hy]
  exact glb_loop_stop _ _ _ _ fuel _ s3 w hstop

theorem level_bin2 (fuel : Nat) (ne se : Parser) (k : Nat) (hk : k ≤ 10) (h6 : k ≠ 5)
    (s s2 s4 s5 : List Char) (x y z : lego) (op1 op2 : What) (w : Option String)
    (hop1 : op1 ∈ binops) (hl1 : spec_level op1 = k + 1)
    (hop2 : op2 ∈ binops) (hl2 : spec_level op2 = k + 1)
    (hx : level_routine (fuel + 3) ne se k s w = (some (x, tok op1 s2), w))
    (hy : level_routine (fuel + 3) ne se k (' ' :: s2) w = (some (y, tok op2 s4), w))
    (hz : level_routine (fuel + 3) ne se k (' ' :: s4) w = (some (z, s5), w))
    (hstop : step_at (k + 1) s5 = none) :
    level_routine (fuel + 3) ne se (k + 1) s w
      = (some (mkBinary op2 (mkBinary op1 x y) z, s5), w) := by
  obtain ⟨msg, hm⟩ := level_binary (fuel + 3) ne se k hk h6
  rw [hm]
  simp only [general_left_binary, hx]
  have hf1 : step_at (k + 1) (tok op1 s2) = some (op1, ' ' :: s2) := by
    rw [step_at_tok op1 hop1 (k + 1) (by omega), if_pos hl1]
  have hf2 : step_at (k + 1) (tok op2 s4) = some (op2, ' ' :: s4) := by
    rw [step_at_tok op2 hop2 (k + 1) (by omega), if_pos hl2]
  rw [glb_loop_go _ _ _ _ (fuel + 2) x y (tok op1 s2) (' ' :: s2) (tok op2 s4) w op1 hf1 hy,
    glb_loop_go _ _ _ _ (fuel + 1) _ z (tok op2 s4) (' ' :: s4) s5 w op2 hf2 hz]
  exact glb_loop_stop _ _ _ _ fuel _ s5 w hstop

theorem keyword_blank (s kw : List Char) : keyword (' ' :: s) kw = keyword s kw := by
  simp [keyword, eatBlanks, isspace]

theorem unary_signs_head (c : Char) (s : List Char) (n m : Bool) (hsp : isspace c = false)
    (hm : c ≠ '-') (hp : c ≠ '+') : unary_signs (c :: s) n m = (c :: s, n, m) := by
  simp [unary_signs, hsp, hm, hp]

theorem unary_signs_blank (s : List Char) (n m : Bool) :
    unary_signs (' ' :: s) n m = unary_signs s n m := by
  simp [unary_signs, isspace]

theorem unary_signs_minus (s : List Char) (n m : Bool) :
    unary_signs ('-' :: s) n m = unary_signs s (!n) true := by
  simp [unary_signs, isspace]

theorem atom_operand (ne se : Parser) (t : List Char) (a : lego) (h : IsAtom ne se t a) :
    IsOperand ne se t a := by
  obtain ⟨⟨c, cs, rfl, hsp, hm, hp⟩, hall⟩ := h
  intro lead rest w hr
  have h1 := hall rest w hr
  cases lead
  · refine ⟨?_, by simpa using h1.2⟩
    have hs : unary_signs ([] ++ (c :: cs ++ rest)) false false
        = (c :: cs ++ rest, false, false) := unary_signs_head c _ _ _ hsp hm hp
    simp only [unary, Bool.false_eq_true, if_false, hs, h1.1]
  · refine ⟨?_, by simpa [keyword_blank] using h1.2⟩
    have hs : unary_signs ([' '] ++ (c :: cs ++ rest)) false false
        = (c :: cs ++ rest, false, false) := by
      rw [show [' '] ++ (c :: cs ++ rest) = ' ' :: (c :: (cs ++ rest)) from rfl,
        unary_signs_blank, unary_signs_head c _ _ _ hsp hm hp]
      rfl
    simp only [unary, if_true, hs, h1.1, Bool.false_eq_true, if_false]

theorem atom_negate (ne se : Parser) (t : List Char) (a : lego) (h : IsAtom ne se t a) :
    IsOperand ne se ('-' :: t) (mkUnary wNEGATE a) := by
  obtain ⟨⟨c, cs, rfl, hsp, hm, hp⟩, hall⟩ := h
  intro lead rest w hr
  have h1 := hall rest w hr
  cases lead
  · refine ⟨?_, by simp [keyword, eatBlanks, isspace, keyword_loop, toupper]⟩
    have hs : unary_signs ([] ++ ('-' :: (c :: cs) ++ rest)) false false
        = (c :: cs ++ rest, true, true) := by
      rw [show [] ++ ('-' :: (c :: cs) ++ rest) = '-' :: (c :: (cs ++ rest)) from rfl,
        unary_signs_minus, unary_signs_head c _ _ _ hsp hm hp]
      rfl
    simp only [unary, Bool.false_eq_true, if_false, hs, h1.1, if_true]
  · refine ⟨?_, by simp [keyword, eatBlanks, isspace, keyword_loop, toupper]⟩
    have hs : unary_signs ([' '] ++ ('-' :: (c :: cs) ++ rest)) false false
        = (c :: cs ++ rest, true, true) := by
      rw [show [' '] ++ ('-' :: (c :: cs) ++ rest) = ' ' :: ('-' :: (c :: (cs ++ rest)))
          from rfl,
        unary_signs_blank, unary_signs_minus, unary_signs_head c _ _ _ hsp hm hp]
      rfl
    simp only [unary, if_true, hs, h1.1]

theorem binops_level (op : What) (h : op ∈ binops) :
    1 ≤ spec_level op ∧ spec_level op ≤ 11 ∧ spec_level op ≠ 6 := by
  simp only [binops, List.mem_cons, List.mem_singleton, List.not_mem_nil, or_false] at h
  rcases h with rfl | rfl | rfl | rfl | rfl | rfl | rfl | rfl | rfl | rfl | rfl | rfl | rfl |
    rfl | rfl | rfl | rfl | rfl | rfl | rfl <;> decide

/-- Lifting a reading from the level `k` to the top level, when the text is read to its
end. -/
theorem level_top (fuel : Nat) (ne se : Parser) (k : Nat) (hk : k ≤ 11) (s : List Char)
    (x : lego) (w : Option String)
    (hx : level_routine (fuel + 1) ne se k s w = (some (x, []), w))
    (hnot : k ≤ 5 → keyword s ['n','o','t'] = none) :
    level_routine (fuel + 1) ne se 11 s w = (some (x, []), w) := by
  have := level_up fuel ne se k s [] x w hx hnot (11 - k) (by omega)
    (fun j _ hj => step_at_nil j (by omega))
  rwa [show k + (11 - k) = 11 by omega] at this

/-- Reading `x op y` on a level `k` not tighter than the operator, for operands `x` and
`y`. -/
theorem reads_bin (fuel : Nat) (ne se : Parser) (tx ty : List Char) (x y : lego)
    (hx : IsOperand ne se tx x) (hy : IsOperand ne se ty y) (op : What) (hop : op ∈ binops)
    (k : Nat) (hk : spec_level op ≤ k) (hk11 : k ≤ 11) (lead : Bool) (rest : List Char)
    (hr : after k rest) (w : Option String) :
    level_routine (fuel + 2) ne se k
        ((if lead then [' '] else []) ++ (tx ++ tok op (ty ++ rest))) w
      = (some (mkBinary op x y, rest), w) := by
  obtain ⟨h1, h11, h6⟩ := binops_level op hop
  obtain ⟨j, hj⟩ : ∃ j, spec_level op = j + 1 := ⟨spec_level op - 1, by omega⟩
  have e1 := operand_reads (fuel + 1) ne se tx x hx j (by omega) lead (tok op (ty ++ rest))
    (Or.inr ⟨op, _, hop, by omega, rfl⟩) w
  have e2 := operand_reads (fuel + 1) ne se ty y hy j (by omega) true rest
    (after_mono k j rest hr (by omega)) w
  have e3 := level_bin1 fuel ne se j (by omega) (by omega) _ (ty ++ rest) rest x y op w hop hj
    e1 e2 (after_stop k rest hr (j + 1) (by omega) (by omega))
  have := level_up (fuel + 1) ne se (j + 1) _ rest _ w e3
    (fun _ => (hx lead (tok op (ty ++ rest)) w (Or.inr ⟨_, rfl⟩)).2) (k - (j + 1)) (by omega)
    (fun i _ hi => after_stop k rest hr i (by omega) (by omega))
  rwa [show j + 1 + (k - (j + 1)) = k by omega] at this

theorem atom_X (ne se : Parser) : IsAtom ne se ['X'] (numVar "X" NULL) := by
  refine ⟨⟨'X', [], rfl, by decide, by decide, by decide⟩, ?_⟩
  rintro rest w (rfl | ⟨r, rfl⟩)
  · exact ⟨rfl, rfl⟩
  · exact ⟨rfl, rfl⟩

theorem atom_Y (ne se : Parser) : IsAtom ne se ['Y'] (numVar "Y" NULL) := by
  refine ⟨⟨'Y', [], rfl, by decide, by decide, by decide⟩, ?_⟩
  rintro rest w (rfl | ⟨r, rfl⟩)
  · exact ⟨rfl, rfl⟩
  · exact ⟨rfl, rfl⟩

theorem atom_Z (ne se : Parser) : IsAtom ne se ['Z'] (numVar "Z" NULL) := by
  refine ⟨⟨'Z', [], rfl, by decide, by decide, by decide⟩, ?_⟩
  rintro rest w (rfl | ⟨r, rfl⟩)
  · exact ⟨rfl, rfl⟩
  · exact ⟨rfl, rfl⟩

/-- Two operators of one level between three operands. -/
theorem reads_same_level (fuel : Nat) (ne se : Parser) (ta tb tc : List Char) (a b c : lego)
    (ha : IsOperand ne se ta a) (hb : IsOperand ne se tb b) (hc : IsOperand ne se tc c)
    (op1 op2 : What) (h1 : op1 ∈ binops) (h2 : op2 ∈ binops)
    (hl : spec_level op1 = spec_level op2) (w : Option String) :
    level_routine (fuel + 3) ne se 11 (ta ++ tok op1 (tb ++ tok op2 tc)) w
      = (some (mkBinary op2 (mkBinary op1 a b) c, []), w) := by
  obtain ⟨hl1, hl11, hl6⟩ := binops_level op1 h1
  obtain ⟨j, hj⟩ : ∃ j, spec_level op1 = j + 1 := ⟨spec_level op1 - 1, by omega⟩
  have e1 := operand_reads (fuel + 2) ne se ta a ha j (by omega) false
    (tok op1 (tb ++ tok op2 (tc ++ []))) (Or.inr ⟨op1, _, h1, by omega, rfl⟩) w
  have e2 := operand_reads (fuel + 2) ne se tb b hb j (by omega) true
    (tok op2 (tc ++ [])) (Or.inr ⟨op2, _, h2, by omega, rfl⟩) w
  have e3 := operand_reads (fuel + 2) ne se tc c hc j (by omega) true [] (Or.inl rfl) w
  have e4 := level_bin2 fuel ne se j (by omega) (by omega) _ _ _ [] a b c op1 op2 w
    h1 hj h2 (by omega) e1 e2 e3 (step_at_nil _ (by omega))
  have e5 := level_top (fuel + 2) ne se (j + 1) (by omega) _ _ w e4
    (fun _ => (ha false (tok op1 (tb ++ tok op2 (tc ++ []))) w (Or.inr ⟨_, rfl⟩)).2)
  simpa using e5

/-- C3: every binary level is left-associative. For atoms `a`, `b`, `c` (texts that
`num_term` reads as these trees wherever a token ends behind them) and binary operators
`op1`, `op2` of one precedence level, `num_exp` reads the text `a op1 b op2 c` to its end
as the tree `op2(op1(a, b), c)`. And `general_left_binary` itself, the routine behind
every binary level (also the catenation of strings), builds `op2(op1(x, y), z)` from
three operands of its sub-routine with two of its operators between them. -/
theorem C3_binary_levels_left_associative (fuel : Nat) (ta tb tc : List Char) (a b c : lego)
    (op1 op2 : What) (w : Option String)
    (ha : IsAtom (num_exp (fuel + 3)) (str_exp (fuel + 3)) ta a)
    (hb : IsAtom (num_exp (fuel + 3)) (str_exp (fuel + 3)) tb b)
    (hc : IsAtom (num_exp (fuel + 3)) (str_exp (fuel + 3)) tc c)
    (h1 : op1 ∈ binops) (h2 : op2 ∈ binops) (hl : spec_level op1 = spec_level op2) :
    num_exp (fuel + 4) (ta ++ tok op1 (tb ++ tok op2 tc)) w
      = (some (mkBinary op2 (mkBinary op1 a b) c, []), w) ∧
    (∀ (syms : List (List Char)) (enums : List What) (subFn : Parser) (msg : String)
        (s0 s1 s2 s3 s4 s5 : List Char) (x y z : lego) (o1 o2 : What),
        subFn s0 w = (some (x, s1), w) →
        find_op syms enums s1 = some (o1, s2) → o1 ≠ wKLUDGE →
        subFn s2 w = (some (y, s3), w) →
        find_op syms enums s3 = some (o2, s4) → o2 ≠ wKLUDGE →
        subFn s4 w = (some (z, s5), w) →
        find_op syms enums s5 = none →
        general_left_binary (fuel + 3) syms enums subFn msg s0 w
          = (some (mkBinary o2 (mkBinary o1 x y) z, s5), w)) := by
  constructor
  · exact reads_same_level fuel _ _ ta tb tc a b c (atom_operand _ _ _ _ ha)
      (atom_operand _ _ _ _ hb) (atom_operand _ _ _ _ hc) op1 op2 h1 h2 hl w
  · intro syms enums subFn msg s0 s1 s2 s3 s4 s5 x y z o1 o2 hx hf1 hk1 hy hf2 hk2 hz hf3
    simp only [general_left_binary, hx]
    rw [glb_loop_go syms enums subFn msg (fuel + 2) x y s1 s2 s3 w o1 (by simp [hf1, hk1]) hy,
      glb_loop_go syms enums subFn msg (fuel + 1) _ z s3 s4 s5 w o2 (by simp [hf2, hk2]) hz]
    exact glb_loop_stop syms enums subFn msg fuel _ s5 w (by simp [hf3])

theorem C3_binary_levels_left_associative_witness :
    IsAtom (num_exp (0 + 3)) (str_exp (0 + 3)) ['X'] (numVar "X" NULL) ∧
    IsAtom (num_exp (0 + 3)) (str_exp (0 + 3)) ['Y'] (numVar "Y" NULL) ∧
    IsAtom (num_exp (0 + 3)) (str_exp (0 + 3)) ['Z'] (numVar "Z" NULL) ∧
    wSUB ∈ binops ∧ wADD ∈ binops ∧ spec_level wSUB = spec_level wADD ∧
    ['X'] ++ tok wSUB (['Y'] ++ tok wADD ['Z']) = "X - Y + Z".data ∧
    num_exp (0 + 4) (['X'] ++ tok wSUB (['Y'] ++ tok wADD ['Z'])) none
      = (some (mkBinary wADD (mkBinary wSUB (numVar "X" NULL) (numVar "Y" NULL))
          (numVar "Z" NULL), []), none) :=
  ⟨atom_X _ _, atom_Y _ _, atom_Z _ _, by decide, by decide, rfl, rfl,
    (C3_binary_levels_left_associative 0 ['X'] ['Y'] ['Z'] _ _ _ wSUB wADD none
      (atom_X _ _) (atom_Y _ _) (atom_Z _ _) (by decide) (by decide) rfl).1⟩

/-! ## Precedence (parser.c, `unary` to `logic_imp`) -/

theorem keyword_not (r : List Char) :
    keyword ('n' :: 'o' :: 't' :: ' ' :: r) ['n','o','t'] = some (' ' :: r) := rfl

/-- Reading `NOT` and a blank before an operand of `equality`. -/
theorem logic_not_reads (fuel : Nat) (ne se : Parser) (r s1 : List Char) (x : lego)
    (w : Option String)
    (hnot : keyword (' ' :: r) ['n','o','t'] = none)
    (hx : level_routine (fuel + 2) ne se 5 (' ' :: r) w = (some (x, s1), w)) :
    level_routine (fuel + 2) ne se 6 ('n' :: 'o' :: 't' :: ' ' :: r) w
      = (some (mkUnary wNOT x, s1), w) := by
  show logic_not (fuel + 2) ne se _ w = _
  have hx5 : equality (fuel + 2) ne se (' ' :: r) w = (some (x, s1), w) := hx
  simp [logic_not, logic_not_loop, keyword_not, hnot, hx5]

/-- Operators of two levels between three operands, and the two prefix operators. -/
theorem reads_two_levels (fuel : Nat) (ne se : Parser) (ta tb tc : List Char) (a b c : lego)
    (ha : IsOperand ne se ta a) (hb : IsOperand ne se tb b) (hc : IsOperand ne se tc c)
    (L T : What) (hL : L ∈ binops) (hT : T ∈ binops)
    (hlt : spec_level T < spec_level L) (w : Option String) :
    level_routine (fuel + 3) ne se 11 (ta ++ tok L (tb ++ tok T tc)) w
      = (some (mkBinary L a (mkBinary T b c), []), w) ∧
    level_routine (fuel + 3) ne se 11 (ta ++ tok T (tb ++ tok L tc)) w
      = (some (mkBinary L (mkBinary T a b) c, []), w) := by
  obtain ⟨hl1, hl11, hl6⟩ := binops_level L hL
  obtain ⟨j, hj⟩ : ∃ j, spec_level L = j + 1 := ⟨spec_level L - 1, by omega⟩
  have hj5 : j ≠ 5 := by omega
  constructor
  · have e1 := operand_reads (fuel + 2) ne se ta a ha j (by omega) false
      (tok L (tb ++ tok T (tc ++ []))) (Or.inr ⟨L, _, hL, by omega, rfl⟩) w
    have e2 := reads_bin (fuel + 1) ne se tb tc b c hb hc T hT j (by omega) (by omega) true []
      (Or.inl rfl) w
    have e3 := level_bin1 (fuel + 1) ne se j (by omega) hj5 _ _ [] a _ L w hL hj e1 e2
      (step_at_nil _ (by omega))
    have e4 := level_top (fuel + 2) ne se (j + 1) (by omega) _ _ w e3
      (fun _ => (ha false (tok L (tb ++ tok T (tc ++ []))) w (Or.inr ⟨_, rfl⟩)).2)
    simpa using e4
  · have e1 := reads_bin (fuel + 1) ne se ta tb a b ha hb T hT j (by omega) (by omega) false
      (tok L (tc ++ [])) (Or.inr ⟨L, _, hL, by omega, rfl⟩) w
    have e2 := operand_reads (fuel + 2) ne se tc c hc j (by omega) true [] (Or.inl rfl) w
    have e3 := level_bin1 (fuel + 1) ne se j (by omega) hj5 _ _ [] _ c L w hL hj e1 e2
      (step_at_nil _ (by omega))
    have e4 := level_top (fuel + 2) ne se (j + 1) (by omega) _ _ w e3
      (fun _ => (ha false (tok T (tb ++ tok L (tc ++ []))) w (Or.inr ⟨_, rfl⟩)).2)
    simpa using e4

/-- `NOT a op b` for an operator tighter than `NOT`. -/
theorem reads_not_tight (fuel : Nat) (ne se : Parser) (ta tb : List Char) (a b : lego)
    (ha : IsOperand ne se ta a) (hb : IsOperand ne se tb b)
    (op : What) (hop : op ∈ binops) (hlt : spec_level op < 6) (w : Option String) :
    level_routine (fuel + 3) ne se 11 (['n','o','t',' '] ++ (ta ++ tok op tb)) w
      = (some (mkUnary wNOT (mkBinary op a b), []), w) := by
  have e1 := reads_bin (fuel + 1) ne se ta tb a b ha hb op hop 5 (by omega) (by omega) true []
    (Or.inl rfl) w
  have hn := (ha true (tok op (tb ++ [])) w (Or.inr ⟨_, rfl⟩)).2
  have e2 := logic_not_reads (fuel + 1) ne se _ [] _ w hn e1
  have e3 := level_top (fuel + 2) ne se 6 (by omega) _ _ w e2 (fun h => absurd h (by omega))
  simpa using e3

/-- `NOT a op b` for an operator looser than `NOT`. -/
theorem reads_not_loose (fuel : Nat) (ne se : Parser) (ta tb : List Char) (a b : lego)
    (ha : IsOperand ne se ta a) (hb : IsOperand ne se tb b)
    (op : What) (hop : op ∈ binops) (hlt : 6 < spec_level op) (w : Option String) :
    level_routine (fuel + 3) ne se 11 (['n','o','t',' '] ++ (ta ++ tok op tb)) w
      = (some (mkBinary op (mkUnary wNOT a) b, []), w) := by
  obtain ⟨hl1, hl11, hl6⟩ := binops_level op hop
  obtain ⟨j, hj⟩ : ∃ j, spec_level op = j + 1 := ⟨spec_level op - 1, by omega⟩
  have hr : after j (tok op (tb ++ [])) := Or.inr ⟨op, _, hop, by omega, rfl⟩
  have e1 := operand_reads (fuel + 2) ne se ta a ha 5 (by omega) true (tok op (tb ++ []))
    (after_mono j 5 _ hr (by omega)) w
  have hn := (ha true (tok op (tb ++ [])) w (Or.inr ⟨_, rfl⟩)).2
  have e2 := logic_not_reads (fuel + 1) ne se _ _ _ w hn e1
  have e3 := level_up (fuel + 2) ne se 6 _ _ _ w e2 (fun h => absurd h (by omega)) (j - 6)
    (by omega) (fun i _ hi => after_stop j _ hr i (by omega) (by omega))
  rw [show 6 + (j - 6) = j by omega] at e3
  have e4 := operand_reads (fuel + 2) ne se tb b hb j (by omega) true [] (Or.inl rfl) w
  have e5 := level_bin1 (fuel + 1) ne se j (by omega) (by omega) _ _ [] _ b op w hop hj e3 e4
    (step_at_nil _ (by omega))
  have e6 := level_top (fuel + 2) ne se (j + 1) (by omega) _ _ w e5
    (fun h => absurd h (by omega))
  simpa using e6

/-- C4: the parser respects the stated precedence order (`spec_level`). For atoms `a`,
`b`, `c`, a looser binary operator `L` and a tighter one `T`, `num_exp` reads `a L b T c`
as `L(a, T(b, c))` and `a T b L c` as `L(T(a, b), c)`; `NOT a op b` is `NOT(op(a, b))`
for every operator tighter than `NOT` (so `NOT` takes a whole `equality` expression) and
`op(NOT(a), b)` for every looser one; and `-a op b` is `op(NEGATE(a), b)` for every binary
operator, `^` among them: the sign takes only the `num_term`. -/
theorem C4_precedence_order (fuel : Nat) (ta tb tc : List Char) (a b c : lego)
    (L T : What) (w : Option String)
    (ha : IsAtom (num_exp (fuel + 3)) (str_exp (fuel + 3)) ta a)
    (hb : IsAtom (num_exp (fuel + 3)) (str_exp (fuel + 3)) tb b)
    (hc : IsAtom (num_exp (fuel + 3)) (str_exp (fuel + 3)) tc c)
    (hL : L ∈ binops) (hT : T ∈ binops) (hlt : spec_level T < spec_level L) :
    num_exp (fuel + 4) (ta ++ tok L (tb ++ tok T tc)) w
      = (some (mkBinary L a (mkBinary T b c), []), w) ∧
    num_exp (fuel + 4) (ta ++ tok T (tb ++ tok L tc)) w
      = (some (mkBinary L (mkBinary T a b) c, []), w) ∧
    (∀ op, op ∈ binops → spec_level op < spec_level wNOT →
      num_exp (fuel + 4) (['n','o','t',' '] ++ (ta ++ tok op tb)) w
        = (some (mkUnary wNOT (mkBinary op a b), []), w)) ∧
    (∀ op, op ∈ binops → spec_level wNOT < spec_level op →
      num_exp (fuel + 4) (['n','o','t',' '] ++ (ta ++ tok op tb)) w
        = (some (mkBinary op (mkUnary wNOT a) b, []), w)) ∧
    (∀ op, op ∈ binops →
      num_exp (fuel + 4) ('-' :: (ta ++ tok op tb)) w
        = (some (mkBinary op (mkUnary wNEGATE a) b, []), w)) := by
  have oa := atom_operand _ _ _ _ ha
  have ob := atom_operand _ _ _ _ hb
  have oc := atom_operand _ _ _ _ hc
  have h12 := reads_two_levels fuel _ _ ta tb tc a b c oa ob oc L T hL hT hlt w
  refine ⟨h12.1, h12.2, ?_, ?_, ?_⟩
  · intro op hop hl
    exact reads_not_tight fuel _ _ ta tb a b oa ob op hop hl w
  · intro op hop hl
    exact reads_not_loose fuel _ _ ta tb a b oa ob op hop hl w
  · intro op hop
    have := reads_bin (fuel + 1) _ _ ('-' :: ta) tb _ b (atom_negate _ _ _ _ ha) ob op hop 11
      (binops_level op hop).2.1 (le_refl _) false [] (Or.inl rfl) w
    simpa using this

theorem C4_precedence_order_witness :
    IsAtom (num_exp (0 + 3)) (str_exp (0 + 3)) ['X'] (numVar "X" NULL) ∧
    IsAtom (num_exp (0 + 3)) (str_exp (0 + 3)) ['Y'] (numVar "Y" NULL) ∧
    IsAtom (num_exp (0 + 3)) (str_exp (0 + 3)) ['Z'] (numVar "Z" NULL) ∧
    wADD ∈ binops ∧ wMUL ∈ binops ∧ spec_level wMUL < spec_level wADD ∧
    ['X'] ++ tok wADD (['Y'] ++ tok wMUL ['Z']) = "X + Y * Z".data ∧
    '-' :: (['X'] ++ tok wPOWER ['Y']) = "-X ^ Y".data ∧
    num_exp (0 + 4) (['X'] ++ tok wADD (['Y'] ++ tok wMUL ['Z'])) none
      = (some (mkBinary wADD (numVar "X" NULL)
          (mkBinary wMUL (numVar "Y" NULL) (numVar "Z" NULL)), []), none) ∧
    num_exp (0 + 4) (['X'] ++ tok wMUL (['Y'] ++ tok wADD ['Z'])) none
      = (some (mkBinary wADD (mkBinary wMUL (numVar "X" NULL) (numVar "Y" NULL))
          (numVar "Z" NULL), []), none) ∧
    num_exp (0 + 4) ('-' :: (['X'] ++ tok wPOWER ['Y'])) none
      = (some (mkBinary wPOWER (mkUnary wNEGATE (numVar "X" NULL)) (numVar "Y" NULL), []),
          none) :=
  have h := C4_precedence_order 0 ['X'] ['Y'] ['Z'] _ _ _ wADD wMUL none
    (atom_X _ _) (atom_Y _ _) (atom_Z _ _) (by decide) (by decide) (by decide)
  ⟨atom_X _ _, atom_Y _ _, atom_Z _ _, by decide, by decide, by decide, rfl, rfl,
    h.1, h.2.1, h.2.2.2.2 wPOWER (by decide)⟩

/-! ## Operators on numbers (eval.c, `evalloc`, `boolean_logic`, `divmod`) -/

/-- The value `evalloc` finds for a binary operator between two numeric literals: both
are evaluated, none is an exception, and the operator is applied. -/
theorem evalloc_binary (m : Libm) (st : State) (op : What) (x y : ℚ)
    (h : op ∈ [wSUB, wIDIV, wMOD, wGT, wGE, wLT, wLE, wEQ, wNE,
               wAND, wOR, wXOR, wEQV, wIMP, wNAND, wNOR]) :
    evalloc m st (mkBinary op (numLit x) (numLit y))
      = apply_op m st op (num_result x) (num_result y) (computed.zero rKind.rExcept) := by
  simp only [List.mem_cons, List.mem_singleton, List.not_mem_nil, or_false] at h
  rcases h with rfl | rfl | rfl | rfl | rfl | rfl | rfl | rfl | rfl | rfl | rfl | rfl | rfl |
    rfl | rfl | rfl <;> rfl

theorem to_int_cast (x : Int) (h : in_int32 x) : to_int (x : ℚ) = x := by
  obtain ⟨h1, h2⟩ := h
  simp [to_int, h1, h2]

theorem u32_lt (x : Int) : u32 x < 4294967296 := by
  unfold u32; omega

theorem u32_s32 (n : Nat) (h : n < 4294967296) : u32 (s32 n) = n := by
  unfold u32 s32; split <;> omega

theorem s32_range (n : Nat) : in_int32 (s32 n) := by
  unfold in_int32 s32; split <;> omega

theorem and32_bits (x y : Int) : bitwise32 (fun a b => a && b) x y (and32 x y) := by
  refine ⟨s32_range _, fun i _ => ?_⟩
  have hlt : Nat.land (u32 x) (u32 y) < 4294967296 :=
    Nat.and_lt_two_pow (u32 x) (n := 32) (u32_lt y)
  rw [and32, u32_s32 _ hlt]
  exact Nat.testBit_land (u32 x) (u32 y) i

theorem or32_bits (x y : Int) : bitwise32 (fun a b => a || b) x y (or32 x y) := by
  refine ⟨s32_range _, fun i _ => ?_⟩
  have hlt : Nat.lor (u32 x) (u32 y) < 4294967296 :=
    Nat.or_lt_two_pow (n := 32) (u32_lt x) (u32_lt y)
  rw [or32, u32_s32 _ hlt]
  exact Nat.testBit_lor (u32 x) (u32 y) i

theorem xor32_bits (x y : Int) : bitwise32 (fun a b => xor a b) x y (xor32 x y) := by
  refine ⟨s32_range _, fun i _ => ?_⟩
  have hlt : Nat.xor (u32 x) (u32 y) < 4294967296 :=
    Nat.xor_lt_two_pow (n := 32) (u32_lt x) (u32_lt y)
  rw [xor32, u32_s32 _ hlt]
  exact Nat.testBit_xor (u32 x) (u32 y) i

theorem not32_bits (x : Int) (i : Nat) (hi : i < 32) :
    (u32 (not32 x)).testBit i = !(u32 x).testBit i := by
  have h := u32_lt x
  rw [not32, u32_s32 _ (by omega)]
  have := Nat.testBit_two_pow_sub_succ (n := 32) (x := u32 x) h i
  rw [show 4294967295 - u32 x = 2 ^ 32 - (u32 x + 1) by omega, this]
  simp [hi]

theorem boolean_logic_int (st : State) (x y : Int) (hx : in_int32 x) (hy : in_int32 y)
    (op : What) :
    boolean_logic st x y op = (num_result ((logic_value op x y : Int) : ℚ), st) := by
  simp only [boolean_logic, to_int_cast x hx, to_int_cast y hy, ne_eq, not_true_eq_false,
    or_self, if_false, num_result]
  cases op <;> rfl

/-- C16: for all `x`, `y` that are 32-bit signed integers, evaluating `x AND y`, `x OR y`,
`x XOR y`, `x EQV y` and `x IMP y` yields a Number that is a 32-bit signed integer whose
two's-complement bits are, place by place, the and, the or, the exclusive or, the
complement of the exclusive or (`~(x ^ y)`) and the or of the complement of `x` with `y`
(`~x | y`) of the bits of `x` and `y`; the state is left alone. -/
theorem C16_bitwise_logic (m : Libm) (st : State) (x y : Int)
    (hx : in_int32 x) (hy : in_int32 y) :
    (∃ r, evalloc m st (mkBinary wAND (numLit x) (numLit y)) = (num_result (r : Int), st) ∧
      bitwise32 (fun a b => a && b) x y r) ∧
    (∃ r, evalloc m st (mkBinary wOR (numLit x) (numLit y)) = (num_result (r : Int), st) ∧
      bitwise32 (fun a b => a || b) x y r) ∧
    (∃ r, evalloc m st (mkBinary wXOR (numLit x) (numLit y)) = (num_result (r : Int), st) ∧
      bitwise32 (fun a b => xor a b) x y r) ∧
    (∃ r, evalloc m st (mkBinary wEQV (numLit x) (numLit y)) = (num_result (r : Int), st) ∧
      bitwise32 (fun a b => !(xor a b)) x y r) ∧
    (∃ r, evalloc m st (mkBinary wIMP (numLit x) (numLit y)) = (num_result (r : Int), st) ∧
      bitwise32 (fun a b => !a || b) x y r) := by
  refine ⟨⟨and32 x y, ?_, and32_bits x y⟩, ⟨or32 x y, ?_, or32_bits x y⟩,
    ⟨xor32 x y, ?_, xor32_bits x y⟩, ⟨not32 (xor32 x y), ?_, ?_⟩,
    ⟨or32 (not32 x) y, ?_, ?_⟩⟩
  · rw [evalloc_binary m st _ _ _ (by decide)]
    exact boolean_logic_int st x y hx hy wAND
  · rw [evalloc_binary m st _ _ _ (by decide)]
    exact boolean_logic_int st x y hx hy wOR
  · rw [evalloc_binary m st _ _ _ (by decide)]
    exact boolean_logic_int st x y hx hy wXOR
  · rw [evalloc_binary m st _ _ _ (by decide)]
    exact boolean_logic_int st x y hx hy wEQV
  · refine ⟨s32_range _, fun i hi => ?_⟩
    rw [not32_bits _ i hi, (xor32_bits x y).2 i hi]
  · rw [evalloc_binary m st _ _ _ (by decide)]
    exact boolean_logic_int st x y hx hy wIMP
  · refine ⟨s32_range _, fun i hi => ?_⟩
    rw [(or32_bits (not32 x) y).2 i hi, not32_bits _ i hi]

theorem C16_bitwise_logic_witness :
    in_int32 6 ∧ in_int32 (-4) ∧
    (∃ r, evalloc Libm.none State.init (mkBinary wEQV (numLit ((6 : Int) : ℚ))
        (numLit ((-4 : Int) : ℚ))) = (num_result (r : Int), State.init) ∧
      bitwise32 (fun a b => !(xor a b)) 6 (-4) r) ∧
    evalloc Libm.none State.init (mkBinary wEQV (numLit 6) (numLit (-4)))
      = (num_result 5, State.init) :=
  ⟨by decide, by decide,
    (C16_bitwise_logic Libm.none State.init 6 (-4) (by decide) (by decide)).2.2.2.1,
    by decide!⟩

/-- The value `evalloc` finds for a binary operator between two expressions that yield
numbers: the right one is evaluated first. -/
theorem evalloc_binary_of (m : Libm) (st st1 st2 : State) (op : What) (ea eb : lego)
    (x y : ℚ)
    (h : op ∈ [wSUB, wIDIV, wMOD, wGT, wGE, wLT, wLE, wEQ, wNE,
               wAND, wOR, wXOR, wEQV, wIMP, wNAND, wNOR])
    (hy : evalloc m st eb = (num_result y, st1))
    (hx : evalloc m st1 ea = (num_result x, st2)) :
    evalloc m st (mkBinary op ea eb)
      = apply_op m st2 op (num_result x) (num_result y) (computed.zero rKind.rExcept) := by
  simp only [List.mem_cons, List.mem_singleton, List.not_mem_nil, or_false] at h
  rcases h with rfl | rfl | rfl | rfl | rfl | rfl | rfl | rfl | rfl | rfl | rfl | rfl | rfl |
    rfl | rfl | rfl <;>
    simp +decide [evalloc, mkBinary, Fields.zero, count_args, What.ord, hx, hy, num_result,
      computed.zero]


theorem not32_eq (z : Int) (h : in_int32 z) : not32 z = -1 - z := by
  obtain ⟨h1, h2⟩ := h
  unfold not32 s32 u32
  split <;> omega

/-- C17 (the claim fails): `0 EQV 0` is -1 but `NOT (0 XOR 0)` is 1, and `0 IMP 0` is -1
but `(NOT 0) OR 0` is 1: `NOT` is the logical negation, not the complement. So are the
lines `PRINT 0 EQV 0` and `PRINT NOT (0 XOR 0)` printed as -1 and 1. -/
theorem C17_counterexample :
    (evalloc Libm.none State.init (mkBinary wEQV (numLit 0) (numLit 0))).1 = num_result (-1) ∧
    (evalloc Libm.none State.init
      (mkUnary wNOT (mkBinary wXOR (numLit 0) (numLit 0)))).1 = num_result 1 ∧
    (evalloc Libm.none State.init (mkBinary wIMP (numLit 0) (numLit 0))).1 = num_result (-1) ∧
    (evalloc Libm.none State.init
      (mkBinary wOR (mkUnary wNOT (numLit 0)) (numLit 0))).1 = num_result 1 ∧
    output_of Libm.none 100 State.init "PRINT 0 EQV 0" = some "-1\n".data ∧
    output_of Libm.none 100 State.init "PRINT NOT (0 XOR 0)" = some "1\n".data := by
  decide!

/-- C17 (amended): for all `a`, `b` that are 32-bit signed integers, `a EQV b` yields the
same as `-1 - (a XOR b)` and `a IMP b` the same as `(-1 - a) OR b`, the complement written
as a difference; `NOT x` itself is 1 for `x = 0` and 0 for every other number. -/
theorem C17_eqv_imp_by_complement (m : Libm) (st : State) (a b : Int)
    (ha : in_int32 a) (hb : in_int32 b) :
    evalloc m st (mkBinary wEQV (numLit a) (numLit b))
      = evalloc m st (mkBinary wSUB (numLit (-1)) (mkBinary wXOR (numLit a) (numLit b))) ∧
    evalloc m st (mkBinary wIMP (numLit a) (numLit b))
      = evalloc m st (mkBinary wOR (mkBinary wSUB (numLit (-1)) (numLit a)) (numLit b)) ∧
    (∀ x : ℚ, evalloc m st (mkUnary wNOT (numLit x))
      = (num_result (if x = 0 then 1 else 0), st)) := by
  have hl : ∀ q : ℚ, evalloc m st (numLit q) = (num_result q, st) := fun q => rfl
  refine ⟨?_, ?_, fun x => rfl⟩
  · have hxor : evalloc m st (mkBinary wXOR (numLit a) (numLit b))
        = (num_result ((xor32 a b : Int) : ℚ), st) := by
      rw [evalloc_binary m st _ _ _ (by decide)]
      exact boolean_logic_int st a b ha hb wXOR
    rw [evalloc_binary m st _ _ _ (by decide),
      evalloc_binary_of m st st st wSUB _ _ (-1) _ (by decide) hxor (hl _)]
    have e : boolean_logic st a b wEQV = (num_result ((not32 (xor32 a b) : Int) : ℚ), st) :=
      boolean_logic_int st a b ha hb wEQV
    have hn : ∀ q : ℚ, (num_result q).n = q := fun _ => rfl
    simp only [apply_op, hn]
    rw [e, not32_eq _ (xor32_bits a b).1]
    push_cast
    rfl
  · have hsub : evalloc m st (mkBinary wSUB (numLit (-1)) (numLit a))
        = (num_result (((-1 - a : Int)) : ℚ), st) := by
      rw [evalloc_binary m st _ _ _ (by decide)]
      simp [apply_op, num_result]
    rw [evalloc_binary m st _ _ _ (by decide),
      evalloc_binary_of m st st st wOR _ _ _ _ (by decide) (hl _) hsub]
    have hna : in_int32 (-1 - a) := by
      obtain ⟨h1, h2⟩ := ha
      constructor <;> omega
    have e1 : boolean_logic st a b wIMP = (num_result ((or32 (not32 a) b : Int) : ℚ), st) :=
      boolean_logic_int st a b ha hb wIMP
    have e2 : boolean_logic st ((-1 - a : Int) : ℚ) b wOR
        = (num_result ((or32 (-1 - a) b : Int) : ℚ), st) :=
      boolean_logic_int st (-1 - a) b hna hb wOR
    have hn : ∀ q : ℚ, (num_result q).n = q := fun _ => rfl
    simp only [apply_op, hn]
    rw [e1, e2, not32_eq _ ha]

theorem C17_eqv_imp_by_complement_witness :
    in_int32 5 ∧ in_int32 (-3) ∧
    evalloc Libm.none State.init (mkBinary wEQV (numLit ((5 : Int) : ℚ))
        (numLit ((-3 : Int) : ℚ)))
      = evalloc Libm.none State.init
          (mkBinary wSUB (numLit (-1)) (mkBinary wXOR (numLit ((5 : Int) : ℚ))
            (numLit ((-3 : Int) : ℚ)))) :=
  ⟨by decide, by decide,
    (C17_eqv_imp_by_complement Libm.none State.init 5 (-3) (by decide) (by decide)).1⟩

/-- C18 (the code misses a `break`): in `boolean_logic` the case `wNAND` falls through
into `wNOR`, so `x NAND y` is `~(~(x & y) | y)`, which is 0, not `~(x & y)`: `1 NAND 1`
yields 0 where `~(1 & 1)` is -2, and `0 NAND 0` yields 0 where `~(0 & 0)` is -1. `NOR`
itself is as stated: `0 NOR 0` is -1 and `1 NOR 2` is -4. -/
theorem C18_nand_falls_through_into_nor :
    (boolean_logic State.init 1 1 wNAND).1 = num_result 0 ∧
    not32 (and32 1 1) = -2 ∧
    (boolean_logic State.init 0 0 wNAND).1 = num_result 0 ∧
    not32 (and32 0 0) = -1 ∧
    output_of Libm.none 100 State.init "PRINT 1 NAND 1" = some "0\n".data ∧
    output_of Libm.none 100 State.init "PRINT 0 NAND 0" = some "0\n".data ∧
    output_of Libm.none 100 State.init "PRINT 0 NOR 0" = some "-1\n".data ∧
    output_of Libm.none 100 State.init "PRINT 1 NOR 2" = some "-4\n".data := by
  decide!

/-- C19 (the code divides by zero): `divmod` yields the Exception with "need integer"
exactly when an operand differs from its truncation to an `int`; but for a zero divisor,
which passes that test, `MOD` and `\` do not yield a Number: the division `xi %= yi`,
`xi /= yi` is carried out and the process stops. So does `PRINT 7 MOD 0`. -/
theorem C19_divmod_divides_by_zero :
    (∀ (st : State) (x y : ℚ),
      ((divmod st x y wMOD).1.what = rKind.rExcept
        ↔ (((to_int x : Int) : ℚ) ≠ x ∨ ((to_int y : Int) : ℚ) ≠ y)) ∧
      ((divmod st x y wIDIV).1.what = rKind.rExcept
        ↔ (((to_int x : Int) : ℚ) ≠ x ∨ ((to_int y : Int) : ℚ) ≠ y)) ∧
      ((((to_int x : Int) : ℚ) ≠ x ∨ ((to_int y : Int) : ℚ) ≠ y) →
        (divmod st x y wMOD).2 = st.warn "need integer" ∧
        (divmod st x y wIDIV).2 = st.warn "need integer")) ∧
    ((to_int 7 : Int) : ℚ) = 7 ∧ ((to_int 0 : Int) : ℚ) = 0 ∧
    (divmod State.init 7 0 wMOD).2.halt = some "integer division fault" ∧
    (divmod State.init 7 0 wIDIV).2.halt = some "integer division fault" ∧
    (run_state Libm.none 100 State.init "PRINT 7 MOD 0").map (fun st => st.halt)
      = some (some "integer division fault") ∧
    (run_state Libm.none 100 State.init "PRINT 7 \\ 0").map (fun st => st.halt)
      = some (some "integer division fault") := by
  refine ⟨fun st x y => ⟨?_, ?_, ?_⟩, by decide!, by decide!, by decide!, by decide!,
    by decide!, by decide!⟩
  · by_cases h : ((to_int x : Int) : ℚ) ≠ x ∨ ((to_int y : Int) : ℚ) ≠ y
    · simp only [divmod, h, if_true, computed.zero]
    · simp only [divmod, h, if_false, iff_false]
      split <;> simp [computed.zero]
  · by_cases h : ((to_int x : Int) : ℚ) ≠ x ∨ ((to_int y : Int) : ℚ) ≠ y
    · simp only [divmod, h, if_true, computed.zero]
    · simp only [divmod, h, if_false, iff_false]
      split <;> simp [computed.zero]
  · intro h
    simp only [divmod, h, if_true, and_self]

/-- C20: for all numbers `x`, `y`, evaluating a comparison between them (`=`, `<>`, `<`,
`<=`, `>`, `>=`) yields the Number -1 when the relation holds and the Number 0 when it
does not, and leaves the state alone. -/
theorem C20_comparisons_yield_minus_one_or_zero (m : Libm) (st : State) (x y : ℚ) :
    evalloc m st (mkBinary wEQ (numLit x) (numLit y))
      = (num_result (if x = y then -1 else 0), st) ∧
    evalloc m st (mkBinary wNE (numLit x) (numLit y))
      = (num_result (if x ≠ y then -1 else 0), st) ∧
    evalloc m st (mkBinary wLT (numLit x) (numLit y))
      = (num_result (if x < y then -1 else 0), st) ∧
    evalloc m st (mkBinary wLE (numLit x) (numLit y))
      = (num_result (if x ≤ y then -1 else 0), st) ∧
    evalloc m st (mkBinary wGT (numLit x) (numLit y))
      = (num_result (if x > y then -1 else 0), st) ∧
    evalloc m st (mkBinary wGE (numLit x) (numLit y))
      = (num_result (if x ≥ y then -1 else 0), st) := by
  refine ⟨?_, ?_, ?_, ?_, ?_, ?_⟩ <;>
    (rw [evalloc_binary m st _ x y (by decide)]; rfl)

/-! ## STOP, break and CONT (run.c, `immediate`) -/

/-- `advise` writes to standard output and does nothing else, but for `dirty`. -/
theorem advise_frame (st : State) (msg : List Char) (ran : Bool) (l : ℚ) :
    ∃ out dirty, advise st msg ran l = { st with out := out, dirty := dirty } := by
  unfold advise flash byItself State.print
  split_ifs <;> exact ⟨_, _, rfl⟩

theorem advise_prog_con (st : State) (msg : List Char) (ran : Bool) (l : ℚ) :
    (advise st msg ran l).prog_con = st.prog_con := by
  obtain ⟨o, d, h⟩ := advise_frame st msg ran l
  rw [h]

theorem advise_numDB (st : State) (msg : List Char) (ran : Bool) (l : ℚ) :
    (advise st msg ran l).numDB = st.numDB := by
  obtain ⟨o, d, h⟩ := advise_frame st msg ran l
  rw [h]

theorem advise_strDB (st : State) (msg : List Char) (ran : Bool) (l : ℚ) :
    (advise st msg ran l).strDB = st.strDB := by
  obtain ⟨o, d, h⟩ := advise_frame st msg ran l
  rw [h]

theorem advise_program (st : State) (msg : List Char) (ran : Bool) (l : ℚ) :
    (advise st msg ran l).program = st.program := by
  obtain ⟨o, d, h⟩ := advise_frame st msg ran l
  rw [h]

theorem advise_ctrl_c (st : State) (msg : List Char) (ran : Bool) (l : ℚ) :
    (advise st msg ran l).ctrl_c = st.ctrl_c := by
  obtain ⟨o, d, h⟩ := advise_frame st msg ran l
  rw [h]

theorem advise_warning (st : State) (msg : List Char) (ran : Bool) (l : ℚ) :
    (advise st msg ran l).warning = st.warning := by
  obtain ⟨o, d, h⟩ := advise_frame st msg ran l
  rw [h]

/-- The step of `single_step` on `STOP` in program context: the statement pointer moves
on and the caller is told. -/
theorem single_step_stop (m : Libm) (imm : lego) (st : State) (ic : x_con) (p : Ptr)
    (hp : st.prog_con.stmt = some p)
    (hw : (deref st.program imm p).what = wSTOP) :
    single_step m imm true st ic =
      (wSTOP, { st with prog_con := { st.prog_con with
                  stmt := ptr_sel st.program imm p Sel.next } }, ic) := by
  have hnn : (deref st.program imm p).isNull = false := isNull_of_what _ _ hw (by decide)
  simp [single_step, seek_stmt, getc, updc, hp, hw, hnn]

/-- The round of `immediate` whose step is a `STOP`. -/
theorem round_stop (m : Libm) (fr : Frame) (st0 : State) (ic0 : x_con)
    (hs : single_step m fr.imm fr.running fr.st fr.imm_con = (wSTOP, st0, ic0))
    (hw : st0.warning = none) :
    immediate_round m fr = Sum.inr
      { st := { advise { st0 with ctrl_c := -1 } ['b','r','e','a','k'] fr.running
                  st0.prog_con.lNum with ctrl_c := 0 },
        imm := fr.imm, imm_con := ic0, running := false } := by
  simp [immediate_round, hs, hw]

/-- The round of `immediate` whose step is an ordinary statement that leaves no warning,
when the break flag is set. -/
theorem round_break (m : Libm) (fr : Frame) (st0 : State) (ic0 : x_con)
    (hs : single_step m fr.imm fr.running fr.st fr.imm_con = (wZERO_IS_UNUSED, st0, ic0))
    (hw : st0.warning = none) (hc : st0.ctrl_c ≠ 0) :
    immediate_round m fr = Sum.inr
      { st := { advise (if st0.ctrl_c > 0 then st0.print ['\n'] else st0)
                  ['b','r','e','a','k'] fr.running st0.prog_con.lNum with ctrl_c := 0 },
        imm := fr.imm, imm_con := ic0, running := false } := by
  simp only [immediate_round, hs, hw]
  split_ifs <;> simp_all [State.print]

/-- The context `immediate` starts a command in. -/
theorem cont_step (m : Libm) (st : State) :
    single_step m (newLego wCONT) false st
        { x_con.zero with stmt := some { root := none, path := [] }, lNum := -1 }
      = (wCONT, st, { x_con.zero with lNum := -1 }) := by
  simp [single_step, seek_stmt, getc, updc, deref, ptr_sel, newLego, Fields.zero, x_con.zero]

/-- The round of `immediate` on `CONT` when the program context has a saved line. -/
theorem round_cont_resumes (m : Libm) (st : State) (hw : st.warning = none)
    (hc : st.ctrl_c = 0) (hl : st.prog_con.line.isSome = true) :
    immediate_round m
        { st := st, imm := newLego wCONT,
          imm_con := { x_con.zero with stmt := some { root := none, path := [] }, lNum := -1 },
          running := false }
      = Sum.inr { st := st, imm := newLego wCONT, imm_con := { x_con.zero with lNum := -1 },
                  running := true } := by
  have hl' : st.prog_con.line.isNone = false := by
    cases h : st.prog_con.line <;> simp_all
  simp [immediate_round, cont_step, hw, hc, hl']

/-- The round of `immediate` on `CONT` when the program context has no saved line. -/
theorem round_cont_refuses (m : Libm) (st : State) (hw : st.warning = none)
    (hc : st.ctrl_c = 0) (hl : st.prog_con.line = none) :
    immediate_round m
        { st := st, imm := newLego wCONT,
          imm_con := { x_con.zero with stmt := some { root := none, path := [] }, lNum := -1 },
          running := false }
      = Sum.inr
          { st := { advise (st.warn "can't continue") "can't continue".data false
                      st.prog_con.lNum with warning := none },
            imm := newLego wCONT, imm_con := { x_con.zero with lNum := -1 },
            running := false } := by
  simp only [immediate_round, cont_step]
  simp [hw, hc, hl, State.warn, warn, advise_ctrl_c, x_con.zero]

/-- C12: `STOP` in a running program, and the break flag seen after a step, end in the
break handling of `immediate`, which prints its message, clears the flag, stops running
and leaves the program context (the saved line and statement, the `GOSUB` stack, the `FOR`
stack, the data cursor), the variables and the program as the step left them; after
`STOP` the saved statement is the one following it. `CONT` with a saved line sets
`running` and changes nothing, so the next step is taken in the program context at the
saved statement; `CONT` without a saved line is diagnosed with "can't continue" and does
not start running. In the session of the scenario the program stops twice inside a `FOR`
loop inside a subroutine and goes on from there each time. -/
theorem C12_break_keeps_context (m : Libm) (imm : lego) (st : State) (ic : x_con) (p : Ptr)
    (hp : st.prog_con.stmt = some p)
    (hw : (deref st.program imm p).what = wSTOP)
    (hwarn : st.warning = none) :
    (∃ st1, immediate_round m { st := st, imm := imm, imm_con := ic, running := true }
        = Sum.inr { st := st1, imm := imm, imm_con := ic, running := false } ∧
      st1.prog_con = { st.prog_con with stmt := ptr_sel st.program imm p Sel.next } ∧
      st1.numDB = st.numDB ∧ st1.strDB = st.strDB ∧ st1.program = st.program ∧
      st1.ctrl_c = 0 ∧ st1.warning = none) ∧
    (∀ (fr : Frame) (st0 : State) (ic0 : x_con),
      single_step m fr.imm fr.running fr.st fr.imm_con = (wZERO_IS_UNUSED, st0, ic0) →
      st0.warning = none → st0.ctrl_c ≠ 0 →
      ∃ st1, immediate_round m fr
          = Sum.inr { st := st1, imm := fr.imm, imm_con := ic0, running := false } ∧
        st1.prog_con = st0.prog_con ∧ st1.numDB = st0.numDB ∧ st1.strDB = st0.strDB ∧
        st1.program = st0.program ∧ st1.ctrl_c = 0 ∧ st1.warning = none) ∧
    (∀ st2 : State, st2.warning = none → st2.ctrl_c = 0 →
      st2.prog_con.line.isSome = true →
      immediate_round m
          { st := st2, imm := newLego wCONT,
            imm_con := { x_con.zero with stmt := some { root := none, path := [] },
                                         lNum := -1 },
            running := false }
        = Sum.inr { st := st2, imm := newLego wCONT,
                    imm_con := { x_con.zero with lNum := -1 }, running := true }) ∧
    (∀ st2 : State, st2.warning = none → st2.ctrl_c = 0 →
      st2.prog_con.line = none →
      ∃ st3, immediate_round m
          { st := st2, imm := newLego wCONT,
            imm_con := { x_con.zero with stmt := some { root := none, path := [] },
                                         lNum := -1 },
            running := false }
        = Sum.inr { st := st3, imm := newLego wCONT,
                    imm_con := { x_con.zero with lNum := -1 }, running := false } ∧
        st3 = { advise (st2.warn "can't continue") "can't continue".data false
                  st2.prog_con.lNum with warning := none } ∧
        st3.prog_con = st2.prog_con ∧ st3.numDB = st2.numDB ∧ st3.strDB = st2.strDB) ∧
    main Libm.none 1000 (["10 A=1 : GOSUB 20 : PRINT [back]", "15 END",
        "20 FOR I=1 TO 2 : STOP : PRINT A, I : NEXT I : RETURN",
        "RUN", "CONT", "CONT", "CONT"].map String.data)
      = some ("Ok\nbreak in 20\nOk\n1 1\nbreak in 20\nOk\n1 2\nback\nOk\n" ++
              "can't continue\nOk\n").data := by
  refine ⟨?_, ?_, ?_, ?_, by decide!⟩
  · have hs := single_step_stop m imm st ic p hp hw
    refine ⟨_, round_stop m { st := st, imm := imm, imm_con := ic, running := true } _ ic
      hs hwarn, ?_, ?_, ?_, ?_, rfl, ?_⟩
    · show (advise _ _ _ _).prog_con = _
      rw [advise_prog_con]
    · show (advise _ _ _ _).numDB = _
      rw [advise_numDB]
    · show (advise _ _ _ _).strDB = _
      rw [advise_strDB]
    · show (advise _ _ _ _).program = _
      rw [advise_program]
    · show (advise _ _ _ _).warning = _
      rw [advise_warning]; exact hwarn
  · intro fr st0 ic0 hs hw0 hc0
    refine ⟨_, round_break m fr st0 ic0 hs hw0 hc0, ?_, ?_, ?_, ?_, rfl, ?_⟩
    · show (advise _ _ _ _).prog_con = _
      rw [advise_prog_con]; split <;> rfl
    · show (advise _ _ _ _).numDB = _
      rw [advise_numDB]; split <;> rfl
    · show (advise _ _ _ _).strDB = _
      rw [advise_strDB]; split <;> rfl
    · show (advise _ _ _ _).program = _
      rw [advise_program]; split <;> rfl
    · show (advise _ _ _ _).warning = _
      rw [advise_warning]; split <;> exact hw0
  · intro st2 h1 h2 h3
    exact round_cont_resumes m st2 h1 h2 h3
  · intro st2 h1 h2 h3
    refine ⟨_, round_cont_refuses m st2 h1 h2 h3, rfl, ?_, ?_, ?_⟩
    · show (advise _ _ _ _).prog_con = _
      rw [advise_prog_con]; rfl
    · show (advise _ _ _ _).numDB = _
      rw [advise_numDB]; rfl
    · show (advise _ _ _ _).strDB = _
      rw [advise_strDB]; rfl

/-- C12 at the program `10 STOP : PRINT 1`, standing before its `STOP`. -/
theorem C12_break_keeps_context_witness :
    (at_line (typed_in ["10 STOP : PRINT 1"]) 10).prog_con.stmt
      = some { root := some 10, path := [Sel.a0] } ∧
    (deref (at_line (typed_in ["10 STOP : PRINT 1"]) 10).program NULL
      { root := some 10, path := [Sel.a0] }).what = wSTOP ∧
    (at_line (typed_in ["10 STOP : PRINT 1"]) 10).warning = none ∧
    ∃ st1, immediate_round Libm.none
        { st := at_line (typed_in ["10 STOP : PRINT 1"]) 10, imm := NULL,
          imm_con := x_con.zero, running := true }
        = Sum.inr { st := st1, imm := NULL, imm_con := x_con.zero, running := false } ∧
      st1.prog_con = { (at_line (typed_in ["10 STOP : PRINT 1"]) 10).prog_con with
        stmt := ptr_sel (at_line (typed_in ["10 STOP : PRINT 1"]) 10).program NULL
          { root := some 10, path := [Sel.a0] } Sel.next } ∧
      st1.numDB = (at_line (typed_in ["10 STOP : PRINT 1"]) 10).numDB ∧
      st1.strDB = (at_line (typed_in ["10 STOP : PRINT 1"]) 10).strDB ∧
      st1.program = (at_line (typed_in ["10 STOP : PRINT 1"]) 10).program ∧
      st1.ctrl_c = 0 ∧ st1.warning = none :=
  ⟨by decide!, by decide!, by decide!,
    (C12_break_keeps_context Libm.none NULL (at_line (typed_in ["10 STOP : PRINT 1"]) 10)
      x_con.zero { root := some 10, path := [Sel.a0] } (by decide!) (by decide!)
      (by decide!)).1⟩

/-! ## Errors in a running program (run.c, `immediate`) -/

/-- The round of `immediate` in a running program whose step leaves a warning. -/
theorem round_warning (m : Libm) (fr : Frame) (what : What) (st0 : State) (ic0 : x_con)
    (msg : String)
    (hrun : fr.running = true)
    (hs : single_step m fr.imm fr.running fr.st fr.imm_con = (what, st0, ic0))
    (hwhat : what = wERROR ∨ what = wZERO_IS_UNUSED)
    (hw : st0.warning = some msg) (hc : st0.ctrl_c = 0) :
    immediate_round m fr = Sum.inr
      { st := reset_program { advise st0 msg.data true st0.prog_con.lNum with warning := none },
        imm := fr.imm, imm_con := ic0, running := true } := by
  rw [hrun] at hs
  rcases hwhat with rfl | rfl <;>
    simp [immediate_round, hs, hw, hrun, reset_program, advise_ctrl_c, hc]

/-- The round of `immediate` in a running program whose context holds no line and no
statement: the program has ended. -/
theorem round_end (m : Libm) (st : State) (imm : lego) (ic : x_con)
    (hl : st.prog_con.line = none) (hs : st.prog_con.stmt = none)
    (hw : st.warning = none) (hc : st.ctrl_c = 0) :
    immediate_round m { st := st, imm := imm, imm_con := ic, running := true }
      = Sum.inr { st := reset_program st, imm := imm, imm_con := ic, running := false } := by
  have h1 : single_step m imm true st ic = (wEND, st, ic) := by
    simp [single_step, seek_stmt, getc, updc, hl, hs]
  simp [immediate_round, h1, hw, hc, reset_program]

theorem reset_program_idem (st : State) : reset_program (reset_program st) = reset_program st :=
  rfl

/-- C13 (the claim fails): in the program `10 A=5 : GOSUB 20`,
`20 FOR I=1 TO 2 : PRINT X` six rounds after `RUN` the program runs with one frame on the
`GOSUB` stack and one on the `FOR` stack; the seventh step, `PRINT X`, raises the
exception "no such variable", and the round leaves both stacks empty and no saved line or
statement. A `CONT` after that is refused. -/
theorem C13_counterexample :
    (rounds Libm.none 6 (first_frame (typed_in error_program) (newLego wRUN))).map
        (fun fr => (fr.running, fr.st.prog_con.ret_to.length, fr.st.prog_con.next_to.length))
      = some (true, 1, 1) ∧
    (rounds Libm.none 6 (first_frame (typed_in error_program) (newLego wRUN))).map
        (fun fr => ((single_step Libm.none fr.imm fr.running fr.st fr.imm_con).1,
                    (single_step Libm.none fr.imm fr.running fr.st fr.imm_con).2.1.warning))
      = some (wERROR, some "no such variable") ∧
    (rounds Libm.none 7 (first_frame (typed_in error_program) (newLego wRUN))).map
        (fun fr => (fr.st.prog_con.ret_to, fr.st.prog_con.next_to, fr.st.prog_con.line,
                    fr.st.prog_con.stmt))
      = some ([], [], none, none) ∧
    main Libm.none 1000 ((error_program ++ ["RUN", "CONT"]).map String.data)
      = some "Ok\nno such variable in 20\nOk\ncan't continue\nOk\n".data := by
  decide!

/-- The round of `immediate` after a step of a running program that leaves a warning,
and the round after it. -/
theorem error_resets_context (m : Libm) (fr : Frame) (what : What) (st0 : State)
    (ic0 : x_con) (msg : String)
    (hrun : fr.running = true)
    (hs : single_step m fr.imm fr.running fr.st fr.imm_con = (what, st0, ic0))
    (hwhat : what = wERROR ∨ what = wZERO_IS_UNUSED)
    (hw : st0.warning = some msg) (hc : st0.ctrl_c = 0) :
    ∃ st1, immediate_round m fr
        = Sum.inr { st := st1, imm := fr.imm, imm_con := ic0, running := true } ∧
      st1.numDB = st0.numDB ∧ st1.strDB = st0.strDB ∧ st1.program = st0.program ∧
      st1.prog_con = { x_con.zero with data_line := line_ptr st0.program } ∧
      st1.prog_con.ret_to = [] ∧ st1.prog_con.next_to = [] ∧
      st1.warning = none ∧
      immediate_round m { st := st1, imm := fr.imm, imm_con := ic0, running := true }
        = Sum.inr { st := st1, imm := fr.imm, imm_con := ic0, running := false } := by
  refine ⟨_, round_warning m fr what st0 ic0 msg hrun hs hwhat hw hc, ?_, ?_, ?_, ?_, rfl, rfl,
    rfl, ?_⟩
  · show (advise _ _ _ _).numDB = _
    rw [advise_numDB]
  · show (advise _ _ _ _).strDB = _
    rw [advise_strDB]
  · show (advise _ _ _ _).program = _
    rw [advise_program]
  · show ({ x_con.zero with data_line := line_ptr (advise _ _ _ _).program } : x_con) = _
    rw [advise_program]
  · rw [round_end m _ fr.imm ic0 rfl rfl rfl
      (by show (advise _ _ _ _).ctrl_c = 0
          rw [advise_ctrl_c]; exact hc)]
    rfl

/-- C13 (amended): when the step of a running program leaves a warning (as an exception
of `evalloc` does), the round of `immediate` prints it and calls `reset_program`: the
variables and the program are retained, but the program context is cleared, the `GOSUB`
stack and the `FOR` stack with it, and the data cursor is back at the first line. The
next round finds no statement and stops running. -/
theorem C13_error_resets_context (m : Libm) (fr : Frame) (what : What) (st0 : State)
    (ic0 : x_con) (msg : String)
    (hrun : fr.running = true)
    (hs : single_step m fr.imm fr.running fr.st fr.imm_con = (what, st0, ic0))
    (hwhat : what = wERROR ∨ what = wZERO_IS_UNUSED)
    (hw : st0.warning = some msg) (hc : st0.ctrl_c = 0) :
    ∃ st1, immediate_round m fr
        = Sum.inr { st := st1, imm := fr.imm, imm_con := ic0, running := true } ∧
      st1.numDB = st0.numDB ∧ st1.strDB = st0.strDB ∧ st1.program = st0.program ∧
      st1.prog_con = { x_con.zero with data_line := line_ptr st0.program } ∧
      st1.prog_con.ret_to = [] ∧ st1.prog_con.next_to = [] ∧
      st1.warning = none ∧
      immediate_round m { st := st1, imm := fr.imm, imm_con := ic0, running := true }
        = Sum.inr { st := st1, imm := fr.imm, imm_con := ic0, running := false } :=
  error_resets_context m fr what st0 ic0 msg hrun hs hwhat hw hc

/-- C13 (amended) at the program `10 PRINT X`, standing before its `PRINT`. -/
theorem C13_error_resets_context_witness :
    (single_step Libm.none NULL true (at_line (typed_in ["10 PRINT X"]) 10) x_con.zero).1
      = wERROR ∧
    (single_step Libm.none NULL true (at_line (typed_in ["10 PRINT X"]) 10)
      x_con.zero).2.1.warning = some "no such variable" ∧
    ∃ st1, immediate_round Libm.none
        { st := at_line (typed_in ["10 PRINT X"]) 10, imm := NULL, imm_con := x_con.zero,
          running := true }
        = Sum.inr { st := st1, imm := NULL,
                    imm_con := (single_step Libm.none NULL true
                      (at_line (typed_in ["10 PRINT X"]) 10) x_con.zero).2.2,
                    running := true } ∧
      st1.prog_con.ret_to = [] ∧ st1.prog_con.next_to = [] :=
  ⟨by decide!, by decide!,
    (C13_error_resets_context Libm.none
      { st := at_line (typed_in ["10 PRINT X"]) 10, imm := NULL, imm_con := x_con.zero,
        running := true }
      wERROR
      (single_step Libm.none NULL true (at_line (typed_in ["10 PRINT X"]) 10) x_con.zero).2.1
      (single_step Libm.none NULL true (at_line (typed_in ["10 PRINT X"]) 10) x_con.zero).2.2
      "no such variable" rfl (by decide!) (Or.inl rfl) (by decide!) (by decide!)).imp
      (fun _ h => ⟨h.1, h.2.2.2.2.2.1, h.2.2.2.2.2.2.1⟩)⟩


/-! ## READ without data (run.c, `single_step`) -/

/-- `get_next_data` moves the data cursor of the program context and nothing else. -/
theorem get_next_data_frame (fuel : Nat) : ∀ (st st1 : State) (r : Option Ptr),
    get_next_data fuel st = some (r, st1) → ∃ c, st1 = { st with prog_con := c } := by
  induction fuel with
  | zero => intro st st1 r h; simp [get_next_data] at h
  | succ fuel ih =>
    intro st st1 r h
    unfold get_next_data at h
    split at h
    · simp only [Option.some.injEq, Prod.mk.injEq] at h
      exact ⟨_, h.2.symm⟩
    · split at h
      · split at h
        · obtain ⟨c, hc⟩ := ih _ _ _ h
          exact ⟨c, by rw [hc]⟩
        · obtain ⟨c, hc⟩ := ih _ _ _ h
          exact ⟨c, by rw [hc]⟩
      · split at h
        · obtain ⟨c, hc⟩ := ih _ _ _ h
          exact ⟨c, by rw [hc]⟩
        · simp only [Option.some.injEq, Prod.mk.injEq] at h
          exact ⟨st.prog_con, by rw [← h.2]⟩

theorem fixed_crash (st : State) (why : String) : (st.crash why).fixed = st.fixed := by
  unfold State.crash; split <;> rfl

theorem fixed_warn (st : State) (why : String) : (st.warn why).fixed = st.fixed := rfl

theorem fixed_deref (c : computed) (st : State) : (c.deref st).2.fixed = st.fixed := by
  unfold computed.deref; split
  · rfl
  · exact fixed_crash _ _

theorem fixed_csprng (st : State) (x : ℚ) : (csprng st x).2.fixed = st.fixed := by
  unfold csprng
  split
  · rfl
  · split <;> rfl

theorem fixed_boolean_logic (st : State) (x y : ℚ) (w : What) :
    (boolean_logic st x y w).2.fixed = st.fixed := by
  unfold boolean_logic
  split
  · rfl
  · rfl

theorem fixed_divmod (st : State) (x y : ℚ) (w : What) :
    (divmod st x y w).2.fixed = st.fixed := by
  unfold divmod
  split
  · rfl
  · dsimp only
    split
    · split
      · exact fixed_crash _ _
      · rfl
    · split
      · exact fixed_crash _ _
      · rfl
    · rfl

theorem fixed_except_with (st : State) (why : String) :
    (except_with st why).2.fixed = st.fixed := rfl

set_option maxHeartbeats 1600000 in
/-- No operator touches the store or the break flag. -/
theorem fixed_apply_op (m : Libm) (st : State) (w : What) (x y z : computed) :
    (apply_op m st w x y z).2.fixed = st.fixed := by
  cases w <;>
    simp only [apply_op, fixed_boolean_logic, fixed_divmod, fixed_csprng, fixed_deref,
      fixed_except_with] <;>
    (repeat' split) <;>
    first
      | rfl
      | exact fixed_except_with _ _
      | exact fixed_crash _ _
      | (simp only [fixed_crash, fixed_deref, fixed_except_with, fixed_warn]; done)
      | (rename_i h; have e := fixed_deref x st; rw [h] at e; exact e)
      | (rename_i h; have e := fixed_deref y st; rw [h] at e; exact e)

/-- Evaluating an expression touches neither the store nor the break flag. -/
theorem fixed_evalloc (m : Libm) (l : lego) :
    ∀ st : State, (evalloc m st l).2.fixed = st.fixed := by
  induction l with
  | NULL => intro st; exact fixed_crash _ _
  | node f a0 a1 a2 a3 nx ih0 ih1 ih2 _ _ =>
    intro st
    simp only [evalloc]
    split
    · rfl
    · rfl
    · split <;> rfl
    · split <;> rfl
    · split_ifs <;>
        simp only [ih0, ih1, ih2, fixed_apply_op, fixed_except_with, computed.zero]

theorem quiet_crash (st : State) (why : String) : (st.crash why).warning = st.warning := by
  unfold State.crash; split <;> rfl

theorem quiet_deref (c : computed) (st : State) : (c.deref st).2.warning = st.warning := by
  unfold computed.deref; split
  · rfl
  · exact quiet_crash _ _

theorem quiet_csprng (st : State) (x : ℚ) : (csprng st x).2.warning = st.warning := by
  unfold csprng
  split
  · rfl
  · split <;> rfl

theorem quiet_boolean_logic (st : State) (x y : ℚ) (w : What)
    (h : (boolean_logic st x y w).1.what ≠ rKind.rExcept) :
    (boolean_logic st x y w).2.warning = st.warning := by
  unfold boolean_logic at h ⊢
  split
  · rename_i hc; rw [if_pos hc] at h; exact absurd rfl h
  · rfl

theorem quiet_divmod (st : State) (x y : ℚ) (w : What)
    (h : (divmod st x y w).1.what ≠ rKind.rExcept) :
    (divmod st x y w).2.warning = st.warning := by
  unfold divmod at h ⊢
  split
  · rename_i hc; rw [if_pos hc] at h; exact absurd rfl h
  · dsimp only
    split
    · split
      · exact quiet_crash _ _
      · rfl
    · split
      · exact quiet_crash _ _
      · rfl
    · rfl

set_option maxHeartbeats 1600000 in
/-- An operator that does not raise an exception leaves no warning. -/
theorem quiet_apply_op (m : Libm) (st : State) (w : What) (x y z : computed)
    (h : (apply_op m st w x y z).1.what ≠ rKind.rExcept) :
    (apply_op m st w x y z).2.warning = st.warning := by
  revert h
  cases w <;> simp only [apply_op] <;>
    first
      | exact fun _ => rfl
      | exact quiet_boolean_logic _ _ _ _
      | exact quiet_divmod _ _ _ _
      | exact fun _ => quiet_csprng _ _
      | exact fun _ => quiet_deref _ _
      | exact fun h => absurd rfl h
      | ((repeat' split) <;> intro h <;>
         first
           | trivial
           | rfl
           | (simp only [quiet_deref, quiet_crash, quiet_csprng]; done)
           | exact absurd rfl h
           | exact quiet_crash _ _
           | (rename_i heq; have e := quiet_deref x st; rw [heq] at e; exact e)
           | (rename_i heq; have e := quiet_deref y st; rw [heq] at e; exact e))

/-- An evaluation that does not raise an exception leaves no warning. -/
theorem quiet_evalloc (m : Libm) (l : lego) : ∀ st : State,
    (evalloc m st l).1.what ≠ rKind.rExcept → (evalloc m st l).2.warning = st.warning := by
  induction l with
  | NULL => intro st h; exact absurd rfl h
  | node f a0 a1 a2 a3 nx ih0 ih1 ih2 _ _ =>
    intro st
    simp only [evalloc]
    split
    · exact fun _ => rfl
    · exact fun _ => rfl
    · split
      · exact fun h => absurd rfl h
      · exact fun _ => rfl
    · split
      · exact fun h => absurd rfl h
      · exact fun _ => rfl
    · split
      · exact fun h => absurd rfl h
      · generalize count_args f a0 a1 a2 a3 = n
        by_cases h3 : n = 3
        · subst h3
          simp only [true_or, true_and, if_true]
          split_ifs with he hneg
          · exact fun h => absurd rfl h
          · intro h
            rw [not_or, not_or] at he
            rw [ih0 _ h, ih0 _ he.2.2, ih1 _ he.2.1, ih2 _ he.1]
          · intro h
            rw [not_or, not_or] at he
            rw [quiet_apply_op _ _ _ _ _ _ h, ih0 _ he.2.2, ih1 _ he.2.1, ih2 _ he.1]
        · by_cases h2 : n = 2
          · subst h2
            simp only [OfNat.ofNat_ne_one, true_or, or_true, true_and, if_true, false_and,
              false_or, if_false, reduceCtorEq, Nat.succ_ne_self, Nat.reduceEqDiff]
            split_ifs with he hneg
            · exact fun h => absurd rfl h
            · intro h
              rw [not_or] at he
              rw [ih0 _ h, ih0 _ he.2, ih1 _ he.1]
            · intro h
              rw [not_or] at he
              rw [quiet_apply_op _ _ _ _ _ _ h, ih0 _ he.2, ih1 _ he.1]
          · by_cases h1 : n = 1
            · subst h1
              simp only [OfNat.one_ne_ofNat, true_or, or_true, true_and, if_true, false_and,
                false_or, if_false, reduceCtorEq]
              split_ifs with he hneg
              · exact fun h => absurd rfl h
              · intro h
                rw [ih0 _ h, ih0 _ he]
              · intro h
                rw [quiet_apply_op _ _ _ _ _ _ h, ih0 _ he]
            · simp only [h3, h2, h1, or_self, false_and, if_false]
              split_ifs with hneg
              · intro h
                rw [ih0 _ h]
              · intro h
                rw [quiet_apply_op _ _ _ _ _ _ h]

/-- An assignment touches neither the store, the break flag nor the warning. -/
theorem set_var_fixed (st : State) (name : List Char) (s : Option (List Char)) (n : ℚ) :
    (set_var st name s n).fixed = st.fixed ∧ (set_var st name s n).warning = st.warning := by
  cases s <;> exact ⟨rfl, rfl⟩

/-- The first `j` rounds of the loop of `READ`, each assigning a datum of its variable's
kind: the loop goes on from the state they leave with the variables that remain; the
store, the break flag and the warning are as before. -/
theorem read_some_read_loop (m : Libm) : ∀ (j : Nat) (st stj : State) (l rest : lego),
    read_some m j st l = some (stj, rest) →
    read_loop m st l = read_loop m stj rest ∧ stj.fixed = st.fixed ∧
      stj.warning = st.warning := by
  intro j
  induction j with
  | zero =>
    intro st stj l rest h
    simp only [read_some, Option.some.injEq, Prod.mk.injEq] at h
    obtain ⟨rfl, rfl⟩ := h
    exact ⟨rfl, rfl, rfl⟩
  | succ j ih =>
    intro st stj l rest h
    cases l with
    | NULL => simp [read_some] at h
    | node f a0 a1 a2 a3 nx =>
      unfold read_some at h
      split at h
      · rename_i datum st1 hd
        obtain ⟨c, hc⟩ := get_next_data_frame _ _ _ _ hd
        have hf1 : st1.fixed = st.fixed := by rw [hc]; rfl
        have hw1 : st1.warning = st.warning := by rw [hc]
        have hf2 := fixed_evalloc m (deref st1.program NULL datum) st1
        split_ifs at h with hs hk hk
        · obtain ⟨h1, h2, h3⟩ := ih _ _ _ _ h
          have hq : (evalloc m st1 (deref st1.program NULL datum)).1.what ≠ rKind.rExcept := by
            rw [hk]; decide
          refine ⟨?_, ?_, ?_⟩
          · rw [read_loop, hd]
            simp only [hq, hs, hk, if_true, if_false, ne_eq, not_true_eq_false]
            exact h1
          · rw [h2, (set_var_fixed _ _ _ _).1, hf2, hf1]
          · rw [h3, (set_var_fixed _ _ _ _).2, quiet_evalloc m _ _ hq, hw1]
        · obtain ⟨h1, h2, h3⟩ := ih _ _ _ _ h
          have hq : (evalloc m st1 (deref st1.program NULL datum)).1.what ≠ rKind.rExcept := by
            rw [hk]; decide
          refine ⟨?_, ?_, ?_⟩
          · rw [read_loop, hd]
            simp only [hq, hs, hk, if_true, if_false, ne_eq, not_true_eq_false]
            exact h1
          · rw [h2, (set_var_fixed _ _ _ _).1, hf2, hf1]
          · rw [h3, (set_var_fixed _ _ _ _).2, quiet_evalloc m _ _ hq, hw1]
      · simp at h

/-- The step of `single_step` on `READ` in program context is the loop of `READ` on the
variables of the statement, the statement pointer moved on. -/
theorem single_step_read (m : Libm) (imm : lego) (st : State) (ic : x_con) (p : Ptr)
    (hp : st.prog_con.stmt = some p)
    (hw : (deref st.program imm p).what = wREAD) :
    single_step m imm true st ic
      = (if (read_loop m { st with prog_con := { st.prog_con with
              stmt := ptr_sel st.program imm p Sel.next } } (deref st.program imm p).a0).1
         then wERROR else wZERO_IS_UNUSED,
         (read_loop m { st with prog_con := { st.prog_con with
              stmt := ptr_sel st.program imm p Sel.next } } (deref st.program imm p).a0).2,
         ic) := by
  have hnn : (deref st.program imm p).isNull = false := isNull_of_what _ _ hw (by decide)
  generalize hr : read_loop m { st with prog_con := { st.prog_con with
              stmt := ptr_sel st.program imm p Sel.next } } (deref st.program imm p).a0 = r
  obtain ⟨b, s⟩ := r
  cases b <;> simp [single_step, seek_stmt, getc, updc, hp, hw, hnn, hr]

/-- C14 (the claim fails): in `10 READ A : PRINT [after]` the third step after `RUN` is
the `READ`; it warns "out of data" and leaves the statement pointer before the `PRINT`,
but the round prints the message and clears the program context, the next round stops
running, and the `PRINT` after the `READ` is never executed: the output is the message
alone. -/
theorem C14_counterexample :
    (rounds Libm.none 2 (first_frame (typed_in ["10 READ A : PRINT [after]"])
        (newLego wRUN))).map
        (fun fr => ((single_step Libm.none fr.imm fr.running fr.st fr.imm_con).1,
                    (single_step Libm.none fr.imm fr.running fr.st fr.imm_con).2.1.warning,
                    (single_step Libm.none fr.imm fr.running fr.st
                      fr.imm_con).2.1.prog_con.stmt))
      = some (wZERO_IS_UNUSED, some "out of data",
              some { root := some 10, path := [Sel.a0, Sel.next] }) ∧
    (rounds Libm.none 3 (first_frame (typed_in ["10 READ A : PRINT [after]"])
        (newLego wRUN))).map
        (fun fr => (fr.st.prog_con.line, fr.st.prog_con.stmt, fr.st.out))
      = some (none, none, "out of data in 10\n".data) ∧
    (rounds Libm.none 4 (first_frame (typed_in ["10 READ A : PRINT [after]"])
        (newLego wRUN))).map (fun fr => fr.running) = some false ∧
    output_of Libm.none 100 (typed_in ["10 READ A : PRINT [after]"]) "RUN"
      = some "out of data in 10\n".data := by
  decide!

/-- C14 (amended): a `READ` in a running program that has assigned data to its first `j`
variables (`read_some`; `j` may be 0) and finds no datum for the next one
(`get_next_data` returns the null pointer) warns "out of data" and assigns no more: the
variables are as the `j` assignments left them. The round of `immediate` prints the
message and calls `reset_program`, so the variables stay as they are, the program context
is cleared (no statement after the `READ` is saved) and the next round stops running. In
the scenario `A` is 7 and neither "after" nor "more" is printed. -/
theorem C14_out_of_data_stops_program (m : Libm) (imm : lego) (st stj st1 : State)
    (ic : x_con) (p : Ptr) (j : Nat) (rest : lego)
    (hp : st.prog_con.stmt = some p)
    (hw : (deref st.program imm p).what = wREAD)
    (hj : read_some m j
        { st with prog_con := { st.prog_con with
            stmt := ptr_sel st.program imm p Sel.next } }
        (deref st.program imm p).a0 = some (stj, rest))
    (hr : rest.isNull = false)
    (hd : get_next_data (data_fuel stj) stj = some (none, st1))
    (hwarn : st.warning = none) (hc : st.ctrl_c = 0) :
    (single_step m imm true st ic).1 = wZERO_IS_UNUSED ∧
    (single_step m imm true st ic).2.1.warning = some "out of data" ∧
    (single_step m imm true st ic).2.1.numDB = stj.numDB ∧
    (single_step m imm true st ic).2.1.strDB = stj.strDB ∧
    (∃ st2, immediate_round m { st := st, imm := imm, imm_con := ic, running := true }
        = Sum.inr { st := st2, imm := imm, imm_con := ic, running := true } ∧
      st2.numDB = stj.numDB ∧ st2.strDB = stj.strDB ∧ st2.program = st.program ∧
      st2.prog_con = { x_con.zero with data_line := line_ptr st.program } ∧
      st2.warning = none ∧
      immediate_round m { st := st2, imm := imm, imm_con := ic, running := true }
        = Sum.inr { st := st2, imm := imm, imm_con := ic, running := false }) ∧
    main Libm.none 1000 (["10 DATA 7 : READ A, B : PRINT [after]", "20 PRINT [more]",
        "RUN", "PRINT A"].map String.data)
      = some "Ok\nout of data in 10\nOk\n7\nOk\n".data := by
  obtain ⟨h1, h2, h3⟩ := read_some_read_loop m j _ _ _ _ hj
  obtain ⟨c, hc1⟩ := get_next_data_frame _ _ _ _ hd
  have hl : read_loop m stj rest = (false, st1.warn "out of data") := by
    cases rest with
    | NULL => simp [lego.isNull] at hr
    | node f a0 a1 a2 a3 nx => rw [read_loop, hd]
  have hs : single_step m imm true st ic = (wZERO_IS_UNUSED, st1.warn "out of data", ic) := by
    rw [single_step_read m imm st ic p hp hw, h1, hl]
    rfl
  have hp2 : stj.program = st.program := congrArg Prod.fst h2
  have hc2 : stj.ctrl_c = st.ctrl_c := congrArg Prod.snd h2
  have hw1 : (st1.warn "out of data").warning = some "out of data" := by
    rw [hc1]
    show warn stj.warning "out of data" = _
    rw [h3]
    show warn st.warning "out of data" = _
    rw [hwarn]
    rfl
  refine ⟨by rw [hs], by rw [hs]; exact hw1, by rw [hs, hc1]; rfl, by rw [hs, hc1]; rfl, ?_,
    by decide!⟩
  obtain ⟨st2, e1, e2, e3, e4, e5, _, _, e6, e7⟩ :=
    error_resets_context m { st := st, imm := imm, imm_con := ic, running := true }
      wZERO_IS_UNUSED (st1.warn "out of data") ic "out of data" rfl hs (Or.inr rfl) hw1
      (by rw [hc1]; exact hc2.trans hc)
  refine ⟨st2, e1, ?_, ?_, ?_, ?_, e6, e7⟩
  · rw [e2, hc1]; rfl
  · rw [e3, hc1]; rfl
  · rw [e4, hc1]; exact hp2
  · rw [e5, hc1]; exact congrArg (fun x => ({ x_con.zero with data_line := line_ptr x } : x_con)) hp2

/-- C14 (amended) at the program `10 DATA 7 : READ A, B : PRINT [after]`, `20 PRINT [more]`,
standing before its `READ`: the `READ` assigns 7 to `A`, finds no datum for `B`, and `A`
is 7 after the step. -/
theorem C14_out_of_data_stops_program_witness :
    one_datum_state.prog_con.stmt = some { root := some 10, path := [Sel.a0, Sel.next] } ∧
    (deref one_datum_state.program NULL
      { root := some 10, path := [Sel.a0, Sel.next] }).what = wREAD ∧
    read_some Libm.none 1
        { one_datum_state with prog_con := { one_datum_state.prog_con with
            stmt := ptr_sel one_datum_state.program NULL
              { root := some 10, path := [Sel.a0, Sel.next] } Sel.next } }
        (deref one_datum_state.program NULL
          { root := some 10, path := [Sel.a0, Sel.next] }).a0
      = some (one_datum_read,
          (deref one_datum_state.program NULL
            { root := some 10, path := [Sel.a0, Sel.next] }).a0.next) ∧
    (deref one_datum_state.program NULL
      { root := some 10, path := [Sel.a0, Sel.next] }).a0.next.isNull = false ∧
    get_next_data (data_fuel one_datum_read) one_datum_read
      = some (none, { one_datum_read with prog_con := { one_datum_read.prog_con with
          data_line := none, data_stmt := none, data_datum := none } }) ∧
    one_datum_state.warning = none ∧ one_datum_state.ctrl_c = 0 ∧
    one_datum_state.numDB = [] ∧
    one_datum_read.numDB = [{ name := ['A'], s := none, n := 7 }] ∧
    (single_step Libm.none NULL true one_datum_state x_con.zero).2.1.warning
      = some "out of data" ∧
    (single_step Libm.none NULL true one_datum_state x_con.zero).2.1.numDB
      = one_datum_read.numDB :=
  ⟨by decide!, by decide!, by decide!, by decide!, by decide!, by decide!, by decide!,
    by decide!, by decide!,
    (C14_out_of_data_stops_program Libm.none NULL one_datum_state one_datum_read
      { one_datum_read with prog_con := { one_datum_read.prog_con with
          data_line := none, data_stmt := none, data_datum := none } }
      x_con.zero { root := some 10, path := [Sel.a0, Sel.next] } 1
      (deref one_datum_state.program NULL
        { root := some 10, path := [Sel.a0, Sel.next] }).a0.next
      (by decide!) (by decide!) (by decide!) (by decide!) (by decide!) (by decide!)
      (by decide!)).2.1,
    (C14_out_of_data_stops_program Libm.none NULL one_datum_state one_datum_read
      { one_datum_read with prog_con := { one_datum_read.prog_con with
          data_line := none, data_stmt := none, data_datum := none } }
      x_con.zero { root := some 10, path := [Sel.a0, Sel.next] } 1
      (deref one_datum_state.program NULL
        { root := some 10, path := [Sel.a0, Sel.next] }).a0.next
      (by decide!) (by decide!) (by decide!) (by decide!) (by decide!) (by decide!)
      (by decide!)).2.2.1⟩

/-! ## RUN links the program again (run.c, `link` and `immediate`) -/

theorem link_follow (prog : lego) : ∀ (l : lego) (st : State) (w : ℚ),
    (link prog st l w).bad = 0 → ∀ path : List Sel,
    ((link prog st l w).tree.follow path).isNull = (l.follow path).isNull ∧
    ((link prog st l w).tree.follow path).f = resolved (l.follow path).f := by
  intro l
  induction l with
  | NULL =>
    intro st w _ path
    have h : (NULL : lego).f.what ≠ wLINENUM := by decide
    simp [link, resolved, h]
  | node f a0 a1 a2 a3 nx ih0 ih1 ih2 ih3 ihn =>
    intro st w hbad path
    simp only [link, Nat.add_eq_zero_iff] at hbad
    obtain ⟨⟨⟨⟨⟨h0, h1⟩, h2⟩, h3⟩, hs⟩, hn⟩ := hbad
    cases path with
    | nil =>
      simp only [link, follow_nil, isNull_node, f_node, true_and]
      by_cases hw : f.what = wLINENUM
      · by_cases hneg : f.n < 0
        · simp [resolved, hw, hneg]
        · by_cases hf : (find_line prog f.n).isNull = true
          · simp [hw, hneg, hf] at hs
          · simp [resolved, hw, hneg, hf]
      · simp [resolved, hw]
    | cons x r =>
      cases x with
      | a0 => simpa [link] using ih0 _ _ h0 r
      | a1 => simpa [link] using ih1 _ _ h1 r
      | a2 => simpa [link] using ih2 _ _ h2 r
      | a3 => simpa [link] using ih3 _ _ h3 r
      | next => simpa [link] using ihn _ _ hn r

theorem link_st (prog : lego) : ∀ (l : lego) (st : State) (w : ℚ),
    (link prog st l w).bad = 0 → (link prog st l w).st = st := by
  intro l
  induction l with
  | NULL => intro st w _; simp [link]
  | node f a0 a1 a2 a3 nx ih0 ih1 ih2 ih3 ihn =>
    intro st w hbad
    simp only [link, Nat.add_eq_zero_iff] at hbad
    obtain ⟨⟨⟨⟨⟨h0, h1⟩, h2⟩, h3⟩, hs⟩, hn⟩ := hbad
    simp only [link]
    have e0 := ih0 _ _ h0
    simp only [e0] at h1 h2 h3 hs hn ⊢
    have e1 := ih1 _ _ h1
    simp only [e1] at h2 h3 hs hn ⊢
    have e2 := ih2 _ _ h2
    simp only [e2] at h3 hs hn ⊢
    have e3 := ih3 _ _ h3
    simp only [e3] at hs hn ⊢
    by_cases hw : f.what = wLINENUM
    · by_cases hneg : f.n < 0
      · simp only [hw, hneg, ne_eq, not_true_eq_false, if_false, if_true] at hn ⊢
        exact ihn _ _ hn
      · by_cases hf : (find_line prog f.n).isNull = true
        · simp [hw, hneg, hf] at hs
        · simp only [Bool.not_eq_true] at hf
          simp only [hw, hneg, hf, ne_eq, not_true_eq_false, if_false, Bool.not_false,
            if_true] at hn ⊢
          exact ihn _ _ hn
    · simp only [hw, ne_eq, not_false_eq_true, if_true] at hn ⊢
      exact ihn _ _ hn

/-- The round of `immediate` on `RUN` when no line is missing: the program is linked
again, the variables are erased, the program context is reset and set to the first line. -/
theorem round_run (m : Libm) (st : State) (hw : st.warning = none) (hc : st.ctrl_c = 0)
    (hbad : (link st.program { st with start_at := none } st.program (-1)).bad = 0) :
    immediate_round m
        { st := st, imm := newLego wRUN,
          imm_con := { x_con.zero with stmt := some { root := none, path := [] }, lNum := -1 },
          running := false }
      = Sum.inr
          { st := { st with
              program := (link st.program { st with start_at := none } st.program (-1)).tree,
              start_at := none, strDB := [], numDB := [],
              prog_con := { x_con.zero with
                line := line_ptr (link st.program { st with start_at := none }
                  st.program (-1)).tree,
                stmt := stmt_of_line (line_ptr (link st.program { st with start_at := none }
                  st.program (-1)).tree),
                data_line := line_ptr (link st.program { st with start_at := none }
                  st.program (-1)).tree } },
            imm := newLego wRUN, imm_con := { x_con.zero with lNum := -1 },
            running := true } := by
  have h1 : single_step m (newLego wRUN) false st
        { x_con.zero with stmt := some { root := none, path := [] }, lNum := -1 }
      = (wRUN, { st with start_at := none }, { x_con.zero with lNum := -1 }) := by
    simp [single_step, seek_stmt, getc, updc, deref, ptr_sel, newLego, Fields.zero,
      x_con.zero]
  have h2 := link_st st.program st.program { st with start_at := none } (-1) hbad
  obtain ⟨T, hT⟩ : ∃ T, link st.program { st with start_at := none } st.program (-1)
      = { tree := T, bad := 0, st := { st with start_at := none } } := by
    generalize link st.program { st with start_at := none } st.program (-1) = L at hbad h2
    obtain ⟨T, b, s1⟩ := L
    simp only at hbad h2
    subst hbad h2
    exact ⟨T, rfl⟩
  simp only [immediate_round, h1, hT]
  simp [hw, hc, erase_run_vars, reset_program, x_con.zero]

/-- C11 (the claim fails): with `10 GOTO 30`, `20 PRINT [skipped]`, `30 ALTER 10 TO 20`,
`40 PRINT [done]` stored, the first `RUN` prints `done` and the second `RUN` prints `done`
again, not `skipped` and `done`. -/
theorem C11_counterexample :
    main Libm.none 1000 ((rerun_program ++ ["RUN", "RUN"]).map String.data)
      = some "Ok\ndone\nOk\ndone\nOk\n".data ∧
    (run_state Libm.none 100 (typed_in rerun_program) "RUN").map (fun s => s.out)
      = some "done\n".data ∧
    ((run_state Libm.none 100 (typed_in rerun_program) "RUN").bind
        (fun s => output_of Libm.none 100 { s with out := [] } "RUN"))
      = some "done\n".data := by
  decide!

/-- C11 (amended): `RUN` links the whole program again before it starts. When no line is
missing, the round of `immediate` on `RUN` leaves every lego of the program in its place
with its fields, but every line reference linked to the line of its number (`resolved`),
whatever link `ALTER` had given it. So a link rewritten by `ALTER` is in force for the
rest of the same run only: in the scenario the `GOTO` of line 10, number 30, is linked to
line 20 when the first run has ended and to line 30 again after the first round of the
second `RUN`; and in the program that goes back to line 10 after its `ALTER`, within one
run, `skipped` is printed. -/
theorem C11_run_links_again (m : Libm) (st : State) (hw : st.warning = none)
    (hc : st.ctrl_c = 0)
    (hbad : (link st.program { st with start_at := none } st.program (-1)).bad = 0) :
    (∃ st1, immediate_round m
        { st := st, imm := newLego wRUN,
          imm_con := { x_con.zero with stmt := some { root := none, path := [] }, lNum := -1 },
          running := false }
        = Sum.inr { st := st1, imm := newLego wRUN, imm_con := { x_con.zero with lNum := -1 },
                    running := true } ∧
      ∀ path : List Sel,
        (st1.program.follow path).isNull = (st.program.follow path).isNull ∧
        (st1.program.follow path).f = resolved (st.program.follow path).f) ∧
    (run_state Libm.none 100 (typed_in rerun_program) "RUN").map
        (fun s => ((s.program.follow [Sel.a0, Sel.a0]).what,
                   (s.program.follow [Sel.a0, Sel.a0]).n,
                   (s.program.follow [Sel.a0, Sel.a0]).link))
      = some (wLINENUM, 30, some 20) ∧
    ((run_state Libm.none 100 (typed_in rerun_program) "RUN").bind
        (fun s => rounds Libm.none 1 (first_frame s (newLego wRUN)))).map
        (fun fr => (fr.running, (fr.st.program.follow [Sel.a0, Sel.a0]).n,
                    (fr.st.program.follow [Sel.a0, Sel.a0]).link))
      = some (true, 30, some 30) ∧
    output_of Libm.none 100 (typed_in ["10 GOTO 30", "20 PRINT [skipped] : END",
        "30 ALTER 10 TO 20", "40 GOTO 10"]) "RUN" = some "skipped\n".data := by
  refine ⟨⟨_, round_run m st hw hc hbad, fun path => ?_⟩, by decide!, by decide!, by decide!⟩
  exact link_follow st.program st.program { st with start_at := none } (-1) hbad path

/-- C11 (amended) at the stored program of the scenario, before its first run. -/
theorem C11_run_links_again_witness :
    (typed_in rerun_program).warning = none ∧ (typed_in rerun_program).ctrl_c = 0 ∧
    (link (typed_in rerun_program).program { typed_in rerun_program with start_at := none }
      (typed_in rerun_program).program (-1)).bad = 0 ∧
    ∃ st1, immediate_round Libm.none
        { st := typed_in rerun_program, imm := newLego wRUN,
          imm_con := { x_con.zero with stmt := some { root := none, path := [] }, lNum := -1 },
          running := false }
        = Sum.inr { st := st1, imm := newLego wRUN, imm_con := { x_con.zero with lNum := -1 },
                    running := true } ∧
      ∀ path : List Sel,
        (st1.program.follow path).isNull
          = ((typed_in rerun_program).program.follow path).isNull ∧
        (st1.program.follow path).f
          = resolved ((typed_in rerun_program).program.follow path).f :=
  ⟨by decide!, by decide!, by decide!,
    (C11_run_links_again Libm.none (typed_in rerun_program) (by decide!) (by decide!)
      (by decide!)).1⟩


/-! ## PRINT with a semicolon in a loop (run.c, `runPrint` and `byItself`) -/

theorem count_find (b : ℚ) : find_line (count_program b) 10 = count_program b := by
  simp [count_program, line10, find_line, Fields.zero]

theorem count_deref_print (b : ℚ) (imm : lego) :
    deref (count_program b) imm at_forJ = printSemi (nextStmt "I" NULL) := by
  simp [deref, at_forJ, count_find]
  simp [count_program, line10, forTo]

theorem count_deref_next (b : ℚ) (imm : lego) :
    deref (count_program b) imm at_print = nextStmt "I" NULL := by
  simp [deref, at_print, count_find]
  simp [count_program, line10, forTo, printSemi]

/-- The round of `immediate` on the `PRINT I;` of `count_program`: the number is written
and nothing after it. -/
theorem count_round_print (m : Libm) (b i : ℚ) (out : List Char) (d : Bool) :
    immediate_round m (running_frame (count_state b i (some at_forJ) [count_frame b] out d))
      = Sum.inr (running_frame (count_state b i (some at_print) [count_frame b]
          (out ++ fmt_num i) true)) := by
  have hd := count_deref_print b (newLego wRUN)
  simp [immediate_round, single_step, seek_stmt, getc, updc, running_frame, count_state,
    count_init, State.init, hd, ptr_sel]
  simp [printSemi, nextStmt, numVar, Fields.zero, at_print, at_forJ, runPrint, runPrint_loop,
    evalloc, find_var, num_result, State.print, x_con.zero]

/-- The step of `single_step` on the `NEXT I` of `count_program`. -/
theorem count_step_next (m : Libm) (b i : ℚ) (out : List Char) (d : Bool) :
    single_step m (newLego wRUN) true
        (count_state b i (some at_print) [count_frame b] out d)
        { x_con.zero with lNum := -1 }
      = if beyond b 1 (i + 1) then
          (wZERO_IS_UNUSED, count_state b i none [] out d, { x_con.zero with lNum := -1 })
        else
          (wZERO_IS_UNUSED, count_state b (i + 1) (some at_forJ) [count_frame b] out d,
            { x_con.zero with lNum := -1 }) := by
  have hd := count_deref_next b (newLego wRUN)
  have hstep := single_step_next m (newLego wRUN)
    (count_state b i (some at_print) [count_frame b] out d)
    { x_con.zero with lNum := -1 } at_print (count_frame b) []
    { name := "I".data, s := none, n := i } rfl
    (by rw [show (count_state b i (some at_print) [count_frame b] out d).program
          = count_program b from rfl, hd]; rfl)
    rfl
    (Or.inr (by rw [show (count_state b i (some at_print) [count_frame b] out d).program
          = count_program b from rfl, hd]; rfl))
    (by simp [count_state, find_var, count_frame])
  rw [hstep]
  have hnext : ptr_sel (count_program b) (newLego wRUN) at_print Sel.next = none := by
    simp only [ptr_sel, hd]
    simp [nextStmt]
  by_cases h : beyond b 1 (i + 1)
  · simp only [show beyond (count_frame b).de (count_frame b).step
        ((({ name := "I".data, s := none, n := i } : varDB)).n + (count_frame b).step) from h,
      h, if_true]
    simp [count_state, count_init, State.init, hnext]
  · simp only [show ¬ beyond (count_frame b).de (count_frame b).step
        ((({ name := "I".data, s := none, n := i } : varDB)).n + (count_frame b).step) from h,
      h, if_false]
    simp [count_state, count_init, State.init, set_in, count_frame]

/-- The round of `immediate` on the `NEXT I` of `count_program` that loops back. -/
theorem count_round_next_back (m : Libm) (b i : ℚ) (out : List Char) (d : Bool)
    (h : ¬ beyond b 1 (i + 1)) :
    immediate_round m (running_frame (count_state b i (some at_print) [count_frame b] out d))
      = Sum.inr (running_frame (count_state b (i + 1) (some at_forJ) [count_frame b]
          out d)) := by
  simp only [immediate_round, running_frame, count_step_next, h, if_false]
  simp [count_state, count_init, State.init]

/-- The round of `immediate` on the `NEXT I` of `count_program` that falls through. -/
theorem count_round_next_exit (m : Libm) (b i : ℚ) (out : List Char) (d : Bool)
    (h : beyond b 1 (i + 1)) :
    immediate_round m (running_frame (count_state b i (some at_print) [count_frame b] out d))
      = Sum.inr (running_frame (count_state b i none [] out d)) := by
  simp only [immediate_round, running_frame, count_step_next, h, if_true]
  simp [count_state, count_init, State.init]

/-- The last two rounds of `immediate` after the loop of `count_program` was left with
the output not at the start of a line: `byItself` adds the newline. -/
theorem count_rounds_end (m : Libm) (b i : ℚ) (out : List Char) (fuel : Nat) :
    immediate_loop m (fuel + 2) (running_frame (count_state b i none [] out true))
      = some (1, { count_state b i none [] (out ++ ['\n']) false with
          prog_con := { x_con.zero with data_line := some 10 } }) := by
  have hnl : line_ptr (find_line (count_program b) 10).next = none := by
    rw [count_find]; rfl
  simp [immediate_loop, immediate_round, running_frame, count_state, count_init, State.init,
    single_step, seek_stmt, getc, updc, hnl, stmt_of_line, reset_program, x_con.zero,
    byItself, State.print]
  rfl

theorem count_program_link (b : ℚ) (st : State) :
    link (count_program b) st (count_program b) (-1)
      = { tree := count_program b, bad := 0, st := st } := by
  simp [count_program, line10, forTo, printSemi, nextStmt, numVar, numLit, link, Fields.zero]

/-- The first three rounds of `immediate` on `RUN` with `count_program` stored: `RUN`,
the line header, `FOR`. -/
theorem count_rounds_start (m : Libm) (b : ℚ) (fuel : Nat) :
    immediate m (fuel + 3) (count_init b) (newLego wRUN)
      = immediate_loop m fuel (running_frame (count_state b 1 (some at_forJ)
          [count_frame b] [] false)) := by
  have hl : link (count_init b).program (count_init b) (newLego wRUN) (-1)
      = { tree := newLego wRUN, bad := 0, st := count_init b } := by
    simp [newLego, link, Fields.zero]
  have hfl : find_line (count_program b) 10 = count_program b := count_find b
  have hp : (count_init b).program = count_program b := rfl
  have hlp : line_ptr (count_program b) = some 10 := rfl
  have r1 : immediate_round m
      { st := count_init b, imm := newLego wRUN,
        imm_con := { x_con.zero with stmt := some { root := none, path := [] }, lNum := -1 },
        running := false }
      = Sum.inr (running_frame { count_init b with
          prog_con := { x_con.zero with line := some 10,
                                        stmt := some { root := some 10, path := [] },
                                        data_line := some 10 } }) := by
    simp [immediate_round, single_step, seek_stmt, getc, updc, newLego, Fields.zero, deref,
      ptr_sel, hp, count_program_link, erase_run_vars, reset_program, hlp, stmt_of_line,
      running_frame]
    simp [count_init, State.init, x_con.zero]
  have r2 : immediate_round m (running_frame { count_init b with
          prog_con := { x_con.zero with line := some 10,
                                        stmt := some { root := some 10, path := [] },
                                        data_line := some 10 } })
      = Sum.inr (running_frame { count_init b with
          prog_con := { x_con.zero with line := some 10,
                                        stmt := some { root := some 10, path := [Sel.a0] },
                                        data_line := some 10, lNum := 10 } }) := by
    simp [immediate_round, single_step, seek_stmt, getc, updc, newLego, Fields.zero, deref,
      ptr_sel, hp, hfl, running_frame]
    simp [count_program, line10, count_init, State.init, x_con.zero, Fields.zero, forTo]
  have r3 : immediate_round m (running_frame { count_init b with
          prog_con := { x_con.zero with line := some 10,
                                        stmt := some { root := some 10, path := [Sel.a0] },
                                        data_line := some 10, lNum := 10 } })
      = Sum.inr (running_frame (count_state b 1 (some at_forJ) [count_frame b] [] false)) := by
    simp [immediate_round, single_step, seek_stmt, getc, updc, newLego, Fields.zero, deref,
      ptr_sel, hp, hfl, running_frame]
    simp [count_program, line10, count_init, State.init, x_con.zero, Fields.zero, forTo,
      for_param_numLit, for_param_NULL]
    simp [numVar, lego.str, expire_next_stack, find_frame, set_var, set_in, Fields.zero,
      count_frame, count_state, count_init, State.init, at_forJ, count_program, line10, forTo,
      printSemi]
  simp only [immediate, hl]
  simp only [immediate_loop]
  rw [r1]
  simp only [immediate_loop]
  rw [r2]
  simp only [immediate_loop]
  rw [r3]
  simp [newLego, Fields.zero, running_frame, count_init, State.init]

theorem count_halt (b i : ℚ) (stmt : Option Ptr) (stack : List next_stack)
    (out : List Char) (d : Bool) :
    (running_frame (count_state b i stmt stack out d)).st.halt = none := rfl

/-- The loop of `count_program`: from `PRINT I;` with `I = i`, when `i + 1`, ..., `i + r`
are within `b` and `i + r + 1` is beyond it, `immediate` returns after `i`, ..., `i + r`
were written with nothing between them and one newline after them. -/
theorem count_loop (m : Libm) (b : ℚ) (r : Nat) : ∀ (i : ℚ) (out : List Char) (d : Bool)
    (fuel : Nat),
    (∀ t : Nat, 1 ≤ t → t ≤ r → ¬ beyond b 1 (i + t)) →
    beyond b 1 (i + (r + 1 : Nat)) →
    immediate_loop m (fuel + 2 * (r + 1) + 2)
        (running_frame (count_state b i (some at_forJ) [count_frame b] out d))
      = some (1, { count_state b (i + r) none [] (out ++ count_text i (r + 1) ++ ['\n'])
                     false with
          prog_con := { x_con.zero with data_line := some 10 } }) := by
  induction r with
  | zero =>
    intro i out d fuel _ hex
    have hex1 : beyond b 1 (i + 1) := by simpa using hex
    rw [show fuel + 2 * (0 + 1) + 2 = (fuel + 2 + 1) + 1 from rfl,
      immediate_loop_step m _ _ _ (count_halt ..) (count_round_print m b i out d),
      immediate_loop_step m _ _ _ (count_halt ..) (count_round_next_exit m b i _ _ hex1),
      count_rounds_end]
    simp [count_text]
  | succ r ih =>
    intro i out d fuel hin hex
    have h1 : ¬ beyond b 1 (i + 1) := by
      have := hin 1 (le_refl 1) (Nat.succ_le_succ (Nat.zero_le r))
      simpa using this
    rw [show fuel + 2 * (r + 1 + 1) + 2 = (fuel + 2 * (r + 1) + 2 + 1) + 1 by ring,
      immediate_loop_step m _ _ _ (count_halt ..) (count_round_print m b i out d),
      immediate_loop_step m _ _ _ (count_halt ..) (count_round_next_back m b i _ _ h1),
      ih (i + 1) _ _ fuel]
    · have e : i + 1 + (r : ℚ) = i + ((r + 1 : Nat) : ℚ) := by push_cast; ring
      rw [e]
      simp [count_text, List.append_assoc]
    · intro t ht1 htr
      have := hin (t + 1) (Nat.succ_le_succ (Nat.zero_le t)) (Nat.succ_le_succ htr)
      have e : i + 1 + (t : ℚ) = i + ((t + 1 : Nat) : ℚ) := by push_cast; ring
      rw [e]; exact this
    · have e : i + 1 + ((r + 1 : Nat) : ℚ) = i + ((r + 1 + 1 : Nat) : ℚ) := by
        push_cast; ring
      rw [e]; exact hex

theorem evalloc_null_ne (m : Libm) (st st1 : State) (v : computed) (l : lego)
    (h : evalloc m st l = (v, st1)) (hv : v.what ≠ rKind.rExcept) : l.isNull = false := by
  cases l with
  | NULL => simp [evalloc, computed.zero] at h; obtain ⟨h1, -⟩ := h; subst h1; simp at hv
  | node f a0 a1 a2 a3 nx => rfl

theorem evalloc_call1 (m : Libm) (st st1 : State) (op : What) (ea : lego) (x : computed)
    (h : op ∈ [wLEN, wRND, wABS, wASC])
    (hx : evalloc m st ea = (x, st1)) (hxe : x.what ≠ rKind.rExcept) :
    evalloc m st (call op ea NULL NULL)
      = apply_op m st1 op x (computed.zero rKind.rExcept) (computed.zero rKind.rExcept) := by
  have ha := evalloc_null_ne m st st1 x ea hx hxe
  simp only [List.mem_cons, List.mem_singleton, List.not_mem_nil, or_false] at h
  rcases h with rfl | rfl | rfl | rfl <;>
    simp +decide [evalloc, call, Fields.zero, count_args, What.ord, hx, hxe, ha, computed.zero]

theorem evalloc_call2 (m : Libm) (st st1 st2 : State) (op : What) (ea eb : lego)
    (x y : computed)
    (h : op ∈ [wLEFT, wRIGHT, wSTRING])
    (hy : evalloc m st eb = (y, st1)) (hye : y.what ≠ rKind.rExcept)
    (hx : evalloc m st1 ea = (x, st2)) (hxe : x.what ≠ rKind.rExcept) :
    evalloc m st (call op ea eb NULL)
      = apply_op m st2 op x y (computed.zero rKind.rExcept) := by
  have ha := evalloc_null_ne m st1 st2 x ea hx hxe
  have hb := evalloc_null_ne m st st1 y eb hy hye
  simp only [List.mem_cons, List.mem_singleton, List.not_mem_nil, or_false] at h
  rcases h with rfl | rfl | rfl <;>
    simp +decide [evalloc, call, Fields.zero, count_args, What.ord, hx, hy, hxe, hye, ha, hb,
      computed.zero]

theorem evalloc_call3 (m : Libm) (st st1 st2 st3 : State) (op : What) (ea eb ec : lego)
    (x y z : computed)
    (h : op ∈ [wMID, wINSTR])
    (hz : evalloc m st ec = (z, st1)) (hze : z.what ≠ rKind.rExcept)
    (hy : evalloc m st1 eb = (y, st2)) (hye : y.what ≠ rKind.rExcept)
    (hx : evalloc m st2 ea = (x, st3)) (hxe : x.what ≠ rKind.rExcept) :
    evalloc m st (call op ea eb ec) = apply_op m st3 op x y z := by
  have ha := evalloc_null_ne m st2 st3 x ea hx hxe
  have hb := evalloc_null_ne m st1 st2 y eb hy hye
  have hc := evalloc_null_ne m st st1 z ec hz hze
  simp only [List.mem_cons, List.mem_singleton, List.not_mem_nil, or_false] at h
  rcases h with rfl | rfl <;>
    simp +decide [evalloc, call, Fields.zero, count_args, What.ord, hx, hy, hz, hxe, hye, hze,
      ha, hb, hc, computed.zero]

theorem evalloc_cat (m : Libm) (st st1 st2 : State) (ea eb : lego) (x y : computed)
    (hy : evalloc m st eb = (y, st1)) (hye : y.what ≠ rKind.rExcept)
    (hx : evalloc m st1 ea = (x, st2)) (hxe : x.what ≠ rKind.rExcept) :
    evalloc m st (mkBinary wCAT ea eb)
      = apply_op m st2 wCAT x y (computed.zero rKind.rExcept) := by
  simp +decide [evalloc, mkBinary, Fields.zero, count_args, What.ord, hx, hy, hxe, hye,
      computed.zero]

theorem trunc_nat (n : Nat) : trunc (n : ℚ) = n := by
  simp [trunc]

theorem to_int_nat (n : Nat) (h : n ≤ 2147483647) : to_int (n : ℚ) = (n : Int) := by
  have := to_int_cast (n : Int) ⟨by omega, by omega⟩
  simpa using this

theorem bad_int_nat (n lo : Nat) (h1 : lo ≤ n) (h2 : n ≤ 2147483646) :
    bad_int (n : ℚ) (lo : ℚ) = false := by
  have a : ¬ ((n : ℚ) < (lo : ℚ)) := by
    rw [not_lt]; exact_mod_cast h1
  have b : ¬ ((n : ℚ) > 2147483646) := by
    rw [gt_iff_lt, not_lt]; exact_mod_cast h2
  simp [bad_int, trunc_nat, a, b]

theorem bad_int_big (x lo : ℚ) (h : 2147483646 < x) : bad_int x lo = true := by
  simp [bad_int, h]

theorem apply_left (m : Libm) (st : State) (s : List Char) (k : Nat) (z : computed)
    (hk : k ≤ 2147483646) :
    apply_op m st wLEFT (str_result s) (num_result (k : ℚ)) z
      = (str_result (s.take k), st) := by
  have hb := bad_int_nat k 0 (Nat.zero_le _) hk
  simp only [Nat.cast_zero] at hb
  simp only [apply_op, num_result, str_result, hb, computed.deref, to_int_nat k (by omega)]
  by_cases h : ((s.length : Nat) : ℚ) > (k : ℚ)
  · simp [h]
  · have h1 : s.length ≤ k := by
      rw [gt_iff_lt, not_lt] at h; exact_mod_cast h
    simp [h, List.take_of_length_le h1]

theorem apply_right (m : Libm) (st : State) (s : List Char) (k : Nat) (z : computed)
    (hk : k ≤ 2147483646) :
    apply_op m st wRIGHT (str_result s) (num_result (k : ℚ)) z
      = (str_result (s.drop (s.length - k)), st) := by
  have hb := bad_int_nat k 0 (Nat.zero_le _) hk
  simp only [Nat.cast_zero] at hb
  simp only [apply_op, num_result, str_result, hb, computed.deref, to_int_nat k (by omega)]
  by_cases h : ((s.length : Nat) : ℚ) > (k : ℚ)
  · simp [h]
  · have h1 : s.length ≤ k := by
      rw [gt_iff_lt, not_lt] at h; exact_mod_cast h
    simp [h, Nat.sub_eq_zero_of_le h1]

theorem apply_len (m : Libm) (st : State) (s : List Char) (y z : computed) :
    apply_op m st wLEN (str_result s) y z = (num_result (s.length : ℚ), st) := by
  simp [apply_op, str_result, computed.deref]

theorem apply_cat (m : Libm) (st : State) (s t : List Char) (z : computed) :
    apply_op m st wCAT (str_result s) (str_result t) z = (str_result (s ++ t), st) := by
  simp [apply_op, str_result, computed.deref]

theorem str_result_what (s : List Char) : (str_result s).what ≠ rKind.rExcept := by
  simp [str_result]

theorem num_result_what (x : ℚ) : (num_result x).what ≠ rKind.rExcept := by
  simp [num_result]

/-- The value of `LEN(S)` for an expression that yields a string. -/
theorem evalloc_len (m : Libm) (st st1 : State) (S : lego) (s : List Char)
    (hS : evalloc m st S = (str_result s, st1)) :
    evalloc m st (call wLEN S NULL NULL) = (num_result (s.length : ℚ), st1) := by
  rw [evalloc_call1 m st st1 wLEN S _ (by simp) hS (str_result_what s), apply_len]

/-- The value of `LEFT$(S, K)`. -/
theorem evalloc_left (m : Libm) (st st1 st2 : State) (S K : lego) (s : List Char) (k : Nat)
    (hK : evalloc m st K = (num_result (k : ℚ), st1))
    (hS : evalloc m st1 S = (str_result s, st2)) (hk : k ≤ 2147483646) :
    evalloc m st (call wLEFT S K NULL) = (str_result (s.take k), st2) := by
  rw [evalloc_call2 m st st1 st2 wLEFT S K _ _ (by simp) hK (num_result_what _) hS
    (str_result_what s), apply_left m st2 s k _ hk]

/-- The value of `RIGHT$(S, K)`. -/
theorem evalloc_right (m : Libm) (st st1 st2 : State) (S K : lego) (s : List Char) (k : Nat)
    (hK : evalloc m st K = (num_result (k : ℚ), st1))
    (hS : evalloc m st1 S = (str_result s, st2)) (hk : k ≤ 2147483646) :
    evalloc m st (call wRIGHT S K NULL) = (str_result (s.drop (s.length - k)), st2) := by
  rw [evalloc_call2 m st st1 st2 wRIGHT S K _ _ (by simp) hK (num_result_what _) hS
    (str_result_what s), apply_right m st2 s k _ hk]

/-- The value of `A - B` for expressions that yield numbers. -/
theorem evalloc_sub (m : Libm) (st st1 st2 : State) (A B : lego) (x y : ℚ)
    (hB : evalloc m st B = (num_result y, st1))
    (hA : evalloc m st1 A = (num_result x, st2)) :
    evalloc m st (mkBinary wSUB A B) = (num_result (x - y), st2) := by
  rw [evalloc_binary_of m st st1 st2 wSUB A B x y (by simp) hB hA]
  rfl

/-- The value of `A + B` for expressions that yield numbers. -/
theorem evalloc_add (m : Libm) (st st1 st2 : State) (A B : lego) (x y : ℚ)
    (hB : evalloc m st B = (num_result y, st1))
    (hA : evalloc m st1 A = (num_result x, st2)) :
    evalloc m st (mkBinary wADD A B) = (num_result (x + y), st2) := by
  simp +decide [evalloc, mkBinary, Fields.zero, count_args, What.ord, hA, hB, num_result,
      computed.zero, apply_op]

/-- C21: for every string `s` and every `k` with `0 ≤ k ≤ LEN(s)`,
`LEFT$(s, k) + RIGHT$(s, LEN(s) - k)` evaluates to `s`; `s` and `k` are given by any
expressions that yield them and leave the state alone. A string of the interpreter has at
most 2147483646 characters: `getmem` takes its size, the terminating NUL included, as an
`int`. -/
theorem C21_left_right_concat (m : Libm) (st : State) (S K : lego) (s : List Char) (k : Nat)
    (hS : evalloc m st S = (str_result s, st))
    (hK : evalloc m st K = (num_result (k : ℚ), st))
    (hk : k ≤ s.length) (hlen : s.length ≤ 2147483646) :
    evalloc m st (left_right S K) = (str_result s, st) := by
  have h1 := evalloc_len m st st S s hS
  have h2 := evalloc_sub m st st st _ _ _ _ hK h1
  rw [← Nat.cast_sub hk] at h2
  have h3 := evalloc_right m st st st S _ s (s.length - k) h2 hS (by omega)
  have h4 := evalloc_left m st st st S K s k hK hS (by omega)
  unfold left_right
  rw [evalloc_cat m st st st _ _ _ _ h3 (str_result_what _) h4 (str_result_what _), apply_cat]
  have : s.length - (s.length - k) = k := by omega
  rw [this, List.take_append_drop]

theorem evalloc_strLit (m : Libm) (st : State) (s : List Char) :
    evalloc m st (strLit s) = (str_result s, st) := by
  simp [evalloc, strLit, mkStrLit, Fields.zero]

theorem evalloc_numLit (m : Libm) (st : State) (x : ℚ) :
    evalloc m st (numLit x) = (num_result x, st) := by
  simp [evalloc, numLit, Fields.zero]

theorem C21_left_right_concat_witness :
    evalloc Libm.none State.init (left_right (strLit "abc".data) (numLit 1))
      = (str_result "abc".data, State.init) ∧
    (parse "PRINT LEFT$([abc], 1) + RIGHT$([abc], LEN([abc]) - 1)".data).1.map
        (fun r => r.1.a0) = some (left_right (strLit "abc".data) (numLit 1)) :=
  ⟨C21_left_right_concat Libm.none State.init (strLit "abc".data) (numLit 1) "abc".data 1
    (evalloc_strLit _ _ _) (by simpa using evalloc_numLit Libm.none State.init 1)
    (by decide) (by decide), by decide!⟩

theorem apply_left_big (m : Libm) (st : State) (x z : computed) (k : ℚ)
    (h : 2147483646 < k) :
    apply_op m st wLEFT x (num_result k) z = except_with st "need non-negative integer" := by
  have hb : bad_int (num_result k).n 0 = true := bad_int_big _ _ h
  simp only [apply_op, hb, if_true]

/-- C22 (as stated, refuted): for the empty string and `k = 2147483647`,
`LEFT$(s, LEN(s) + k)` is the Exception "need non-negative integer", not `s`; typed in
as a `PRINT` statement it prints that message. -/
theorem C22_counterexample :
    evalloc Libm.none State.init (left_over (strLit []) (numLit 2147483647))
      = except_with State.init "need non-negative integer" ∧
    (parse "PRINT LEFT$([], LEN([]) + 2147483647)".data).1.map (fun r => r.1.a0)
      = some (left_over (strLit []) (numLit 2147483647)) ∧
    output_of Libm.none 100 State.init "PRINT LEFT$([], LEN([]) + 2147483647)"
      = some "need non-negative integer\n".data := by
  decide!

/-- C22 (amended): for every string `s` and every integer `k ≥ 0`, `LEFT$(s, LEN(s) + k)`
evaluates to the String `s` when `LEN(s) + k` is at most 2147483646, and to the Exception
"need non-negative integer" when it is more; `s` and `k` are given by any expressions
that yield them and leave the state alone. -/
theorem C22_left_overlong (m : Libm) (st : State) (S K : lego) (s : List Char) (k : Nat)
    (hS : evalloc m st S = (str_result s, st))
    (hK : evalloc m st K = (num_result (k : ℚ), st)) :
    (s.length + k ≤ 2147483646 → evalloc m st (left_over S K) = (str_result s, st)) ∧
    (2147483646 < s.length + k →
      evalloc m st (left_over S K) = except_with st "need non-negative integer") := by
  have h1 := evalloc_len m st st S s hS
  have h2 := evalloc_add m st st st _ _ _ _ hK h1
  rw [← Nat.cast_add] at h2
  constructor
  · intro h
    have h3 := evalloc_left m st st st S _ s (s.length + k) h2 hS h
    unfold left_over
    rw [h3, List.take_of_length_le (by omega)]
  · intro h
    unfold left_over
    rw [evalloc_call2 m st st st wLEFT S _ _ _ (by simp) h2 (num_result_what _) hS
      (str_result_what s)]
    apply apply_left_big
    exact_mod_cast h

theorem C22_left_overlong_witness :
    (("abc".data.length + 5 ≤ 2147483646 →
        evalloc Libm.none State.init (left_over (strLit "abc".data) (numLit 5))
          = (str_result "abc".data, State.init)) ∧
      (2147483646 < "abc".data.length + 5 →
        evalloc Libm.none State.init (left_over (strLit "abc".data) (numLit 5))
          = except_with State.init "need non-negative integer")) ∧
    "abc".data.length + 5 ≤ 2147483646 :=
  ⟨C22_left_overlong Libm.none State.init (strLit "abc".data) (numLit 5) "abc".data 5
    (evalloc_strLit _ _ _) (by simpa using evalloc_numLit Libm.none State.init 5),
   by decide⟩

theorem s32_u32 (x : Int) (h : in_int32 x) : s32 (u32 x) = x := by
  obtain ⟨h1, h2⟩ := h
  unfold s32 u32
  split <;> omega

theorem s32_u32_over (x : Int) (h1 : 2147483647 < x) (h2 : x < 4294967296) :
    s32 (u32 x) = x - 4294967296 := by
  unfold s32 u32
  split <;> omega

/-- What `MID$` computes on a string `s` and integers `i`, `j` that pass its argument
checks, while `min(i-1, LEN(s)) + j` fits an `int`: the substring, nothing read past the
end. -/
theorem apply_mid (m : Libm) (st : State) (s : List Char) (i j : Nat)
    (hi1 : 1 ≤ i) (hi2 : i ≤ 2147483646) (hj : j ≤ 2147483646)
    (hfit : min (i - 1) s.length + j ≤ 2147483647) :
    apply_op m st wMID (str_result s) (num_result (i : ℚ)) (num_result (j : ℚ))
      = (str_result ((s.drop (min i (s.length + 1) - 1)).take
          (min j (s.length - min (i - 1) s.length))), st) := by
  have hb1 := bad_int_nat i 1 hi1 hi2
  have hb2 := bad_int_nat j 0 (Nat.zero_le _) hj
  simp only [Nat.cast_zero, Nat.cast_one] at hb1 hb2
  have e1 : ((i : ℚ) - 1) = ((i - 1 : Nat) : ℚ) := by
    rw [Nat.cast_sub hi1]; simp
  simp only [apply_op, num_result, str_result, hb1, hb2, computed.deref, e1,
    to_int_nat (i - 1) (by omega), to_int_nat j (by omega)]
  have hp : min i (s.length + 1) - 1 = min (i - 1) s.length := by omega
  rw [hp]
  by_cases hc : ((i - 1 : Nat) : Int) > (s.length : Int)
  · have hm : min (i - 1) s.length = s.length := by omega
    rw [hm] at hfit ⊢
    simp only [hc, if_true]
    rw [s32_u32 _ ⟨by omega, by omega⟩]
    by_cases hd : (s.length : Int) + (j : Int) > (s.length : Int)
    · simp [hd]
    · have : j = 0 := by omega
      subst this
      simp
  · have hm : min (i - 1) s.length = i - 1 := by omega
    rw [hm] at hfit ⊢
    simp only [hc, if_false]
    rw [s32_u32 _ ⟨by omega, by omega⟩]
    by_cases hd : ((i - 1 : Nat) : Int) + (j : Int) > (s.length : Int)
    · have e2 : ((s.length : Int) - ((i - 1 : Nat) : Int)).toNat = s.length - (i - 1) := by
        omega
      have e3 : min j (s.length - (i - 1)) = s.length - (i - 1) := by omega
      simp only [hd, if_true, e2, e3, Int.toNat_ofNat]
      have : ¬ (((i - 1 : Nat) : Int) + ((s.length : Int) - ((i - 1 : Nat) : Int))
          > (s.length : Int)) := by omega
      simp [this]
    · have e3 : min j (s.length - (i - 1)) = j := by omega
      simp only [hd, if_false, e3, Int.toNat_ofNat]
      simp

/-- What `MID$` does when `min(i-1, LEN(s)) + j` does not fit an `int`: the sum wraps to
a negative number, the length is not clamped, and the copy reads past the end of the
string. -/
theorem apply_mid_over (m : Libm) (st : State) (s : List Char) (i j : Nat)
    (hi1 : 1 ≤ i) (hi2 : i ≤ 2147483646) (hj : j ≤ 2147483646)
    (hlen : s.length ≤ 2147483647)
    (hover : 2147483647 < min (i - 1) s.length + j) (hst : st.halt = none) :
    (apply_op m st wMID (str_result s) (num_result (i : ℚ)) (num_result (j : ℚ))).2.halt
      = some "read past the end of a string" := by
  have hb1 := bad_int_nat i 1 hi1 hi2
  have hb2 := bad_int_nat j 0 (Nat.zero_le _) hj
  simp only [Nat.cast_zero, Nat.cast_one] at hb1 hb2
  have e1 : ((i : ℚ) - 1) = ((i - 1 : Nat) : ℚ) := by
    rw [Nat.cast_sub hi1]; simp
  simp only [apply_op, num_result, str_result, hb1, hb2, computed.deref, e1,
    to_int_nat (i - 1) (by omega), to_int_nat j (by omega)]
  by_cases hc : ((i - 1 : Nat) : Int) > (s.length : Int)
  · have hm : min (i - 1) s.length = s.length := by omega
    rw [hm] at hover
    simp only [hc, if_true]
    rw [s32_u32_over _ (by omega) (by omega)]
    have h1 : ¬ ((s.length : Int) + (j : Int) - 4294967296 > (s.length : Int)) := by omega
    have h2 : (s.length : Int) + (j : Int) > (s.length : Int) := by omega
    simp [h1, h2, State.crash, hst]
  · have hm : min (i - 1) s.length = i - 1 := by omega
    rw [hm] at hover
    simp only [hc, if_false]
    rw [s32_u32_over _ (by omega) (by omega)]
    have h1 : ¬ (((i - 1 : Nat) : Int) + (j : Int) - 4294967296 > (s.length : Int)) := by
      omega
    have h2 : ((i - 1 : Nat) : Int) + (j : Int) > (s.length : Int) := by omega
    simp [h1, h2, State.crash, hst]

/-- C23 (the code reads past the end of the string): for a string `s` and integers
`1 ≤ i ≤ 2147483646`, `0 ≤ j ≤ 2147483646` (the argument checks of `MID$`), given by
expressions that yield them and leave the state alone, `MID$(s, i, j)` is the substring
the claim names as long as `min(i-1, LEN(s)) + j` fits an `int`. When that sum is 2^31 or
more, the test `i + j > len` is made on the wrapped, negative sum, `j` is not clamped, and
`copySubstring` reads `j` bytes although fewer are left: the process stops. So for
`MID$([abc], 3, 2147483646)`, while `MID$([abc], 3, 2147483645)` is `c`. -/
theorem C23_mid_overflow_reads_past_end :
    (∀ (m : Libm) (st : State) (S I J : lego) (s : List Char) (i j : Nat),
      evalloc m st S = (str_result s, st) → evalloc m st I = (num_result (i : ℚ), st) →
      evalloc m st J = (num_result (j : ℚ), st) →
      1 ≤ i → i ≤ 2147483646 → j ≤ 2147483646 →
      (min (i - 1) s.length + j ≤ 2147483647 →
        evalloc m st (mid S I J)
          = (str_result ((s.drop (min i (s.length + 1) - 1)).take
              (min j (s.length - min (i - 1) s.length))), st)) ∧
      (2147483647 < min (i - 1) s.length + j → s.length ≤ 2147483647 → st.halt = none →
        (evalloc m st (mid S I J)).2.halt = some "read past the end of a string")) ∧
    (parse "PRINT MID$([abc], 3, 2147483646)".data).1.map (fun r => r.1.a0)
      = some (mid (strLit "abc".data) (numLit 3) (numLit 2147483646)) ∧
    (evalloc Libm.none State.init
      (mid (strLit "abc".data) (numLit 3) (numLit 2147483646))).2.halt
      = some "read past the end of a string" ∧
    (run_state Libm.none 100 State.init "PRINT MID$([abc], 3, 2147483646)").map
      (fun st => st.halt) = some (some "read past the end of a string") ∧
    evalloc Libm.none State.init (mid (strLit "abc".data) (numLit 3) (numLit 2147483645))
      = (str_result "c".data, State.init) ∧
    evalloc Libm.none State.init (mid (strLit "abcdef".data) (numLit 2) (numLit 3))
      = (str_result "bcd".data, State.init) := by
  refine ⟨fun m st S I J s i j hS hI hJ hi1 hi2 hj => ?_, by decide!, by decide!, by decide!,
    by decide!, by decide!⟩
  have he : evalloc m st (mid S I J)
      = apply_op m st wMID (str_result s) (num_result (i : ℚ)) (num_result (j : ℚ)) :=
    evalloc_call3 m st st st st wMID S I J _ _ _ (by simp) hJ (num_result_what _) hI
      (num_result_what _) hS (str_result_what _)
  rw [he]
  exact ⟨fun h => apply_mid m st s i j hi1 hi2 hj h,
    fun h hlen hst => apply_mid_over m st s i j hi1 hi2 hj hlen h hst⟩

/-! ## RND (eval.c, csprng) -/

/-- C24 (the code can return 1): for a non-zero argument and a 32-bit word `u` from the
entropy source, `csprng` returns `u / UINT_MAX`, which is at least 0 and at most 1, and
is 1 for `u = UINT_MAX = 4294967295`: the divisor is `UINT_MAX` where the half-open
range needs `UINT_MAX + 1`. So `PRINT RND(1)` prints `1` when the source delivers that
word. The rest of the claim holds: the word is consumed and the value remembered; with a
zero argument, or without the source (not opened, or nothing to read), the remembered
value is returned, which is 0 at program start, and nothing is drawn. -/
theorem C24_rnd_can_return_one :
    (∀ (st : State) (x : ℚ) (u : Nat) (rest : List Nat),
      x ≠ 0 → st.urandom = some (u :: rest) → u < 4294967296 →
      (csprng st x).1 = (u : ℚ) / 4294967295 ∧
      0 ≤ (csprng st x).1 ∧ (csprng st x).1 ≤ 1 ∧
      ((csprng st x).1 < 1 ↔ u ≠ 4294967295) ∧
      (csprng st x).2 = { st with last_rand := (u : ℚ) / 4294967295, urandom := some rest }) ∧
    (∀ st : State, csprng st 0 = (st.last_rand, st)) ∧
    (∀ (st : State) (x : ℚ), st.urandom = none ∨ st.urandom = some [] →
      csprng st x = (st.last_rand, st)) ∧
    State.init.last_rand = 0 ∧
    (csprng (with_entropy [4294967295]) 1).1 = 1 ∧
    (parse "PRINT RND(1)".data).1.map (fun r => r.1.a0)
      = some (call wRND (numLit 1) NULL NULL) ∧
    evalloc Libm.none (with_entropy [4294967295]) (call wRND (numLit 1) NULL NULL)
      = (num_result 1, { with_entropy [] with last_rand := 1 }) ∧
    output_of Libm.none 100 (with_entropy [4294967295]) "PRINT RND(1)" = some "1\n".data := by
  refine ⟨fun st x u rest hx hu hlt => ?_, fun st => by simp [csprng], fun st x h => ?_,
    rfl, by decide!, by decide!, by decide!, by decide!⟩
  · have hmod : u % 4294967296 = u := Nat.mod_eq_of_lt hlt
    have hv : (csprng st x).1 = (u : ℚ) / 4294967295 := by
      simp [csprng, hx, hu, hmod]
    have hle : (u : ℚ) ≤ 4294967295 := by exact_mod_cast Nat.lt_succ_iff.mp hlt
    have h0 : (0 : ℚ) ≤ (u : ℚ) := Nat.cast_nonneg u
    refine ⟨hv, ?_, ?_, ?_, ?_⟩
    · rw [hv]; positivity
    · rw [hv, div_le_one (by norm_num)]; exact hle
    · rw [hv, div_lt_one (by norm_num)]
      constructor
      · intro h1 h2; rw [h2] at h1; norm_num at h1
      · intro h1
        have : u < 4294967295 := by omega
        exact_mod_cast this
    · simp [csprng, hx, hu, hmod]
  · rcases h with h | h <;> by_cases hx : x = 0 <;> simp [csprng, hx, h]

/-! ## DEL (run.c, del) -/

theorem in_range_iff (vi de n : ℚ) : in_range vi de n = true ↔ selected vi de n := by
  simp [in_range, selected]

theorem node_n (f : Fields) (a0 a1 a2 a3 nx : lego) : (node f a0 a1 a2 a3 nx).n = f.n := rfl

theorem del_chain_lines (vi de : ℚ) (p : lego) :
    stored_lines (del_chain vi de p).1
      = (stored_lines p).filter (fun l => decide (¬ selected vi de l.n)) := by
  induction p with
  | NULL => simp [del_chain, stored_lines_NULL]
  | node f a0 a1 a2 a3 nx _ _ _ _ ih =>
    rw [stored_lines_node]
    by_cases h : in_range vi de f.n = true
    · have hs : selected vi de f.n := (in_range_iff _ _ _).mp h
      simp only [del_chain, h, if_true, ih]
      rw [List.filter_cons_of_neg (by simpa [node_n] using hs)]
    · have hs : ¬ selected vi de f.n := fun c => h ((in_range_iff _ _ _).mpr c)
      rw [List.filter_cons_of_pos (by simpa [node_n] using hs), ← ih]
      simp [del_chain, h, stored_lines_node]

theorem del_chain_any (vi de : ℚ) (p : lego) :
    (del_chain vi de p).2 = true ↔ ∃ l ∈ stored_lines p, selected vi de l.n := by
  induction p with
  | NULL => simp [del_chain, stored_lines_NULL]
  | node f a0 a1 a2 a3 nx _ _ _ _ ih =>
    rw [stored_lines_node]
    by_cases h : in_range vi de f.n = true
    · have hs : selected vi de f.n := (in_range_iff _ _ _).mp h
      simp only [del_chain, h, if_true, true_iff]
      exact ⟨_, List.mem_cons_self _ _, hs⟩
    · have hs : ¬ selected vi de f.n := fun c => h ((in_range_iff _ _ _).mpr c)
      simp only [del_chain, h, List.mem_cons, exists_eq_or_imp, node_n, hs, false_or]
      exact ih

/-- C25: `DEL` with the range (`vi`, `de`) leaves in the store exactly the lines that the
range does not select, in their order, each with its number, text and code; and it warns
"no such line" exactly when no stored line is selected and `vi = de ≥ 0` (the warning
cell is a latch: a message already waiting stays). For every other range that selects
nothing the warning cell is left as it was. -/
theorem C25_del_removes_selected_lines (st : State) (vi de : ℚ) :
    stored_lines (del st vi de).program
      = (stored_lines st.program).filter (fun l => decide (¬ selected vi de l.n)) ∧
    (((∀ l ∈ stored_lines st.program, ¬ selected vi de l.n) ∧ vi = de ∧ vi ≥ 0) →
      (del st vi de).warning = warn st.warning "no such line") ∧
    (¬ ((∀ l ∈ stored_lines st.program, ¬ selected vi de l.n) ∧ vi = de ∧ vi ≥ 0) →
      (del st vi de).warning = st.warning) ∧
    (st.warning = none →
      ((del st vi de).warning = some "no such line" ↔
        ((∀ l ∈ stored_lines st.program, ¬ selected vi de l.n) ∧ vi = de ∧ vi ≥ 0))) := by
  have hany : (del_chain vi de st.program).2 = false
      ↔ ∀ l ∈ stored_lines st.program, ¬ selected vi de l.n := by
    rw [← Bool.not_eq_true, del_chain_any]
    simp
  have hw : (del st vi de).warning
      = if ((∀ l ∈ stored_lines st.program, ¬ selected vi de l.n) ∧ vi = de ∧ vi ≥ 0)
        then warn st.warning "no such line" else st.warning := by
    simp only [del]
    by_cases hc : (∀ l ∈ stored_lines st.program, ¬ selected vi de l.n) ∧ vi = de ∧ vi ≥ 0
    · rw [if_pos hc, if_pos ⟨by simp [hany.mpr hc.1], hc.2.1, hc.2.2⟩]
      rfl
    · rw [if_neg hc, if_neg (fun h => hc ⟨hany.mp (by simpa using h.1), h.2.1, h.2.2⟩)]
      rfl
  refine ⟨?_, ?_, ?_, ?_⟩
  · have := del_chain_lines vi de st.program
    simp only [del]
    split <;> simpa [State.warn, reset_program] using this
  · intro hc; rw [hw, if_pos hc]
  · intro hc; rw [hw, if_neg hc]
  · intro hn
    rw [hw]
    by_cases hc : (∀ l ∈ stored_lines st.program, ¬ selected vi de l.n) ∧ vi = de ∧ vi ≥ 0
    · rw [if_pos hc, hn]
      exact ⟨fun _ => hc, fun _ => rfl⟩
    · rw [if_neg hc, hn]
      exact ⟨fun h => by simp at h, fun h => absurd h hc⟩

theorem C25_del_removes_selected_lines_witness :
    stored_lines (del (typed_in del_program) 20 (-1)).program
      = (stored_lines (typed_in del_program).program).filter
          (fun l => decide (¬ selected 20 (-1) l.n)) ∧
    line_numbers (del (typed_in del_program) 20 (-1)).program = [10] ∧
    (del (typed_in del_program) 20 (-1)).warning = none ∧
    line_numbers (del (typed_in del_program) 25 25).program = [10, 20, 30] ∧
    (del (typed_in del_program) 25 25).warning = some "no such line" ∧
    line_numbers (del (typed_in del_program) 21 29).program = [10, 20, 30] ∧
    (del (typed_in del_program) 21 29).warning = none ∧
    (run_state Libm.none 100 (typed_in del_program) "DEL 20-").map
      (fun st => line_numbers st.program) = some [10] :=
  ⟨(C25_del_removes_selected_lines (typed_in del_program) 20 (-1)).1, by decide!, by decide!,
    by decide!, by decide!, by decide!, by decide!, by decide!⟩

/-- A range bound that names no stored line does not get as far as `del` when it is
typed in: `immediate` links the command first, and `link` reports the bound ("can't find
line 25", once for each end of the range `25`), upon which the command is dropped. -/
theorem del_command_needs_stored_bounds :
    output_of Libm.none 100 (typed_in del_program) "DEL 25"
      = some "can't find line 25\ncan't find line 25\n".data ∧
    output_of Libm.none 100 (typed_in del_program) "DEL 21-29"
      = some "can't find line 21\ncan't find line 29\n".data ∧
    (run_state Libm.none 100 (typed_in del_program) "DEL 15-25").map
      (fun st => line_numbers st.program) = some [10, 20, 30] := by
  decide!

/-! ## Line numbers and ranges (parser.c, line_num, line_range) -/

theorem digitChar_facts (d : Nat) (hd : d < 10) :
    Nat.digitChar d ≠ '.' ∧ Nat.digitChar d ≠ '_' ∧ Nat.digitChar d ≠ '-' ∧
    isdigit (Nat.digitChar d) = true ∧ isspace (Nat.digitChar d) = false ∧
    (Nat.digitChar d).toNat = d + 48 := by
  interval_cases d <;> decide

theorem num_lit_loop_digit (d : Nat) (hd : d < 10) (s : List Char) (r scale : ℚ) (any : Bool) :
    num_lit_loop (Nat.digitChar d :: s) r scale 0 any
      = num_lit_loop s (10 * r + (d : ℚ)) scale 0 true := by
  obtain ⟨h1, h2, -, h3, -, h4⟩ := digitChar_facts d hd
  simp [num_lit_loop, h1, h2, h3, h4]

theorem toDigitsCore_append (f : Nat) : ∀ (n : Nat) (ds rest : List Char),
    Nat.toDigitsCore 10 f n ds ++ rest = Nat.toDigitsCore 10 f n (ds ++ rest) := by
  induction f with
  | zero => intro n ds rest; rfl
  | succ f ih =>
    intro n ds rest
    simp only [Nat.toDigitsCore]
    split
    · rfl
    · rw [ih]; rfl

/-- The scan of `num_lit` over the decimal numeral of `n`: the digits are folded into the
accumulator and the scan goes on behind them. -/
theorem num_lit_loop_toDigitsCore (f : Nat) : ∀ (n : Nat), n < f →
    ∃ k : Nat, ∀ (ds : List Char) (r scale : ℚ) (any : Bool),
      num_lit_loop (Nat.toDigitsCore 10 f n ds) r scale 0 any
        = num_lit_loop ds (r * 10 ^ k + (n : ℚ)) scale 0 true := by
  induction f with
  | zero => intro n h; omega
  | succ f ih =>
    intro n hn
    by_cases h0 : n / 10 = 0
    · refine ⟨1, fun ds r scale any => ?_⟩
      have hlt : n < 10 := by omega
      have hm : n % 10 = n := Nat.mod_eq_of_lt hlt
      simp only [Nat.toDigitsCore, h0, if_true, hm]
      rw [num_lit_loop_digit n hlt]
      ring_nf
    · obtain ⟨k, hk⟩ := ih (n / 10) (by omega)
      refine ⟨k + 1, fun ds r scale any => ?_⟩
      simp only [Nat.toDigitsCore, h0, if_false]
      rw [hk, num_lit_loop_digit (n % 10) (Nat.mod_lt _ (by norm_num))]
      have e : (n : ℚ) = 10 * ((n / 10 : Nat) : ℚ) + ((n % 10 : Nat) : ℚ) := by
        have := Nat.div_add_mod n 10
        exact_mod_cast this.symm
      congr 1
      rw [e]
      ring

theorem toDigitsCore_head (f : Nat) : ∀ (n : Nat) (ds : List Char), n < f →
    ∃ d cs, d < 10 ∧ Nat.toDigitsCore 10 f n ds = Nat.digitChar d :: cs := by
  induction f with
  | zero => intro n ds h; omega
  | succ f ih =>
    intro n ds hn
    by_cases h0 : n / 10 = 0
    · exact ⟨n % 10, ds, Nat.mod_lt _ (by norm_num), by simp [Nat.toDigitsCore, h0]⟩
    · obtain ⟨d, cs, hd, he⟩ := ih (n / 10) (Nat.digitChar (n % 10) :: ds) (by omega)
      exact ⟨d, cs, hd, by simp only [Nat.toDigitsCore, h0, if_false, he]⟩

/-- The scan of `num_lit` over the decimal numeral of `N` followed by `rest`. -/
theorem num_lit_loop_numeral (N : Nat) (rest : List Char) :
    num_lit_loop (Nat.toDigits 10 N ++ rest) 0 1 0 false
      = num_lit_loop rest (N : ℚ) 1 0 true := by
  obtain ⟨k, hk⟩ := num_lit_loop_toDigitsCore (N + 1) N (by omega)
  unfold Nat.toDigits
  rw [toDigitsCore_append, List.nil_append, hk]
  simp

theorem eatBlanks_numeral (N : Nat) (rest : List Char) :
    eatBlanks (Nat.toDigits 10 N ++ rest) = Nat.toDigits 10 N ++ rest ∧
    (Nat.toDigits 10 N ++ rest).head? ≠ some '-' := by
  obtain ⟨d, cs, hd, he⟩ := toDigitsCore_head (N + 1) N [] (by omega)
  obtain ⟨-, -, h3, -, h5, -⟩ := digitChar_facts d hd
  unfold Nat.toDigits
  rw [he]
  simp [eatBlanks, h5, h3]

theorem stops_nil : stops [] := fun _ => rfl

theorem stops_minus (t : List Char) : stops ('-' :: t) := fun _ => by
  simp +decide [num_lit_loop]

theorem stops_blank (t : List Char) : stops (' ' :: t) := fun _ => by
  simp +decide [num_lit_loop]

/-- `num_lit` reads the decimal numeral of `N` as the number `N`. -/
theorem num_lit_numeral (N : Nat) (rest : List Char) (h : stops rest) :
    num_lit (Nat.toDigits 10 N ++ rest) = some (numLit (N : ℚ), rest) := by
  obtain ⟨e1, e2⟩ := eatBlanks_numeral N rest
  simp only [num_lit, e1, e2, if_false, num_lit_loop_numeral, h (N : ℚ)]
  simp [numLit]

/-- `num_lit` reads a minus sign and the decimal numeral of `N` as the number `-N`. -/
theorem num_lit_minus_numeral (N : Nat) (rest : List Char) (h : stops rest) :
    num_lit ('-' :: (Nat.toDigits 10 N ++ rest)) = some (numLit (-(N : ℚ)), rest) := by
  have e0 : eatBlanks ('-' :: (Nat.toDigits 10 N ++ rest))
      = '-' :: (Nat.toDigits 10 N ++ rest) := by
    simp +decide [eatBlanks]
  simp only [num_lit, e0, List.head?_cons, if_true, List.tail_cons, num_lit_loop_numeral,
    h (N : ℚ)]
  simp [numLit]

theorem trunc_int (z : Int) : trunc (z : ℚ) = z := by
  simp [trunc]

theorem line_num_numeral (N : Nat) (rest : List Char) (h : stops rest) (w : Option String) :
    line_num (Nat.toDigits 10 N ++ rest) w = (some (mkLineNum (N : ℚ), rest), w) := by
  have ht : (numLit (N : ℚ)).n = trunc (numLit (N : ℚ)).n := by
    show (N : ℚ) = trunc (N : ℚ)
    rw [trunc_nat]
  simp only [line_num, num_lit_numeral N rest h, ne_eq, ← ht, not_true_eq_false, if_false]
  rfl

theorem line_num_minus_numeral (N : Nat) (rest : List Char) (h : stops rest)
    (w : Option String) :
    line_num ('-' :: (Nat.toDigits 10 N ++ rest)) w
      = (some (mkLineNum (-(N : ℚ)), rest), w) := by
  have ht : (numLit (-(N : ℚ))).n = trunc (numLit (-(N : ℚ))).n := by
    show (-(N : ℚ)) = trunc (-(N : ℚ))
    have := trunc_int (-(N : Int))
    push_cast at this
    rw [this]
  simp only [line_num, num_lit_minus_numeral N rest h, ne_eq, ← ht, not_true_eq_false,
    if_false]
  rfl

theorem line_num_nil (w : Option String) : line_num [] w = (none, w) := rfl

theorem line_num_minus (w : Option String) : line_num ['-'] w = (none, w) := rfl

theorem line_num_minus_blank (t : List Char) (w : Option String) :
    line_num ('-' :: ' ' :: t) w = (none, w) := by
  simp +decide [line_num, num_lit, eatBlanks, num_lit_loop]

theorem line_num_blank_numeral (N : Nat) (w : Option String) :
    line_num (' ' :: Nat.toDigits 10 N) w = (some (mkLineNum (N : ℚ), []), w) := by
  have h := line_num_numeral N [] stops_nil w
  rw [List.append_nil] at h
  have e : num_lit (' ' :: Nat.toDigits 10 N) = num_lit (Nat.toDigits 10 N) := by
    simp +decide [num_lit, eatBlanks]
  simp only [line_num, e] at h ⊢
  exact h

theorem mkLineNum_n (a : ℚ) : (mkLineNum a).n = a := rfl

/-- What `line_range` makes of the four forms of a range. -/
theorem line_range_forms (N : Nat) (w : Option String) :
    line_range (Nat.toDigits 10 N) w = (some (range_of N N, []), w) ∧
    line_range (Nat.toDigits 10 N ++ ['-']) w = (some (range_of N (-1), []), w) ∧
    line_range ('-' :: Nat.toDigits 10 N) w = (some (range_of (-N) (-N), []), w) ∧
    line_range ('-' :: ' ' :: Nat.toDigits 10 N) w = (some (range_of (-1) N, []), w) ∧
    line_range ['-'] w = (some (range_of (-1) (-1), []), w) := by
  have h1 := line_num_numeral N [] stops_nil w
  have h2 := line_num_numeral N ['-'] (stops_minus []) w
  have h3 := line_num_minus_numeral N [] stops_nil w
  rw [List.append_nil] at h1 h3
  have s0 : symbol [] ['-'] = none := rfl
  have s1 : symbol ['-'] ['-'] = some [] := rfl
  have s2 : symbol ('-' :: ' ' :: Nat.toDigits 10 N) ['-'] = some (' ' :: Nat.toDigits 10 N) := by
    simp +decide [symbol, eatBlanks, symbol_loop]
  refine ⟨?_, ?_, ?_, ?_, rfl⟩
  · simp only [line_range, h1, s0, mkLineNum_n]; rfl
  · simp only [line_range, h2, s1, line_num_nil]; rfl
  · simp only [line_range, h3, s0, mkLineNum_n]; rfl
  · simp only [line_range, line_num_minus_blank, s2, line_num_blank_numeral]; rfl

theorem range_of_ne (N : Nat) : range_of (-(N : ℚ)) (-(N : ℚ)) ≠ range_of (-1) (N : ℚ) := by
  intro h
  simp only [range_of, mkLineNum, lego.setNext, lego.node.injEq, Fields.mk.injEq, Fields.zero,
    and_true, true_and] at h
  obtain ⟨h1, h2⟩ := h
  have h3 : (N : ℚ) = 1 := by linarith
  rw [h3] at h2
  norm_num at h2

theorem num_lit_node (ss : List Char) (res : lego) (s : List Char)
    (h : num_lit ss = some (res, s)) : ∃ q : ℚ, res = numLit q := by
  unfold num_lit at h
  dsimp only at h
  generalize num_lit_loop _ 0 1 0 false = L at h
  obtain ⟨⟨r, scale, dot, any⟩, rest⟩ := L
  dsimp only at h
  split at h
  · simp at h
  · simp only [Option.some.injEq, Prod.mk.injEq] at h
    exact ⟨_, h.1.symm⟩

/-- C26 (the code reads `-N` as the line number -N): for every non-negative integer `N`,
written as its decimal numeral, `line_range` turns `N` into (N, N), `N-` into (N, -1) and
`-` into (-1, -1), and `- N`, with a blank, into (-1, N). But `-N` becomes (-N, -N), which
never is (-1, N): `line_num` is tried first and takes the minus sign for the sign of the
number, as `num_lit` accepts one. So `LIST -20` lists the whole program (both bounds are
negative, that is, not given), where `LIST - 20` lists the lines up to 20. -/
theorem C26_minus_N_is_read_as_negative_number :
    (∀ (N : Nat) (w : Option String),
      line_range (Nat.toDigits 10 N) w = (some (range_of N N, []), w) ∧
      line_range (Nat.toDigits 10 N ++ ['-']) w = (some (range_of N (-1), []), w) ∧
      line_range ['-'] w = (some (range_of (-1) (-1), []), w) ∧
      line_range ('-' :: ' ' :: Nat.toDigits 10 N) w = (some (range_of (-1) N, []), w) ∧
      line_range ('-' :: Nat.toDigits 10 N) w = (some (range_of (-N) (-N), []), w) ∧
      range_of (-(N : ℚ)) (-(N : ℚ)) ≠ range_of (-1) (N : ℚ)) ∧
    Nat.toDigits 10 20 = "20".data ∧
    line_range "-20".data none = (some (range_of (-20) (-20), []), none) ∧
    output_of Libm.none 100 (typed_in del_program) "LIST -20"
      = some "10 REM a\n20 REM b\n30 REM c\n".data ∧
    output_of Libm.none 100 (typed_in del_program) "LIST - 20"
      = some "10 REM a\n20 REM b\n".data := by
  refine ⟨fun N w => ?_, by decide, by decide!, by decide!, by decide!⟩
  obtain ⟨h1, h2, h3, h4, h5⟩ := line_range_forms N w
  exact ⟨h1, h2, h5, h4, h3, range_of_ne N⟩

/-- C27 (the code accepts negative line numbers): `line_num` never yields a fractional
number, but it does yield negative ones: a minus sign and the decimal numeral of `N` are
read as the line number -N, because `num_lit`, which `line_num` calls, accepts a sign. So
`-5 PRINT 1` parses to the numbered line -5, which is stored before line 10, listed and
run; `GOTO -5` parses to a reference to line -5. -/
theorem C27_line_num_accepts_minus_sign :
    (∀ (ss : List Char) (w w1 : Option String) (l : lego) (rest : List Char),
      line_num ss w = (some (l, rest), w1) → l.what = wLINENUM ∧ trunc l.n = l.n) ∧
    (∀ (N : Nat) (rest : List Char) (w : Option String), stops rest →
      line_num ('-' :: (Nat.toDigits 10 N ++ rest)) w
        = (some (mkLineNum (-(N : ℚ)), rest), w)) ∧
    line_num "-5".data none = (some (mkLineNum (-5), []), none) ∧
    (parse "-5 PRINT 1".data).1.map (fun r => (r.1.what, r.1.n, r.1.a0.what, r.2))
      = some (wNUMBEREDLINE, -5, wPRINT, []) ∧
    (parse "GOTO -5".data).1.map (fun r => (r.1.what, r.1.a0.what, r.1.a0.n, r.2))
      = some (wGOTO, wLINENUM, -5, []) ∧
    line_numbers (typed_in ["10 PRINT 2", "-5 PRINT 1"]).program = [-5, 10] ∧
    output_of Libm.none 100 (typed_in ["10 PRINT 2", "-5 PRINT 1"]) "LIST"
      = some "-5 PRINT 1\n10 PRINT 2\n".data ∧
    output_of Libm.none 100 (typed_in ["10 PRINT 2", "-5 PRINT 1"]) "RUN"
      = some "1\n2\n".data := by
  refine ⟨fun ss w w1 l rest h => ?_, fun N rest w h => line_num_minus_numeral N rest h w,
    by decide!, by decide!, by decide!, by decide!, by decide!, by decide!⟩
  unfold line_num at h
  split at h
  · simp at h
  · rename_i res s hres
    split at h
    · simp at h
    · rename_i hi
      simp only [Prod.mk.injEq, Option.some.injEq] at h
      obtain ⟨⟨h1, -⟩, -⟩ := h
      subst h1
      obtain ⟨q, hq⟩ := num_lit_node ss res s hres
      subst hq
      simp only [ne_eq, not_not] at hi
      exact ⟨rfl, hi.symm⟩

/-! ## String literals (parser.c, str_lit) -/

theorem strchr_spec (c : Char) : ∀ (s body found : List Char),
    strchr c s = some (body, found) → c ∉ body ∧ ∃ t, found = c :: t ∧ s = body ++ c :: t := by
  intro s
  induction s with
  | nil => intro body found h; simp [strchr] at h
  | cons x s ih =>
    intro body found h
    by_cases hx : x = c
    · simp only [strchr, hx, if_true, Option.some.injEq, Prod.mk.injEq] at h
      obtain ⟨h1, h2⟩ := h
      subst h1; subst h2; subst hx
      exact ⟨by simp, s, rfl, rfl⟩
    · simp only [strchr, hx, if_false] at h
      split at h
      · simp at h
      · rename_i b f hbf
        simp only [Option.some.injEq, Prod.mk.injEq] at h
        obtain ⟨h1, h2⟩ := h
        subst h1; subst h2
        obtain ⟨hn, t, ht, hs⟩ := ih b f hbf
        refine ⟨?_, t, ht, by rw [hs]; rfl⟩
        simp only [List.mem_cons, not_or]
        exact ⟨fun e => hx e.symm, hn⟩

theorem strchr_append (c : Char) (t : List Char) : ∀ body : List Char, c ∉ body →
    strchr c (body ++ c :: t) = some (body, c :: t) := by
  intro body
  induction body with
  | nil => intro _; simp [strchr]
  | cons x b ih =>
    intro h
    simp only [List.mem_cons, not_or] at h
    have hx : ¬ x = c := fun e => h.1 e.symm
    simp [strchr, hx, ih h.2]

/-- What `printLego` prints for a string literal. -/
theorem printLego_mkStrLit (fp : Bool) (body : List Char) (ender : Char) :
    printLego fp (mkStrLit body ender)
      = if ender ≠ ']' ∧ ender ≠ Char.ofNat 0 then ']' :: ender :: (body ++ [ender])
        else '[' :: (body ++ [']']) := by
  by_cases h : ender = ']'
  · subst h
    simp +decide [printLego, mkStrLit, printBody, Fields.zero, printsNext, What.ord]
  · by_cases h0 : ender = Char.ofNat 0
    · subst h0
      simp +decide [printLego, mkStrLit, printBody, Fields.zero, printsNext, What.ord]
    · simp +decide [printLego, mkStrLit, printBody, Fields.zero, printsNext, What.ord, h, h0]

theorem isgraph_facts (c : Char) (h : isgraph c = true) :
    c ≠ Char.ofNat 0 ∧ isspace c = false := by
  simp only [isgraph, Bool.and_eq_true, decide_eq_true_eq] at h
  constructor
  · intro e; rw [e] at h; simp at h
  · have hne : ∀ d : Char, d.toNat < 33 → c ≠ d := by
      intro d hd e
      rw [e] at h
      omega
    simp only [isspace, Bool.or_eq_false_iff, decide_eq_false_iff_not]
    exact ⟨⟨⟨⟨⟨hne _ (by decide), hne _ (by decide)⟩, hne _ (by decide)⟩, hne _ (by decide)⟩,
      hne _ (by decide)⟩, hne _ (by decide)⟩

/-- C28: the text `printLego` prints for a string literal that `str_lit` produced (from
the form `[body]` or from the form `]XbodyX` with a printable delimiter `X` other than
the blank) is read by `str_lit` to the end, and yields the same lego again: the same
body and the same `lit_delim`. -/
theorem C28_str_lit_roundtrip (ss rest : List Char) (n : lego) (fp : Bool)
    (h : str_lit ss = some (n, rest)) :
    str_lit (printLego fp n) = some (n, []) := by
  unfold str_lit at h
  split at h
  · simp at h
  · rename_i c s _
    by_cases hc : c = ']'
    · simp only [hc, if_true] at h
      split at h
      · simp at h
      · rename_i ender s1 _
        by_cases hg : isgraph ender = true
        · simp only [hg, Bool.not_true, Bool.false_eq_true, if_false] at h
          split at h
          · simp at h
          · rename_i body found hf
            simp only [Option.some.injEq, Prod.mk.injEq] at h
            obtain ⟨hn, -⟩ := h
            subst hn
            obtain ⟨hnot, -⟩ := strchr_spec ender s1 body found hf
            obtain ⟨h0, hsp⟩ := isgraph_facts ender hg
            rw [printLego_mkStrLit]
            by_cases he : ender = ']'
            · subst he
              simp +decide [str_lit, eatBlanks, strchr_append ']' [] body hnot]
            · simp +decide [str_lit, eatBlanks, he, h0, hg,
                strchr_append ender [] body hnot]
        · simp [hg] at h
    · simp only [hc, if_false] at h
      split at h
      · simp at h
      · split at h
        · simp at h
        · rename_i body found hf
          simp only [Option.some.injEq, Prod.mk.injEq] at h
          obtain ⟨hn, -⟩ := h
          subst hn
          obtain ⟨hnot, -⟩ := strchr_spec ']' s body found hf
          rw [printLego_mkStrLit]
          simp +decide [str_lit, eatBlanks, strchr_append ']' [] body hnot]

theorem C28_str_lit_roundtrip_witness :
    str_lit (printLego false (mkStrLit "a[b]c".data '$')) = some (mkStrLit "a[b]c".data '$', []) ∧
    str_lit "]$a[b]c$ + X$".data = some (mkStrLit "a[b]c".data '$', " + X$".data) ∧
    printLego false (mkStrLit "a[b]c".data '$') = "]$a[b]c$".data ∧
    str_lit "[hello] + X$".data = some (mkStrLit "hello".data ']', " + X$".data) ∧
    printLego false (mkStrLit "hello".data ']') = "[hello]".data :=
  ⟨C28_str_lit_roundtrip "]$a[b]c$ + X$".data " + X$".data _ false (by decide), by decide,
    by decide, by decide, by decide⟩

/-! ## Variables (eval.c, set_var; run.c, LET) -/

theorem vars_crash (st : State) (why : String) : (st.crash why).vars = st.vars := by
  unfold State.crash; split <;> rfl

theorem vars_warn (st : State) (why : String) : (st.warn why).vars = st.vars := rfl

theorem vars_deref (c : computed) (st : State) : (c.deref st).2.vars = st.vars := by
  unfold computed.deref; split
  · rfl
  · exact vars_crash _ _

theorem vars_csprng (st : State) (x : ℚ) : (csprng st x).2.vars = st.vars := by
  unfold csprng
  split
  · rfl
  · split <;> rfl

theorem vars_boolean_logic (st : State) (x y : ℚ) (w : What) :
    (boolean_logic st x y w).2.vars = st.vars := by
  unfold boolean_logic
  split
  · rfl
  · rfl

theorem vars_divmod (st : State) (x y : ℚ) (w : What) :
    (divmod st x y w).2.vars = st.vars := by
  unfold divmod
  split
  · rfl
  · dsimp only
    split
    · split
      · exact vars_crash _ _
      · rfl
    · split
      · exact vars_crash _ _
      · rfl
    · rfl

theorem vars_except_with (st : State) (why : String) : (except_with st why).2.vars = st.vars :=
  rfl

set_option maxHeartbeats 1600000 in
/-- No operator touches a variable. -/
theorem vars_apply_op (m : Libm) (st : State) (w : What) (x y z : computed) :
    (apply_op m st w x y z).2.vars = st.vars := by
  cases w <;>
    simp only [apply_op, vars_boolean_logic, vars_divmod, vars_csprng, vars_deref,
      vars_except_with] <;>
    (repeat' split) <;>
    first
      | rfl
      | exact vars_except_with _ _
      | exact vars_crash _ _
      | (simp only [vars_crash, vars_deref, vars_except_with, vars_warn]; done)
      | (rename_i h; have e := vars_deref x st; rw [h] at e; exact e)
      | (rename_i h; have e := vars_deref y st; rw [h] at e; exact e)

/-- Evaluating an expression touches no variable. -/
theorem vars_evalloc (m : Libm) (l : lego) : ∀ st : State, (evalloc m st l).2.vars = st.vars := by
  induction l with
  | NULL => intro st; exact vars_crash _ _
  | node f a0 a1 a2 a3 nx ih0 ih1 ih2 _ _ =>
    intro st
    simp only [evalloc]
    split
    · rfl
    · rfl
    · split <;> rfl
    · split <;> rfl
    · split_ifs <;>
        simp only [ih0, ih1, ih2, vars_apply_op, vars_except_with, computed.zero]

theorem find_set_in_num (name : List Char) (n : ℚ) (db : List varDB) :
    (find_var (set_in name none n db) name).map varDB.n = some n := by
  induction db with
  | nil => simp [set_in, find_var]
  | cons v vs ih =>
    by_cases h : v.name = name
    · simp [set_in, find_var, h]
    · have h1 : ¬ name = v.name := fun c => h c.symm
      simp [set_in, find_var, h, h1, ih]

theorem find_set_in_str (name t : List Char) (n : ℚ) (db : List varDB) :
    (find_var (set_in name (some t) n db) name).map varDB.s = some (some t) := by
  induction db with
  | nil => simp [set_in, find_var]
  | cons v vs ih =>
    by_cases h : v.name = name
    · simp [set_in, find_var, h]
    · have h1 : ¬ name = v.name := fun c => h c.symm
      simp [set_in, find_var, h, h1, ih]

theorem find_set_in_other (name other : List Char) (s : Option (List Char)) (n : ℚ)
    (db : List varDB) (ho : other ≠ name) :
    find_var (set_in name s n db) other = find_var db other := by
  induction db with
  | nil => cases s <;> simp [set_in, find_var, ho]
  | cons v vs ih =>
    by_cases h : v.name = name
    · have h1 : ¬ other = v.name := fun c => ho (c.trans h)
      cases s <;> simp [set_in, find_var, h, h1, ho]
    · by_cases h2 : other = v.name
      · simp [set_in, find_var, h, h2]
      · simp [set_in, find_var, h, h2, ih]

theorem stepped_vars (prog : Bool) (st : State) (ic : x_con) (imm : lego) (p : Ptr) :
    (stepped prog st ic imm p).vars = st.vars := by
  unfold stepped updc; split <;> rfl

/-- What `LET` does. -/
theorem single_step_let (m : Libm) (imm : lego) (prog : Bool) (st : State) (ic : x_con)
    (p : Ptr) (hp : (getc prog st ic).stmt = some p)
    (hw : (deref st.program imm p).what = wLET) :
    (single_step m imm prog st ic).2.1 =
      (if (evalloc m (stepped prog st ic imm p) (deref st.program imm p).a1).1.what
            = rKind.rExcept then
         (evalloc m (stepped prog st ic imm p) (deref st.program imm p).a1).2
       else if (deref st.program imm p).a0.what = wSTRVAR then
         set_var (evalloc m (stepped prog st ic imm p) (deref st.program imm p).a1).2
           (deref st.program imm p).a0.str
           (evalloc m (stepped prog st ic imm p) (deref st.program imm p).a1).1.s 0
       else if (deref st.program imm p).a0.what = wNUMVAR then
         set_var (evalloc m (stepped prog st ic imm p) (deref st.program imm p).a1).2
           (deref st.program imm p).a0.str none
           (evalloc m (stepped prog st ic imm p) (deref st.program imm p).a1).1.n
       else (evalloc m (stepped prog st ic imm p) (deref st.program imm p).a1).2.warn
               "assertion failed (check parser)") := by
  have hnn : (deref st.program imm p).isNull = false := by
    cases h : deref st.program imm p with
    | NULL => rw [h] at hw; simp [lego.what, lego.f, Fields.zero] at hw
    | node => rfl
  have hseek : seek_stmt st.program (getc prog st ic) = getc prog st ic := by
    simp [seek_stmt, hp]
  have hprog : (stepped prog st ic imm p).program = st.program := by
    unfold stepped updc; split <;> rfl
  simp only [single_step, hseek, hp, hnn, hw, stepped]
  split_ifs <;> simp_all

/-- C29: numeric and string variables live in two mappings. After `set_var` on a numeric
variable, looking the name up among the numeric variables yields the value, every other
numeric name yields what it did, and so does every name among the string variables; and
the same with the two mappings exchanged. `LET`, in a program or typed in, has exactly this
effect with the value of its right-hand side, whose evaluation touches no variable. In
the program `10 T = 5 : T$ = [x] : U = 7` the names `T` and `T$` share the key `T` and
keep their own values. -/
theorem C29_variables_in_two_mappings :
    (∀ (st : State) (name other : List Char) (n : ℚ),
      (find_var (set_var st name none n).numDB name).map varDB.n = some n ∧
      (other ≠ name →
        find_var (set_var st name none n).numDB other = find_var st.numDB other) ∧
      find_var (set_var st name none n).strDB other = find_var st.strDB other) ∧
    (∀ (st : State) (name other t : List Char) (n : ℚ),
      (find_var (set_var st name (some t) n).strDB name).map varDB.s = some (some t) ∧
      (other ≠ name →
        find_var (set_var st name (some t) n).strDB other = find_var st.strDB other) ∧
      find_var (set_var st name (some t) n).numDB other = find_var st.numDB other) ∧
    (∀ (m : Libm) (imm : lego) (prog : Bool) (st : State) (ic : x_con) (p : Ptr)
        (other : List Char) (x : ℚ),
      (getc prog st ic).stmt = some p → (deref st.program imm p).what = wLET →
      (deref st.program imm p).a0.what = wNUMVAR →
      (evalloc m (stepped prog st ic imm p) (deref st.program imm p).a1).1 = num_result x →
      (find_var (single_step m imm prog st ic).2.1.numDB (deref st.program imm p).a0.str).map
          varDB.n = some x ∧
      (other ≠ (deref st.program imm p).a0.str →
        find_var (single_step m imm prog st ic).2.1.numDB other = find_var st.numDB other) ∧
      find_var (single_step m imm prog st ic).2.1.strDB other = find_var st.strDB other) ∧
    (∀ (m : Libm) (imm : lego) (prog : Bool) (st : State) (ic : x_con) (p : Ptr)
        (other t : List Char),
      (getc prog st ic).stmt = some p → (deref st.program imm p).what = wLET →
      (deref st.program imm p).a0.what = wSTRVAR →
      (evalloc m (stepped prog st ic imm p) (deref st.program imm p).a1).1 = str_result t →
      (find_var (single_step m imm prog st ic).2.1.strDB (deref st.program imm p).a0.str).map
          varDB.s = some (some t) ∧
      (other ≠ (deref st.program imm p).a0.str →
        find_var (single_step m imm prog st ic).2.1.strDB other = find_var st.strDB other) ∧
      find_var (single_step m imm prog st ic).2.1.numDB other = find_var st.numDB other) ∧
    (run_state Libm.none 100 (typed_in ["10 T = 5 : T$ = [x] : U = 7"]) "RUN").map
      (fun st => num_value st "T") = some (some 5) ∧
    (run_state Libm.none 100 (typed_in ["10 T = 5 : T$ = [x] : U = 7"]) "RUN").map
      (fun st => str_value st "T") = some (some (some "x".data)) ∧
    (run_state Libm.none 100 (typed_in ["10 T = 5 : T$ = [x] : U = 7"]) "RUN").map
      (fun st => num_value st "U") = some (some 7) ∧
    (run_state Libm.none 100 (typed_in ["10 T = 5 : T$ = [x] : U = 7"]) "RUN").map
      (fun st => str_value st "U") = some none := by
  refine ⟨fun st name other n => ⟨?_, fun ho => ?_, rfl⟩,
    fun st name other t n => ⟨?_, fun ho => ?_, rfl⟩,
    fun m imm prog st ic p other x hp hw hv he => ?_,
    fun m imm prog st ic p other t hp hw hv he => ?_, ?_, ?_, ?_, ?_⟩
  · exact find_set_in_num name n st.numDB
  · exact find_set_in_other name other none n st.numDB ho
  · exact find_set_in_str name t n st.strDB
  · exact find_set_in_other name other (some t) n st.strDB ho
  · have hvars := (vars_evalloc m (deref st.program imm p).a1 (stepped prog st ic imm p)).trans
      (stepped_vars prog st ic imm p)
    have hn : (evalloc m (stepped prog st ic imm p) (deref st.program imm p).a1).2.numDB = st.numDB :=
      congrArg Prod.fst hvars
    have hs : (evalloc m (stepped prog st ic imm p) (deref st.program imm p).a1).2.strDB = st.strDB :=
      congrArg Prod.snd hvars
    have hstep := single_step_let m imm prog st ic p hp hw
    rw [he] at hstep
    have hv2 : ¬ (deref st.program imm p).a0.what = wSTRVAR := by rw [hv]; decide
    rw [if_neg (num_result_what x), if_neg hv2, if_pos hv] at hstep
    rw [hstep]
    simp only [set_var, hn, hs, num_result]
    exact ⟨find_set_in_num _ x st.numDB,
      fun ho => find_set_in_other _ other none x st.numDB ho, trivial⟩
  · have hvars := (vars_evalloc m (deref st.program imm p).a1 (stepped prog st ic imm p)).trans
      (stepped_vars prog st ic imm p)
    have hn : (evalloc m (stepped prog st ic imm p) (deref st.program imm p).a1).2.numDB = st.numDB :=
      congrArg Prod.fst hvars
    have hs : (evalloc m (stepped prog st ic imm p) (deref st.program imm p).a1).2.strDB = st.strDB :=
      congrArg Prod.snd hvars
    have hstep := single_step_let m imm prog st ic p hp hw
    rw [he] at hstep
    rw [if_neg (str_result_what t), if_pos hv] at hstep
    rw [hstep]
    simp only [set_var, hn, hs, str_result]
    exact ⟨find_set_in_str _ t 0 st.strDB,
      fun ho => find_set_in_other _ other (some t) 0 st.strDB ho, trivial⟩
  · decide!
  · decide!
  · decide!
  · decide!

/-! ## The linker (run.c, link) -/

theorem link_refs (prog : lego) : ∀ (l : lego) (st : State) (w : ℚ),
    refs (link prog st l w).tree = (refs l).map (linked prog) ∧
    (link prog st l w).bad = ((refs l).filter (missing prog)).length := by
  intro l
  induction l with
  | NULL => intro st w; simp [link, refs]
  | node f a0 a1 a2 a3 nx ih0 ih1 ih2 ih3 ihn =>
    intro st w
    simp only [link, refs, List.map_append, List.filter_append, List.length_append,
      (ih0 _ _).1, (ih1 _ _).1, (ih2 _ _).1, (ih3 _ _).1, (ihn _ _).1,
      (ih0 _ _).2, (ih1 _ _).2, (ih2 _ _).2, (ih3 _ _).2, (ihn _ _).2]
    by_cases hw : f.what = wLINENUM
    · by_cases hneg : f.n < 0
      · have h0 : ¬ (0 ≤ f.n) := not_le.mpr hneg
        simp [hw, hneg, linked, missing, h0]
      · have h0 : 0 ≤ f.n := not_lt.mp hneg
        by_cases hf : (find_line prog f.n).isNull = true
        · simp [hw, hneg, hf, linked, missing, h0]
        · simp only [Bool.not_eq_true] at hf
          simp [hw, hneg, hf, linked, missing, h0]
    · simp [hw]

theorem linked_n (prog : lego) (f : Fields) : (linked prog f).n = f.n := by
  unfold linked; split_ifs <;> rfl

/-- C30: `link` returns the number of line references that can be reached from `l`
(through the arguments and `next`), have a number that is not negative, and name no line
of the store. It leaves the references what they were but for their links; and whenever
it returns 0, every reference with a number that is not negative is linked to the stored
line of that number (the link is the key of the line, which the store holds), and every
reference with a negative number has the null link. -/
theorem C30_link_counts_missing_lines (program l : lego) (st : State) (where_ : ℚ) :
    (link program st l where_).bad = ((refs l).filter (missing program)).length ∧
    (refs (link program st l where_).tree).map (fun f => (f.what, f.n))
      = (refs l).map (fun f => (f.what, f.n)) ∧
    ((link program st l where_).bad = 0 →
      ∀ f ∈ refs (link program st l where_).tree,
        (0 ≤ f.n → f.link = some f.n ∧ (find_line program f.n).isNull = false ∧
          (find_line program f.n).n = f.n) ∧
        (f.n < 0 → f.link = none)) := by
  obtain ⟨h1, h2⟩ := link_refs program l st where_
  refine ⟨h2, ?_, ?_⟩
  · rw [h1, List.map_map]
    apply List.map_congr_left
    intro f _
    simp only [Function.comp, linked]
    split_ifs <;> rfl
  · intro hbad f hf
    rw [h1] at hf
    obtain ⟨g, hg, rfl⟩ := List.mem_map.mp hf
    rw [h2, List.length_eq_zero, List.filter_eq_nil_iff] at hbad
    have hm := hbad g hg
    simp only [missing, Bool.and_eq_true, decide_eq_true_eq, not_and, Bool.not_eq_true] at hm
    rw [linked_n]
    constructor
    · intro h0
      have hfound := hm h0
      have hneg : ¬ g.n < 0 := not_lt.mpr h0
      refine ⟨?_, hfound, find_line_n _ _ hfound⟩
      simp [linked, hneg, hfound]
    · intro hneg
      simp [linked, hneg]

theorem C30_link_counts_missing_lines_witness :
    (link (typed_in del_program).program State.init on_goto (-1)).bad
      = ((refs on_goto).filter (missing (typed_in del_program).program)).length ∧
    (refs on_goto).map (fun f => f.n) = [10, 25, 30, 40] ∧
    (link (typed_in del_program).program State.init on_goto (-1)).bad = 2 ∧
    (link (typed_in del_program).program State.init on_goto (-1)).st.out
      = "can't find line 25\ncan't find line 40\n".data :=
  ⟨(C30_link_counts_missing_lines (typed_in del_program).program on_goto State.init (-1)).1,
    by decide!, by decide!, by decide!⟩

/-! ## The kludge for <> (parser.c, inequality and equality) -/

/-- C35: for operands `A` and `B` (atoms of the numeric grammar), the text `A <> B`
parses to the single `NE` lego over `A` and `B`. On the way `inequality` does find `<>`
among its symbols, as `wKLUDGE`, and then takes nothing: it returns `A` as it is, with the
cursor before the operator. And `A < B <> C` parses as `NE(LT(A, B), C)`. -/
theorem C35_kludge_leaves_ne_to_equality (fuel : Nat) (ta tb tc : List Char) (a b c : lego)
    (w : Option String)
    (ha : IsAtom (num_exp (fuel + 3)) (str_exp (fuel + 3)) ta a)
    (hb : IsAtom (num_exp (fuel + 3)) (str_exp (fuel + 3)) tb b)
    (hc : IsAtom (num_exp (fuel + 3)) (str_exp (fuel + 3)) tc c) :
    num_exp (fuel + 4) (ta ++ tok wNE tb) w = (some (mkBinary wNE a b, []), w) ∧
    find_op (level_syms 4) (level_enums 4) (tok wNE tb) = some (wKLUDGE, ' ' :: tb) ∧
    inequality (fuel + 3) (num_exp (fuel + 3)) (str_exp (fuel + 3)) (ta ++ tok wNE tb) w
      = (some (a, tok wNE tb), w) ∧
    num_exp (fuel + 4) (ta ++ tok wLT (tb ++ tok wNE tc)) w
      = (some (mkBinary wNE (mkBinary wLT a b) c, []), w) := by
  have oa := atom_operand _ _ _ _ ha
  have ob := atom_operand _ _ _ _ hb
  have oc := atom_operand _ _ _ _ hc
  refine ⟨?_, rfl, ?_, ?_⟩
  · have := reads_bin (fuel + 1) _ _ ta tb a b oa ob wNE (by decide) 11 (by decide)
      (le_refl _) false [] (Or.inl rfl) w
    simpa using this
  · have := operand_reads (fuel + 2) _ _ ta a oa 4 (by decide) false (tok wNE tb)
      (Or.inr ⟨wNE, tb, by decide, by decide, rfl⟩) w
    simpa using this
  · exact (reads_two_levels fuel _ _ ta tb tc a b c oa ob oc wNE wLT (by decide) (by decide)
      (by decide) w).2

theorem C35_kludge_leaves_ne_to_equality_witness :
    (num_exp (0 + 4) (['X'] ++ tok wNE ['Y']) none
        = (some (mkBinary wNE (numVar "X" NULL) (numVar "Y" NULL), []), none) ∧
      find_op (level_syms 4) (level_enums 4) (tok wNE ['Y']) = some (wKLUDGE, ' ' :: ['Y']) ∧
      inequality (0 + 3) (num_exp (0 + 3)) (str_exp (0 + 3)) (['X'] ++ tok wNE ['Y']) none
        = (some (numVar "X" NULL, tok wNE ['Y']), none) ∧
      num_exp (0 + 4) (['X'] ++ tok wLT (['Y'] ++ tok wNE ['Z'])) none
        = (some (mkBinary wNE (mkBinary wLT (numVar "X" NULL) (numVar "Y" NULL))
            (numVar "Z" NULL), []), none)) ∧
    ['X'] ++ tok wNE ['Y'] = "X <> Y".data ∧
    ['X'] ++ tok wLT (['Y'] ++ tok wNE ['Z']) = "X < Y <> Z".data ∧
    (parse "PRINT 1 < 2 <> 3".data).1.map (fun r => r.1.a0)
      = some (mkBinary wNE (mkBinary wLT (numLit 1) (numLit 2)) (numLit 3)) ∧
    (parse "PRINT A<>B".data).1.map (fun r => r.1.a0)
      = some (mkBinary wNE (numVar "A" NULL) (numVar "B" NULL)) :=
  ⟨C35_kludge_leaves_ne_to_equality 0 ['X'] ['Y'] ['Z'] _ _ _ none
    (atom_X _ _) (atom_Y _ _) (atom_Z _ _), rfl, rfl, by decide!, by decide!⟩

/-! ## Integer division and remainder (eval.c, divmod) -/

theorem neg_tmod_eq (a b : Int) : Int.tmod (-a) b = -(Int.tmod a b) := by
  rw [Int.tmod_def, Int.tmod_def, Int.neg_tdiv]; ring

theorem tmod_facts (x y : Int) (hy : y ≠ 0) :
    (0 ≤ x → 0 ≤ Int.tmod x y) ∧ (x ≤ 0 → Int.tmod x y ≤ 0) ∧ |Int.tmod x y| < |y| := by
  have key : ∀ a b : Nat, Int.tmod (a : Int) (b : Int) = ((a % b : Nat) : Int) := fun a b => rfl
  obtain ⟨a, rfl | rfl⟩ := Int.eq_nat_or_neg x <;> obtain ⟨b, rfl | rfl⟩ := Int.eq_nat_or_neg y
  all_goals
    have hb : b ≠ 0 := by intro h; subst h; simp at hy
    have hlt : a % b < b := Nat.mod_lt _ (Nat.pos_of_ne_zero hb)
    have hz : a = 0 → a % b = 0 := by intro h; subst h; simp
    simp only [Int.tmod_neg, neg_tmod_eq, key a b, abs_neg, Int.abs_natCast]
    refine ⟨?_, ?_, ?_⟩ <;> omega

theorem tdiv_facts (x y : Int) :
    (Int.tdiv x y).natAbs = x.natAbs / y.natAbs ∧
    (0 ≤ x * y → 0 ≤ Int.tdiv x y) ∧ (x * y ≤ 0 → Int.tdiv x y ≤ 0) := by
  have key : ∀ a b : Nat, Int.tdiv (a : Int) (b : Int) = ((a / b : Nat) : Int) := fun a b => rfl
  refine ⟨Int.natAbs_tdiv x y, ?_, ?_⟩ <;>
    obtain ⟨a, rfl | rfl⟩ := Int.eq_nat_or_neg x <;>
    obtain ⟨b, rfl | rfl⟩ := Int.eq_nat_or_neg y <;>
    simp only [Int.tdiv_neg, Int.neg_tdiv, key a b, neg_neg, mul_neg, neg_mul] <;>
    intro h
  all_goals
    have h0 : (0 : Int) ≤ ((a / b : Nat) : Int) := Int.ofNat_nonneg _
    first
      | omega
      | (have hab : (a : Int) * (b : Int) = 0 := by
           have : (0 : Int) ≤ (a : Int) * (b : Int) := by positivity
           omega
         rcases Int.mul_eq_zero.mp hab with h1 | h1
         · have : a = 0 := by exact_mod_cast h1
           subst this; simp
         · have : b = 0 := by exact_mod_cast h1
           subst this; simp)

theorem divmod_int (st : State) (x y : Int) (hx : in_int32 x) (hy : in_int32 y)
    (hy0 : y ≠ 0) (hov : ¬ (x = -2147483648 ∧ y = -1)) :
    divmod st (x : ℚ) (y : ℚ) wIDIV = (num_result ((Int.tdiv x y : Int) : ℚ), st) ∧
    divmod st (x : ℚ) (y : ℚ) wMOD = (num_result ((Int.tmod x y : Int) : ℚ), st) := by
  have h : ¬ (y = 0 ∨ (x = -2147483648 ∧ y = -1)) := by
    rintro (h | h)
    · exact hy0 h
    · exact hov h
  simp only [divmod, to_int_cast x hx, to_int_cast y hy, ne_eq, not_true_eq_false, or_self,
    if_false, h, num_result, and_self]

/-- C38: for 32-bit signed integers `x` and `y` with `y ≠ 0`, other than `x = -2^31` with
`y = -1`, given by any two expressions that yield them (the right one is evaluated
first), `x \ y` evaluates to the quotient truncated toward zero (its magnitude is the
whole part of `|x| / |y|`, its sign that of `x * y`) and `x MOD y` to the remainder,
which has the sign of `x`; the two satisfy `(x \ y) * y + (x MOD y) = x` and
`|x MOD y| < |y|`. -/
theorem C38_divmod_truncates_toward_zero (m : Libm) (st st1 st2 : State) (ea eb : lego)
    (x y : Int) (hb : evalloc m st eb = (num_result (y : ℚ), st1))
    (ha : evalloc m st1 ea = (num_result (x : ℚ), st2))
    (hx : in_int32 x) (hy : in_int32 y) (hy0 : y ≠ 0) (hov : ¬ (x = -2147483648 ∧ y = -1)) :
    ∃ q r : Int,
      evalloc m st (mkBinary wIDIV ea eb) = (num_result (q : ℚ), st2) ∧
      evalloc m st (mkBinary wMOD ea eb) = (num_result (r : ℚ), st2) ∧
      q * y + r = x ∧ |r| < |y| ∧ (0 ≤ x → 0 ≤ r) ∧ (x ≤ 0 → r ≤ 0) ∧
      q.natAbs = x.natAbs / y.natAbs ∧ (0 ≤ x * y → 0 ≤ q) ∧ (x * y ≤ 0 → q ≤ 0) := by
  obtain ⟨h1, h2⟩ := divmod_int st2 x y hx hy hy0 hov
  obtain ⟨r1, r2, r3⟩ := tmod_facts x y hy0
  obtain ⟨q1, q2, q3⟩ := tdiv_facts x y
  refine ⟨Int.tdiv x y, Int.tmod x y, ?_, ?_, Int.tdiv_add_tmod' x y, r3, r1, r2, q1, q2, q3⟩
  · rw [evalloc_binary_of m st st1 st2 wIDIV ea eb _ _ (by simp) hb ha]
    exact h1
  · rw [evalloc_binary_of m st st1 st2 wMOD ea eb _ _ (by simp) hb ha]
    exact h2

theorem C38_divmod_truncates_toward_zero_witness :
    ∃ q r : Int,
      evalloc Libm.none State.init (mkBinary wIDIV (numLit (-7)) (numLit 2))
        = (num_result (q : ℚ), State.init) ∧
      evalloc Libm.none State.init (mkBinary wMOD (numLit (-7)) (numLit 2))
        = (num_result (r : ℚ), State.init) ∧
      q * 2 + r = -7 ∧ |r| < |(2 : Int)| ∧ (0 ≤ (-7 : Int) → 0 ≤ r) ∧ ((-7 : Int) ≤ 0 → r ≤ 0) ∧
      q.natAbs = (-7 : Int).natAbs / (2 : Int).natAbs ∧ (0 ≤ (-7 : Int) * 2 → 0 ≤ q) ∧
      ((-7 : Int) * 2 ≤ 0 → q ≤ 0) :=
  C38_divmod_truncates_toward_zero Libm.none State.init State.init State.init
    (numLit (-7)) (numLit 2) (-7) 2
    (by simpa using evalloc_numLit Libm.none State.init 2)
    (by simpa using evalloc_numLit Libm.none State.init (-7))
    (by decide) (by decide) (by decide) (by decide)

theorem divmod_examples :
    output_of Libm.none 100 State.init "PRINT -7 \\ 2; [ ]; -7 MOD 2; [ ]; 7 \\ -2; [ ]; 7 MOD -2"
      = some "-3 -1 -3 1\n".data := by
  decide!

/-! ## NOT (eval.c, evalloc; parser.c, logic_not) -/

theorem keyword_NOT (r : List Char) :
    keyword ('N' :: 'O' :: 'T' :: ' ' :: r) ['n','o','t'] = some (' ' :: r) := rfl

/-- The loop of `logic_not` over `k` times `NOT`: the flag is flipped `k` times. -/
theorem logic_not_loop_nots (r : List Char) (hr : keyword r ['n','o','t'] = none) :
    ∀ (k fuel : Nat) (lead neg must : Bool), k < fuel →
      logic_not_loop fuel ((if lead then [' '] else []) ++ nots k r) neg must
        = some (if k = 0 then (if lead then [' '] else []) ++ r else ' ' :: r,
                if k % 2 = 1 then !neg else neg, must || decide (0 < k)) := by
  intro k
  induction k with
  | zero =>
    intro fuel lead neg must hf
    obtain ⟨f, rfl⟩ : ∃ f, fuel = f + 1 := ⟨fuel - 1, by omega⟩
    have hk : keyword ((if lead then [' '] else []) ++ r) ['n','o','t'] = none := by
      cases lead
      · simpa using hr
      · simpa [keyword_blank] using hr
    simp [logic_not_loop, nots, hk]
  | succ k ih =>
    intro fuel lead neg must hf
    obtain ⟨f, rfl⟩ : ∃ f, fuel = f + 1 := ⟨fuel - 1, by omega⟩
    have hk : keyword ((if lead then [' '] else []) ++ nots (k + 1) r) ['n','o','t']
        = some (' ' :: nots k r) := by
      cases lead
      · simpa [nots] using keyword_NOT (nots k r)
      · simpa [nots, keyword_blank] using keyword_NOT (nots k r)
    have h := ih f true (!neg) true (by omega)
    simp only [if_true, List.singleton_append] at h
    simp only [logic_not_loop, hk, h]
    by_cases h0 : k = 0
    · subst h0; simp
    · have : (k + 1) % 2 = 1 ↔ ¬ k % 2 = 1 := by omega
      by_cases hp : k % 2 = 1
      · have hq : ¬ (k + 1) % 2 = 1 := by omega
        simp [h0, hp, hq]
      · have hq : (k + 1) % 2 = 1 := by omega
        simp [h0, hp, hq]

theorem evalloc_not (m : Libm) (st st1 : State) (e : lego) (x : ℚ)
    (he : evalloc m st e = (num_result x, st1)) :
    evalloc m st (mkUnary wNOT e) = (num_result (if x = 0 then 1 else 0), st1) := by
  simp +decide [evalloc, mkUnary, Fields.zero, count_args, What.ord, he, num_result,
    computed.zero, apply_op]

/-- C39: `NOT` is logical: for an operand that yields the number `x`, `NOT` yields 1 when
`x` is 0 and 0 otherwise. And `logic_not` reads `k` times `NOT` before an operand that
`equality` reads as `t` (the text `r` does not start with another `NOT`) as `t` itself
when `k` is even and as one `NOT` lego over `t` when `k` is odd. -/
theorem C39_not_is_logical (m : Libm) (st st1 : State) (e : lego) (x : ℚ)
    (fuel : Nat) (ne se : Parser) (k : Nat) (r s1 : List Char) (w w1 : Option String)
    (t : lego)
    (he : evalloc m st e = (num_result x, st1))
    (hk : k < fuel) (hr : keyword r ['n','o','t'] = none)
    (ht : equality fuel ne se (if k = 0 then r else ' ' :: r) w = (some (t, s1), w1)) :
    evalloc m st (mkUnary wNOT e) = (num_result (if x = 0 then 1 else 0), st1) ∧
    logic_not fuel ne se (nots k r) w
      = (some (if k % 2 = 1 then mkUnary wNOT t else t, s1), w1) := by
  refine ⟨evalloc_not m st st1 e x he, ?_⟩
  have h := logic_not_loop_nots r hr k fuel false false false hk
  simp only [Bool.false_eq_true, if_false, List.nil_append] at h
  simp only [logic_not, h, ht]
  by_cases hp : k % 2 = 1 <;> simp [hp]

theorem C39_not_is_logical_witness :
    (evalloc Libm.none State.init (mkUnary wNOT (mkBinary wEQ (numLit 1) (numLit 2)))
        = (num_result (if (0 : ℚ) = 0 then 1 else 0), State.init) ∧
      logic_not 9 (num_exp 8) (str_exp 8) (nots 3 "X".data) none
        = (some (if 3 % 2 = 1 then mkUnary wNOT (numVar "X" NULL) else numVar "X" NULL, []),
           none)) ∧
    nots 3 "X".data = "NOT NOT NOT X".data ∧
    output_of Libm.none 100 State.init "PRINT NOT 1 = 2; [ ]; 1 = 1; [ ]; NOT 7; [ ]; NOT NOT 7"
      = some "1 -1 0 7\n".data ∧
    (parse "PRINT NOT NOT X".data).1.map (fun r => r.1.a0) = some (numVar "X" NULL) ∧
    (parse "PRINT NOT NOT NOT X".data).1.map (fun r => r.1.a0)
      = some (mkUnary wNOT (numVar "X" NULL)) :=
  ⟨C39_not_is_logical Libm.none State.init State.init (mkBinary wEQ (numLit 1) (numLit 2)) 0
    9 (num_exp 8) (str_exp 8) 3 "X".data [] none none (numVar "X" NULL)
    (by decide!) (by decide) (by decide) (by decide!), by decide, by decide!, by decide!,
    by decide!⟩

/-! ## INSTR (eval.c, evalloc) -/

theorem startsWith_iff : ∀ (hay needle : List Char),
    startsWith hay needle = true ↔ needle <+: hay := by
  intro hay needle
  induction needle generalizing hay with
  | nil => cases hay <;> simp [startsWith]
  | cons c needle ih =>
    cases hay with
    | nil => simp [startsWith]
    | cons h hay =>
      simp only [startsWith, Bool.and_eq_true, decide_eq_true_eq, ih, List.cons_prefix_cons]
      constructor
      · rintro ⟨rfl, h2⟩; exact ⟨rfl, h2⟩
      · rintro ⟨rfl, h2⟩; exact ⟨rfl, h2⟩

/-- `strstr` finds the first offset at which the needle starts, if there is one. -/
theorem strstr_spec : ∀ (hay needle : List Char),
    (∀ k, strstr hay needle = some k →
      needle <+: hay.drop k ∧ ∀ j < k, ¬ needle <+: hay.drop j) ∧
    (strstr hay needle = none → ∀ j, ¬ needle <+: hay.drop j) := by
  intro hay needle
  induction hay with
  | nil =>
    cases needle with
    | nil => simp [strstr]
    | cons c t => simp [strstr]
  | cons h hay ih =>
    by_cases hs : startsWith (h :: hay) needle = true
    · have hp := (startsWith_iff _ _).mp hs
      simp only [strstr, hs, if_true, Option.some.injEq, reduceCtorEq, false_implies, and_true]
      intro k hk
      subst hk
      exact ⟨by simpa using hp, by intro j hj; omega⟩
    · have hp : ¬ needle <+: h :: hay := fun c => hs ((startsWith_iff _ _).mpr c)
      simp only [strstr, hs, Bool.false_eq_true, if_false, Option.map_eq_some',
        Option.map_eq_none']
      constructor
      · rintro k ⟨k0, hk0, rfl⟩
        obtain ⟨h1, h2⟩ := ih.1 k0 hk0
        refine ⟨by simpa using h1, ?_⟩
        intro j hj
        cases j with
        | zero => simpa using hp
        | succ j => simpa using h2 j (by omega)
      · intro hn j
        cases j with
        | zero => simpa using hp
        | succ j => simpa using ih.2 hn j

theorem drop_pos (hay : List Char) (i p : Nat) (hi : 1 ≤ i) (hp : i ≤ p) :
    hay.drop (p - 1) = (hay.drop (i - 1)).drop (p - i) := by
  rw [List.drop_drop]
  congr 1
  omega

/-- What `INSTR` computes from a start `i` within 1 .. 2147483646 and two strings. -/
theorem apply_instr (m : Libm) (st : State) (i : Nat) (hay needle : List Char)
    (hi1 : 1 ≤ i) (hi2 : i ≤ 2147483646) :
    ∃ v : Nat,
      apply_op m st wINSTR (num_result (i : ℚ)) (str_result hay) (str_result needle)
        = (num_result (v : ℚ), st) ∧
      (v = 0 ↔ (hay.length < i ∨ ∀ p, i ≤ p → ¬ occurs_at hay needle p)) ∧
      (v ≠ 0 → i ≤ v ∧ occurs_at hay needle v ∧
        ∀ p, i ≤ p → occurs_at hay needle p → v ≤ p) := by
  have hb := bad_int_nat i 1 hi1 hi2
  simp only [Nat.cast_one] at hb
  have hti : (to_int (i : ℚ)).toNat = i := by
    rw [to_int_nat i (by omega)]; simp
  by_cases hlen : hay.length < i
  · refine ⟨0, ?_, by simp [hlen], by simp⟩
    have hgt : ((i : ℚ) > ((hay.length : Nat) : ℚ)) := by exact_mod_cast hlen
    simp [apply_op, num_result, str_result, hb, computed.deref, hgt]
  · have hle : i ≤ hay.length := not_lt.mp hlen
    have hgt : ¬ ((i : ℚ) > ((hay.length : Nat) : ℚ)) := by
      rw [gt_iff_lt, not_lt]; exact_mod_cast hle
    obtain ⟨hsome, hnone⟩ := strstr_spec (hay.drop (i - 1)) needle
    cases hk : strstr (hay.drop (i - 1)) needle with
    | none =>
      refine ⟨0, ?_, ?_, by simp⟩
      · simp [apply_op, num_result, str_result, hb, computed.deref, hgt, hti, hk]
      · simp only [true_iff]
        right
        intro p hp hocc
        have := hnone hk (p - i)
        rw [← drop_pos hay i p hi1 hp] at this
        exact this hocc.2
    | some k =>
      obtain ⟨h1, h2⟩ := hsome k hk
      have hocc : occurs_at hay needle (i - 1 + k + 1) := by
        refine ⟨by omega, ?_⟩
        rw [drop_pos hay i (i - 1 + k + 1) hi1 (by omega)]
        have : i - 1 + k + 1 - i = k := by omega
        rw [this]; exact h1
      refine ⟨i - 1 + k + 1, ?_, ?_, ?_⟩
      · simp [apply_op, num_result, str_result, hb, computed.deref, hgt, hti, hk]
      · constructor
        · intro h; omega
        · rintro (h | h)
          · omega
          · exact absurd hocc (h _ (by omega))
      · intro _
        refine ⟨by omega, hocc, ?_⟩
        intro p hp hoccp
        by_contra hlt
        have hj : p - i < k := by omega
        have := h2 (p - i) hj
        rw [← drop_pos hay i p hi1 hp] at this
        exact this hoccp.2

/-- C40: for every integer `i` from 1 to 2147483646 and all strings `hay` and `needle`,
given by expressions that yield them and leave the state alone, `INSTR(i, hay, needle)`
evaluates to a Number `v`: `v` is 0 exactly when `i > LEN(hay)` or `needle` occurs in
`hay` at no position `p ≥ i`; otherwise `v` is the smallest position `p ≥ i` at which
`needle` occurs. An empty needle with `i ≤ LEN(hay)` yields `i`. -/
theorem C40_instr_first_occurrence (m : Libm) (st : State) (I H N : lego) (i : Nat)
    (hay needle : List Char)
    (hI : evalloc m st I = (num_result (i : ℚ), st))
    (hH : evalloc m st H = (str_result hay, st))
    (hN : evalloc m st N = (str_result needle, st))
    (hi1 : 1 ≤ i) (hi2 : i ≤ 2147483646) :
    ∃ v : Nat,
      evalloc m st (call wINSTR I H N) = (num_result (v : ℚ), st) ∧
      (v = 0 ↔ (hay.length < i ∨ ∀ p, i ≤ p → ¬ occurs_at hay needle p)) ∧
      (v ≠ 0 → i ≤ v ∧ occurs_at hay needle v ∧
        ∀ p, i ≤ p → occurs_at hay needle p → v ≤ p) ∧
      (needle = [] → i ≤ hay.length → v = i) := by
  obtain ⟨v, h1, h2, h3⟩ := apply_instr m st i hay needle hi1 hi2
  refine ⟨v, ?_, h2, h3, ?_⟩
  · rw [evalloc_call3 m st st st st wINSTR I H N _ _ _ (by simp) hN (str_result_what _) hH
      (str_result_what _) hI (num_result_what _)]
    exact h1
  · intro hn hle
    subst hn
    have hocc : occurs_at hay [] i := ⟨hi1, List.nil_prefix⟩
    have hv : v ≠ 0 := by
      intro h0
      rcases h2.mp h0 with h | h
      · omega
      · exact h i (le_refl _) hocc
    obtain ⟨h4, -, h5⟩ := h3 hv
    exact le_antisymm (h5 i (le_refl _) hocc) h4

theorem C40_instr_first_occurrence_witness :
    ∃ v : Nat,
      evalloc Libm.none State.init
          (call wINSTR (numLit 3) (strLit "abcabc".data) (strLit "bc".data))
        = (num_result (v : ℚ), State.init) ∧
      (v = 0 ↔ ("abcabc".data.length < 3 ∨
        ∀ p, 3 ≤ p → ¬ occurs_at "abcabc".data "bc".data p)) ∧
      (v ≠ 0 → 3 ≤ v ∧ occurs_at "abcabc".data "bc".data v ∧
        ∀ p, 3 ≤ p → occurs_at "abcabc".data "bc".data p → v ≤ p) ∧
      ("bc".data = [] → 3 ≤ "abcabc".data.length → v = 3) :=
  C40_instr_first_occurrence Libm.none State.init (numLit 3) (strLit "abcabc".data)
    (strLit "bc".data) 3 "abcabc".data "bc".data
    (by simpa using evalloc_numLit Libm.none State.init 3) (evalloc_strLit _ _ _)
    (evalloc_strLit _ _ _) (by decide) (by decide)

theorem instr_examples :
    output_of Libm.none 100 State.init
      "PRINT INSTR(3, [abcabc], [bc]); [ ]; INSTR(1, [abcabc], [bc]); [ ]; INSTR(6, [abcabc], [bc]); [ ]; INSTR(2, [abc], []); [ ]; INSTR(4, [abc], [])"
      = some "5 2 0 2 0\n".data ∧
    (parse "PRINT INSTR(3, [abcabc], [bc])".data).1.map (fun r => r.1.a0)
      = some (call wINSTR (numLit 3) (strLit "abcabc".data) (strLit "bc".data)) := by
  decide!

/-! ## Changes of the store and the program context (run.c) -/

theorem reset_program_cleared (st : State) : context_cleared (reset_program st) :=
  ⟨rfl, rfl, rfl, rfl⟩

/-- C32: after each operation that changes the store — `save_line` for a numbered line
that was typed in, `del` when the range selects a stored line, `erase_program` for `NEW` —
the program context has an empty `GOSUB` stack, an empty `FOR` stack and null line and
statement cursors; and in such a state `CONT` is diagnosed with "can't continue" and the
program does not run. -/
theorem C32_store_mutation_clears_context (m : Libm) (st : State) :
    (∀ l : lego, context_cleared (save_line st l)) ∧
    (∀ vi de : ℚ, (∃ l ∈ stored_lines st.program, selected vi de l.n) →
      context_cleared (del st vi de)) ∧
    context_cleared (erase_program st) ∧
    (context_cleared st → st.warning = none → st.ctrl_c = 0 →
      immediate_round m
          { st := st, imm := newLego wCONT,
            imm_con := { x_con.zero with stmt := some { root := none, path := [] }, lNum := -1 },
            running := false }
        = Sum.inr
            { st := { advise (st.warn "can't continue") "can't continue".data false
                        st.prog_con.lNum with warning := none },
              imm := newLego wCONT, imm_con := { x_con.zero with lNum := -1 },
              running := false }) := by
  refine ⟨fun l => ⟨rfl, rfl, rfl, rfl⟩, fun vi de h => ?_, ⟨rfl, rfl, rfl, rfl⟩,
    fun hc hw hcc => round_cont_refuses m st hw hcc hc.2.2.1⟩
  have hany := (del_chain_any vi de st.program).mpr h
  simp only [del, hany, Bool.not_true, Bool.false_eq_true, false_and, if_false]
  exact reset_program_cleared _

theorem C32_store_mutation_clears_context_witness :
    ((∀ l : lego, context_cleared (save_line State.init l)) ∧
      (∀ vi de : ℚ, (∃ l ∈ stored_lines State.init.program, selected vi de l.n) →
        context_cleared (del State.init vi de)) ∧
      context_cleared (erase_program State.init) ∧
      (context_cleared State.init → State.init.warning = none → State.init.ctrl_c = 0 →
        immediate_round Libm.none
            { st := State.init, imm := newLego wCONT,
              imm_con :=
                { x_con.zero with stmt := some { root := none, path := [] }, lNum := -1 },
              running := false }
          = Sum.inr
              { st := { advise (State.init.warn "can't continue") "can't continue".data false
                          State.init.prog_con.lNum with warning := none },
                imm := newLego wCONT, imm_con := { x_con.zero with lNum := -1 },
                running := false })) ∧
    (session (stop_program ++ ["RUN"])).map
        (fun st => (st.prog_con.ret_to.length, st.prog_con.next_to.length, st.prog_con.line))
      = some (1, 1, some 20) ∧
    (session (stop_program ++ ["RUN", "30 REM"])).map (fun st => decide (context_cleared st))
      = some true ∧
    (session (stop_program ++ ["RUN", "DEL 20"])).map (fun st => decide (context_cleared st))
      = some true ∧
    (session (stop_program ++ ["RUN", "NEW"])).map (fun st => decide (context_cleared st))
      = some true ∧
    (session (stop_program ++ ["RUN"])).map (fun st => st.out) = some "break in 20\nOk\n".data ∧
    (session (stop_program ++ ["RUN", "30 REM", "CONT"])).map (fun st => st.out)
      = some "break in 20\nOk\ncan't continue\nOk\n".data :=
  ⟨C32_store_mutation_clears_context Libm.none State.init, by decide!, by decide!,
    by decide!, by decide!, by decide!, by decide!⟩

/-! ## The data cursor after a change of the store (run.c) -/

/-- C33 (the code resets the data cursor before it changes the store): `save_line` calls
`reset_program` first and splices the line in, or out, afterwards, so the data cursor's
line is the head of the store as it was before, not of the resulting store; `erase_program`
resets first and removes the lines afterwards, so the cursor keeps the old head although
the store is empty. Only `del` resets after the change, and there the claim holds. So
after `10 DATA 7` is typed into the empty store the cursor is null and `READ A` reports
"out of data"; after `20 DATA 2` and then `10 DATA 1` the cursor is at line 20 and
`READ A : PRINT A` prints 2; after line 10 is typed and then deleted by typing `10`, and
after `NEW`, the cursor still names line 10, which is not stored any more. -/
theorem C33_data_cursor_is_reset_before_the_store_changes :
    (∀ (st : State) (l : lego),
      (save_line st l).prog_con.data_line = line_ptr st.program ∧
      (save_line st l).prog_con.data_stmt = none ∧
      (save_line st l).prog_con.data_datum = none) ∧
    (∀ st : State,
      (erase_program st).prog_con.data_line = line_ptr st.program ∧
      (erase_program st).program = NULL) ∧
    (∀ (st : State) (vi de : ℚ), (∃ l ∈ stored_lines st.program, selected vi de l.n) →
      (del st vi de).prog_con.data_line = line_ptr (del st vi de).program ∧
      (del st vi de).prog_con.data_stmt = none ∧
      (del st vi de).prog_con.data_datum = none) ∧
    (session ["10 DATA 7"]).map (fun st => (line_ptr st.program, st.prog_con.data_line))
      = some (some 10, none) ∧
    (session ["10 DATA 7", "READ A"]).map (fun st => st.out) = some "out of data\nOk\n".data ∧
    (session ["20 DATA 2", "10 DATA 1"]).map
        (fun st => (line_ptr st.program, st.prog_con.data_line)) = some (some 10, some 20) ∧
    (session ["20 DATA 2", "10 DATA 1", "READ A : PRINT A"]).map (fun st => st.out)
      = some "2\nOk\n".data ∧
    (session ["10 DATA 1", "20 DATA 2", "10"]).map
        (fun st => (line_numbers st.program, st.prog_con.data_line)) = some ([20], some 10) ∧
    (session ["10 DATA 1", "NEW"]).map
        (fun st => (line_numbers st.program, st.prog_con.data_line)) = some ([], some 10) := by
  refine ⟨fun st l => ⟨rfl, rfl, rfl⟩, fun st => ⟨rfl, rfl⟩, fun st vi de h => ?_,
    by decide!, by decide!, by decide!, by decide!, by decide!, by decide!⟩
  have hany := (del_chain_any vi de st.program).mpr h
  simp only [del, hany, Bool.not_true, Bool.false_eq_true, false_and, if_false]
  exact ⟨rfl, rfl, rfl⟩

/-! ## Links and variables in immediate commands (run.c) -/

/-- C31 (the code follows a link to a deleted line): for the store `10 PRINT 1` and the
immediate command `DEL 10 : GOTO 10`, `immediate` links the whole command first, so the
line reference of `GOTO` gets the link to line 10; the round of `DEL` removes that line
from the store; the round of `GOTO` reads the link all the same, makes it the start of
the program and sets `running`: the program context then stands at line 10, which the
store does not hold. In the embedding the next step stops the process. -/
theorem C31_goto_follows_link_to_deleted_line :
    line_numbers (typed_in ["10 PRINT 1"]).program = [10] ∧
    (link (typed_in ["10 PRINT 1"]).program (typed_in ["10 PRINT 1"])
      (command_of "DEL 10 : GOTO 10") (-1)).bad = 0 ∧
    (first_frame (typed_in ["10 PRINT 1"]) (command_of "DEL 10 : GOTO 10")).imm.next.what
      = wGOTO ∧
    (first_frame (typed_in ["10 PRINT 1"]) (command_of "DEL 10 : GOTO 10")).imm.next.a0.link
      = some 10 ∧
    (rounds Libm.none 1
        (first_frame (typed_in ["10 PRINT 1"]) (command_of "DEL 10 : GOTO 10"))).map
      (fun fr => (line_numbers fr.st.program, (find_line fr.st.program 10).isNull,
                  fr.imm.next.a0.link, fr.running))
      = some ([], true, some 10, false) ∧
    (rounds Libm.none 2
        (first_frame (typed_in ["10 PRINT 1"]) (command_of "DEL 10 : GOTO 10"))).map
      (fun fr => (line_numbers fr.st.program, fr.st.start_at, fr.st.prog_con.line, fr.running))
      = some ([], some 10, some 10, true) ∧
    (run_state Libm.none 100 (typed_in ["10 PRINT 1"]) "DEL 10 : GOTO 10").map
      (fun st => st.halt) = some (some "dangling pointer") := by
  refine ⟨by decide!, by decide!, by decide!, by decide!, by decide!, by decide!, by decide!⟩

/-- C36 (the code exits with "bad hack"): in the immediate command
`FOR I=1 TO 2 : NEW : NEXT` the round of `FOR` pushes a frame for `I` on the `FOR` stack
of the immediate context and sets `I`; the round of `NEW` erases the variables but leaves
that stack alone; `NEXT` then selects the frame for `I`, `num_from_name_hack` does not find
`I`, prints "bad hack" and exits. -/
theorem C36_next_after_new_hits_bad_hack :
    (rounds Libm.none 1 (first_frame State.init (command_of "FOR I=1 TO 2 : NEW : NEXT"))).map
      (fun fr => (fr.imm_con.next_to.map (fun f => f.nVar), num_value fr.st "I"))
      = some (["I".data], some 1) ∧
    (rounds Libm.none 2 (first_frame State.init (command_of "FOR I=1 TO 2 : NEW : NEXT"))).map
      (fun fr => (fr.imm_con.next_to.map (fun f => f.nVar), fr.st.numDB, fr.st.halt))
      = some (["I".data], [], none) ∧
    (rounds Libm.none 3 (first_frame State.init (command_of "FOR I=1 TO 2 : NEW : NEXT"))).map
      (fun fr => (fr.st.out, fr.st.halt))
      = some ("bad hack\n".data, some "exit(1)") ∧
    (num_from_name_hack State.init "I".data).2.halt = some "exit(1)" ∧
    (run_state Libm.none 100 State.init "FOR I=1 TO 2 : NEW : NEXT").map
      (fun st => (st.out, st.halt)) = some ("bad hack\n".data, some "exit(1)") ∧
    main Libm.none 100 ["FOR I=1 TO 2 : NEW : NEXT".data, "PRINT 1".data]
      = some "Ok\nbad hack\n".data := by
  refine ⟨by decide!, by decide!, by decide!, by decide!, by decide!, by decide!⟩

/-! ## The contexts under the routines that run a statement -/

theorem con_crash (st : State) (why : String) : (st.crash why).prog_con = st.prog_con := by
  unfold State.crash; split <;> rfl

theorem con_warn (st : State) (why : String) : (st.warn why).prog_con = st.prog_con := rfl

theorem con_print (st : State) (t : List Char) : (st.print t).prog_con = st.prog_con := rfl

theorem con_flash (st : State) (c : Char) : (flash st c).prog_con = st.prog_con := by
  unfold flash; split <;> rfl

theorem con_set_var (st : State) (name : List Char) (s : Option (List Char)) (n : ℚ) :
    (set_var st name s n).prog_con = st.prog_con := by
  unfold set_var; split <;> rfl

theorem con_deref (c : computed) (st : State) : (c.deref st).2.prog_con = st.prog_con := by
  unfold computed.deref; split
  · rfl
  · exact con_crash _ _

theorem con_csprng (st : State) (x : ℚ) : (csprng st x).2.prog_con = st.prog_con := by
  unfold csprng
  split
  · rfl
  · split <;> rfl

theorem con_boolean_logic (st : State) (x y : ℚ) (w : What) :
    (boolean_logic st x y w).2.prog_con = st.prog_con := by
  unfold boolean_logic
  split
  · rfl
  · rfl

theorem con_divmod (st : State) (x y : ℚ) (w : What) :
    (divmod st x y w).2.prog_con = st.prog_con := by
  unfold divmod
  split
  · rfl
  · dsimp only
    split
    · split
      · exact con_crash _ _
      · rfl
    · split
      · exact con_crash _ _
      · rfl
    · rfl

theorem con_except_with (st : State) (why : String) :
    (except_with st why).2.prog_con = st.prog_con := rfl

set_option maxHeartbeats 1600000 in
/-- No operator touches the program context. -/
theorem con_apply_op (m : Libm) (st : State) (w : What) (x y z : computed) :
    (apply_op m st w x y z).2.prog_con = st.prog_con := by
  cases w <;>
    simp only [apply_op, con_boolean_logic, con_divmod, con_csprng, con_deref,
      con_except_with] <;>
    (repeat' split) <;>
    first
      | rfl
      | exact con_except_with _ _
      | exact con_crash _ _
      | (simp only [con_crash, con_deref, con_except_with, con_warn]; done)
      | (rename_i h; have e := con_deref x st; rw [h] at e; exact e)
      | (rename_i h; have e := con_deref y st; rw [h] at e; exact e)

/-- Evaluating an expression does not touch the program context. -/
theorem con_evalloc (m : Libm) (l : lego) :
    ∀ st : State, (evalloc m st l).2.prog_con = st.prog_con := by
  induction l with
  | NULL => intro st; exact con_crash _ _
  | node f a0 a1 a2 a3 nx ih0 ih1 ih2 _ _ =>
    intro st
    simp only [evalloc]
    split
    · rfl
    · rfl
    · split <;> rfl
    · split <;> rfl
    · split_ifs <;>
        simp only [ih0, ih1, ih2, con_apply_op, con_except_with, computed.zero]

theorem con_for_param (m : Libm) (st : State) (a : lego) :
    (for_param m st a).2.prog_con = st.prog_con := by
  unfold for_param
  split
  · rfl
  · have := con_evalloc m a st
    split
    rename_i q st1 h
    rw [h] at this
    split <;> exact this

theorem con_runPrint_loop (m : Libm) (l : lego) :
    ∀ st : State, (runPrint_loop m st l).2.prog_con = st.prog_con := by
  induction l with
  | NULL => intro st; rfl
  | node f a0 a1 a2 a3 nx _ _ _ _ ihn =>
    intro st
    have he := con_evalloc m (node f a0 a1 a2 a3 nx) st
    simp only [runPrint_loop]
    split
    · exact he
    · rw [ihn]
      split_ifs <;> exact he

theorem con_runPrint (m : Libm) (st : State) (l : lego) :
    (runPrint m st l).2.prog_con = st.prog_con := by
  unfold runPrint
  rw [con_runPrint_loop]
  split <;> rfl

theorem con_list (st : State) (vi de : ℚ) : (list st vi de).prog_con = st.prog_con := by
  unfold list
  dsimp only
  split <;> rfl

theorem con_do_alter (st : State) (vi de : lego) :
    (do_alter st vi de).prog_con = st.prog_con := by
  unfold do_alter
  split
  · exact con_crash _ _
  · split
    · exact con_crash _ _
    · dsimp only
      split <;> rfl

theorem con_read_line (st : State) : (read_line st).2.prog_con = st.prog_con := by
  unfold read_line; split <;> rfl

theorem con_num_from_name_hack (st : State) (name : List Char) :
    (num_from_name_hack st name).2.prog_con = st.prog_con := by
  unfold num_from_name_hack
  split
  · rfl
  · exact con_crash _ _

theorem con_byItself (st : State) : (byItself st).prog_con = st.prog_con := by
  unfold byItself; split <;> rfl

theorem con_advise (st : State) (msg : List Char) (ran : Bool) (lNum : ℚ) :
    (advise st msg ran lNum).prog_con = st.prog_con := by
  unfold advise
  split
  · rfl
  · rw [con_flash, con_print, con_flash, con_byItself]

theorem con_link (prog : lego) : ∀ (l : lego) (st : State) (w : ℚ),
    (link prog st l w).st.prog_con = st.prog_con := by
  intro l
  induction l with
  | NULL => intro st w; rfl
  | node f a0 a1 a2 a3 nx ih0 ih1 ih2 ih3 ihn =>
    intro st w
    simp only [link]
    rw [ihn]
    split_ifs <;> simp only [ih0, ih1, ih2, ih3, con_warn, con_flash, con_print]

/-! ## The `FOR` stack under input and `READ` -/

theorem con_read_line_eq (st st1 : State) (s : Option (List Char))
    (h : read_line st = (s, st1)) : st1.prog_con = st.prog_con := by
  have := con_read_line st
  rw [h] at this
  exact this

theorem con_get_inputs_loop (prompt : List Char) (redo : lego) :
    ∀ (fuel : Nat) (st : State) (l : lego) (s : Option (List Char)) (st' : State),
      get_inputs_loop prompt redo fuel st l s = some st' → st'.prog_con = st.prog_con := by
  intro fuel
  induction fuel with
  | zero => intro st l s st' h; simp [get_inputs_loop] at h
  | succ fuel ih =>
    intro st l s st' h
    unfold get_inputs_loop at h
    dsimp only at h
    repeat' split at h
    all_goals
      first
        | (simp only [Option.some.injEq] at h; subst h; rfl)
        | (simp only [Option.some.injEq] at h; subst h; simp only [con_set_var]; done)
        | (rw [ih _ _ _ _ h]; simp only [con_read_line, con_print, con_flash, con_set_var]; done)

theorem con_get_inputs (fuel : Nat) (st st' : State) (l : lego) (prompt : List Char)
    (h : get_inputs fuel st l prompt = some st') : st'.prog_con = st.prog_con := by
  unfold get_inputs at h
  have h1 := con_get_inputs_loop _ _ _ _ _ _ _ h
  rw [h1]
  exact (con_read_line _).trans (con_print _ _)

theorem fors_of_con (a b : State) (h : a.prog_con = b.prog_con) : a.fors = b.fors := by
  unfold State.fors; rw [h]

theorem fors_get_next_data : ∀ (fuel : Nat) (st : State) (r : Option Ptr) (st' : State),
    get_next_data fuel st = some (r, st') → st'.fors = st.fors := by
  intro fuel
  induction fuel with
  | zero => intro st r st' h; simp [get_next_data] at h
  | succ fuel ih =>
    intro st r st' h
    unfold get_next_data at h
    repeat' split at h
    all_goals
      first
        | (simp only [Option.some.injEq, Prod.mk.injEq] at h; obtain ⟨-, h⟩ := h; subst h; rfl)
        | (rw [ih _ _ _ h]; rfl)

theorem fors_read_loop (m : Libm) (l : lego) :
    ∀ st : State, (read_loop m st l).2.fors = st.fors := by
  induction l with
  | NULL => intro st; rfl
  | node f a0 a1 a2 a3 nx _ _ _ _ ihn =>
    intro st
    simp only [read_loop]
    split
    · exact fors_of_con _ _ (con_crash _ _)
    · rename_i st1 h
      exact (fors_of_con _ _ (con_warn _ _)).trans (fors_get_next_data _ _ _ _ h)
    · rename_i datum st1 h
      have h1 := fors_get_next_data _ _ _ _ h
      have h2 := fors_of_con _ _ (con_evalloc m (deref st1.program NULL datum) st1)
      split_ifs <;>
        first
          | exact h2.trans h1
          | (rw [ihn]; exact (fors_of_con _ _ (con_warn _ _)).trans (h2.trans h1))
          | (rw [ihn]; exact (fors_of_con _ _ (con_set_var _ _ _ _)).trans (h2.trans h1))
          | exact (fors_of_con _ _ (con_warn _ _)).trans (h2.trans h1)

/-! ## A step on the `FOR` stacks -/

theorem expire_suffix (s : List next_stack) (v : Option (List Char)) (b : Bool) :
    expire_next_stack s v b <:+ s := by
  unfold expire_next_stack
  split
  · exact List.suffix_refl _
  · exact List.drop_suffix _ _

theorem stack_step_refl (s : List next_stack) : stack_step s s := Or.inl (List.suffix_refl _)

theorem stack_step_nil (s : List next_stack) : stack_step s [] := Or.inl List.nil_suffix

theorem seek_next_to (p : lego) (c : x_con) : (seek_stmt p c).next_to = c.next_to := by
  unfold seek_stmt
  split
  · rfl
  · split <;> rfl

theorem next_to_reset (st : State) : (reset_program st).prog_con.next_to = [] := rfl

theorem next_to_del (st : State) (vi de : ℚ) :
    stack_step st.prog_con.next_to (del st vi de).prog_con.next_to := by
  unfold del
  dsimp only
  split
  · exact stack_step_refl _
  · exact stack_step_nil _

theorem pair_con {α : Type} {r : α × State} {a : α} {s1 : State} (h : r = (a, s1))
    {c : x_con} (hc : r.2.prog_con = c) : s1.prog_con = c := by
  subst h; exact hc

theorem pair_fors {α : Type} {r : α × State} {a : α} {s1 : State} (h : r = (a, s1))
    {c : List next_stack} (hc : r.2.fors = c) : s1.prog_con.next_to = c := by
  subst h; exact hc

theorem suffix_of_expire {s : List next_stack} {v : Option (List Char)} {b : Bool}
    {n : next_stack} {r : List next_stack} (h : expire_next_stack s v b = n :: r) : r <:+ s :=
  (List.suffix_cons n r).trans (h ▸ expire_suffix s v b)

set_option maxHeartbeats 4000000 in
theorem single_step_stacks_prog (m : Libm) (imm : lego) (st : State) (ic : x_con) :
    stack_step st.prog_con.next_to (single_step m imm true st ic).2.1.prog_con.next_to ∧
    (single_step m imm true st ic).2.2.next_to = ic.next_to := by
  unfold single_step
  simp only [getc, updc, if_true]
  split
  · exact ⟨Or.inl (by simp [seek_next_to]), rfl⟩
  · split
    · refine ⟨?_, rfl⟩
      simp only [con_crash, seek_next_to]
      exact stack_step_refl _
    · split
      all_goals try (
        (repeat' split) <;> (refine ⟨?_, ?_⟩ <;>
        (try simp only [con_crash, con_warn, con_print, con_flash, con_set_var, con_list, con_runPrint,
          con_evalloc, con_do_alter, con_read_line, con_num_from_name_hack, con_for_param,
          con_get_inputs, con_advise, seek_next_to]) <;>
        first | exact stack_step_refl _ | rfl | done))
      all_goals (
        (repeat' split) <;> (refine ⟨?_, ?_⟩ <;>
        (try simp only [con_crash, con_warn, con_print, con_flash, con_set_var, con_list, con_runPrint,
          con_evalloc, con_do_alter, con_read_line, con_num_from_name_hack, con_for_param,
          con_get_inputs, con_advise, seek_next_to] at *) <;>
        try first | exact stack_step_refl _ | rfl | done))
      all_goals first
        | exact Or.inl (expire_suffix _ _ _)
        | exact Or.inl (suffix_of_expire ‹expire_next_stack _ _ _ = _›)
        | (have e := pair_con ‹runPrint _ _ _ = _› (con_runPrint _ _ _)
           rw [e]; exact stack_step_refl _)
        | (have e := pair_fors ‹read_loop _ _ _ = _› (fors_read_loop _ _ _)
           rw [e]; exact stack_step_refl _)
        | (have e := con_get_inputs _ _ _ _ _ ‹get_inputs _ _ _ _ = _›
           rw [e]; exact stack_step_refl _)
        | (have e := con_read_line_eq _ _ _ ‹read_line _ = _›
           rw [e]; exact stack_step_refl _)
        | (have e1 := pair_con ‹for_param _ _ (lego.a1 _) = _› (con_for_param _ _ _)
           have e2 := pair_con ‹for_param _ _ (lego.a2 _) = _› (con_for_param _ _ _)
           have e3 := pair_con ‹for_param _ _ (lego.a3 _) = _› (con_for_param _ _ _)
           rw [e3, e2, e1]
           first | exact stack_step_refl _ | exact Or.inr ⟨_, rfl⟩)
        | (have e1 := pair_con ‹for_param _ _ (lego.a1 _) = _› (con_for_param _ _ _)
           have e2 := pair_con ‹for_param _ _ (lego.a2 _) = _› (con_for_param _ _ _)
           rw [e2, e1]
           exact stack_step_refl _)
        | (have e1 := pair_con ‹for_param _ _ (lego.a1 _) = _› (con_for_param _ _ _)
           rw [e1]
           exact stack_step_refl _)

set_option maxHeartbeats 4000000 in
theorem single_step_stacks_imm (m : Libm) (imm : lego) (st : State) (ic : x_con) :
    stack_step st.prog_con.next_to (single_step m imm false st ic).2.1.prog_con.next_to ∧
    stack_step ic.next_to (single_step m imm false st ic).2.2.next_to := by
  unfold single_step
  simp only [getc, updc, Bool.false_eq_true, if_false]
  split
  · exact ⟨stack_step_refl _, Or.inl (by simp [seek_next_to])⟩
  · split
    · refine ⟨?_, ?_⟩ <;> simp only [con_crash, seek_next_to] <;> exact stack_step_refl _
    · split
      all_goals try (
        (repeat' split) <;> (refine ⟨?_, ?_⟩ <;>
        (try simp only [con_crash, con_warn, con_print, con_flash, con_set_var, con_list, con_runPrint,
          con_evalloc, con_do_alter, con_read_line, con_num_from_name_hack, con_for_param,
          con_get_inputs, con_advise, seek_next_to]) <;>
        first | exact stack_step_refl _ | rfl | done))
      all_goals (
        (repeat' split) <;> (refine ⟨?_, ?_⟩ <;>
        (try simp only [con_crash, con_warn, con_print, con_flash, con_set_var, con_list, con_runPrint,
          con_evalloc, con_do_alter, con_read_line, con_num_from_name_hack, con_for_param,
          con_get_inputs, con_advise, seek_next_to] at *) <;>
        try first | exact stack_step_refl _ | rfl | done))
      all_goals first
        | exact Or.inl (expire_suffix _ _ _)
        | exact Or.inl (suffix_of_expire ‹expire_next_stack _ _ _ = _›)
        | (have e := pair_con ‹runPrint _ _ _ = _› (con_runPrint _ _ _)
           rw [e]; exact stack_step_refl _)
        | (have e := pair_fors ‹read_loop _ _ _ = _› (fors_read_loop _ _ _)
           rw [e]; exact stack_step_refl _)
        | (have e := con_get_inputs _ _ _ _ _ ‹get_inputs _ _ _ _ = _›
           rw [e]; exact stack_step_refl _)
        | (have e := con_read_line_eq _ _ _ ‹read_line _ = _›
           rw [e]; exact stack_step_refl _)
        | (have e1 := pair_con ‹for_param _ _ (lego.a1 _) = _› (con_for_param _ _ _)
           have e2 := pair_con ‹for_param _ _ (lego.a2 _) = _› (con_for_param _ _ _)
           have e3 := pair_con ‹for_param _ _ (lego.a3 _) = _› (con_for_param _ _ _)
           rw [e3, e2, e1]
           first | exact stack_step_refl _ | exact Or.inr ⟨_, rfl⟩)
        | (have e1 := pair_con ‹for_param _ _ (lego.a1 _) = _› (con_for_param _ _ _)
           have e2 := pair_con ‹for_param _ _ (lego.a2 _) = _› (con_for_param _ _ _)
           rw [e2, e1]
           exact stack_step_refl _)
        | (have e1 := pair_con ‹for_param _ _ (lego.a1 _) = _› (con_for_param _ _ _)
           rw [e1]
           exact stack_step_refl _)
        | exact next_to_del _ _ _
        | exact Or.inr ⟨_, rfl⟩

/-! ## The loop variables stay distinct under a step -/

theorem find_frame_absent (v : List Char) (s : List next_stack)
    (h : ∀ g ∈ s, g.nVar ≠ v) : find_frame (some v) s = none := by
  induction s with
  | nil => rfl
  | cons g rest ih =>
    have hg : g.nVar ≠ v := h g (List.mem_cons_self _ _)
    have hr := ih (fun x hx => h x (List.mem_cons_of_mem _ hx))
    simp only [find_frame, hr, Option.isNone_some, Bool.false_eq_true, false_or,
      Option.some.injEq, Option.map_none']
    rw [if_neg (fun e => hg e.symm)]

theorem find_frame_present (v : List Char) (above : List next_stack) (g : next_stack)
    (below : List next_stack) (hg : g.nVar = v) (h : ∀ x ∈ above, x.nVar ≠ v) :
    find_frame (some v) (above ++ g :: below) = some above.length := by
  induction above with
  | nil => simp [find_frame, hg]
  | cons a rest ih =>
    have ha : a.nVar ≠ v := h a (List.mem_cons_self _ _)
    have hr := ih (fun x hx => h x (List.mem_cons_of_mem _ hx))
    rw [List.cons_append, find_frame, hr]
    simp only [Option.isNone_some, Bool.false_eq_true, false_or, Option.some.injEq,
      Option.map_some', List.length_cons]
    rw [if_neg (fun e => ha e.symm)]

theorem expire_absent (v : List Char) (s : List next_stack) (b : Bool)
    (h : ∀ g ∈ s, g.nVar ≠ v) : expire_next_stack s (some v) b = s := by
  simp only [expire_next_stack, find_frame_absent v s h]

theorem expire_present (v : List Char) (above : List next_stack) (g : next_stack)
    (below : List next_stack) (hg : g.nVar = v) (h : ∀ x ∈ above, x.nVar ≠ v) :
    expire_next_stack (above ++ g :: below) (some v) true = below := by
  simp only [expire_next_stack, find_frame_present v above g below hg h, if_true]
  rw [List.drop_append_eq_append_drop]
  simp

theorem split_at_loop (v : List Char) : ∀ s : List next_stack,
    (∀ g ∈ s, g.nVar ≠ v) ∨
    ∃ above g below, s = above ++ g :: below ∧ g.nVar = v ∧ ∀ x ∈ above, x.nVar ≠ v := by
  intro s
  induction s with
  | nil => exact Or.inl (fun g hg => absurd hg (List.not_mem_nil g))
  | cons a rest ih =>
    by_cases ha : a.nVar = v
    · exact Or.inr ⟨[], a, rest, rfl, ha, fun x hx => absurd hx (List.not_mem_nil x)⟩
    · rcases ih with h | ⟨above, g, below, e, hg, h⟩
      · left
        intro g hg
        rcases List.mem_cons.1 hg with e | e
        · rw [e]; exact ha
        · exact h g e
      · right
        refine ⟨a :: above, g, below, by rw [e]; rfl, hg, ?_⟩
        intro x hx
        rcases List.mem_cons.1 hx with e | e
        · rw [e]; exact ha
        · exact h x e

theorem distinct_suffix {s t : List next_stack} (h : t <:+ s) (hs : distinct_loops s) :
    distinct_loops t :=
  List.Nodup.sublist (List.Sublist.map _ h.sublist) hs

theorem distinct_push (f : next_stack) (s : List next_stack) (hs : distinct_loops s) :
    distinct_loops (f :: expire_next_stack s (some f.nVar) true) := by
  rcases split_at_loop f.nVar s with h | ⟨above, g, below, e, hg, h⟩
  · rw [expire_absent _ _ _ h]
    unfold distinct_loops at hs ⊢
    rw [List.map_cons, List.nodup_cons]
    refine ⟨?_, hs⟩
    intro hm
    obtain ⟨g, hg, e⟩ := List.mem_map.1 hm
    exact h g hg e
  · subst e
    rw [expire_present _ _ _ _ hg h]
    unfold distinct_loops at hs ⊢
    rw [List.map_append, List.map_cons] at hs
    have h2 := (List.nodup_append.1 hs).2.1
    rw [List.nodup_cons] at h2
    rw [List.map_cons, List.nodup_cons, ← hg]
    exact h2

theorem distinct_step {s t : List next_stack} (h : stack_step s t) (hs : distinct_loops s) :
    distinct_loops t := by
  rcases h with h | ⟨f, e⟩
  · exact distinct_suffix h hs
  · rw [e]; exact distinct_push f s hs

theorem distinct_nil : distinct_loops [] := List.nodup_nil

/-! ## The loop variables stay distinct in `immediate` and `main` -/

theorem single_step_distinct (m : Libm) (imm : lego) (prog : Bool) (st : State) (ic : x_con)
    (h1 : distinct_loops st.prog_con.next_to) (h2 : distinct_loops ic.next_to) :
    distinct_loops (single_step m imm prog st ic).2.1.prog_con.next_to ∧
    distinct_loops (single_step m imm prog st ic).2.2.next_to := by
  cases prog
  · exact ⟨distinct_step (single_step_stacks_imm m imm st ic).1 h1,
      distinct_step (single_step_stacks_imm m imm st ic).2 h2⟩
  · refine ⟨distinct_step (single_step_stacks_prog m imm st ic).1 h1, ?_⟩
    rw [(single_step_stacks_prog m imm st ic).2]; exact h2

theorem immediate_round_distinct (m : Libm) (fr fr1 : Frame) (h : fr.distinct)
    (hr : immediate_round m fr = Sum.inr fr1) : fr1.distinct := by
  have hs := single_step_distinct m fr.imm fr.running fr.st fr.imm_con h.1 h.2
  unfold immediate_round at hr
  generalize single_step m fr.imm fr.running fr.st fr.imm_con = r at hs hr
  obtain ⟨what, st0, ic0⟩ := r
  obtain ⟨hs1, hs2⟩ := hs
  dsimp only at hs1 hs2 hr
  split at hr
  · simp only [reduceCtorEq] at hr
  · rename_i rr st1 running1 heq
    have hA : distinct_loops st1.prog_con.next_to := by
      repeat' split at heq
      all_goals (try simp only [Option.some.injEq, Prod.mk.injEq, reduceCtorEq] at heq)
      all_goals first
        | contradiction
        | (obtain ⟨e1, _⟩ := heq
           subst e1
           first
             | exact hs1
             | exact distinct_nil
             | (simp only [con_link, con_warn]; exact hs1))
    clear heq
    repeat' split at hr
    all_goals (try simp only [Sum.inl.injEq, Sum.inr.injEq, reduceCtorEq] at hr)
    all_goals first
      | contradiction
      | (subst hr
         refine ⟨?_, ?_⟩ <;>
         first
           | exact hs2
           | exact hA
           | exact distinct_nil
           | (simp only [con_advise, con_print]; first | exact hA | exact distinct_nil))

theorem immediate_round_returns_distinct (m : Libm) (fr : Frame) (r : Int × State)
    (h : fr.distinct) (hr : immediate_round m fr = Sum.inl r) :
    distinct_loops r.2.prog_con.next_to := by
  have hs := single_step_distinct m fr.imm fr.running fr.st fr.imm_con h.1 h.2
  unfold immediate_round at hr
  generalize single_step m fr.imm fr.running fr.st fr.imm_con = r at hs hr
  obtain ⟨what, st0, ic0⟩ := r
  obtain ⟨hs1, hs2⟩ := hs
  dsimp only at hs1 hs2 hr
  split at hr
  · simp only [Sum.inl.injEq] at hr
    subst hr
    simp only [con_byItself]
    exact hs1
  · simp only [reduceCtorEq] at hr

theorem rounds_distinct (m : Libm) : ∀ (n : Nat) (fr fr1 : Frame), fr.distinct →
    rounds m n fr = some fr1 → fr1.distinct := by
  intro n
  induction n with
  | zero =>
    intro fr fr1 h hr
    simp only [rounds, Option.some.injEq] at hr
    subst hr; exact h
  | succ n ih =>
    intro fr fr1 h hr
    simp only [rounds] at hr
    split at hr
    · simp only [reduceCtorEq] at hr
    · rename_i fr2 h2
      exact ih fr2 fr1 (immediate_round_distinct m fr fr2 h h2) hr

theorem immediate_loop_distinct (m : Libm) : ∀ (fuel : Nat) (fr : Frame) (r : Int × State),
    fr.distinct → immediate_loop m fuel fr = some r → distinct_loops r.2.prog_con.next_to := by
  intro fuel
  induction fuel with
  | zero => intro fr r _ hr; simp only [immediate_loop, reduceCtorEq] at hr
  | succ n ih =>
    intro fr r h hr
    simp only [immediate_loop] at hr
    split at hr
    · simp only [Option.some.injEq] at hr
      subst hr; exact h.1
    · split at hr
      · rename_i r2 h2
        simp only [Option.some.injEq] at hr
        subst hr
        exact immediate_round_returns_distinct m fr _ h h2
      · rename_i fr2 h2
        exact ih fr2 r (immediate_round_distinct m fr fr2 h h2) hr

theorem first_frame_distinct (st : State) (l : lego) (h : distinct_loops st.prog_con.next_to) :
    (first_frame st l).distinct := by
  refine ⟨?_, distinct_nil⟩
  simp only [first_frame, con_link]
  exact h

theorem immediate_distinct (m : Libm) (fuel : Nat) (st : State) (l : lego) (r : Int × State)
    (h : distinct_loops st.prog_con.next_to) (hr : immediate m fuel st l = some r) :
    distinct_loops r.2.prog_con.next_to := by
  unfold immediate at hr
  split at hr
  · simp only [Option.some.injEq] at hr
    subst hr; exact distinct_nil
  · dsimp only at hr
    split at hr
    · simp only [Option.some.injEq] at hr
      subst hr
      simp only [con_link]; exact h
    · exact immediate_loop_distinct m fuel _ r (first_frame_distinct st l h) hr

theorem main_loop_distinct (m : Libm) (fuel : Nat) : ∀ (k : Nat) (st st1 : State),
    distinct_loops st.prog_con.next_to → main_loop m fuel k st = some st1 →
    distinct_loops st1.prog_con.next_to := by
  intro k
  induction k with
  | zero =>
    intro st st1 h hr
    simp only [main_loop, Option.some.injEq] at hr
    subst hr; exact h
  | succ k ih =>
    intro st st1 h hr
    unfold main_loop at hr
    have h0 : distinct_loops (read_line { st with warning := none }).2.prog_con.next_to := by
      rw [con_read_line]; exact h
    generalize read_line { st with warning := none } = rl at h0 hr
    obtain ⟨s, st2⟩ := rl
    cases s with
    | none =>
      simp only [Option.some.injEq] at hr
      subst hr; exact h0
    | some s =>
      dsimp only at hr h0
      generalize command_line (parse_fuel s) s none = cl at hr
      obtain ⟨res, w⟩ := cl
      have hf : ∀ msg : String, distinct_loops
          (flash ((flash st2 'e').print (msg.data ++ ['\n'])) 'n').prog_con.next_to := by
        intro msg
        simp only [con_flash, con_print]; exact h0
      cases w <;> cases res <;> dsimp only at hr
      · exact ih _ _ h0 hr
      · split at hr
        · simp only [reduceCtorEq] at hr
        · rename_i r st4 hi
          have h4 := immediate_distinct m fuel _ _ _ h0 hi
          split at hr
          · simp only [Option.some.injEq] at hr
            subst hr; exact h4
          · split at hr
            · refine ih _ _ ?_ hr
              simp only [con_flash, con_print]; exact h4
            · exact ih _ _ h4 hr
      · exact ih _ _ (hf _) hr
      · split at hr
        · simp only [reduceCtorEq] at hr
        · rename_i r st4 hi
          have h4 := immediate_distinct m fuel _ _ _ (hf _) hi
          split at hr
          · simp only [Option.some.injEq] at hr
            subst hr; exact h4
          · split at hr
            · refine ih _ _ ?_ hr
              simp only [con_flash, con_print]; exact h4
            · exact ih _ _ h4 hr

/-! ## What `FOR` does to the stack -/

theorem single_step_for (m : Libm) (imm : lego) (prog : Bool) (st : State) (ic : x_con)
    (p : Ptr) (hp : (getc prog st ic).stmt = some p)
    (hw : (deref st.program imm p).what = wFOR)
    (hok : (single_step m imm prog st ic).1 ≠ wERROR) :
    ∃ f : next_stack, f.nVar = (deref st.program imm p).a0.str ∧
      (getc prog (single_step m imm prog st ic).2.1 (single_step m imm prog st ic).2.2).next_to
        = f :: expire_next_stack (getc prog st ic).next_to (some f.nVar) true := by
  have hnn : (deref st.program imm p).isNull = false := by
    cases h : deref st.program imm p with
    | NULL => rw [h] at hw; simp [lego.what, lego.f, Fields.zero] at hw
    | node => rfl
  have hseek : seek_stmt st.program (getc prog st ic) = getc prog st ic := by
    simp [seek_stmt, hp]
  revert hok
  simp only [single_step, hseek, hp, hnn, hw]
  cases prog <;>
    simp only [getc, updc, Bool.false_eq_true, if_false, if_true] <;>
    (repeat' split) <;> intro hok <;>
    first
      | exact absurd rfl hok
      | (have e1 := pair_con ‹for_param _ _ (lego.a1 _) = _› (con_for_param _ _ _)
         have e2 := pair_con ‹for_param _ _ (lego.a2 _) = _› (con_for_param _ _ _)
         have e3 := pair_con ‹for_param _ _ (lego.a3 _) = _› (con_for_param _ _ _)
         simp only [con_set_var]
         first
           | exact ⟨_, rfl, rfl⟩
           | (rw [e3, e2, e1]; exact ⟨_, rfl, rfl⟩))

/-! ## The statement on the `FOR` stack -/

/-- The stack of the program after `nested_loops`: a new loop on `J` takes the place of
the frames of `K` and `J` and leaves the frame of `I`; a loop on a fresh variable goes on
top of the three. -/
theorem for_stack_examples :
    (session (nested_loops "J")).map loop_names = some ["J", "I"] ∧
    (session (nested_loops "L")).map loop_names = some ["L", "K", "J", "I"] ∧
    (session (nested_loops "J")).map
        (fun st => st.prog_con.next_to.map (fun f => (f.vi, f.de)))
      = some [(5, 6), (1, 2)] := by
  refine ⟨?_, ?_, ?_⟩ <;> decide!

/-- C34: a `FOR` on the variable `v` that gets past the evaluation of its bounds leaves, on
the stack of the context it runs in, a new frame for `v` on top of what
`expire_next_stack` keeps of the old stack: the whole stack when no frame is for `v`, and
otherwise the frames below the topmost frame for `v`, unchanged. So the loop variables
of a stack stay distinct: they are in `main` after any number of lines typed, and
within a command, started in a state where they are, after any number of rounds of
`immediate`, on the stack of the program as on that of the immediate command. -/
theorem C34_for_discards_the_frames_down_to_its_variable (m : Libm) :
    (∀ (imm : lego) (prog : Bool) (st : State) (ic : x_con) (p : Ptr),
      (getc prog st ic).stmt = some p → (deref st.program imm p).what = wFOR →
      (single_step m imm prog st ic).1 ≠ wERROR →
      ∃ f : next_stack, f.nVar = (deref st.program imm p).a0.str ∧
        (getc prog (single_step m imm prog st ic).2.1
            (single_step m imm prog st ic).2.2).next_to
          = f :: expire_next_stack (getc prog st ic).next_to (some f.nVar) true) ∧
    (∀ (v : List Char) (stack : List next_stack), (∀ g ∈ stack, g.nVar ≠ v) →
      expire_next_stack stack (some v) true = stack) ∧
    (∀ (v : List Char) (above : List next_stack) (g : next_stack) (below : List next_stack),
      g.nVar = v → (∀ x ∈ above, x.nVar ≠ v) →
      expire_next_stack (above ++ g :: below) (some v) true = below) ∧
    (∀ (fuel : Nat) (input : List (List Char)) (k : Nat) (st : State),
      main_loop m fuel k
          (flash ((flash { State.init with stdin := input } 'h').print ['O','k','\n']) 'n')
        = some st →
      distinct_loops st.prog_con.next_to) ∧
    (∀ (st : State) (l : lego) (n : Nat) (fr : Frame),
      distinct_loops st.prog_con.next_to → rounds m n (first_frame st l) = some fr →
      distinct_loops fr.st.prog_con.next_to ∧ distinct_loops fr.imm_con.next_to) := by
  refine ⟨single_step_for m, fun v s h => expire_absent v s true h, expire_present, ?_, ?_⟩
  · intro fuel input k st h
    refine main_loop_distinct m fuel k _ st ?_ h
    simp only [con_flash, con_print]
    exact distinct_nil
  · intro st l n fr h hr
    exact rounds_distinct m n _ fr (first_frame_distinct st l h) hr

/-- C34 at a stack of loops on `K`, `J`, `I`: a `FOR` on `J` keeps the frame of `I`. -/
theorem C34_for_discards_the_frames_down_to_its_variable_witness :
    expire_next_stack [loop_frame ['K'], loop_frame ['J'], loop_frame ['I']] (some ['J']) true
      = [loop_frame ['I']] :=
  (C34_for_discards_the_frames_down_to_its_variable Libm.none).2.2.1 ['J']
    [loop_frame ['K']] (loop_frame ['J']) [loop_frame ['I']] rfl (by decide)

/-! ## The kind of what an operator returns -/

theorem signature_facts (w : What) (args : List rKind) (r : rKind)
    (h : signature w = some (args, r)) :
    w ≠ wSTRLIT ∧ w ≠ wSTRVAR ∧ w ≠ wNUMLIT ∧ w ≠ wNUMVAR ∧
    ¬ (w.ord ≥ END_FUNCTION_GUYS.ord) ∧
    (w.ord < END_UNARY_GUYS.ord → args.length = 1) ∧
    (¬ w.ord < END_UNARY_GUYS.ord → w.ord < END_BINARY_GUYS.ord → args.length = 2) ∧
    (r = rKind.rNum ∨ r = rKind.rString) := by
  cases w <;> simp only [signature, reduceCtorEq, Option.some.injEq, Prod.mk.injEq] at h <;>
    obtain ⟨rfl, rfl⟩ := h <;> simp +decide [What.ord]

theorem no_null_warn (st : State) (why : String) (h : no_null st) : no_null (st.warn why) := h

theorem no_null_crash (st : State) (why : String) (hw : why ≠ "null pointer")
    (h : no_null st) : no_null (st.crash why) := by
  unfold no_null State.crash at *
  split
  · simp only [ne_eq, Option.some.injEq]; exact hw
  · exact h

theorem kind_ok_num (n : ℚ) : kind_ok rKind.rNum (num_result n) :=
  Or.inr ⟨rfl, fun h => by simp only [reduceCtorEq] at h⟩

theorem kind_ok_str (s : List Char) : kind_ok rKind.rString (str_result s) :=
  Or.inr ⟨rfl, fun _ => rfl⟩

theorem kind_ok_except (k : rKind) (st : State) (why : String) :
    kind_ok k (except_with st why).1 := Or.inl rfl

theorem kind_ok_boolean_logic (st : State) (x y : ℚ) (w : What) :
    kind_ok rKind.rNum (boolean_logic st x y w).1 := by
  unfold boolean_logic
  split
  · exact Or.inl rfl
  · exact Or.inr ⟨rfl, fun h => by simp only [reduceCtorEq] at h⟩

theorem kind_ok_divmod (st : State) (x y : ℚ) (w : What) :
    kind_ok rKind.rNum (divmod st x y w).1 := by
  unfold divmod
  split
  · exact Or.inl rfl
  · dsimp only
    split <;> (try split) <;> exact Or.inr ⟨rfl, fun h => by simp only [reduceCtorEq] at h⟩

theorem apply_op_kind (m : Libm) (st : State) (w : What) (x y z : computed)
    (args : List rKind) (r : rKind) (h : signature w = some (args, r)) (hn : w ≠ wNEGATE) :
    kind_ok r (apply_op m st w x y z).1 := by
  cases w <;> simp only [signature, reduceCtorEq, Option.some.injEq, Prod.mk.injEq] at h <;>
    obtain ⟨rfl, rfl⟩ := h <;>
    first
      | exact absurd rfl hn
      | exact kind_ok_num _
      | exact kind_ok_str _
      | exact kind_ok_boolean_logic _ _ _ _
      | exact kind_ok_divmod _ _ _ _
      | (unfold apply_op; dsimp only
         repeat' split
         all_goals first
           | exact kind_ok_num _
           | exact kind_ok_str _
           | exact kind_ok_except _ _ _)

theorem deref_present (c : computed) (st : State) (h : c.s.isSome) :
    c.deref st = (c.s.getD [], st) := by
  unfold computed.deref
  cases hs : c.s with
  | none => rw [hs] at h; simp only [Option.isSome_none, Bool.false_eq_true] at h
  | some t => rfl

theorem no_null_boolean_logic (st : State) (x y : ℚ) (w : What) (h : no_null st) :
    no_null (boolean_logic st x y w).2 := by
  unfold boolean_logic
  split
  · exact h
  · exact h

theorem no_null_divmod (st : State) (x y : ℚ) (w : What) (h : no_null st) :
    no_null (divmod st x y w).2 := by
  unfold divmod
  split
  · exact h
  · dsimp only
    split <;> (try split) <;>
      first | exact h | exact no_null_crash _ _ (by decide) h

theorem no_null_csprng (st : State) (x : ℚ) (h : no_null st) : no_null (csprng st x).2 := by
  unfold csprng
  split
  · exact h
  · split <;> exact h

theorem apply_op_no_null (m : Libm) (st : State) (w : What) (x y z : computed)
    (args : List rKind) (r : rKind) (h : signature w = some (args, r))
    (hx : args.getD 0 rKind.rNum = rKind.rString → x.s.isSome)
    (hy : args.getD 1 rKind.rNum = rKind.rString → y.s.isSome)
    (hz : args.getD 2 rKind.rNum = rKind.rString → z.s.isSome)
    (hs : no_null st) : no_null (apply_op m st w x y z).2 := by
  cases w <;> simp only [signature, reduceCtorEq, Option.some.injEq, Prod.mk.injEq] at h <;>
    obtain ⟨rfl, rfl⟩ := h <;>
    simp only [List.getD_cons_zero, List.getD_cons_succ, List.getD_nil, reduceCtorEq,
      forall_const, false_implies] at hx hy hz <;>
    first
      | exact hs
      | exact no_null_boolean_logic _ _ _ _ hs
      | exact no_null_divmod _ _ _ _ hs
      | exact no_null_csprng _ _ hs
      | (unfold apply_op; dsimp only
         try rw [deref_present x st hx]
         try rw [deref_present y st hy]
         try rw [deref_present z st hz]
         repeat' split
         all_goals first
           | exact hs
           | exact no_null_warn _ _ hs
           | exact no_null_crash _ _ (by decide) hs
           | (rename_i heq
              obtain ⟨_, rfl⟩ := Prod.mk.inj heq
              first | exact hs | exact no_null_warn _ _ hs))

/-! ## `evalloc` on an operator with a signature -/

theorem well_kinded_not_null (k : rKind) (l : lego) (h : well_kinded k l = true) :
    l.isNull = false := by
  cases l with
  | NULL => simp only [well_kinded, Bool.false_eq_true] at h
  | node => rfl

theorem evalloc_op1 (m : Libm) (st : State) (f : Fields) (a0 a1 a2 a3 nx : lego)
    (args : List rKind) (r : rKind) (hsig : signature f.what = some (args, r))
    (hn : count_args f a0 a1 a2 a3 = 1) :
    evalloc m st (node f a0 a1 a2 a3 nx) =
      if (evalloc m st a0).1.what = rKind.rExcept then
        (computed.zero rKind.rExcept, (evalloc m st a0).2)
      else if f.what = wNEGATE then
        ({ (evalloc m (evalloc m st a0).2 a0).1 with
             n := -(evalloc m (evalloc m st a0).2 a0).1.n },
          (evalloc m (evalloc m st a0).2 a0).2)
      else apply_op m (evalloc m st a0).2 f.what (evalloc m st a0).1
        (computed.zero rKind.rExcept) (computed.zero rKind.rExcept) := by
  have hf := signature_facts _ _ _ hsig
  rw [evalloc]
  split
  · rename_i h; exact absurd h hf.1
  · rename_i h; exact absurd h hf.2.2.1
  · rename_i h; exact absurd h hf.2.1
  · rename_i h; exact absurd h hf.2.2.2.1
  · rw [if_neg hf.2.2.2.2.1]
    simp only [hn, OfNat.ofNat_ne_one, OfNat.one_ne_ofNat, false_and, false_or, or_true,
      true_and, if_true, if_false, reduceCtorEq, Nat.succ_ne_self]

theorem evalloc_op2 (m : Libm) (st : State) (f : Fields) (a0 a1 a2 a3 nx : lego)
    (args : List rKind) (r : rKind) (hsig : signature f.what = some (args, r))
    (hn : count_args f a0 a1 a2 a3 = 2) (hne : f.what ≠ wNEGATE) :
    evalloc m st (node f a0 a1 a2 a3 nx) =
      if (evalloc m st a1).1.what = rKind.rExcept ∨
          (evalloc m (evalloc m st a1).2 a0).1.what = rKind.rExcept then
        (computed.zero rKind.rExcept, (evalloc m (evalloc m st a1).2 a0).2)
      else apply_op m (evalloc m (evalloc m st a1).2 a0).2 f.what
        (evalloc m (evalloc m st a1).2 a0).1 (evalloc m st a1).1
        (computed.zero rKind.rExcept) := by
  have hf := signature_facts _ _ _ hsig
  rw [evalloc]
  split
  · rename_i h; exact absurd h hf.1
  · rename_i h; exact absurd h hf.2.2.1
  · rename_i h; exact absurd h hf.2.1
  · rename_i h; exact absurd h hf.2.2.2.1
  · rw [if_neg hf.2.2.2.2.1]
    simp only [hn, hne, OfNat.ofNat_ne_one, OfNat.one_ne_ofNat, false_and, false_or, or_true,
      true_or, true_and, if_true, if_false, reduceCtorEq, Nat.succ_ne_self]
    simp

theorem evalloc_op3 (m : Libm) (st : State) (f : Fields) (a0 a1 a2 a3 nx : lego)
    (args : List rKind) (r : rKind) (hsig : signature f.what = some (args, r))
    (hn : count_args f a0 a1 a2 a3 = 3) (hne : f.what ≠ wNEGATE) :
    evalloc m st (node f a0 a1 a2 a3 nx) =
      if (evalloc m st a2).1.what = rKind.rExcept ∨
          (evalloc m (evalloc m st a2).2 a1).1.what = rKind.rExcept ∨
          (evalloc m (evalloc m (evalloc m st a2).2 a1).2 a0).1.what = rKind.rExcept then
        (computed.zero rKind.rExcept, (evalloc m (evalloc m (evalloc m st a2).2 a1).2 a0).2)
      else apply_op m (evalloc m (evalloc m (evalloc m st a2).2 a1).2 a0).2 f.what
        (evalloc m (evalloc m (evalloc m st a2).2 a1).2 a0).1
        (evalloc m (evalloc m st a2).2 a1).1 (evalloc m st a2).1 := by
  have hf := signature_facts _ _ _ hsig
  rw [evalloc]
  split
  · rename_i h; exact absurd h hf.1
  · rename_i h; exact absurd h hf.2.2.1
  · rename_i h; exact absurd h hf.2.1
  · rename_i h; exact absurd h hf.2.2.2.1
  · rw [if_neg hf.2.2.2.2.1]
    simp only [hn, hne, OfNat.ofNat_ne_one, OfNat.one_ne_ofNat, false_and, false_or, or_true,
      true_or, true_and, if_true, if_false, reduceCtorEq, Nat.succ_ne_self]

theorem count_args_of_signature (f : Fields) (a0 a1 a2 a3 : lego)
    (args : List rKind) (r : rKind) (hsig : signature f.what = some (args, r))
    (h : (if a0.isNull then 0 else 1) + (if a1.isNull then 0 else 1) +
       (if a2.isNull then 0 else 1) + (if a3.isNull then 0 else 1) = args.length) :
    count_args f a0 a1 a2 a3 = args.length := by
  have hf := signature_facts _ _ _ hsig
  unfold count_args
  by_cases h1 : f.what.ord < END_UNARY_GUYS.ord
  · rw [if_pos h1]; exact (hf.2.2.2.2.2.1 h1).symm
  · rw [if_neg h1]
    by_cases h2 : f.what.ord < END_BINARY_GUYS.ord
    · rw [if_pos h2]; exact (hf.2.2.2.2.2.2.1 h1 h2).symm
    · rw [if_neg h2]; exact h

theorem signature_negate (args : List rKind) (r : rKind)
    (h : signature wNEGATE = some (args, r)) : args.length = 1 := by
  simp only [signature, Option.some.injEq, Prod.mk.injEq] at h
  rw [← h.1]; rfl

/-! ## The evaluator keeps the kinds -/

theorem present_of_kind_ok (k : rKind) (c : computed) (h : kind_ok k c)
    (he : ¬ c.what = rKind.rExcept) : k = rKind.rString → c.s.isSome := by
  rcases h with h | h
  · exact absurd h he
  · exact h.2

theorem evalloc_kind (m : Libm) : ∀ (l : lego) (k : rKind) (st : State),
    well_kinded k l = true →
    kind_ok k (evalloc m st l).1 ∧ (no_null st → no_null (evalloc m st l).2) := by
  intro l
  induction l with
  | NULL => intro k st h; simp only [well_kinded, Bool.false_eq_true] at h
  | node f a0 a1 a2 a3 nx ih0 ih1 ih2 _ _ =>
    intro k st h
    unfold well_kinded at h
    split_ifs at h with h1 h2
    · have hk : k = rKind.rString := of_decide_eq_true h
      subst hk
      rcases h1 with h1 | h1
      · rw [evalloc]; simp only [h1]; exact ⟨kind_ok_str _, id⟩
      · rw [evalloc]; simp only [h1]
        split
        · exact ⟨kind_ok_except _ _ _, fun hs => no_null_warn _ _ hs⟩
        · exact ⟨kind_ok_str _, id⟩
    · have hk : k = rKind.rNum := of_decide_eq_true h
      subst hk
      rcases h2 with h2 | h2
      · rw [evalloc]; simp only [h2]; exact ⟨kind_ok_num _, id⟩
      · rw [evalloc]; simp only [h2]
        split
        · exact ⟨kind_ok_except _ _ _, fun hs => no_null_warn _ _ hs⟩
        · exact ⟨kind_ok_num _, id⟩
    · split at h
      · rename_i x r hsig
        simp only [Bool.and_eq_true, decide_eq_true_eq] at h
        obtain ⟨⟨⟨⟨hr, h0⟩, n1⟩, n2⟩, n3⟩ := h
        subst hr
        have hc : count_args f a0 a1 a2 a3 = 1 :=
          count_args_of_signature f a0 a1 a2 a3 _ _ hsig
            (by simp [well_kinded_not_null _ _ h0, n1, n2, n3])
        rw [evalloc_op1 m st f a0 a1 a2 a3 nx _ _ hsig hc]
        have e0 := ih0 x st h0
        split_ifs with he hneg
        · exact ⟨Or.inl rfl, e0.2⟩
        · rw [hneg] at hsig
          simp only [signature, Option.some.injEq, Prod.mk.injEq, List.cons.injEq,
            and_true] at hsig
          obtain ⟨hx, hr⟩ := hsig
          subst hx; subst hr
          have e1 := ih0 rKind.rNum (evalloc m st a0).2 h0
          refine ⟨?_, fun hs => e1.2 (e0.2 hs)⟩
          rcases e1.1 with h | ⟨h, h'⟩
          · exact Or.inl h
          · exact Or.inr ⟨h, h'⟩
        · refine ⟨apply_op_kind m _ _ _ _ _ _ _ hsig hneg, fun hs =>
            apply_op_no_null m _ _ _ _ _ _ _ hsig ?_ ?_ ?_ (e0.2 hs)⟩
          · exact present_of_kind_ok _ _ e0.1 he
          · intro h; simp at h
          · intro h; simp at h
      · rename_i x y r hsig
        simp only [Bool.and_eq_true, decide_eq_true_eq] at h
        obtain ⟨⟨⟨⟨hr, h0⟩, h1⟩, n2⟩, n3⟩ := h
        subst hr
        have hc : count_args f a0 a1 a2 a3 = 2 :=
          count_args_of_signature f a0 a1 a2 a3 _ _ hsig
            (by simp [well_kinded_not_null _ _ h0, well_kinded_not_null _ _ h1, n2, n3])
        have hneg : f.what ≠ wNEGATE := by
          intro e; rw [e] at hsig
          have := signature_negate _ _ hsig
          simp at this
        rw [evalloc_op2 m st f a0 a1 a2 a3 nx _ _ hsig hc hneg]
        have e1 := ih1 y st h1
        have e0 := ih0 x (evalloc m st a1).2 h0
        split_ifs with he
        · exact ⟨Or.inl rfl, fun hs => e0.2 (e1.2 hs)⟩
        · rw [not_or] at he
          refine ⟨apply_op_kind m _ _ _ _ _ _ _ hsig hneg, fun hs =>
            apply_op_no_null m _ _ _ _ _ _ _ hsig ?_ ?_ ?_ (e0.2 (e1.2 hs))⟩
          · exact present_of_kind_ok _ _ e0.1 he.2
          · exact present_of_kind_ok _ _ e1.1 he.1
          · intro h; simp at h
      · rename_i x y z r hsig
        simp only [Bool.and_eq_true, decide_eq_true_eq] at h
        obtain ⟨⟨⟨⟨hr, h0⟩, h1⟩, h2⟩, n3⟩ := h
        subst hr
        have hc : count_args f a0 a1 a2 a3 = 3 :=
          count_args_of_signature f a0 a1 a2 a3 _ _ hsig
            (by simp [well_kinded_not_null _ _ h0, well_kinded_not_null _ _ h1,
              well_kinded_not_null _ _ h2, n3])
        have hneg : f.what ≠ wNEGATE := by
          intro e; rw [e] at hsig
          have := signature_negate _ _ hsig
          simp at this
        rw [evalloc_op3 m st f a0 a1 a2 a3 nx _ _ hsig hc hneg]
        have e2 := ih2 z st h2
        have e1 := ih1 y (evalloc m st a2).2 h1
        have e0 := ih0 x (evalloc m (evalloc m st a2).2 a1).2 h0
        split_ifs with he
        · exact ⟨Or.inl rfl, fun hs => e0.2 (e1.2 (e2.2 hs))⟩
        · rw [not_or, not_or] at he
          refine ⟨apply_op_kind m _ _ _ _ _ _ _ hsig hneg, fun hs =>
            apply_op_no_null m _ _ _ _ _ _ _ hsig ?_ ?_ ?_ (e0.2 (e1.2 (e2.2 hs)))⟩
          · exact present_of_kind_ok _ _ e0.1 he.2.2
          · exact present_of_kind_ok _ _ e1.1 he.2.1
          · exact present_of_kind_ok _ _ e2.1 he.1
      · simp only [Bool.false_eq_true] at h

/-! ## The binary levels of the parser keep the kinds -/

theorem find_op_mem : ∀ (syms : List (List Char)) (enums : List What) (s : List Char)
    (e : What) (s1 : List Char), find_op syms enums s = some (e, s1) → e ∈ enums := by
  intro syms
  induction syms with
  | nil => intro enums s e s1 h; simp only [find_op, reduceCtorEq] at h
  | cons sym syms ih =>
    intro enums s e s1 h
    cases enums with
    | nil => simp only [find_op, reduceCtorEq] at h
    | cons e0 enums =>
      simp only [find_op] at h
      split at h
      · simp only [Option.some.injEq, Prod.mk.injEq] at h
        rw [← h.1]; exact List.mem_cons_self _ _
      · exact List.mem_cons_of_mem _ (ih enums s e s1 h)

theorem well_kinded_call1 (e : What) (x r : rKind) (f : Fields) (a0 nx : lego)
    (hf : f.what = e) (hsig : signature e = some ([x], r)) (h0 : well_kinded x a0 = true) :
    well_kinded r (node f a0 NULL NULL NULL nx) = true := by
  have hs := signature_facts _ _ _ hsig
  unfold well_kinded
  rw [hf, if_neg (by simp only [hs.1, hs.2.1, or_self, not_false_eq_true]),
    if_neg (by simp only [hs.2.2.1, hs.2.2.2.1, or_self, not_false_eq_true]), hsig]
  simp only [h0, decide_True, lego.isNull, Bool.and_self]

theorem well_kinded_call2 (e : What) (x y r : rKind) (f : Fields) (a0 a1 nx : lego)
    (hf : f.what = e) (hsig : signature e = some ([x, y], r))
    (h0 : well_kinded x a0 = true) (h1 : well_kinded y a1 = true) :
    well_kinded r (node f a0 a1 NULL NULL nx) = true := by
  have hs := signature_facts _ _ _ hsig
  unfold well_kinded
  rw [hf, if_neg (by simp only [hs.1, hs.2.1, or_self, not_false_eq_true]),
    if_neg (by simp only [hs.2.2.1, hs.2.2.2.1, or_self, not_false_eq_true]), hsig]
  simp only [h0, h1, decide_True, lego.isNull, Bool.and_self]

theorem well_kinded_call3 (e : What) (x y z r : rKind) (f : Fields) (a0 a1 a2 nx : lego)
    (hf : f.what = e) (hsig : signature e = some ([x, y, z], r))
    (h0 : well_kinded x a0 = true) (h1 : well_kinded y a1 = true)
    (h2 : well_kinded z a2 = true) :
    well_kinded r (node f a0 a1 a2 NULL nx) = true := by
  have hs := signature_facts _ _ _ hsig
  unfold well_kinded
  rw [hf, if_neg (by simp only [hs.1, hs.2.1, or_self, not_false_eq_true]),
    if_neg (by simp only [hs.2.2.1, hs.2.2.2.1, or_self, not_false_eq_true]), hsig]
  simp only [h0, h1, h2, decide_True, lego.isNull, Bool.and_self]

theorem well_kinded_setForceParens (k : rKind) (l : lego) (h : well_kinded k l = true) :
    well_kinded k l.setForceParens = true := by
  cases l with
  | NULL => exact h
  | node f a0 a1 a2 a3 nx =>
    unfold lego.setForceParens lego.setF
    unfold well_kinded at h ⊢
    exact h

theorem general_left_binary_loop_sound (k : rKind) (syms : List (List Char))
    (enums : List What) (subFn : Parser) (errMsg : String) (hsub : sound k subFn)
    (hen : ∀ e ∈ enums, e ≠ wKLUDGE → signature e = some ([k, k], k)) :
    ∀ (fuel : Nat) (left : lego) (s : List Char) (w : Option String) (l : lego)
      (rest : List Char) (w1 : Option String), well_kinded k left = true →
      general_left_binary_loop syms enums subFn errMsg fuel left s w = (some (l, rest), w1) →
      well_kinded k l = true := by
  intro fuel
  induction fuel with
  | zero =>
    intro left s w l rest w1 _ h
    simp only [general_left_binary_loop, Prod.mk.injEq, reduceCtorEq, false_and] at h
  | succ n ih =>
    intro left s w l rest w1 hl h
    simp only [general_left_binary_loop] at h
    split at h
    · simp only [Prod.mk.injEq, Option.some.injEq] at h
      rw [← h.1.1]; exact hl
    · rename_i e s1 hfo
      split at h
      · simp only [Prod.mk.injEq, Option.some.injEq] at h
        rw [← h.1.1]; exact hl
      · rename_i hk
        split at h
        · simp only [Prod.mk.injEq, reduceCtorEq, false_and] at h
        · rename_i right s2 w2 hr
          refine ih _ _ _ _ _ _ ?_ h
          exact well_kinded_call2 e k k k _ left right NULL rfl
            (hen e (find_op_mem _ _ _ _ _ hfo) hk) hl (hsub _ _ _ _ _ hr)

theorem general_left_binary_sound (k : rKind) (fuel : Nat) (syms : List (List Char))
    (enums : List What) (subFn : Parser) (errMsg : String) (hsub : sound k subFn)
    (hen : ∀ e ∈ enums, e ≠ wKLUDGE → signature e = some ([k, k], k)) :
    sound k (general_left_binary fuel syms enums subFn errMsg) := by
  intro s w l rest w1 h
  simp only [general_left_binary] at h
  split at h
  · simp only [Prod.mk.injEq, reduceCtorEq, false_and] at h
  · rename_i left s1 w2 hl
    exact general_left_binary_loop_sound k syms enums subFn errMsg hsub hen fuel left s1 w2
      l rest w1 (hsub _ _ _ _ _ hl) h

/-! ## The arguments of a function call -/

theorem find_name_lt : ∀ (names : List (List Char)) (s : List Char) (j i : Nat)
    (s1 : List Char), find_name s names j = some (i, s1) → j ≤ i ∧ i < j + names.length := by
  intro names
  induction names with
  | nil => intro s j i s1 h; simp only [find_name, reduceCtorEq] at h
  | cons name names ih =>
    intro s j i s1 h
    simp only [find_name] at h
    split at h
    · simp only [Option.some.injEq, Prod.mk.injEq] at h
      rw [← h.1]; simp
    · have := ih s (j + 1) i s1 h
      simp only [List.length_cons]
      omega

theorem function_args1 (ne se : Parser) (hn : sound rKind.rNum ne)
    (hs : sound rKind.rString se) (t0 : Char) (i : Nat) (l0 : lego) (s : List Char)
    (w : Option String) (l : lego) (rest : List Char) (w1 : Option String)
    (h : function_args ne se [t0] i l0 s w = (some (l, rest), w1)) :
    ∃ b0, l = l0.setA i b0 ∧
      well_kinded (if t0 = 'n' then rKind.rNum else rKind.rString) b0 = true := by
  simp only [function_args, List.isEmpty_nil, Bool.not_true, Bool.false_eq_true, if_false] at h
  split at h
  · simp only [Prod.mk.injEq, reduceCtorEq, false_and] at h
  · rename_i b0 s1 w2 h0
    simp only [Prod.mk.injEq, Option.some.injEq] at h
    refine ⟨b0, h.1.1.symm, ?_⟩
    by_cases ht : t0 = 'n'
    · rw [if_pos ht] at h0 ⊢; exact hn _ _ _ _ _ h0
    · rw [if_neg ht] at h0 ⊢; exact hs _ _ _ _ _ h0

theorem function_args_cons (ne se : Parser) (hn : sound rKind.rNum ne)
    (hs : sound rKind.rString se) (t0 t1 : Char) (ts : List Char) (i : Nat) (l0 : lego)
    (s : List Char) (w : Option String) (l : lego) (rest : List Char) (w1 : Option String)
    (h : function_args ne se (t0 :: t1 :: ts) i l0 s w = (some (l, rest), w1)) :
    ∃ b0 s2 w2, well_kinded (if t0 = 'n' then rKind.rNum else rKind.rString) b0 = true ∧
      function_args ne se (t1 :: ts) (i + 1) (l0.setA i b0) s2 w2 = (some (l, rest), w1) := by
  rw [function_args] at h
  split at h
  · simp only [Prod.mk.injEq, reduceCtorEq, false_and] at h
  · rename_i b0 s1 w2 h0
    simp only [List.isEmpty_cons, Bool.not_false, if_true] at h
    split at h
    · simp only [Prod.mk.injEq, reduceCtorEq, false_and] at h
    · rename_i s2 _
      refine ⟨b0, s2, w2, ?_, h⟩
      by_cases ht : t0 = 'n'
      · rw [if_pos ht] at h0 ⊢; exact hn _ _ _ _ _ h0
      · rw [if_neg ht] at h0 ⊢; exact hs _ _ _ _ _ h0

theorem factory_result (ne se : Parser) (names args : List (List Char)) (enums : List What)
    (ss : List Char) (w : Option String) (l : lego) (rest : List Char) (w1 : Option String)
    (b : Bool)
    (h : general_function_factory ne se names args enums ss w = ((some (l, rest), w1), b)) :
    ∃ i s1 s2, i < names.length ∧
      function_args ne se (args.getD i []) 0 (newLego (enums.getD i wZERO_IS_UNUSED)) s1 w
        = (some (l, s2), w1) := by
  unfold general_function_factory at h
  split at h
  · simp only [Prod.mk.injEq, reduceCtorEq, false_and] at h
  · rename_i i s hfn
    have hi := find_name_lt _ _ _ _ _ hfn
    split at h
    · simp only [Prod.mk.injEq, reduceCtorEq, false_and] at h
    · rename_i s1 _
      split at h
      · simp only [Prod.mk.injEq, reduceCtorEq, false_and] at h
      · rename_i l2 s2 w2 hfa
        split at h
        · simp only [Prod.mk.injEq, reduceCtorEq, false_and] at h
        · simp only [Prod.mk.injEq, Option.some.injEq] at h
          refine ⟨i, s1, s2, by omega, ?_⟩
          rw [hfa, h.1.1.1, h.1.2]

/-! ## The terms keep the kinds -/

theorem num_lit_kind (s : List Char) (l : lego) (rest : List Char)
    (h : num_lit s = some (l, rest)) : well_kinded rKind.rNum l = true := by
  unfold num_lit at h
  dsimp only at h
  repeat' split at h
  all_goals first
    | simp only [reduceCtorEq] at h
    | (simp only [Option.some.injEq, Prod.mk.injEq] at h
       rw [← h.1]; rfl)

theorem varName_kind (s : List Char) (b : Bool) (l : lego) (rest : List Char)
    (h : varName s b = some (l, rest)) :
    l.what = (if b then wSTRVAR else wNUMVAR) ∧
    well_kinded (if b then rKind.rString else rKind.rNum) l = true := by
  unfold varName at h
  split at h
  · simp only [reduceCtorEq] at h
  · split at h
    · simp only [reduceCtorEq] at h
    · dsimp only at h
      split at h
      · simp only [reduceCtorEq] at h
      · simp only [Option.some.injEq, Prod.mk.injEq] at h
        rw [← h.1]
        cases b <;> exact ⟨rfl, rfl⟩

theorem str_lit_kind (s : List Char) (l : lego) (rest : List Char)
    (h : str_lit s = some (l, rest)) : well_kinded rKind.rString l = true := by
  unfold str_lit at h
  repeat' split at h
  all_goals first
    | simp only [reduceCtorEq] at h
    | (simp only [Option.some.injEq, Prod.mk.injEq] at h
       rw [← h.1]; rfl)

set_option maxHeartbeats 1000000 in
theorem num_term_sound (ne se : Parser) (hn : sound rKind.rNum ne)
    (hs : sound rKind.rString se) : sound rKind.rNum (num_term ne se) := by
  intro s w l rest w1 h
  unfold num_term at h
  split at h
  · rename_i r w2 b hf
    simp only [Prod.mk.injEq, Option.some.injEq] at h
    obtain ⟨i, s1, s2, hi, hfa⟩ := factory_result ne se _ _ _ _ _ r.1 r.2 w2 b hf
    rw [h.1] at hfa
    simp only [List.length_cons, List.length_nil] at hi
    interval_cases i <;>
      simp only [List.getD_cons_zero, List.getD_cons_succ] at hfa <;>
      first
        | (obtain ⟨b0, rfl, h0⟩ := function_args1 ne se hn hs _ _ _ _ _ _ _ _ hfa
           exact well_kinded_call1 _ _ _ _ b0 NULL rfl rfl (by simpa using h0))
        | (obtain ⟨b0, s3, w3, h0, hfa1⟩ :=
             function_args_cons ne se hn hs _ _ _ _ _ _ _ _ _ _ hfa
           obtain ⟨b1, s4, w4, h1, hfa2⟩ :=
             function_args_cons ne se hn hs _ _ _ _ _ _ _ _ _ _ hfa1
           obtain ⟨b2, rfl, h2⟩ := function_args1 ne se hn hs _ _ _ _ _ _ _ _ hfa2
           exact well_kinded_call3 _ _ _ _ _ _ b0 b1 b2 NULL rfl rfl (by simpa using h0)
             (by simpa using h1) (by simpa using h2))
  · simp only [Prod.mk.injEq, reduceCtorEq, false_and] at h
  · split at h
    · rename_i r hl
      simp only [Prod.mk.injEq, Option.some.injEq] at h
      rw [h.1] at hl
      exact num_lit_kind _ _ _ hl
    · split at h
      · rename_i r hv
        simp only [Prod.mk.injEq, Option.some.injEq] at h
        rw [h.1] at hv
        exact (varName_kind _ _ _ _ hv).2
      · split at h
        · simp only [Prod.mk.injEq, reduceCtorEq, false_and] at h
        · split at h
          · simp only [Prod.mk.injEq, reduceCtorEq, false_and] at h
          · rename_i sub s2 w2 hsub
            split at h
            · simp only [Prod.mk.injEq, reduceCtorEq, false_and] at h
            · simp only [Prod.mk.injEq, Option.some.injEq] at h
              rw [← h.1.1]
              exact well_kinded_setForceParens _ _ (hn _ _ _ _ _ hsub)

set_option maxHeartbeats 1000000 in
theorem str_term_sound (ne se : Parser) (hn : sound rKind.rNum ne)
    (hs : sound rKind.rString se) : sound rKind.rString (str_term ne se) := by
  intro s w l rest w1 h
  unfold str_term at h
  split at h
  · rename_i r w2 b hf
    simp only [Prod.mk.injEq, Option.some.injEq] at h
    obtain ⟨i, s1, s2, hi, hfa⟩ := factory_result ne se _ _ _ _ _ r.1 r.2 w2 b hf
    rw [h.1] at hfa
    simp only [List.length_cons, List.length_nil] at hi
    interval_cases i <;>
      simp only [List.getD_cons_zero, List.getD_cons_succ] at hfa <;>
      first
        | (obtain ⟨b0, rfl, h0⟩ := function_args1 ne se hn hs _ _ _ _ _ _ _ _ hfa
           exact well_kinded_call1 _ _ _ _ b0 NULL rfl rfl (by simpa using h0))
        | (obtain ⟨b0, s3, w3, h0, hfa1⟩ :=
             function_args_cons ne se hn hs _ _ _ _ _ _ _ _ _ _ hfa
           obtain ⟨b1, rfl, h1⟩ := function_args1 ne se hn hs _ _ _ _ _ _ _ _ hfa1
           exact well_kinded_call2 _ _ _ _ _ b0 b1 NULL rfl rfl (by simpa using h0)
             (by simpa using h1))
        | (obtain ⟨b0, s3, w3, h0, hfa1⟩ :=
             function_args_cons ne se hn hs _ _ _ _ _ _ _ _ _ _ hfa
           obtain ⟨b1, s4, w4, h1, hfa2⟩ :=
             function_args_cons ne se hn hs _ _ _ _ _ _ _ _ _ _ hfa1
           obtain ⟨b2, rfl, h2⟩ := function_args1 ne se hn hs _ _ _ _ _ _ _ _ hfa2
           exact well_kinded_call3 _ _ _ _ _ _ b0 b1 b2 NULL rfl rfl (by simpa using h0)
             (by simpa using h1) (by simpa using h2))
  · simp only [Prod.mk.injEq, reduceCtorEq, false_and] at h
  · split at h
    · rename_i r hl
      simp only [Prod.mk.injEq, Option.some.injEq] at h
      rw [h.1] at hl
      exact str_lit_kind _ _ _ hl
    · split at h
      · rename_i r hv
        simp only [Prod.mk.injEq, Option.some.injEq] at h
        rw [h.1] at hv
        exact (varName_kind _ _ _ _ hv).2
      · split at h
        · simp only [Prod.mk.injEq, reduceCtorEq, false_and] at h
        · split at h
          · simp only [Prod.mk.injEq, reduceCtorEq, false_and] at h
          · rename_i sub s2 w2 hsub
            split at h
            · simp only [Prod.mk.injEq, reduceCtorEq, false_and] at h
            · simp only [Prod.mk.injEq, Option.some.injEq] at h
              rw [← h.1.1]
              exact well_kinded_setForceParens _ _ (hs _ _ _ _ _ hsub)

theorem unary_sound (ne se : Parser) (hn : sound rKind.rNum ne)
    (hs : sound rKind.rString se) : sound rKind.rNum (unary ne se) := by
  intro s w l rest w1 h
  unfold unary at h
  split at h
  split at h
  · simp only [Prod.mk.injEq, reduceCtorEq, false_and] at h
  · rename_i r s1 w2 hr
    simp only [Prod.mk.injEq, Option.some.injEq] at h
    have hk := num_term_sound ne se hn hs _ _ _ _ _ hr
    rw [← h.1.1]
    split
    · exact well_kinded_call1 wNEGATE _ _ _ r NULL rfl rfl hk
    · exact hk

/-! ## `num_exp`, `str_exp` and the statements keep the kinds -/

theorem logic_not_sound (fuel : Nat) (ne se : Parser) (hn : sound rKind.rNum ne)
    (hs : sound rKind.rString se) : sound rKind.rNum (logic_not fuel ne se) := by
  have h1 : sound rKind.rNum (equality fuel ne se) := by
    unfold equality inequality sum prod power
    refine general_left_binary_sound _ _ _ _ _ _ ?_ (by decide)
    refine general_left_binary_sound _ _ _ _ _ _ ?_ (by decide)
    refine general_left_binary_sound _ _ _ _ _ _ ?_ (by decide)
    refine general_left_binary_sound _ _ _ _ _ _ ?_ (by decide)
    refine general_left_binary_sound _ _ _ _ _ _ ?_ (by decide)
    exact unary_sound ne se hn hs
  intro s w l rest w1 h
  unfold logic_not at h
  split at h
  · simp only [Prod.mk.injEq, reduceCtorEq, false_and] at h
  · split at h
    · simp only [Prod.mk.injEq, reduceCtorEq, false_and] at h
    · rename_i r s1 w2 hr
      simp only [Prod.mk.injEq, Option.some.injEq] at h
      have hk := h1 _ _ _ _ _ hr
      rw [← h.1.1]
      split
      · exact well_kinded_call1 wNOT _ _ _ r NULL rfl rfl hk
      · exact hk

theorem logic_imp_sound (fuel : Nat) (ne se : Parser) (hn : sound rKind.rNum ne)
    (hs : sound rKind.rString se) : sound rKind.rNum (logic_imp fuel ne se) := by
  unfold logic_imp logic_eqv logic_or logic_xor logic_and
  refine general_left_binary_sound _ _ _ _ _ _ ?_ (by decide)
  refine general_left_binary_sound _ _ _ _ _ _ ?_ (by decide)
  refine general_left_binary_sound _ _ _ _ _ _ ?_ (by decide)
  refine general_left_binary_sound _ _ _ _ _ _ ?_ (by decide)
  refine general_left_binary_sound _ _ _ _ _ _ ?_ (by decide)
  exact logic_not_sound fuel ne se hn hs

theorem str_cat_sound (fuel : Nat) (ne se : Parser) (hn : sound rKind.rNum ne)
    (hs : sound rKind.rString se) : sound rKind.rString (str_cat fuel ne se) := by
  unfold str_cat
  exact general_left_binary_sound _ _ _ _ _ _ (str_term_sound ne se hn hs) (by decide)

theorem exp_sound : ∀ fuel : Nat,
    sound rKind.rNum (num_exp fuel) ∧ sound rKind.rString (str_exp fuel) := by
  intro fuel
  induction fuel with
  | zero =>
    constructor <;> intro s w l rest w1 h <;>
      simp only [num_exp, str_exp, Prod.mk.injEq, reduceCtorEq, false_and] at h
  | succ n ih =>
    constructor
    · rw [num_exp]; exact logic_imp_sound n _ _ ih.1 ih.2
    · rw [str_exp]; exact str_cat_sound n _ _ ih.1 ih.2

theorem let_st_kind (ne se : Parser) (hn : sound rKind.rNum ne) (hs : sound rKind.rString se)
    (s : List Char) (w : Option String) (l : lego) (rest : List Char) (w1 : Option String)
    (h : let_st ne se s w = (some (l, rest), w1)) :
    l.what = wLET ∧
    ((l.a0.what = wNUMVAR ∧ well_kinded rKind.rNum l.a1 = true) ∨
     (l.a0.what = wSTRVAR ∧ well_kinded rKind.rString l.a1 = true)) := by
  unfold let_st at h
  dsimp only at h
  split at h
  · simp only [Prod.mk.injEq, reduceCtorEq, false_and] at h
  · rename_i var s1 hv
    split at h
    · simp only [Prod.mk.injEq, reduceCtorEq, false_and] at h
    · split at h
      · simp only [Prod.mk.injEq, reduceCtorEq, false_and] at h
      · rename_i exp s3 w2 he
        simp only [Prod.mk.injEq, Option.some.injEq] at h
        rw [← h.1.1]
        refine ⟨rfl, ?_⟩
        by_cases hw : var.what = wNUMVAR
        · rw [if_pos hw] at he
          exact Or.inl ⟨hw, hn _ _ _ _ _ he⟩
        · rw [if_neg hw] at he
          refine Or.inr ⟨?_, hs _ _ _ _ _ he⟩
          split at hv
          · rename_i r hr
            simp only [Option.some.injEq] at hv
            rw [hv] at hr
            exact absurd (varName_kind _ _ _ _ hr).1 hw
          · exact (varName_kind _ _ _ _ hv).1

theorem if_st_kind (ne sts : Parser) (hn : sound rKind.rNum ne)
    (s : List Char) (w : Option String) (l : lego) (rest : List Char) (w1 : Option String)
    (h : if_st ne sts s w = (some (l, rest), w1)) :
    l.what = wIF ∧ well_kinded rKind.rNum l.a0 = true := by
  unfold if_st at h
  repeat' split at h
  all_goals first
    | (simp only [Prod.mk.injEq, Option.some.injEq] at h
       rw [← h.1.1]
       exact ⟨rfl, hn _ _ _ _ _ ‹ne _ _ = _›⟩)
    | simp only [Prod.mk.injEq, reduceCtorEq, false_and] at h

theorem for_st_kind (ne : Parser) (hn : sound rKind.rNum ne)
    (s : List Char) (w : Option String) (l : lego) (rest : List Char) (w1 : Option String)
    (h : for_st ne s w = (some (l, rest), w1)) :
    l.what = wFOR ∧ l.a0.what = wNUMVAR ∧ well_kinded rKind.rNum l.a1 = true ∧
    well_kinded rKind.rNum l.a2 = true ∧
    (l.a3 = NULL ∨ well_kinded rKind.rNum l.a3 = true) := by
  unfold for_st at h
  split at h
  · simp only [Prod.mk.injEq, reduceCtorEq, false_and] at h
  · split at h
    · simp only [Prod.mk.injEq, reduceCtorEq, false_and] at h
    · rename_i a0 s1 hv
      have h0 := (varName_kind _ _ _ _ hv).1
      split at h
      · simp only [Prod.mk.injEq, reduceCtorEq, false_and] at h
      · split at h
        · simp only [Prod.mk.injEq, reduceCtorEq, false_and] at h
        · rename_i a1 s3 w2 h1
          split at h
          · simp only [Prod.mk.injEq, reduceCtorEq, false_and] at h
          · split at h
            · simp only [Prod.mk.injEq, reduceCtorEq, false_and] at h
            · rename_i a2 s5 w3 h2
              split at h
              · simp only [Prod.mk.injEq, Option.some.injEq] at h
                rw [← h.1.1]
                exact ⟨rfl, h0, hn _ _ _ _ _ h1, hn _ _ _ _ _ h2, Or.inl rfl⟩
              · split at h
                · simp only [Prod.mk.injEq, reduceCtorEq, false_and] at h
                · rename_i a3 s7 w4 h3
                  simp only [Prod.mk.injEq, Option.some.injEq] at h
                  rw [← h.1.1]
                  exact ⟨rfl, h0, hn _ _ _ _ _ h1, hn _ _ _ _ _ h2,
                    Or.inr (hn _ _ _ _ _ h3)⟩

/-! ## The arguments of a well-kinded tree -/

theorem well_kinded_args (k : rKind) (f : Fields) (a0 a1 a2 a3 nx : lego)
    (args : List rKind) (r : rKind) (hsig : signature f.what = some (args, r))
    (h : well_kinded k (node f a0 a1 a2 a3 nx) = true) :
    r = k ∧ count_args f a0 a1 a2 a3 = args.length ∧
    List.Forall₂ (fun x a => well_kinded x a = true) args ([a0, a1, a2].take args.length) := by
  have hs := signature_facts _ _ _ hsig
  unfold well_kinded at h
  rw [if_neg (by simp only [hs.1, hs.2.1, or_self, not_false_eq_true]),
    if_neg (by simp only [hs.2.2.1, hs.2.2.2.1, or_self, not_false_eq_true]), hsig] at h
  split at h
  · rename_i x r1 he
    simp only [Option.some.injEq, Prod.mk.injEq] at he
    obtain ⟨rfl, rfl⟩ := he
    simp only [Bool.and_eq_true, decide_eq_true_eq] at h
    obtain ⟨⟨⟨⟨hr, h0⟩, n1⟩, n2⟩, n3⟩ := h
    refine ⟨hr, count_args_of_signature f a0 a1 a2 a3 _ _ hsig
      (by simp [well_kinded_not_null _ _ h0, n1, n2, n3]), ?_⟩
    exact List.Forall₂.cons h0 List.Forall₂.nil
  · rename_i x y r1 he
    simp only [Option.some.injEq, Prod.mk.injEq] at he
    obtain ⟨rfl, rfl⟩ := he
    simp only [Bool.and_eq_true, decide_eq_true_eq] at h
    obtain ⟨⟨⟨⟨hr, h0⟩, h1⟩, n2⟩, n3⟩ := h
    refine ⟨hr, count_args_of_signature f a0 a1 a2 a3 _ _ hsig
      (by simp [well_kinded_not_null _ _ h0, well_kinded_not_null _ _ h1, n2, n3]), ?_⟩
    exact List.Forall₂.cons h0 (List.Forall₂.cons h1 List.Forall₂.nil)
  · rename_i x y z r1 he
    simp only [Option.some.injEq, Prod.mk.injEq] at he
    obtain ⟨rfl, rfl⟩ := he
    simp only [Bool.and_eq_true, decide_eq_true_eq] at h
    obtain ⟨⟨⟨⟨hr, h0⟩, h1⟩, h2⟩, n3⟩ := h
    refine ⟨hr, count_args_of_signature f a0 a1 a2 a3 _ _ hsig
      (by simp [well_kinded_not_null _ _ h0, well_kinded_not_null _ _ h1,
        well_kinded_not_null _ _ h2, n3]), ?_⟩
    exact List.Forall₂.cons h0 (List.Forall₂.cons h1 (List.Forall₂.cons h2 List.Forall₂.nil))
  · simp only [Bool.false_eq_true] at h

theorem evalloc_num_kind (m : Libm) (st : State) (l : lego)
    (h : well_kinded rKind.rNum l = true) :
    (evalloc m st l).1.what = rKind.rNum ∨ (evalloc m st l).1.what = rKind.rExcept := by
  rcases (evalloc_kind m l _ st h).1 with h | h
  · exact Or.inr h
  · exact Or.inl h.1

theorem evalloc_str_kind (m : Libm) (st : State) (l : lego)
    (h : well_kinded rKind.rString l = true) :
    ((evalloc m st l).1.what = rKind.rString ∧ (evalloc m st l).1.s.isSome) ∨
      (evalloc m st l).1.what = rKind.rExcept := by
  rcases (evalloc_kind m l _ st h).1 with h | h
  · exact Or.inr h
  · exact Or.inl ⟨h.1, h.2 rfl⟩

/-! ## The statement on the kinds of expressions -/

/-- Trees of the two kinds, and trees of neither kind: `LEN` of a number, `LEN` with two
arguments, a catenation with a number, a sum with a string, a statement. -/
theorem well_kinded_examples :
    well_kinded rKind.rNum (command_of "PRINT 1+LEN([ab]+CHR$(65))").a0 = true ∧
    well_kinded rKind.rString (command_of "PRINT 1+LEN([ab]+CHR$(65))").a0 = false ∧
    well_kinded rKind.rString (command_of "PRINT MID$(A$, 2, INSTR(1, A$, [x]))").a0 = true ∧
    well_kinded rKind.rNum (call wLEN (numLit 1) NULL NULL) = false ∧
    well_kinded rKind.rNum (call wLEN (strLit ['a']) (strLit ['b']) NULL) = false ∧
    well_kinded rKind.rString (mkBinary wCAT (strLit ['a']) (numLit 1)) = false ∧
    well_kinded rKind.rNum (mkBinary wADD (strLit ['a']) (numLit 1)) = false ∧
    well_kinded rKind.rNum (command_of "PRINT 1") = false := by
  refine ⟨?_, ?_, ?_, ?_, ?_, ?_, ?_, ?_⟩ <;> decide

/-- C37: every tree `num_exp` accepts is a numeric expression and every tree `str_exp`
accepts is a string expression, in which every operator and built-in has exactly the
arguments of its signature, each an expression of the kind asked there, and `evalloc`
evaluates as many arguments as the signature has. In any state a numeric expression
evaluates to a number or an exception, a string expression to a string that is in place or
an exception, and the evaluation does not stop the process on a null pointer. So the
expression of a `LET` the parser accepts evaluates to the kind of its variable or to an
exception, and the condition of an `IF` and the bounds and step of a `FOR` to a number or
an exception. -/
theorem C37_parser_is_type_sound (m : Libm) :
    (∀ (fuel : Nat) (s : List Char) (w : Option String) (l : lego) (rest : List Char)
        (w1 : Option String),
      num_exp fuel s w = (some (l, rest), w1) → well_kinded rKind.rNum l = true) ∧
    (∀ (fuel : Nat) (s : List Char) (w : Option String) (l : lego) (rest : List Char)
        (w1 : Option String),
      str_exp fuel s w = (some (l, rest), w1) → well_kinded rKind.rString l = true) ∧
    (∀ (k : rKind) (f : Fields) (a0 a1 a2 a3 nx : lego) (args : List rKind) (r : rKind),
      signature f.what = some (args, r) → well_kinded k (node f a0 a1 a2 a3 nx) = true →
      r = k ∧ count_args f a0 a1 a2 a3 = args.length ∧
      List.Forall₂ (fun x a => well_kinded x a = true) args
        ([a0, a1, a2].take args.length)) ∧
    (∀ (st : State) (l : lego), well_kinded rKind.rNum l = true →
      (evalloc m st l).1.what = rKind.rNum ∨ (evalloc m st l).1.what = rKind.rExcept) ∧
    (∀ (st : State) (l : lego), well_kinded rKind.rString l = true →
      ((evalloc m st l).1.what = rKind.rString ∧ (evalloc m st l).1.s.isSome) ∨
        (evalloc m st l).1.what = rKind.rExcept) ∧
    (∀ (k : rKind) (st : State) (l : lego), well_kinded k l = true →
      st.halt ≠ some "null pointer" → (evalloc m st l).2.halt ≠ some "null pointer") ∧
    (∀ (f1 f2 : Nat) (s : List Char) (w : Option String) (l : lego) (rest : List Char)
        (w1 : Option String) (st : State),
      let_st (num_exp f1) (str_exp f2) s w = (some (l, rest), w1) →
      l.what = wLET ∧
      ((evalloc m st l.a1).1.what = rKind.rExcept ∨
       (l.a0.what = wNUMVAR ∧ (evalloc m st l.a1).1.what = rKind.rNum) ∨
       (l.a0.what = wSTRVAR ∧ (evalloc m st l.a1).1.what = rKind.rString ∧
          (evalloc m st l.a1).1.s.isSome))) ∧
    (∀ (f1 : Nat) (sts : Parser) (s : List Char) (w : Option String) (l : lego)
        (rest : List Char) (w1 : Option String) (st : State),
      if_st (num_exp f1) sts s w = (some (l, rest), w1) →
      l.what = wIF ∧
      ((evalloc m st l.a0).1.what = rKind.rNum ∨
        (evalloc m st l.a0).1.what = rKind.rExcept)) ∧
    (∀ (f1 : Nat) (s : List Char) (w : Option String) (l : lego) (rest : List Char)
        (w1 : Option String) (st : State),
      for_st (num_exp f1) s w = (some (l, rest), w1) →
      l.what = wFOR ∧ l.a0.what = wNUMVAR ∧
      ((evalloc m st l.a1).1.what = rKind.rNum ∨
        (evalloc m st l.a1).1.what = rKind.rExcept) ∧
      ((evalloc m st l.a2).1.what = rKind.rNum ∨
        (evalloc m st l.a2).1.what = rKind.rExcept) ∧
      (l.a3 = NULL ∨ (evalloc m st l.a3).1.what = rKind.rNum ∨
        (evalloc m st l.a3).1.what = rKind.rExcept)) := by
  refine ⟨fun fuel => (exp_sound fuel).1, fun fuel => (exp_sound fuel).2, well_kinded_args,
    evalloc_num_kind m, evalloc_str_kind m,
    fun k st l h hs => (evalloc_kind m l k st h).2 hs, ?_, ?_, ?_⟩
  · intro f1 f2 s w l rest w1 st h
    obtain ⟨h1, h2⟩ := let_st_kind _ _ (exp_sound f1).1 (exp_sound f2).2 _ _ _ _ _ h
    refine ⟨h1, ?_⟩
    rcases h2 with ⟨hv, hk⟩ | ⟨hv, hk⟩
    · rcases evalloc_num_kind m st _ hk with e | e
      · exact Or.inr (Or.inl ⟨hv, e⟩)
      · exact Or.inl e
    · rcases evalloc_str_kind m st _ hk with e | e
      · exact Or.inr (Or.inr ⟨hv, e⟩)
      · exact Or.inl e
  · intro f1 sts s w l rest w1 st h
    obtain ⟨h1, h2⟩ := if_st_kind _ sts (exp_sound f1).1 _ _ _ _ _ h
    exact ⟨h1, evalloc_num_kind m st _ h2⟩
  · intro f1 s w l rest w1 st h
    obtain ⟨h1, h0, h2, h3, h4⟩ := for_st_kind _ (exp_sound f1).1 _ _ _ _ _ h
    refine ⟨h1, h0, evalloc_num_kind m st _ h2, evalloc_num_kind m st _ h3, ?_⟩
    rcases h4 with h4 | h4
    · exact Or.inl h4
    · exact Or.inr (evalloc_num_kind m st _ h4)

/-- C37 at `LEN([ab]) + 1`, which `num_exp` accepts. -/
theorem C37_parser_is_type_sound_witness :
    num_exp 5 "LEN([ab]) + 1".data none
        = (some (mkBinary wADD (call wLEN (strLit ['a', 'b']) NULL NULL) (numLit 1), []), none) ∧
    well_kinded rKind.rNum (mkBinary wADD (call wLEN (strLit ['a', 'b']) NULL NULL) (numLit 1))
      = true :=
  ⟨by decide!, (C37_parser_is_type_sound Libm.none).1 5 "LEN([ab]) + 1".data none _ [] none
    (by decide!)⟩

end DDB
